import Mathlib

/-!
# Verification development for the mini-era scheduler (`scheduler/src/scheduler.c`)

The scheduler keeps all of its state in process-wide C globals.  They are embedded
here as one record `Sched` that every operation receives and returns explicitly.

* fixed-size C arrays are lists; every indexing is bounds checked and an index
  outside the array makes the operation `undefined`;
* a pointer into an array is the index of the element it points to, `NULL` is `none`;
* C `int` / enum values are `Int`;
* `exit(n)` is the outcome `exits n`, a loop that can never end in a sequential
  execution (or a `pthread_mutex_lock` on a mutex that is held) is `hangs`;
* calls are executed one after the other: the work an agent thread does after it has been
  signalled is the separate call `mark_task_done`.
-/

namespace Scheduler

set_option maxRecDepth 1000000

/-! ## Constants -/

/-- The pool capacity `P`: `#define total_metadata_pool_blocks 32`. -/
abbrev total_metadata_pool_blocks : Nat := 32

/-- Modelled from the spec: `scheduler.h` is not part of the sources; the status
    values follow the order of `task_status_str` (FREE, ALLOCATED, QUEUED, RUNNING, DONE). -/
abbrev TASK_FREE : Int := 0
/-- Modelled from the spec: second entry of `task_status_str`. -/
abbrev TASK_ALLOCATED : Int := 1
/-- Modelled from the spec: third entry of `task_status_str`. -/
abbrev TASK_QUEUED : Int := 2
/-- Modelled from the spec: fourth entry of `task_status_str`. -/
abbrev TASK_RUNNING : Int := 3
/-- Modelled from the spec: fifth entry of `task_status_str`. -/
abbrev TASK_DONE : Int := 4

/-- Modelled from the spec: job types in the order of `task_job_str` (NONE, FFT, VITERBI). -/
abbrev NO_TASK_JOB : Int := 0
/-- Modelled from the spec: second entry of `task_job_str`. -/
abbrev FFT_TASK : Int := 1
/-- Modelled from the spec: third entry of `task_job_str`. -/
abbrev VITERBI_TASK : Int := 2

/-- Modelled from the spec: criticality levels in the order of `task_criticality_str`
    (NONE, BASE, ELEVATED, CRITICAL); the code tests `crit_level > 1`, that is `> BASE`. -/
abbrev NO_TASK : Int := 0
/-- Modelled from the spec: second entry of `task_criticality_str`. -/
abbrev BASE_TASK : Int := 1
/-- Modelled from the spec: third entry of `task_criticality_str`. -/
abbrev ELEVATED_TASK : Int := 2
/-- Modelled from the spec: fourth entry of `task_criticality_str`. -/
abbrev CRITICAL_TASK : Int := 3

/-- Modelled from the spec: accelerator kinds in the order of `accel_type_str`
    (CPU, FFT_HW, VIT_HW, NONE). -/
abbrev cpu_accel_t : Int := 0
/-- Modelled from the spec: second entry of `accel_type_str`. -/
abbrev fft_hwr_accel_t : Int := 1
/-- Modelled from the spec: third entry of `accel_type_str`. -/
abbrev vit_hwr_accel_t : Int := 2
/-- Modelled from the spec: fourth entry of `accel_type_str`. -/
abbrev no_accelerator_t : Int := 3
/-- Modelled from the spec: `accel_type_str` has four entries. -/
abbrev NUM_ACCEL_TYPES : Nat := 4

/-- Modelled from the spec: the width of a row of `accelerator_in_use_by` is declared in
    `scheduler.h`; 10 is the number of CPU instances `initialize_scheduler` announces
    ("max accelerator instances of each kind: 4 for hardware kinds, 10 for CPU"). -/
abbrev MAX_ACCEL_OF_EACH_TYPE : Nat := 10

/-- Modelled from the spec: the policy enumeration `{RANDOM_WAIT, FAST_TO_SLOW}` of
    `scheduler.h`, numbered in that order. -/
abbrev SELECT_ACCEL_AND_WAIT_POLICY : Int := 0
/-- Modelled from the spec: second member of the policy enumeration. -/
abbrev FAST_TO_SLOW_FIRST_AVAIL_POLICY : Int := 1

/-- Compile-time switches `HW_FFT` and `HW_VIT`. -/
structure Build where
  HW_FFT : Bool
  HW_VIT : Bool
deriving DecidableEq, Repr

/-- The macro `FFT_HW_THRESHOLD`: 25 with `HW_FFT`, 101 without. -/
def FFT_HW_THRESHOLD (cfg : Build) : Int := if cfg.HW_FFT then 25 else 101

/-- The macro `VITERBI_HW_THRESHOLD`: 25 with `HW_VIT`, 101 without. -/
def VITERBI_HW_THRESHOLD (cfg : Build) : Int := if cfg.HW_VIT then 25 else 101

/-! ## Data model -/

/-- The `metadata` part of a `task_metadata_block_t` that the scheduler core reads or
    writes.  `atFinish` is the completion hook: `none` is `NULL`, `some h` names a hook. -/
structure task_metadata_block_t where
  block_id : Int
  status : Int
  job_type : Int
  crit_level : Int
  data_size : Int
  accelerator_type : Int
  accelerator_id : Int
  atFinish : Option Nat
deriving DecidableEq, Repr

/-- A node of the critical live list: `struct bi_ll_struct { int clt_block_id; ... next; }`.
    `next` is `none` for `NULL`, else the index of the node in `critical_live_tasks_list`. -/
structure blockid_linked_list_t where
  clt_block_id : Int
  next : Option Nat
deriving DecidableEq, Repr

/-- One invocation of a completion hook: the hook, the slot as it was when the hook was
    called and the busy table at that moment. -/
structure FinishCall where
  hook : Nat
  block : task_metadata_block_t
  in_use : List (List Int)
deriving DecidableEq, Repr

/-- The globals of `scheduler.c`.  `free_metadata_mutex` is `true` while the mutex is held.
    `signalled` records the `pthread_cond_signal` calls (block ids, latest first),
    `mismatch_reports` the block ids for which `release_accelerator_for_task` printed its
    mismatch message and `finish_calls` the invocations of completion hooks. -/
structure Sched where
  global_scheduler_selection_policy : Int
  master_metadata_pool : List task_metadata_block_t
  free_metadata_pool : List Int
  free_metadata_blocks : Int
  free_metadata_mutex : Bool
  critical_live_tasks_list : List blockid_linked_list_t
  critical_live_task_head : Option Nat
  free_critlist_pool : List Int
  free_critlist_entries : Int
  total_critical_tasks : Int
  accelerator_in_use_by : List (List Int)
  num_accelerators_of_type : List Int
  signalled : List Int
  mismatch_reports : List Int
  finish_calls : List FinishCall
deriving DecidableEq, Repr

/-- How a call ends. -/
inductive Outcome (α : Type) where
  /-- the function returns `v`, leaving the globals as `s` -/
  | returns (v : α) (s : Sched)
  /-- the function calls `exit(code)` with the globals as `s` -/
  | exits (code : Int) (s : Sched)
  /-- the function never returns: it is in a loop that cannot end while no other thread
      changes the globals, or in `pthread_mutex_lock` on a mutex that is held (the mutexes
      are initialised with default attributes, so locking again does not return) -/
  | hangs (s : Sched)
  /-- the function indexes an array outside its bounds -/
  | undefined
deriving DecidableEq, Repr

/-- Reading `a[i]` of a C array: defined only for `0 ≤ i < length`. -/
def rd {α : Type} (a : List α) (i : Int) : Option α :=
  if 0 ≤ i then a[i.toNat]? else none

/-- Writing `a[i] = v` of a C array: defined only for `0 ≤ i < length`. -/
def wr {α : Type} (a : List α) (i : Int) (v : α) : Option (List α) :=
  if 0 ≤ i ∧ i.toNat < a.length then some (a.set i.toNat v) else none

/-- A C `int` after an increment or decrement (two's complement, 32 bits). -/
def wrap_int (x : Int) : Int := (x + 2147483648) % 4294967296 - 2147483648

/-- Conversion of an `int` to `unsigned` (32 bits). -/
def to_unsigned (x : Int) : Int := x % 4294967296

/-! ## Slot acquisition: `get_task_metadata_block` -/

/-- The body of `if (crit_level > 1) { ... }` in `get_task_metadata_block` (lines 195-208):
    pop a node index from the critlist pool and push that node, carrying `bi`, on the
    head of the critical live list.  `none` when an index is out of bounds. -/
def push_critical (bi : Int) (s : Sched) : Option Sched :=
  match rd s.free_critlist_pool (s.free_critlist_entries - 1) with
  | none => none
  | some li =>
    match wr s.free_critlist_pool (s.free_critlist_entries - 1) (-1) with
    | none => none
    | some fcp =>
      match wr s.critical_live_tasks_list li
          { clt_block_id := bi, next := s.critical_live_task_head } with
      | none => none
      | some nodes =>
        some { s with
          free_critlist_pool := fcp
          free_critlist_entries := s.free_critlist_entries - 1
          critical_live_tasks_list := nodes
          critical_live_task_head := some li.toNat
          total_critical_tasks := wrap_int (s.total_critical_tasks + 1) }

/-- The function `get_task_metadata_block(task_type, crit_level)` (lines 163-219).  The returned
    pointer is the index of the slot in `master_metadata_pool`; `none` is `NULL`.
    The early `return NULL` does not unlock the mutex. -/
def get_task_metadata_block (task_type crit_level : Int) (s : Sched) : Outcome (Option Nat) :=
  if s.free_metadata_mutex then .hangs s else
  let s := { s with free_metadata_mutex := true }
  if s.free_metadata_blocks < 1 then .returns none s else
  match rd s.free_metadata_pool (s.free_metadata_blocks - 1) with
  | none => .undefined
  | some bi =>
    if bi < 0 ∨ bi > (total_metadata_pool_blocks : Int) then .exits (-16) s else
    match wr s.free_metadata_pool (s.free_metadata_blocks - 1) (-1) with
    | none => .undefined
    | some fmp =>
      let s := { s with free_metadata_pool := fmp
                        free_metadata_blocks := s.free_metadata_blocks - 1 }
      match rd s.master_metadata_pool bi with
      | none => .undefined
      | some mb =>
        let mb := { mb with
          job_type := task_type
          status := TASK_ALLOCATED
          crit_level := crit_level
          data_size := 0
          accelerator_type := no_accelerator_t
          accelerator_id := -1
          atFinish := none }
        let s := { s with master_metadata_pool := s.master_metadata_pool.set bi.toNat mb }
        if crit_level > 1 then
          match push_critical bi s with
          | none => .undefined
          | some s => .returns (some bi.toNat) { s with free_metadata_mutex := false }
        else
          .returns (some bi.toNat) { s with free_metadata_mutex := false }

/-! ## Slot release: `free_task_metadata_block` -/

/-- What the scan loop of `free_task_metadata_block` ends with. -/
inductive Scan where
  /-- the loop ended with these values of `lcli` and `cli` -/
  | stop (lcli cli : Option Nat)
  /-- the loop never ends -/
  | spins
  /-- `cli` does not point into `critical_live_tasks_list` -/
  | wild
deriving DecidableEq, Repr

/-- The loop `while ((cli != NULL) && (cli->clt_block_id != bi)) { lcli = cli; cli = cli->next; }`
    (lines 246-249), run for at most `fuel` tests of its condition. -/
def scan_critical (nodes : List blockid_linked_list_t) (bi : Int) :
    Nat → Option Nat → Option Nat → Scan
  | 0, _, _ => .spins
  | _ + 1, lcli, none => .stop lcli none
  | fuel + 1, lcli, some c =>
    match nodes[c]? with
    | none => .wild
    | some n =>
      if n.clt_block_id ≠ bi then scan_critical nodes bi fuel (some c) n.next
      else .stop lcli (some c)

/-- The body of `if (crit_level > 1) { ... }` of `free_task_metadata_block` once the scan has
    stopped at node `c` with predecessor `lcli` (lines 256-268). -/
def unlink_critical (lcli : Option Nat) (c : Nat) (s : Sched) : Option Sched :=
  match s.critical_live_tasks_list[c]? with
  | none => none
  | some cn =>
    let cti := cn.clt_block_id
    match wr s.free_critlist_pool s.free_critlist_entries cti with
    | none => none
    | some fcp =>
      let nodes := s.critical_live_tasks_list.set c { cn with clt_block_id := -1 }
      let linked : Option (List blockid_linked_list_t × Option Nat) :=
        match lcli with
        | none => some (nodes, cn.next)
        | some l =>
          match nodes[l]? with
          | none => none
          | some ln => some (nodes.set l { ln with next := cn.next }, s.critical_live_task_head)
      match linked with
      | none => none
      | some (nodes, head) =>
        match nodes[c]? with
        | none => none
        | some cn2 =>
          some { s with
            free_critlist_pool := fcp
            free_critlist_entries := s.free_critlist_entries + 1
            critical_live_tasks_list := nodes.set c { cn2 with next := none }
            critical_live_task_head := head
            total_critical_tasks := wrap_int (s.total_critical_tasks - 1) }

/-- The last four assignments of the non-fatal branch (lines 271-274) and the unlock. -/
def clear_block (bi : Int) (s : Sched) : Outcome Unit :=
  match rd s.master_metadata_pool bi with
  | none => .undefined
  | some mb =>
    let mb := { mb with
      job_type := NO_TASK_JOB
      status := TASK_FREE
      crit_level := NO_TASK
      data_size := 0 }
    .returns () { s with
      master_metadata_pool := s.master_metadata_pool.set bi.toNat mb
      free_metadata_mutex := false }

/-- The function `free_task_metadata_block(mb)` (lines 225-292); `mb` is the index of the slot the
    argument points to.  The scan of the critical live list is given one test of its
    condition more than there are nodes, see `scan_critical_spins`. -/
def free_task_metadata_block (mb : Nat) (s : Sched) : Outcome Unit :=
  if s.free_metadata_mutex then .hangs s else
  let s := { s with free_metadata_mutex := true }
  match s.master_metadata_pool[mb]? with
  | none => .undefined
  | some m =>
    let bi := m.block_id
    if s.free_metadata_blocks < (total_metadata_pool_blocks : Int) then
      match wr s.free_metadata_pool s.free_metadata_blocks bi with
      | none => .undefined
      | some fmp =>
        let s := { s with free_metadata_pool := fmp
                          free_metadata_blocks := s.free_metadata_blocks + 1 }
        match rd s.master_metadata_pool bi with
        | none => .undefined
        | some b =>
          if b.crit_level > 1 then
            match scan_critical s.critical_live_tasks_list bi
                (s.critical_live_tasks_list.length + 1) none s.critical_live_task_head with
            | .spins => .hangs s
            | .wild => .undefined
            | .stop _ none => .exits (-6) s
            | .stop lcli (some c) =>
              match unlink_critical lcli c s with
              | none => .undefined
              | some s => clear_block bi s
          else clear_block bi s
    else .exits (-5) s

/-! ## Initialisation -/

/-- The globals before `initialize_scheduler` runs: C zero-initialises static storage, and
    the initialisers `free_metadata_blocks = total_metadata_pool_blocks`,
    `critical_live_task_head = NULL`, `free_critlist_entries = total_metadata_pool_blocks`,
    `total_critical_tasks = 0` are applied. -/
def startup : Sched where
  global_scheduler_selection_policy := 0
  master_metadata_pool := List.replicate total_metadata_pool_blocks
    { block_id := 0, status := 0, job_type := 0, crit_level := 0, data_size := 0,
      accelerator_type := 0, accelerator_id := 0, atFinish := none }
  free_metadata_pool := List.replicate total_metadata_pool_blocks 0
  free_metadata_blocks := total_metadata_pool_blocks
  free_metadata_mutex := false
  critical_live_tasks_list := List.replicate total_metadata_pool_blocks
    { clt_block_id := 0, next := none }
  critical_live_task_head := none
  free_critlist_pool := List.replicate total_metadata_pool_blocks 0
  free_critlist_entries := total_metadata_pool_blocks
  total_critical_tasks := 0
  accelerator_in_use_by := List.replicate (NUM_ACCEL_TYPES - 1)
    (List.replicate MAX_ACCEL_OF_EACH_TYPE 0)
  num_accelerators_of_type := List.replicate (NUM_ACCEL_TYPES - 1) 0
  signalled := []
  mismatch_reports := []
  finish_calls := []

/-- One round of the first loop of `initialize_scheduler` (lines 483-485). -/
def init_block (s : Sched) (i : Nat) : Sched :=
  { s with
    master_metadata_pool :=
      match s.master_metadata_pool[i]? with
      | none => s.master_metadata_pool
      | some mb => s.master_metadata_pool.set i { mb with block_id := i }
    free_metadata_pool := s.free_metadata_pool.set i i
    free_critlist_pool := s.free_critlist_pool.set i i }

/-- The function `initialize_scheduler()` (lines 478-587) when no thread creation and no device fails:
    block ids and both free pools are set to the identity, the instance counts to
    10 / 4 / 4 and every busy-table entry to -1. -/
def initialize_scheduler (s : Sched) : Sched :=
  let s := (List.range total_metadata_pool_blocks).foldl init_block
    { s with free_metadata_mutex := false }
  { s with
    num_accelerators_of_type :=
      ((s.num_accelerators_of_type.set cpu_accel_t.toNat 10).set fft_hwr_accel_t.toNat 4).set
        vit_hwr_accel_t.toNat 4
    accelerator_in_use_by :=
      List.replicate (NUM_ACCEL_TYPES - 1) (List.replicate MAX_ACCEL_OF_EACH_TYPE (-1)) }

/-! ## Selection, dispatch and completion -/

/-- The loop `while ((i < num) && (accel_id < 0)) { if (in_use[p][i] == -1) { ... accel_id = i; } i++; }`
    entered with `accel_id < 0`, at index `i`, with `k = num - i` rounds to go.
    `none`: the row is indexed out of bounds; `some none`: no free instance;
    `some (some i)`: instance `i` is the one assigned. -/
def scan_instances (row : List Int) : Nat → Nat → Option (Option Nat)
  | 0, _ => some none
  | k + 1, i =>
    match row[i]? with
    | none => none
    | some v => if v = -1 then some (some i) else scan_instances row k (i + 1)

/-- One pass of the `do { int i = 0; while ... } while (accel_type == no_accelerator_t)`
    loop over the instances of kind `p`. -/
def scan_kind (p : Int) (s : Sched) : Option (Option Nat) :=
  match rd s.num_accelerators_of_type p with
  | none => none
  | some n =>
    if n ≤ 0 then some none else
    match rd s.accelerator_in_use_by p with
    | none => none
    | some row => scan_instances row n.toNat 0

/-- The function `pick_accel_and_wait_for_available(mb)` (lines 825-873); `rand` is the value the call of
    `rand()` returns.  With nobody else changing the busy table a pass that finds no free
    instance is repeated for ever. -/
def pick_accel_and_wait_for_available (cfg : Build) (rand : Nat) (mb : Nat) (s : Sched) :
    Outcome Unit :=
  match s.master_metadata_pool[mb]? with
  | none => .undefined
  | some m =>
    let num : Int := ((rand % 100 : Nat) : Int)
    let proposed_accel : Option Int :=
      if m.job_type = FFT_TASK then
        some (if num ≥ FFT_HW_THRESHOLD cfg then fft_hwr_accel_t else cpu_accel_t)
      else if m.job_type = VITERBI_TASK then
        some (if num ≥ VITERBI_HW_THRESHOLD cfg then vit_hwr_accel_t else cpu_accel_t)
      else none
    match proposed_accel with
    | none => .exits (-15) s
    | some p =>
      match scan_kind p s with
      | none => .undefined
      | some none => .hangs s
      | some (some i) =>
        .returns () { s with
          master_metadata_pool := s.master_metadata_pool.set mb
            { m with accelerator_type := p, accelerator_id := i } }

/-- The function `select_target_accelerator(policy, mb)` (lines 964-976): the case label
    `FAST_TO_SLOW_FIRST_AVAIL_POLICY` has no body of its own and shares the `default` one. -/
def select_target_accelerator (cfg : Build) (rand : Nat) (policy : Int) (mb : Nat)
    (s : Sched) : Outcome Unit :=
  if policy = SELECT_ACCEL_AND_WAIT_POLICY then pick_accel_and_wait_for_available cfg rand mb s
  else .exits (-15) s

/-- Reading `accelerator_in_use_by[k][i]`. -/
def rd_in_use (t : List (List Int)) (k i : Int) : Option Int :=
  match rd t k with
  | none => none
  | some row => rd row i

/-- Writing `accelerator_in_use_by[k][i] = v`. -/
def wr_in_use (t : List (List Int)) (k i : Int) (v : Int) : Option (List (List Int)) :=
  match rd t k with
  | none => none
  | some row =>
    match wr row i v with
    | none => none
    | some row => wr t k row

/-- Assignment to the `status` field of the slot `mb` points to. -/
def set_status (mb : Nat) (st : Int) (s : Sched) : Option Sched :=
  match s.master_metadata_pool[mb]? with
  | none => none
  | some m => some { s with master_metadata_pool := s.master_metadata_pool.set mb { m with status := st } }

/-- The part of `request_execution` after the selector has returned (lines 987-1031). -/
def dispatch (mb : Nat) (s : Sched) : Outcome Unit :=
  match s.master_metadata_pool[mb]? with
  | none => .undefined
  | some m =>
    let accel_type := to_unsigned m.accelerator_type
    let accel_id := to_unsigned m.accelerator_id
    if accel_type < no_accelerator_t then
      match rd_in_use s.accelerator_in_use_by accel_type accel_id with
      | none => .undefined
      | some v =>
        if v ≠ -1 then .exits (-14) s else
        let bi := m.block_id
        match wr_in_use s.accelerator_in_use_by accel_type accel_id bi with
        | none => .undefined
        | some t =>
          if 0 ≤ bi ∧ bi < (total_metadata_pool_blocks : Int) then
            .returns () { s with
              accelerator_in_use_by := t
              master_metadata_pool := s.master_metadata_pool.set mb { m with status := TASK_RUNNING }
              signalled := bi :: s.signalled }
          else .undefined
    else .returns () s

/-- The function `request_execution(mb)` (lines 980-1032). -/
def request_execution (cfg : Build) (rand : Nat) (mb : Nat) (s : Sched) : Outcome Unit :=
  match set_status mb TASK_QUEUED s with
  | none => .undefined
  | some s =>
    match select_target_accelerator cfg rand s.global_scheduler_selection_policy mb s with
    | .returns _ s => dispatch mb s
    | o => o

/-- The function `release_accelerator_for_task(mb)` (lines 760-773); the three locals are `unsigned`, so
    the `int` table entry is converted to `unsigned` for the comparison. -/
def release_accelerator_for_task (mb : Nat) (s : Sched) : Outcome Unit :=
  match s.master_metadata_pool[mb]? with
  | none => .undefined
  | some m =>
    let mdb_id := to_unsigned m.block_id
    let accel_type := to_unsigned m.accelerator_type
    let accel_id := to_unsigned m.accelerator_id
    match rd_in_use s.accelerator_in_use_by accel_type accel_id with
    | none => .undefined
    | some v =>
      if to_unsigned v ≠ mdb_id then
        .returns () { s with mismatch_reports := m.block_id :: s.mismatch_reports }
      else
        match wr_in_use s.accelerator_in_use_by accel_type accel_id (-1) with
        | none => .undefined
        | some t => .returns () { s with accelerator_in_use_by := t }

/-- What the completion hooks of the application do.  A hook is code of the application that
    `mark_task_done` calls through the function pointer `atFinish` with the pointer to the
    slot; it can write the slot and call the scheduler.  `hooks h mb s` is the outcome of
    the call `h(&master_metadata_pool[mb])` made with the globals `s`. -/
abbrev Hooks := Nat → Nat → Sched → Outcome Unit

/-- Completion hooks that return without writing any global of the scheduler. -/
def inert_hooks : Hooks := fun _ _ s => .returns () s

/-- The assignment `task_metadata_block->metadata.atFinish = NULL` (line 314). -/
def clear_hook (mb : Nat) (s : Sched) : Outcome Unit :=
  match s.master_metadata_pool[mb]? with
  | none => .undefined
  | some m =>
    .returns () { s with
      master_metadata_pool := s.master_metadata_pool.set mb { m with atFinish := none } }

/-- The `if (atFinish != NULL) atFinish(mb);` and the following `atFinish = NULL` of
    `mark_task_done` (lines 309-314).  The call of the hook is recorded in `finish_calls`,
    with the slot and the busy table as they are when the call is made; what the call does is
    given by `hooks`, and `atFinish = NULL` is assigned in the state the hook has left. -/
def run_at_finish (hooks : Hooks) (mb : Nat) (s : Sched) : Outcome Unit :=
  match s.master_metadata_pool[mb]? with
  | none => .undefined
  | some m =>
    match m.atFinish with
    | none => clear_hook mb s
    | some h =>
      match hooks h mb { s with
          finish_calls :=
            { hook := h, block := m, in_use := s.accelerator_in_use_by } :: s.finish_calls } with
      | .returns _ t => clear_hook mb t
      | o => o

/-- The function `mark_task_done(mb)` (lines 302-315), in an application whose completion hooks
    behave as `hooks`. -/
def mark_task_done (hooks : Hooks) (mb : Nat) (s : Sched) : Outcome Unit :=
  match set_status mb TASK_DONE s with
  | none => .undefined
  | some s =>
    match release_accelerator_for_task mb s with
    | .returns _ s =>
      match set_status mb TASK_DONE s with
      | none => .undefined
      | some s => run_at_finish hooks mb s
    | o => o

/-- One round of the outer `do { ... } while (accel_type == no_accelerator_t)` loop of
    `fastest_to_slowest_first_available` (lines 888-911 and 914-937): with `hw_present` (the
    `#ifdef` of the job's hardware kind) the instances of kind `hw` are scanned first, and if
    `accel_id` is still negative the CPU instances are.  The result is the pair
    (`accel_type`, `accel_id`) of the instance found, if any. -/
def scan_fast (hw_present : Bool) (hw : Int) (s : Sched) : Option (Option (Int × Nat)) :=
  match (if hw_present then scan_kind hw s else some none) with
  | none => none
  | some (some i) => some (some (hw, i))
  | some none =>
    match scan_kind cpu_accel_t s with
    | none => none
    | some (some i) => some (some (cpu_accel_t, i))
    | some none => some none

/-- The loop `do { int i = 0; while ((i < num_accelerators_of_type[proposed_accel]) &&
    (accel_id < 0)) { ... } } while (accel_type == no_accelerator_t);` that closes
    `fastest_to_slowest_first_available` (lines 946-955), entered with the given values of the
    locals `proposed_accel`, `accel_type` and `accel_id`.  The test of the inner loop reads
    `num_accelerators_of_type[proposed_accel]` first, also when `accel_id` is not negative.
    `none`: an index is out of bounds; `some none`: the loop never ends; `some (some (t, i))`:
    the values of `accel_type` and `accel_id` when the loop is left. -/
def closing_scan (proposed_accel accel_type accel_id : Int) (s : Sched) :
    Option (Option (Int × Int)) :=
  if accel_id < 0 then
    match scan_kind proposed_accel s with
    | none => none
    | some (some i) => some (some (proposed_accel, i))
    | some none =>
      if accel_type = no_accelerator_t then some none else some (some (accel_type, accel_id))
  else
    match rd s.num_accelerators_of_type proposed_accel with
    | none => none
    | some _ =>
      if accel_type = no_accelerator_t then some none else some (some (accel_type, accel_id))

/-- The function `fastest_to_slowest_first_available(mb)` (lines 879-958).  A round of the loop in
    the `switch` that finds no free instance is repeated for ever while nobody else changes the
    busy table; when it finds one, `proposed_accel` and `accel_type` are the kind found and the
    closing loop (lines 946-955) is run with them. -/
def fastest_to_slowest_first_available (cfg : Build) (mb : Nat) (s : Sched) : Outcome Unit :=
  match s.master_metadata_pool[mb]? with
  | none => .undefined
  | some m =>
    let kinds : Option (Bool × Int) :=
      if m.job_type = FFT_TASK then some (cfg.HW_FFT, fft_hwr_accel_t)
      else if m.job_type = VITERBI_TASK then some (cfg.HW_VIT, vit_hwr_accel_t)
      else none
    match kinds with
    | none => .exits (-15) s
    | some (hw_present, hw) =>
      match scan_fast hw_present hw s with
      | none => .undefined
      | some none => .hangs s
      | some (some (p, i)) =>
        match closing_scan p p i s with
        | none => .undefined
        | some none => .hangs s
        | some (some (t, j)) =>
          .returns () { s with
            master_metadata_pool := s.master_metadata_pool.set mb
              { m with accelerator_type := t, accelerator_id := j } }

/-! ## Execution of a task on its accelerator -/

/-- The four kernels `execute_task_on_accelerator` can call, under the names of their
    functions. -/
inductive Kernel where
  /-- the CPU FFT kernel -/
  | execute_cpu_fft_accelerator
  /-- the CPU Viterbi kernel -/
  | execute_cpu_viterbi_accelerator
  /-- the hardware FFT driver -/
  | execute_hwr_fft_accelerator
  /-- the hardware Viterbi driver -/
  | execute_hwr_viterbi_accelerator
deriving DecidableEq, Repr

/-- What `execute_task_on_accelerator` itself does: the kernels it calls, in order, and the
    code of the `exit` it reaches, if any. -/
structure Executed where
  calls : List Kernel
  exit_code : Option Int
deriving DecidableEq, Repr

/-- The function `execute_task_on_accelerator(mb)` (lines 412-451): the two nested `switch`
    statements.  What the kernels do is not followed here: the two CPU kernels are not part
    of `scheduler.c`, the two hardware kernels drive a device (or end the process when the
    hardware is not compiled in).  `none` when `mb` points to no slot. -/
def execute_task_on_accelerator (mb : Nat) (s : Sched) : Option Executed :=
  match s.master_metadata_pool[mb]? with
  | none => none
  | some m =>
    if m.accelerator_type = no_accelerator_t then some ⟨[], some (-11)⟩
    else if m.accelerator_type = cpu_accel_t then
      if m.job_type = FFT_TASK then some ⟨[.execute_cpu_fft_accelerator], none⟩
      else if m.job_type = VITERBI_TASK then some ⟨[.execute_cpu_viterbi_accelerator], none⟩
      else some ⟨[], some (-13)⟩
    else if m.accelerator_type = fft_hwr_accel_t then
      some ⟨[.execute_hwr_fft_accelerator], none⟩
    else if m.accelerator_type = vit_hwr_accel_t then
      some ⟨[.execute_hwr_viterbi_accelerator], none⟩
    else some ⟨[], some (-12)⟩

/-! ## Waiting for the critical tasks -/

/-- How a walk down the critical live list ends. -/
inductive Walk where
  /-- the walk has reached `NULL` -/
  | done
  /-- the walk has met a node whose slot is not DONE -/
  | restart
  /-- the walk has not ended within the given number of steps -/
  | spins
  /-- a pointer or block id outside its array has been used -/
  | wild
deriving DecidableEq, Repr

/-- The loop of `wait_all_critical` (lines 1067-1075), run for at most `fuel` tests of its
    condition: `head` is `critical_live_task_head`, the last argument is `cli`. -/
def wait_loop (nodes : List blockid_linked_list_t) (pool : List task_metadata_block_t)
    (head : Option Nat) : Nat → Option Nat → Walk
  | 0, _ => .spins
  | _ + 1, none => .done
  | fuel + 1, some c =>
    match nodes[c]? with
    | none => .wild
    | some n =>
      match rd pool n.clt_block_id with
      | none => .wild
      | some m =>
        if m.status ≠ TASK_DONE then wait_loop nodes pool head fuel head
        else wait_loop nodes pool head fuel n.next

/-- One walk of that loop from `cli` down the list, up to the first node whose slot is not
    DONE (where the loop starts again from the head). -/
def walk_critical (nodes : List blockid_linked_list_t) (pool : List task_metadata_block_t) :
    Nat → Option Nat → Walk
  | 0, _ => .spins
  | _ + 1, none => .done
  | fuel + 1, some c =>
    match nodes[c]? with
    | none => .wild
    | some n =>
      match rd pool n.clt_block_id with
      | none => .wild
      | some m =>
        if m.status ≠ TASK_DONE then .restart
        else walk_critical nodes pool fuel n.next

/-- The function `wait_all_critical()` (lines 1063-1076) on globals that nobody else changes.  A walk that
    starts again from the head repeats itself, and a walk that has not ended after one step more
    than there are nodes is in a cycle: in both cases the loop never ends, see `wait_loop_never`. -/
def wait_all_critical (s : Sched) : Outcome Unit :=
  match walk_critical s.critical_live_tasks_list s.master_metadata_pool
      (s.critical_live_tasks_list.length + 1) s.critical_live_task_head with
  | .done => .returns () s
  | .restart => .hangs s
  | .spins => .hangs s
  | .wild => .undefined

/-! ## Executions -/

/-- A call of the scheduler interface together with what it returned. -/
inductive Call where
  /-- the call `get_task_metadata_block(task_type, crit_level)` returning slot `result` (`none`: `NULL`) -/
  | acquire (task_type crit_level : Int) (result : Option Nat)
  /-- the call `free_task_metadata_block(&master_metadata_pool[mb])` -/
  | release (mb : Nat)
  /-- the call `request_execution(&master_metadata_pool[mb])` during which `rand()` returns `rand` -/
  | request (rand : Nat) (mb : Nat)
  /-- the call `mark_task_done(&master_metadata_pool[mb])` -/
  | done (mb : Nat)
  /-- the assignment `global_scheduler_selection_policy = p` by the application -/
  | policy (p : Int)
deriving DecidableEq, Repr

/-- The state a call leaves when it returns as recorded, `none` when it does not.  None of
    the calls stores a completion hook in a slot, so that none is called in an execution from
    the initial state and `mark_task_done` has there the same outcome for all hooks
    (`no_hook_run`, `done_in_run`); it is run with `inert_hooks`. -/
def step (cfg : Build) (c : Call) (s : Sched) : Option Sched :=
  match c with
  | .acquire j k r =>
    match get_task_metadata_block j k s with
    | .returns v t => if v = r then some t else none
    | _ => none
  | .release mb =>
    match free_task_metadata_block mb s with
    | .returns _ t => some t
    | _ => none
  | .request rand mb =>
    match request_execution cfg rand mb s with
    | .returns _ t => some t
    | _ => none
  | .done mb =>
    match mark_task_done inert_hooks mb s with
    | .returns _ t => some t
    | _ => none
  | .policy p => some { s with global_scheduler_selection_policy := p }

/-- Running a sequence of calls, each of which has to be `allowed` in the state it is made
    in and has to return as recorded. -/
def run (cfg : Build) (allowed : Sched → Call → Bool) : List Call → Sched → Option Sched
  | [], s => some s
  | c :: cs, s =>
    if allowed s c then
      match step cfg c s with
      | none => none
      | some t => run cfg allowed cs t
    else none

/-- The status of slot `mb`, if there is such a slot. -/
def status_of (s : Sched) (mb : Nat) : Option Int :=
  (s.master_metadata_pool[mb]?).map (fun m => m.status)

/-- A slot is live from the acquire that hands it out to its release: its status is not FREE. -/
def live (s : Sched) (mb : Nat) : Bool :=
  match s.master_metadata_pool[mb]? with
  | none => false
  | some m => decide (m.status ≠ TASK_FREE)

/-- Every call is allowed. -/
def any_call : Sched → Call → Bool := fun _ _ => true

/-- Only successful acquires and releases of live slots. -/
def acquire_release : Sched → Call → Bool
  | _, .acquire _ _ (some _) => true
  | s, .release mb => live s mb
  | _, _ => false

/-- The state after the calls `cs`, made one after the other from the initial state of a
    build without hardware accelerators (`startup` if one of them does not return). -/
def after (cs : List Call) : Sched :=
  (run ⟨false, false⟩ any_call cs (initialize_scheduler startup)).getD startup

/-- The calls of one complete task: the application selects the random-with-wait policy and
    acquires a slot for a base-level FFT task (slot 31), requests its execution (`rand()`
    returns 0) and the agent of the slot reports completion. -/
def one_task : List Call :=
  [.policy SELECT_ACCEL_AND_WAIT_POLICY, .acquire FFT_TASK BASE_TASK (some 31), .request 0 31,
   .done 31]

/-! ## Observations on states -/

/-- Following `next` pointers from `start` visits exactly the nodes `ns` and arrives at `stop`. -/
def is_seg (nodes : List blockid_linked_list_t) : Option Nat → List Nat → Option Nat → Bool
  | start, [], stop => decide (start = stop)
  | none, _ :: _, _ => false
  | some c, d :: ns, stop =>
    decide (c = d) &&
      (match nodes[c]? with
       | none => false
       | some n => is_seg nodes n.next ns stop)

/-- The list that starts at `start` is null-terminated and its nodes are `ns`, in order. -/
def is_chain (nodes : List blockid_linked_list_t) (start : Option Nat) (ns : List Nat) : Bool :=
  is_seg nodes start ns none

/-- The block ids carried by the nodes `ns`. -/
def ids_of (nodes : List blockid_linked_list_t) (ns : List Nat) : List Int :=
  ns.filterMap (fun c => (nodes[c]?).map (fun n => n.clt_block_id))

/-- No node among `ns` carries block id `bi`. -/
def none_carries (nodes : List blockid_linked_list_t) (bi : Int) (ns : List Nat) : Prop :=
  ∀ d ∈ ns, ∀ n, nodes[d]? = some n → n.clt_block_id ≠ bi

/-- The value of `lcli` after the scan has walked over the nodes `ns`, starting from `l`. -/
def last_or (l : Option Nat) : List Nat → Option Nat
  | [] => l
  | d :: ds => last_or (some d) ds

/-- The four arrays of the slot pool and of the critical list have their declared size. -/
def well_sized (s : Sched) : Prop :=
  s.master_metadata_pool.length = total_metadata_pool_blocks ∧
  s.free_metadata_pool.length = total_metadata_pool_blocks ∧
  s.critical_live_tasks_list.length = total_metadata_pool_blocks ∧
  s.free_critlist_pool.length = total_metadata_pool_blocks

instance (s : Sched) : Decidable (well_sized s) := by
  unfold well_sized; infer_instance

/-- The state in which an outcome leaves the globals, if any. -/
def final_state {α : Type} : Outcome α → Option Sched
  | .returns _ s => some s
  | .exits _ s => some s
  | .hangs s => some s
  | .undefined => none

/-- The metadata of a slot after `free_task_metadata_block` has cleared it. -/
def cleared (b : task_metadata_block_t) : task_metadata_block_t :=
  { b with job_type := NO_TASK_JOB, status := TASK_FREE, crit_level := NO_TASK, data_size := 0 }

/-- The metadata of a slot after `get_task_metadata_block` has handed it out. -/
def allocated (task_type crit_level : Int) (m : task_metadata_block_t) : task_metadata_block_t :=
  { block_id := m.block_id, status := TASK_ALLOCATED, job_type := task_type,
    crit_level := crit_level, data_size := 0, accelerator_type := no_accelerator_t,
    accelerator_id := -1, atFinish := none }

/-- Where the scan loop of `free_task_metadata_block` leaves its loop (or dereferences a wild pointer). -/
def scan_ends (nodes : List blockid_linked_list_t) (bi : Int) : Option Nat → Prop
  | none => True
  | some c =>
    match nodes[c]? with
    | none => True
    | some n => n.clt_block_id = bi

/-- The entries of the free pool below the free count. -/
def free_entries (s : Sched) : List Int :=
  s.free_metadata_pool.take s.free_metadata_blocks.toNat

/-- Slot `i` is recorded in the free pool. -/
def in_free_pool (s : Sched) (i : Nat) : Prop := (i : Int) ∈ free_entries s

instance (s : Sched) (i : Nat) : Decidable (in_free_pool s i) := by
  unfold in_free_pool; infer_instance

/-- Slot `i` has a status in {ALLOCATED, QUEUED, RUNNING, DONE}. -/
def is_active (s : Sched) (i : Nat) : Bool :=
  match s.master_metadata_pool[i]? with
  | none => false
  | some m =>
    decide (m.status = TASK_ALLOCATED ∨ m.status = TASK_QUEUED ∨ m.status = TASK_RUNNING
      ∨ m.status = TASK_DONE)

/-- The number of slots with a status in {ALLOCATED, QUEUED, RUNNING, DONE}. -/
def active_count (s : Sched) : Nat :=
  ((List.range total_metadata_pool_blocks).filter (is_active s)).length

/-- Calls in which `free_task_metadata_block` and `mark_task_done` are only applied to live slots. -/
def on_live : Sched → Call → Bool
  | s, .release mb => live s mb
  | s, .done mb => live s mb
  | _, _ => true

/-- The invariant of the slot pool and the free pool. -/
structure PoolInv (s : Sched) : Prop where
  pool_len : s.master_metadata_pool.length = 32
  free_len : s.free_metadata_pool.length = 32
  free_lo : 0 ≤ s.free_metadata_blocks
  free_hi : s.free_metadata_blocks ≤ 32
  nodup : (free_entries s).Nodup
  range : ∀ x ∈ free_entries s, 0 ≤ x ∧ x < 32
  ident : ∀ (i : Nat) (m : task_metadata_block_t),
    s.master_metadata_pool[i]? = some m → m.block_id = i
  status : ∀ (i : Nat) (m : task_metadata_block_t), s.master_metadata_pool[i]? = some m →
    m.status = 0 ∨ m.status = 1 ∨ m.status = 2 ∨ m.status = 3 ∨ m.status = 4
  job : ∀ (i : Nat) (m : task_metadata_block_t),
    s.master_metadata_pool[i]? = some m → m.status = 0 → m.job_type = 0
  free_iff : ∀ (i : Nat) (m : task_metadata_block_t), s.master_metadata_pool[i]? = some m →
    (m.status = 0 ↔ (i : Int) ∈ free_entries s)

/-- The edges of the slot life cycle: FREE→ALLOCATED→QUEUED→RUNNING→DONE→FREE. -/
def status_edge (a b : Int) : Bool :=
  decide ((a = TASK_FREE ∧ b = TASK_ALLOCATED) ∨ (a = TASK_ALLOCATED ∧ b = TASK_QUEUED) ∨
    (a = TASK_QUEUED ∧ b = TASK_RUNNING) ∨ (a = TASK_RUNNING ∧ b = TASK_DONE) ∨
    (a = TASK_DONE ∧ b = TASK_FREE))

/-- Every slot whose status differs between `s` and `t` has moved along an edge. -/
def follows_edges (s t : Sched) : Prop :=
  ∀ (i : Nat) (a b : Int), status_of s i = some a → status_of t i = some b → a ≠ b →
    status_edge a b = true

/-! ## Observations on selection, dispatch and completion -/

/-- A value that fits a C `int` (32 bits). -/
def is_int (x : Int) : Prop := -2147483648 ≤ x ∧ x < 2147483648

instance (x : Int) : Decidable (is_int x) := by
  unfold is_int; infer_instance

/-- The busy table and the table of instance counts have their declared sizes
    (`NUM_ACCEL_TYPES-1` kinds, `MAX_ACCEL_OF_EACH_TYPE` instances), and no kind has more
    instances than a row of the busy table has entries. -/
def inventory_sized (s : Sched) : Prop :=
  s.accelerator_in_use_by.length = NUM_ACCEL_TYPES - 1 ∧
  (∀ row ∈ s.accelerator_in_use_by, row.length = MAX_ACCEL_OF_EACH_TYPE) ∧
  s.num_accelerators_of_type.length = NUM_ACCEL_TYPES - 1 ∧
  (∀ n ∈ s.num_accelerators_of_type, n ≤ (MAX_ACCEL_OF_EACH_TYPE : Int))

instance (s : Sched) : Decidable (inventory_sized s) := by
  unfold inventory_sized; infer_instance

/-- Instance `i` of kind `k` exists and is free: `i < num_accelerators_of_type[k]` and
    `accelerator_in_use_by[k][i] == -1`. -/
def free_instance (s : Sched) (k : Int) (i : Nat) : Bool :=
  match rd s.num_accelerators_of_type k with
  | none => false
  | some n => decide ((i : Int) < n) && decide (rd_in_use s.accelerator_in_use_by k i = some (-1))

/-- The kind `pick_accel_and_wait_for_available` proposes for a job when `rand()` returns
    `rand` (the `switch` of lines 831-857); `none` for a job type it rejects. -/
def proposed_accel (cfg : Build) (rand : Nat) (job_type : Int) : Option Int :=
  if job_type = FFT_TASK then
    some (if ((rand % 100 : Nat) : Int) ≥ FFT_HW_THRESHOLD cfg then fft_hwr_accel_t
      else cpu_accel_t)
  else if job_type = VITERBI_TASK then
    some (if ((rand % 100 : Nat) : Int) ≥ VITERBI_HW_THRESHOLD cfg then vit_hwr_accel_t
      else cpu_accel_t)
  else none

/-- The kinds `fastest_to_slowest_first_available` scans for a job, in the order in which it
    scans them; empty for a job type it rejects. -/
def kinds_scanned (cfg : Build) (job_type : Int) : List Int :=
  if job_type = FFT_TASK then
    (if cfg.HW_FFT then [fft_hwr_accel_t, cpu_accel_t] else [cpu_accel_t])
  else if job_type = VITERBI_TASK then
    (if cfg.HW_VIT then [vit_hwr_accel_t, cpu_accel_t] else [cpu_accel_t])
  else []

/-- The slot `mb` with the assignment `(k, i)` written to it. -/
def assign (k : Int) (i : Nat) (mb : Nat) (s : Sched) : Sched :=
  match s.master_metadata_pool[mb]? with
  | none => s
  | some m =>
    { s with
      master_metadata_pool := s.master_metadata_pool.set mb
        { m with accelerator_type := k, accelerator_id := i } }

/-- Calls in the order of the slot life cycle: `request_execution` only on ALLOCATED slots,
    `mark_task_done` only on RUNNING slots, `free_task_metadata_block` only on DONE slots. -/
def in_order : Sched → Call → Bool
  | s, .request _ mb => decide (status_of s mb = some TASK_ALLOCATED)
  | s, .done mb => decide (status_of s mb = some TASK_RUNNING)
  | s, .release mb => decide (status_of s mb = some TASK_DONE)
  | _, _ => true

/-- The selector `fastest_to_slowest_first_available` called directly on slot `mb`, followed
    by the part of `request_execution` that comes after the selector. -/
def assign_fast (cfg : Build) (mb : Nat) (s : Sched) : Option Sched :=
  match fastest_to_slowest_first_available cfg mb s with
  | .returns _ t =>
    match dispatch mb t with
    | .returns _ u => some u
    | _ => none
  | _ => none

/-- The invariant of the slot identities and of the running slots: every slot carries its
    index as block id, the busy table has its declared shape and holds -1 or block ids, the
    assignment fields hold C `int` values, and the busy entry of the instance a RUNNING slot
    is assigned to holds the block id of that slot. -/
structure RunInv (s : Sched) : Prop where
  pool_len : s.master_metadata_pool.length = 32
  ident : ∀ (i : Nat) (m : task_metadata_block_t),
    s.master_metadata_pool[i]? = some m → m.block_id = i
  rows : s.accelerator_in_use_by.length = 3
  cols : ∀ row ∈ s.accelerator_in_use_by, row.length = 10
  typed : ∀ (i : Nat) (m : task_metadata_block_t), s.master_metadata_pool[i]? = some m →
    is_int m.accelerator_type ∧ is_int m.accelerator_id
  entries : ∀ (k i v : Int), rd_in_use s.accelerator_in_use_by k i = some v → -1 ≤ v ∧ v < 32
  running : ∀ (i : Nat) (m : task_metadata_block_t), s.master_metadata_pool[i]? = some m →
    m.status = TASK_RUNNING →
    rd_in_use s.accelerator_in_use_by m.accelerator_type m.accelerator_id = some m.block_id

/-- Every busy entry that is not -1 names a RUNNING slot that is assigned to that instance. -/
def owned (s : Sched) : Prop :=
  ∀ (k i b : Int), rd_in_use s.accelerator_in_use_by k i = some b → b ≠ -1 →
    ∃ m, rd s.master_metadata_pool b = some m ∧ m.status = TASK_RUNNING ∧
      m.accelerator_type = k ∧ m.accelerator_id = i

/-- The slot `mb` with its status set to QUEUED: the state in which `request_execution` calls
    the selector. -/
def queued (mb : Nat) (s : Sched) : Sched :=
  (set_status mb TASK_QUEUED s).getD s

/-- The application stores the completion hook `h` in slot `mb`. -/
def with_hook (h : Nat) (mb : Nat) (s : Sched) : Sched :=
  match s.master_metadata_pool[mb]? with
  | none => s
  | some m =>
    { s with master_metadata_pool := s.master_metadata_pool.set mb { m with atFinish := some h } }

/-- The calls that leave a base-level FFT task allocated in slot 31 under the policy `p`. -/
def allocated_task (p : Int) : List Call :=
  [.policy p, .acquire FFT_TASK BASE_TASK (some 31)]

/-- The calls that leave a base-level FFT task running in slot 31 (on CPU instance 0). -/
def running_task : List Call :=
  allocated_task SELECT_ACCEL_AND_WAIT_POLICY ++ [.request 0 31]

/-- Slot 31 is released twice and then handed out twice, first for a critical and then for
    a base-level task. -/
def released_twice : List Call :=
  [.acquire FFT_TASK BASE_TASK (some 31), .acquire FFT_TASK BASE_TASK (some 30), .release 31,
   .release 31, .acquire FFT_TASK CRITICAL_TASK (some 31), .acquire FFT_TASK BASE_TASK (some 31)]

/-- The assignment `(accelerator_type, accelerator_id)` of slot `mb`. -/
def assignment (s : Sched) (mb : Nat) : Option (Int × Int) :=
  (s.master_metadata_pool[mb]?).map (fun m => (m.accelerator_type, m.accelerator_id))

/-- The selector `fastest_to_slowest_first_available` and the dispatch applied to the slots
    `mbs`, one after the other. -/
def assign_all (cfg : Build) : List Nat → Sched → Option Sched
  | [], s => some s
  | mb :: mbs, s =>
    match assign_fast cfg mb s with
    | none => none
    | some t => assign_all cfg mbs t

/-- Scenario S4: the policy is FAST_TO_SLOW, there are `n` FFT hardware instances, all
    instances are free and four FFT tasks have been acquired (slots 31, 30, 29, 28). -/
def scenario_s4 (n : Int) : Sched :=
  let s := after [.policy FAST_TO_SLOW_FIRST_AVAIL_POLICY,
    .acquire FFT_TASK BASE_TASK (some 31), .acquire FFT_TASK BASE_TASK (some 30),
    .acquire FFT_TASK BASE_TASK (some 29), .acquire FFT_TASK BASE_TASK (some 28)]
  { s with num_accelerators_of_type := s.num_accelerators_of_type.set fft_hwr_accel_t.toNat n }

/-- The busy table after `release_accelerator_for_task` on a slot whose entry holds `v`. -/
def released (t : List (List Int)) (k i v bid : Int) : List (List Int) :=
  if v = bid then
    match rd t k with
    | none => t
    | some row => t.set k.toNat (row.set i.toNat (-1))
  else t

/-- The globals when `mark_task_done` on slot `mb` (metadata `m`, busy entry `v`) has released
    the accelerator and assigned DONE the second time: the state in which it tests `atFinish`. -/
def completed (mb : Nat) (m : task_metadata_block_t) (v : Int) (s : Sched) : Sched :=
  { s with
    master_metadata_pool := s.master_metadata_pool.set mb { m with status := TASK_DONE }
    accelerator_in_use_by :=
      released s.accelerator_in_use_by m.accelerator_type m.accelerator_id v m.block_id
    mismatch_reports :=
      if v = m.block_id then s.mismatch_reports else m.block_id :: s.mismatch_reports }

/-- The globals with which `mark_task_done` calls the completion hook `h` of slot `mb`, the
    call being recorded. -/
def at_finish (h : Nat) (mb : Nat) (m : task_metadata_block_t) (v : Int) (s : Sched) : Sched :=
  { completed mb m v s with
    finish_calls :=
      { hook := h, block := { m with status := TASK_DONE },
        in_use := released s.accelerator_in_use_by m.accelerator_type m.accelerator_id v
          m.block_id } :: s.finish_calls }

/-- The completion-hook log after `mark_task_done` on slot `m`, when the busy table is `t` at
    the moment the hook is called. -/
def finished (m : task_metadata_block_t) (t : List (List Int)) (calls : List FinishCall) :
    List FinishCall :=
  match m.atFinish with
  | none => calls
  | some h => { hook := h, block := { m with status := TASK_DONE }, in_use := t } :: calls

/-- The state `request_execution` leaves on slot `mb` when the selector has assigned
    instance `i` of kind `p` to it. -/
def dispatched (p : Int) (i : Nat) (mb : Nat) (s : Sched) : Sched :=
  match s.master_metadata_pool[mb]?, rd s.accelerator_in_use_by p with
  | some m, some row =>
    { s with
      accelerator_in_use_by := s.accelerator_in_use_by.set p.toNat (row.set i m.block_id)
      master_metadata_pool := s.master_metadata_pool.set mb
        { m with status := TASK_RUNNING, accelerator_type := p, accelerator_id := i }
      signalled := m.block_id :: s.signalled }
  | _, _ => s

/-- Node `c` exists and refers to a slot whose status is DONE. -/
def refers_done (nodes : List blockid_linked_list_t) (pool : List task_metadata_block_t)
    (c : Nat) : Bool :=
  match nodes[c]? with
  | none => false
  | some n =>
    match rd pool n.clt_block_id with
    | none => false
    | some m => decide (m.status = TASK_DONE)

/-- Where a walk of `wait_all_critical` ends: at `NULL` or at a node that does not refer to
    a DONE slot. -/
def walk_ends (nodes : List blockid_linked_list_t) (pool : List task_metadata_block_t) :
    Option Nat → Prop
  | none => True
  | some c => refers_done nodes pool c = false

/-- A critical FFT task (slot 31) has run to completion and a base-level FFT task (slot 30)
    is running. -/
def critical_done_base_running : List Call :=
  [.policy SELECT_ACCEL_AND_WAIT_POLICY, .acquire FFT_TASK CRITICAL_TASK (some 31),
   .request 0 31, .done 31, .acquire FFT_TASK BASE_TASK (some 30), .request 0 30]

/-! ## Further executions and observations -/

/-- The calls that exhaust the pool: 32 successful acquires of base-level FFT tasks, which
    return the slots 31, 30, ..., 0. -/
def exhaust_pool : List Call :=
  (List.range 32).reverse.map (fun i => Call.acquire FFT_TASK BASE_TASK (some i))

/-- The calls after which the critical live list is a cycle (see C1), the two live critical
    tasks (slots 30 and 29) having run to completion: every call is made in the order of the
    slot life cycle. -/
def cyclic_all_done : List Call :=
  [.policy SELECT_ACCEL_AND_WAIT_POLICY, .acquire FFT_TASK BASE_TASK (some 31),
   .acquire FFT_TASK CRITICAL_TASK (some 30), .request 0 30, .done 30, .release 30,
   .acquire FFT_TASK CRITICAL_TASK (some 30), .request 0 30, .done 30,
   .acquire FFT_TASK CRITICAL_TASK (some 29), .request 0 29, .done 29]

/-- The calls after which the critical live list is a cycle, as in C1. -/
def cyclic_list : List Call :=
  [.acquire FFT_TASK BASE_TASK (some 31), .acquire FFT_TASK CRITICAL_TASK (some 30),
   .release 30, .acquire FFT_TASK CRITICAL_TASK (some 30),
   .acquire FFT_TASK CRITICAL_TASK (some 29)]

/-- Ten FFT tasks run on the ten CPU instances and an eleventh one (slot 21) is allocated. -/
def cpu_saturated : List Call :=
  .policy SELECT_ACCEL_AND_WAIT_POLICY ::
    ((List.range 10).map (fun i => [Call.acquire FFT_TASK BASE_TASK (some (31 - i)),
      Call.request 0 (31 - i)])).flatten ++ [.acquire FFT_TASK BASE_TASK (some 21)]

/-- The number `num = rand() % 100` a selector draws when `rand()` returns `rand`. -/
def drawn (rand : Nat) : Int := ((rand % 100 : Nat) : Int)

/-- The draws in [0, 99] for which the random-with-wait selector proposes kind `k` for a job. -/
def draws_proposing (cfg : Build) (job_type k : Int) : List Nat :=
  (List.range 100).filter (fun num => decide (proposed_accel cfg num job_type = some k))

/-- No call in `cs` releases slot `a`. -/
def keeps (a : Nat) (cs : List Call) : Prop := Call.release a ∉ cs

instance (a : Nat) (cs : List Call) : Decidable (keeps a cs) := by
  unfold keeps; infer_instance

/-! ## Sequential executions with direct releases of accelerators -/

/-- A step of a sequential execution: a call of the interface, or a call of
    `release_accelerator_for_task(&master_metadata_pool[mb])` made directly. -/
inductive Event where
  /-- one of the calls of `Call` -/
  | call (c : Call)
  /-- the call `release_accelerator_for_task(&master_metadata_pool[mb])` -/
  | release_accelerator (mb : Nat)
deriving DecidableEq, Repr

/-- The state an event leaves when its call returns (as recorded), `none` when it does not. -/
def occur (cfg : Build) (e : Event) (s : Sched) : Option Sched :=
  match e with
  | .call c => step cfg c s
  | .release_accelerator mb =>
    match release_accelerator_for_task mb s with
    | .returns _ t => some t
    | _ => none

/-- Running a sequence of events, each of which has to return. -/
def history (cfg : Build) : List Event → Sched → Option Sched
  | [], s => some s
  | e :: es, s =>
    match occur cfg e s with
    | none => none
    | some t => history cfg es t

/-- Neither `mark_task_done` nor `release_accelerator_for_task` is applied to slot `a` in `es`. -/
def holds_accelerator (a : Nat) (es : List Event) : Prop :=
  Event.call (.done a) ∉ es ∧ Event.release_accelerator a ∉ es

instance (a : Nat) (es : List Event) : Decidable (holds_accelerator a es) := by
  unfold holds_accelerator; infer_instance

/-- The invariant of the slot identities and of the shape of the busy table: every slot
    carries its index as block id, the busy table has its declared shape and holds -1 or
    block ids, and the assignment fields hold C `int` values. -/
structure TableInv (s : Sched) : Prop where
  pool_len : s.master_metadata_pool.length = 32
  ident : ∀ (i : Nat) (m : task_metadata_block_t),
    s.master_metadata_pool[i]? = some m → m.block_id = i
  rows : s.accelerator_in_use_by.length = 3
  cols : ∀ row ∈ s.accelerator_in_use_by, row.length = 10
  typed : ∀ (i : Nat) (m : task_metadata_block_t), s.master_metadata_pool[i]? = some m →
    is_int m.accelerator_type ∧ is_int m.accelerator_id
  entries : ∀ (k i v : Int), rd_in_use s.accelerator_in_use_by k i = some v → -1 ≤ v ∧ v < 32

/-- Slot `a` is assigned to no instance, or the busy entry of the instance it is assigned to
    holds its block id. -/
def claims_own (a : Nat) (s : Sched) : Prop :=
  ∀ m, s.master_metadata_pool[a]? = some m →
    (m.accelerator_type = no_accelerator_t ∧ m.accelerator_id = -1) ∨
    rd_in_use s.accelerator_in_use_by m.accelerator_type m.accelerator_id = some (a : Int)

/-- The events before the dispatch of slot 31 in `exclusive_run`: the random-with-wait policy
    is selected and the slots 31 and 30 are acquired for FFT tasks. -/
def exclusive_start : List Event :=
  [.call (.policy SELECT_ACCEL_AND_WAIT_POLICY), .call (.acquire FFT_TASK BASE_TASK (some 31)),
   .call (.acquire FFT_TASK BASE_TASK (some 30))]

/-- The events between the dispatch of slot 31 and the dispatch of slot 30: a third FFT task
    (slot 29) is acquired, dispatched (to CPU instance 1) and completed,
    `release_accelerator_for_task` is called on it once more, and its slot is released. -/
def exclusive_between : List Event :=
  [.call (.acquire FFT_TASK BASE_TASK (some 29)), .call (.request 0 29), .call (.done 29),
   .release_accelerator 29, .call (.release 29)]

/-- The state after the events `es`, made one after the other from the state `s` in a build
    without hardware accelerators (`startup` if one of them does not return). -/
def reached (es : List Event) (s : Sched) : Sched :=
  (history ⟨false, false⟩ es s).getD startup

/-- No slot holds a completion hook. -/
def no_hook (s : Sched) : Prop := ∀ m ∈ s.master_metadata_pool, m.atFinish = none

instance (s : Sched) : Decidable (no_hook s) := by
  unfold no_hook; infer_instance

/-- Completion hooks that give their slot back to the pool: the hook calls
    `free_task_metadata_block` on the slot it is handed. -/
def releasing_hooks : Hooks := fun _ mb s => free_task_metadata_block mb s

/-! ## Lemmas -/

theorem rd_eq_some {α : Type} {a : List α} {i : Int} {v : α} :
    rd a i = some v ↔ 0 ≤ i ∧ a[i.toNat]? = some v := by
  unfold rd; split <;> simp [*]

theorem rd_lt {α : Type} {a : List α} {i : Int} {v : α} (h : rd a i = some v) :
    0 ≤ i ∧ i.toNat < a.length := by
  rw [rd_eq_some] at h
  exact ⟨h.1, (List.getElem?_eq_some.mp h.2).1⟩

theorem wr_of_lt {α : Type} {a : List α} {i : Int} (v : α) (h0 : 0 ≤ i)
    (h1 : i.toNat < a.length) : wr a i v = some (a.set i.toNat v) := by
  unfold wr; simp [h0, h1]

theorem wr_eq_some {α : Type} {a b : List α} {i : Int} {v : α} (h : wr a i v = some b) :
    0 ≤ i ∧ i.toNat < a.length ∧ b = a.set i.toNat v := by
  unfold wr at h
  split at h
  · next hc => exact ⟨hc.1, hc.2, by simpa using h.symm⟩
  · simp at h

theorem rd_of_lt {α : Type} {a : List α} {i : Int} (h0 : 0 ≤ i)
    (h1 : i.toNat < a.length) : ∃ v, rd a i = some v := by
  unfold rd; simp [h0, h1]

/-! ### Segments of the critical live list -/

theorem is_seg_nil (nodes : List blockid_linked_list_t) (a z : Option Nat) :
    is_seg nodes a [] z = true ↔ a = z := by
  cases a <;> simp [is_seg]

theorem is_seg_cons (nodes : List blockid_linked_list_t) (a z : Option Nat) (d : Nat)
    (ns : List Nat) :
    is_seg nodes a (d :: ns) z = true ↔
      a = some d ∧ ∃ n, nodes[d]? = some n ∧ is_seg nodes n.next ns z = true := by
  cases a with
  | none => simp [is_seg]
  | some c =>
    by_cases h : c = d
    · subst h
      cases hn : nodes[c]? <;> simp [is_seg, hn]
    · simp [is_seg, h]

theorem is_seg_append (nodes : List blockid_linked_list_t) (xs ys : List Nat) :
    ∀ (a z : Option Nat), is_seg nodes a (xs ++ ys) z = true ↔
      ∃ m, is_seg nodes a xs m = true ∧ is_seg nodes m ys z = true := by
  induction xs with
  | nil => intro a z; simp [is_seg_nil]
  | cons d xs ih =>
    intro a z
    simp only [List.cons_append, is_seg_cons, ih]
    constructor
    · rintro ⟨ha, n, hn, m, h1, h2⟩
      exact ⟨m, ⟨ha, n, hn, h1⟩, h2⟩
    · rintro ⟨m, ⟨ha, n, hn, h1⟩, h2⟩
      exact ⟨ha, n, hn, m, h1, h2⟩

theorem is_seg_set_of_not_mem (nodes : List blockid_linked_list_t) (k : Nat)
    (v : blockid_linked_list_t) (ns : List Nat) :
    ∀ (a z : Option Nat), k ∉ ns →
      is_seg (nodes.set k v) a ns z = is_seg nodes a ns z := by
  induction ns with
  | nil => intro a z _; cases a <;> simp [is_seg]
  | cons d ns ih =>
    intro a z hk
    simp only [List.mem_cons, not_or] at hk
    have hne : k ≠ d := hk.1
    rw [Bool.eq_iff_iff, is_seg_cons, is_seg_cons, List.getElem?_set_ne hne]
    constructor
    · rintro ⟨ha, n, hn, h⟩
      exact ⟨ha, n, hn, by rwa [ih _ _ hk.2] at h⟩
    · rintro ⟨ha, n, hn, h⟩
      exact ⟨ha, n, hn, by rwa [ih _ _ hk.2]⟩

theorem is_seg_lt (nodes : List blockid_linked_list_t) (ns : List Nat) :
    ∀ (a z : Option Nat), is_seg nodes a ns z = true → ∀ c ∈ ns, c < nodes.length := by
  induction ns with
  | nil => intro a z _ c hc; simp at hc
  | cons d ns ih =>
    intro a z h c hc
    rw [is_seg_cons] at h
    obtain ⟨_, n, hn, h⟩ := h
    rcases List.mem_cons.mp hc with rfl | hc
    · exact (List.getElem?_eq_some.mp hn).1
    · exact ih _ _ h c hc

/-- A segment that ends where `stop` holds, and passes through no node where it holds, is
    determined by where it starts. -/
theorem is_seg_unique (nodes : List blockid_linked_list_t) (stop : Option Nat → Prop)
    (ns : List Nat) :
    ∀ (a y z : Option Nat) (ms : List Nat),
      is_seg nodes a ns y = true → is_seg nodes a ms z = true →
      (∀ d ∈ ns, ¬ stop (some d)) → (∀ d ∈ ms, ¬ stop (some d)) → stop y → stop z →
      ns = ms := by
  induction ns with
  | nil =>
    intro a y z ms h1 h2 _ hms hy _
    rw [is_seg_nil] at h1
    subst h1
    cases ms with
    | nil => rfl
    | cons d ms =>
      rw [is_seg_cons] at h2
      exact absurd (h2.1 ▸ hy) (hms d (List.mem_cons_self _ _))
  | cons d ns ih =>
    intro a y z ms h1 h2 hns hms hy hz
    rw [is_seg_cons] at h1
    obtain ⟨ha, n, hn, h1⟩ := h1
    subst ha
    cases ms with
    | nil =>
      rw [is_seg_nil] at h2
      exact absurd (h2 ▸ hz) (hns d (List.mem_cons_self _ _))
    | cons e ms =>
      rw [is_seg_cons] at h2
      obtain ⟨he, n2, hn2, h2⟩ := h2
      cases he
      rw [hn] at hn2
      cases hn2
      rw [ih _ y z ms h1 h2 (fun x hx => hns x (List.mem_cons_of_mem _ hx))
        (fun x hx => hms x (List.mem_cons_of_mem _ hx)) hy hz]

/-- Such a segment visits no node twice. -/
theorem is_seg_nodup (nodes : List blockid_linked_list_t) (stop : Option Nat → Prop)
    (ns : List Nat) :
    ∀ (a z : Option Nat), is_seg nodes a ns z = true →
      (∀ d ∈ ns, ¬ stop (some d)) → stop z → ns.Nodup := by
  induction ns with
  | nil => intro _ _ _ _ _; exact List.nodup_nil
  | cons d ns ih =>
    intro a z h hns hz
    have h0 := h
    rw [is_seg_cons] at h
    obtain ⟨ha, n, hn, h⟩ := h
    have hns2 : ∀ x ∈ ns, ¬ stop (some x) := fun x hx => hns x (List.mem_cons_of_mem _ hx)
    refine List.nodup_cons.mpr ⟨?_, ih _ _ h hns2 hz⟩
    intro hmem
    obtain ⟨xs, ys, hsplit⟩ := List.append_of_mem hmem
    have h2 := h
    rw [hsplit, is_seg_append] at h2
    obtain ⟨m, _, hm2⟩ := h2
    have hm : m = some d := ((is_seg_cons _ _ _ _ _).mp hm2).1
    subst hm
    subst ha
    have hys : ∀ x ∈ d :: ys, ¬ stop (some x) := by
      intro x hx
      apply hns
      rcases List.mem_cons.mp hx with rfl | hx
      · exact List.mem_cons_self _ _
      · exact List.mem_cons_of_mem _ (by rw [hsplit]; simp [hx])
    have := is_seg_unique nodes stop (d :: ns) (some d) z z (d :: ys) h0 hm2 hns hys hz hz
    have hlen := congrArg List.length this
    have hlen2 := congrArg List.length hsplit
    simp at hlen hlen2
    omega

/-- Such a segment has at most as many nodes as the node array. -/
theorem is_seg_length_le (nodes : List blockid_linked_list_t) (stop : Option Nat → Prop)
    (ns : List Nat) (a z : Option Nat) (h : is_seg nodes a ns z = true)
    (hns : ∀ d ∈ ns, ¬ stop (some d)) (hz : stop z) : ns.length ≤ nodes.length := by
  have hnd := is_seg_nodup nodes stop ns a z h hns hz
  have hsub : ns ⊆ List.range nodes.length := by
    intro c hc
    exact List.mem_range.mpr (is_seg_lt nodes ns a z h c hc)
  have := (List.subperm_of_subset hnd hsub).length_le
  simpa using this

/-- A null-terminated list visits no node twice. -/
theorem is_chain_nodup (nodes : List blockid_linked_list_t) (ns : List Nat)
    (a : Option Nat) (h : is_chain nodes a ns = true) : ns.Nodup :=
  is_seg_nodup nodes (fun z => z = none) ns a none h (fun _ _ hd => by cases hd) rfl

/-- A null-terminated list has at most as many nodes as the node array. -/
theorem is_chain_length_le (nodes : List blockid_linked_list_t) (ns : List Nat)
    (a : Option Nat) (h : is_chain nodes a ns = true) : ns.length ≤ nodes.length :=
  is_seg_length_le nodes (fun z => z = none) ns a none h (fun _ _ hd => by cases hd) rfl

theorem ids_of_set_of_not_mem (nodes : List blockid_linked_list_t) (k : Nat)
    (v : blockid_linked_list_t) (ns : List Nat) (hk : k ∉ ns) :
    ids_of (nodes.set k v) ns = ids_of nodes ns := by
  unfold ids_of
  apply List.filterMap_congr
  intro c hc
  have : k ≠ c := fun h => hk (h ▸ hc)
  simp [List.getElem?_set_ne this]

theorem last_or_append_singleton (l : Option Nat) (xs : List Nat) (x : Nat) :
    last_or l (xs ++ [x]) = some x := by
  induction xs generalizing l with
  | nil => rfl
  | cons d xs ih => simpa [last_or] using ih (some d)

/-- The scan walks over nodes that do not carry `bi` and stops at `z` when `z` is `NULL` or a
    node that carries `bi`, provided it is given more tests than nodes to walk over. -/
theorem scan_critical_stop (nodes : List blockid_linked_list_t) (bi : Int) (z : Option Nat)
    (hz : ∀ c, z = some c → ∃ n, nodes[c]? = some n ∧ n.clt_block_id = bi)
    (pre : List Nat) :
    ∀ (a l : Option Nat) (fuel : Nat), is_seg nodes a pre z = true →
      none_carries nodes bi pre → pre.length < fuel →
      scan_critical nodes bi fuel l a = .stop (last_or l pre) z := by
  induction pre with
  | nil =>
    intro a l fuel h _ hf
    rw [is_seg_nil] at h
    subst h
    obtain ⟨f, rfl⟩ : ∃ f, fuel = f + 1 := ⟨fuel - 1, by simp at hf; omega⟩
    cases a with
    | none => simp [scan_critical, last_or]
    | some c =>
      obtain ⟨n, hn, hid⟩ := hz c rfl
      simp [scan_critical, last_or, hn, hid]
  | cons d pre ih =>
    intro a l fuel h hnc hf
    rw [is_seg_cons] at h
    obtain ⟨ha, n, hn, h⟩ := h
    subst ha
    obtain ⟨f, rfl⟩ : ∃ f, fuel = f + 1 := ⟨fuel - 1, by simp at hf; omega⟩
    have hid : n.clt_block_id ≠ bi := hnc d (List.mem_cons_self _ _) n hn
    have hnc2 : none_carries nodes bi pre := fun e he => hnc e (List.mem_cons_of_mem _ he)
    simp only [scan_critical, hn, hid, ne_eq, not_false_eq_true, ↓reduceIte, last_or]
    exact ih _ _ f h hnc2 (by simp at hf; omega)

theorem ids_of_append (nodes : List blockid_linked_list_t) (xs ys : List Nat) :
    ids_of nodes (xs ++ ys) = ids_of nodes xs ++ ids_of nodes ys := by
  simp [ids_of]

theorem ids_of_cons (nodes : List blockid_linked_list_t) (c : Nat) (n : blockid_linked_list_t)
    (ys : List Nat) (h : nodes[c]? = some n) :
    ids_of nodes (c :: ys) = n.clt_block_id :: ids_of nodes ys := by
  simp [ids_of, List.filterMap_cons, h]

theorem not_mem_ids_of (nodes : List blockid_linked_list_t) (bi : Int) (ns : List Nat)
    (h : none_carries nodes bi ns) : bi ∉ ids_of nodes ns := by
  unfold ids_of
  intro hmem
  rw [List.mem_filterMap] at hmem
  obtain ⟨d, hd, hv⟩ := hmem
  cases hn : nodes[d]? with
  | none => simp [hn] at hv
  | some n =>
    simp [hn] at hv
    exact h d hd n hn hv

/-- The first node that carries `bi`, when some node of `ns` does. -/
theorem first_carrier (nodes : List blockid_linked_list_t) (bi : Int) (ns : List Nat) :
    bi ∈ ids_of nodes ns →
      ∃ pre c post cn, ns = pre ++ c :: post ∧ nodes[c]? = some cn ∧ cn.clt_block_id = bi ∧
        none_carries nodes bi pre := by
  induction ns with
  | nil => intro h; simp [ids_of] at h
  | cons d ns ih =>
    intro h
    cases hn : nodes[d]? with
    | none =>
      have h2 : bi ∈ ids_of nodes ns := by simpa [ids_of, List.filterMap_cons, hn] using h
      obtain ⟨pre, c, post, cn, hs, hc, hid, hnc⟩ := ih h2
      refine ⟨d :: pre, c, post, cn, by simp [hs], hc, hid, ?_⟩
      intro e he n hen
      rcases List.mem_cons.mp he with rfl | he
      · rw [hn] at hen; cases hen
      · exact hnc e he n hen
    | some n =>
      by_cases hid : n.clt_block_id = bi
      · exact ⟨[], d, ns, n, rfl, hn, hid, fun e he => by simp at he⟩
      · have h2 : bi ∈ ids_of nodes ns := by
          rw [ids_of_cons nodes d n ns hn] at h
          rcases List.mem_cons.mp h with h | h
          · exact absurd h.symm hid
          · exact h
        obtain ⟨pre, c, post, cn, hs, hc, hid2, hnc⟩ := ih h2
        refine ⟨d :: pre, c, post, cn, by simp [hs], hc, hid2, ?_⟩
        intro e he m hem
        rcases List.mem_cons.mp he with rfl | he
        · rw [hn] at hem; cases hem; exact hid
        · exact hnc e he m hem

theorem ids_of_congr (N M : List blockid_linked_list_t) (ns : List Nat)
    (h : ∀ d ∈ ns, (N[d]?).map (fun n => n.clt_block_id) = (M[d]?).map (fun n => n.clt_block_id)) :
    ids_of N ns = ids_of M ns := by
  unfold ids_of
  exact List.filterMap_congr h

/-- Unlinking the node `c` that follows the nodes `pre` on a null-terminated list. -/
theorem unlink_critical_spec (t : Sched) (pre post : List Nat) (c : Nat)
    (cn : blockid_linked_list_t)
    (hch : is_chain t.critical_live_tasks_list t.critical_live_task_head (pre ++ c :: post) = true)
    (hcn : t.critical_live_tasks_list[c]? = some cn)
    (h0 : 0 ≤ t.free_critlist_entries)
    (h1 : t.free_critlist_entries.toNat < t.free_critlist_pool.length) :
    ∃ N H, unlink_critical (last_or none pre) c t = some { t with
        free_critlist_pool := t.free_critlist_pool.set t.free_critlist_entries.toNat cn.clt_block_id
        free_critlist_entries := t.free_critlist_entries + 1
        critical_live_tasks_list := N
        critical_live_task_head := H
        total_critical_tasks := wrap_int (t.total_critical_tasks - 1) } ∧
      N.length = t.critical_live_tasks_list.length ∧
      is_chain N H (pre ++ post) = true ∧
      ids_of N (pre ++ post) = ids_of t.critical_live_tasks_list pre
        ++ ids_of t.critical_live_tasks_list post := by
  have hnd := is_chain_nodup _ _ _ hch
  have hch0 := hch
  unfold is_chain at hch
  rw [is_seg_append] at hch
  obtain ⟨mid, hpre, hrest⟩ := hch
  rw [is_seg_cons] at hrest
  obtain ⟨hmid, cn', hcn', hpost⟩ := hrest
  rw [hcn] at hcn'
  cases hcn'
  subst hmid
  have hclt : c < t.critical_live_tasks_list.length := (List.getElem?_eq_some.mp hcn).1
  have hcpost : c ∉ post := by
    have := (List.nodup_append.mp hnd).2.1
    exact (List.nodup_cons.mp this).1
  have hcpre : c ∉ pre := by
    intro hc
    exact (List.nodup_append.mp hnd).2.2 hc (List.mem_cons_self _ _)
  rcases List.eq_nil_or_concat pre with hp | ⟨pre', l, hp⟩
  · subst hp
    rw [is_seg_nil] at hpre
    refine ⟨t.critical_live_tasks_list.set c { clt_block_id := -1, next := none }, cn.next,
      ?_, ?_, ?_, ?_⟩
    · simp only [unlink_critical, hcn, wr_of_lt _ h0 h1, last_or]
      simp only [List.getElem?_set_self hclt, List.set_set]
    · simp
    · simp only [List.nil_append, is_chain]
      rw [is_seg_set_of_not_mem _ _ _ _ _ _ hcpost]
      exact hpost
    · simp only [List.nil_append]
      rw [ids_of_set_of_not_mem _ _ _ _ hcpost]
      simp [ids_of]
  · subst hp
    rw [List.concat_eq_append] at *
    rw [is_seg_append] at hpre
    obtain ⟨m1, hpre', hl⟩ := hpre
    rw [is_seg_cons] at hl
    obtain ⟨hm1, ln, hln, hlz⟩ := hl
    rw [is_seg_nil] at hlz
    subst hm1
    have hlc : l ≠ c := by
      intro h
      exact hcpre (by simp [h])
    have hllt : l < t.critical_live_tasks_list.length := (List.getElem?_eq_some.mp hln).1
    have hnd' := List.nodup_append.mp hnd
    have hlpre' : l ∉ pre' := by
      have := List.nodup_append.mp hnd'.1
      intro h
      exact this.2.2 h (List.mem_singleton_self _)
    have hcpre' : c ∉ pre' := fun h => hcpre (List.mem_append_left _ h)
    have hlpost : l ∉ post := by
      intro h
      exact hnd'.2.2 (List.mem_append_right _ (List.mem_singleton_self _))
        (List.mem_cons_of_mem _ h)
    refine ⟨((t.critical_live_tasks_list.set c { clt_block_id := -1, next := cn.next }).set l
        { clt_block_id := ln.clt_block_id, next := cn.next }).set c
        { clt_block_id := -1, next := none }, t.critical_live_task_head, ?_, ?_, ?_, ?_⟩
    · simp only [unlink_critical, hcn, wr_of_lt _ h0 h1, last_or_append_singleton,
        List.getElem?_set_ne (Ne.symm hlc), hln]
      have hc2 : c < ((t.critical_live_tasks_list.set c
          { clt_block_id := -1, next := cn.next }).set l
          { clt_block_id := ln.clt_block_id, next := cn.next }).length := by simpa using hclt
      simp only [List.getElem?_set_ne hlc, List.getElem?_set_self (by simpa using hclt)]
    · simp
    · unfold is_chain
      rw [List.append_assoc, is_seg_append]
      refine ⟨some l, ?_, ?_⟩
      · rw [is_seg_set_of_not_mem _ _ _ _ _ _ hcpre', is_seg_set_of_not_mem _ _ _ _ _ _ hlpre',
          is_seg_set_of_not_mem _ _ _ _ _ _ hcpre']
        exact hpre'
      · rw [List.singleton_append, is_seg_cons]
        refine ⟨rfl, { clt_block_id := ln.clt_block_id, next := cn.next }, ?_, ?_⟩
        · rw [List.getElem?_set_ne (Ne.symm hlc), List.getElem?_set_self (by simpa using hllt)]
        · rw [is_seg_set_of_not_mem _ _ _ _ _ _ hcpost, is_seg_set_of_not_mem _ _ _ _ _ _ hlpost,
            is_seg_set_of_not_mem _ _ _ _ _ _ hcpost]
          exact hpost
    · rw [ids_of_append _ (pre' ++ [l]) post]
      congr 1
      · apply ids_of_congr
        intro d hd
        have hdc : c ≠ d := by
          intro h; subst h; exact hcpre hd
        rw [List.getElem?_set_ne hdc]
        by_cases hdl : l = d
        · subst hdl
          rw [List.getElem?_set_self (by simpa using hllt), hln]
          rfl
        · rw [List.getElem?_set_ne hdl, List.getElem?_set_ne hdc]
      · rw [ids_of_set_of_not_mem _ _ _ _ hcpost, ids_of_set_of_not_mem _ _ _ _ hlpost,
          ids_of_set_of_not_mem _ _ _ _ hcpost]

theorem free_full (s : Sched) (mb : Nat) (m : task_metadata_block_t)
    (hlock : s.free_metadata_mutex = false)
    (hmb : s.master_metadata_pool[mb]? = some m)
    (hfull : ¬ s.free_metadata_blocks < 32) :
    free_task_metadata_block mb s = .exits (-5) { s with free_metadata_mutex := true } := by
  simp [free_task_metadata_block, hlock, hmb, hfull]

theorem free_noncritical (s : Sched) (mb : Nat) (m b : task_metadata_block_t)
    (hlock : s.free_metadata_mutex = false)
    (hmb : s.master_metadata_pool[mb]? = some m)
    (h0 : 0 ≤ s.free_metadata_blocks) (h1 : s.free_metadata_blocks < 32)
    (hl : s.free_metadata_blocks.toNat < s.free_metadata_pool.length)
    (hb : rd s.master_metadata_pool m.block_id = some b)
    (hnc : ¬ b.crit_level > 1) :
    free_task_metadata_block mb s = .returns () { s with
      free_metadata_pool := s.free_metadata_pool.set s.free_metadata_blocks.toNat m.block_id
      free_metadata_blocks := s.free_metadata_blocks + 1
      master_metadata_pool := s.master_metadata_pool.set m.block_id.toNat (cleared b)
      free_metadata_mutex := false } := by
  simp [free_task_metadata_block, hlock, hmb, h1, wr_of_lt _ h0 hl, hb, hnc, clear_block, cleared]

theorem free_critical_missing (s : Sched) (mb : Nat) (m b : task_metadata_block_t)
    (ns : List Nat)
    (hlock : s.free_metadata_mutex = false)
    (hmb : s.master_metadata_pool[mb]? = some m)
    (h0 : 0 ≤ s.free_metadata_blocks) (h1 : s.free_metadata_blocks < 32)
    (hl : s.free_metadata_blocks.toNat < s.free_metadata_pool.length)
    (hb : rd s.master_metadata_pool m.block_id = some b)
    (hc : b.crit_level > 1)
    (hch : is_chain s.critical_live_tasks_list s.critical_live_task_head ns = true)
    (hnone : none_carries s.critical_live_tasks_list m.block_id ns) :
    free_task_metadata_block mb s = .exits (-6) { s with
      free_metadata_pool := s.free_metadata_pool.set s.free_metadata_blocks.toNat m.block_id
      free_metadata_blocks := s.free_metadata_blocks + 1
      free_metadata_mutex := true } := by
  have hlen := is_chain_length_le _ _ _ hch
  have hscan := scan_critical_stop s.critical_live_tasks_list m.block_id none
    (fun c hc => by cases hc) ns s.critical_live_task_head none
    (s.critical_live_tasks_list.length + 1) hch hnone (by omega)
  simp [free_task_metadata_block, hlock, hmb, h1, wr_of_lt _ h0 hl, hb, hc, hscan]

theorem free_critical_found (s : Sched) (mb : Nat) (m b : task_metadata_block_t)
    (pre post : List Nat) (c : Nat) (cn : blockid_linked_list_t)
    (hlock : s.free_metadata_mutex = false)
    (hmb : s.master_metadata_pool[mb]? = some m)
    (h0 : 0 ≤ s.free_metadata_blocks) (h1 : s.free_metadata_blocks < 32)
    (hl : s.free_metadata_blocks.toNat < s.free_metadata_pool.length)
    (hb : rd s.master_metadata_pool m.block_id = some b)
    (hc : b.crit_level > 1)
    (hch : is_chain s.critical_live_tasks_list s.critical_live_task_head (pre ++ c :: post) = true)
    (hcn : s.critical_live_tasks_list[c]? = some cn)
    (hid : cn.clt_block_id = m.block_id)
    (hnone : none_carries s.critical_live_tasks_list m.block_id pre)
    (hf0 : 0 ≤ s.free_critlist_entries)
    (hf1 : s.free_critlist_entries.toNat < s.free_critlist_pool.length) :
    ∃ N H, free_task_metadata_block mb s = .returns () { s with
        free_metadata_pool := s.free_metadata_pool.set s.free_metadata_blocks.toNat m.block_id
        free_metadata_blocks := s.free_metadata_blocks + 1
        master_metadata_pool := s.master_metadata_pool.set m.block_id.toNat (cleared b)
        free_metadata_mutex := false
        free_critlist_pool := s.free_critlist_pool.set s.free_critlist_entries.toNat m.block_id
        free_critlist_entries := s.free_critlist_entries + 1
        critical_live_tasks_list := N
        critical_live_task_head := H
        total_critical_tasks := wrap_int (s.total_critical_tasks - 1) } ∧
      N.length = s.critical_live_tasks_list.length ∧
      is_chain N H (pre ++ post) = true ∧
      ids_of N (pre ++ post) = ids_of s.critical_live_tasks_list pre
        ++ ids_of s.critical_live_tasks_list post := by
  have hlen := is_chain_length_le _ _ _ hch
  have hseg : is_seg s.critical_live_tasks_list s.critical_live_task_head pre (some c) = true := by
    unfold is_chain at hch
    rw [is_seg_append] at hch
    obtain ⟨mid, hp, hr⟩ := hch
    rw [is_seg_cons] at hr
    rw [← hr.1]; exact hp
  have hscan := scan_critical_stop s.critical_live_tasks_list m.block_id (some c)
    (fun c2 hc2 => by cases hc2; exact ⟨cn, hcn, hid⟩) pre s.critical_live_task_head none
    (s.critical_live_tasks_list.length + 1) hseg hnone (by simp at hlen; omega)
  obtain ⟨N, H, hun, hN, hchain, hids⟩ := unlink_critical_spec
    { s with
      free_metadata_mutex := true
      free_metadata_pool := s.free_metadata_pool.set s.free_metadata_blocks.toNat m.block_id
      free_metadata_blocks := s.free_metadata_blocks + 1 } pre post c cn hch hcn hf0 hf1
  refine ⟨N, H, ?_, hN, hchain, hids⟩
  dsimp only at hun
  simp [free_task_metadata_block, hlock, hmb, h1, wr_of_lt _ h0 hl, hb, hc, hscan, hun,
    clear_block, cleared, hid]

theorem scan_critical_succ (nodes : List blockid_linked_list_t) (bi : Int) :
    ∀ (fuel : Nat) (l a : Option Nat), scan_critical nodes bi fuel l a ≠ .spins →
      scan_critical nodes bi (fuel + 1) l a = scan_critical nodes bi fuel l a := by
  intro fuel
  induction fuel with
  | zero => intro l a h; simp [scan_critical] at h
  | succ f ih =>
    intro l a h
    cases a with
    | none => simp [scan_critical]
    | some c =>
      cases hn : nodes[c]? with
      | none => simp [scan_critical, hn]
      | some n =>
        by_cases hid : n.clt_block_id = bi
        · simp [scan_critical, hn, hid]
        · have h2 : scan_critical nodes bi f (some c) n.next ≠ .spins := by
            simpa [scan_critical, hn, hid] using h
          have := ih (some c) n.next h2
          simp only [scan_critical, hn, hid, ne_eq, not_false_eq_true, ↓reduceIte] at this ⊢
          exact this

theorem scan_critical_le (nodes : List blockid_linked_list_t) (bi : Int)
    (f g : Nat) (l a : Option Nat) (hfg : f ≤ g) (h : scan_critical nodes bi f l a ≠ .spins) :
    scan_critical nodes bi g l a = scan_critical nodes bi f l a := by
  induction g with
  | zero =>
    have : f = 0 := by omega
    subst this; rfl
  | succ g ih =>
    by_cases hf : f = g + 1
    · subst hf; rfl
    · have hle : f ≤ g := by omega
      have h2 := ih hle
      rw [← h2] at h
      rw [scan_critical_succ nodes bi g l a h, h2]

/-- The nodes a scan walks over before it ends. -/
theorem scan_critical_path (nodes : List blockid_linked_list_t) (bi : Int) :
    ∀ (fuel : Nat) (l a : Option Nat), scan_critical nodes bi fuel l a ≠ .spins →
      ∃ pre z, is_seg nodes a pre z = true ∧ (∀ d ∈ pre, ¬ scan_ends nodes bi (some d)) ∧
        scan_ends nodes bi z ∧
        scan_critical nodes bi (pre.length + 1) l a = scan_critical nodes bi fuel l a := by
  intro fuel
  induction fuel with
  | zero => intro l a h; simp [scan_critical] at h
  | succ f ih =>
    intro l a h
    cases a with
    | none =>
      exact ⟨[], none, by simp [is_seg], by simp, trivial, by simp [scan_critical]⟩
    | some c =>
      cases hn : nodes[c]? with
      | none =>
        exact ⟨[], some c, by simp [is_seg], by simp, by simp [scan_ends, hn],
          by simp [scan_critical, hn]⟩
      | some n =>
        by_cases hid : n.clt_block_id = bi
        · exact ⟨[], some c, by simp [is_seg], by simp, by simp [scan_ends, hn, hid],
            by simp [scan_critical, hn, hid]⟩
        · have h2 : scan_critical nodes bi f (some c) n.next ≠ .spins := by
            simpa [scan_critical, hn, hid] using h
          obtain ⟨pre, z, hseg, hpre, hz, heq⟩ := ih (some c) n.next h2
          refine ⟨c :: pre, z, ?_, ?_, hz, ?_⟩
          · rw [is_seg_cons]; exact ⟨rfl, n, hn, hseg⟩
          · intro d hd
            rcases List.mem_cons.mp hd with rfl | hd
            · simp [scan_ends, hn, hid]
            · exact hpre d hd
          · simp only [List.length_cons, scan_critical, hn, hid, ne_eq, not_false_eq_true,
              ↓reduceIte]
            exact heq

/-- The bound on the scan is sound: a scan that has not ended after one test of its condition
    more than there are nodes is in a cycle and does not end, whatever the number of tests. -/
theorem scan_critical_spins (nodes : List blockid_linked_list_t) (bi : Int) (l a : Option Nat)
    (h : scan_critical nodes bi (nodes.length + 1) l a = .spins) :
    ∀ fuel, scan_critical nodes bi fuel l a = .spins := by
  intro fuel
  by_contra hne
  obtain ⟨pre, z, hseg, hpre, hz, heq⟩ := scan_critical_path nodes bi fuel l a hne
  have hlen := is_seg_length_le nodes (scan_ends nodes bi) pre a z hseg hpre hz
  have h1 : scan_critical nodes bi (pre.length + 1) l a ≠ .spins := by rw [heq]; exact hne
  have := scan_critical_le nodes bi (pre.length + 1) (nodes.length + 1) l a (by omega) h1
  rw [h] at this
  exact h1 this.symm

theorem push_critical_frame (bi : Int) (s t : Sched) (h : push_critical bi s = some t) :
    t.master_metadata_pool = s.master_metadata_pool ∧
    t.free_metadata_pool = s.free_metadata_pool ∧
    t.free_metadata_blocks = s.free_metadata_blocks ∧
    t.free_metadata_mutex = s.free_metadata_mutex ∧
    t.accelerator_in_use_by = s.accelerator_in_use_by := by
  cases h1 : rd s.free_critlist_pool (s.free_critlist_entries - 1) with
  | none => simp [push_critical, h1] at h
  | some li =>
    cases h2 : wr s.free_critlist_pool (s.free_critlist_entries - 1) (-1) with
    | none => simp [push_critical, h1, h2] at h
    | some fcp =>
      cases h3 : wr s.critical_live_tasks_list li
          { clt_block_id := bi, next := s.critical_live_task_head } with
      | none => simp [push_critical, h1, h2, h3] at h
      | some nodes =>
        simp [push_critical, h1, h2, h3] at h
        subst h
        exact ⟨rfl, rfl, rfl, rfl, rfl⟩

theorem unlink_critical_frame (l : Option Nat) (c : Nat) (s t : Sched)
    (h : unlink_critical l c s = some t) :
    t.master_metadata_pool = s.master_metadata_pool ∧
    t.free_metadata_pool = s.free_metadata_pool ∧
    t.free_metadata_blocks = s.free_metadata_blocks ∧
    t.free_metadata_mutex = s.free_metadata_mutex ∧
    t.accelerator_in_use_by = s.accelerator_in_use_by := by
  cases h1 : s.critical_live_tasks_list[c]? with
  | none => simp [unlink_critical, h1] at h
  | some cn =>
    cases h2 : wr s.free_critlist_pool s.free_critlist_entries cn.clt_block_id with
    | none => simp [unlink_critical, h1, h2] at h
    | some fcp =>
      cases l with
      | none =>
        simp only [unlink_critical, h1, h2] at h
        split at h
        · cases h
        · cases h; exact ⟨rfl, rfl, rfl, rfl, rfl⟩
      | some l =>
        simp only [unlink_critical, h1, h2] at h
        split at h
        · cases h
        · split at h
          · cases h
          · cases h; exact ⟨rfl, rfl, rfl, rfl, rfl⟩

/-- What a call of `get_task_metadata_block` has done to the slot pool and the free pool by the time it
    returns, exits or hangs. -/
theorem get_final (j k : Int) (s s' : Sched)
    (h : final_state (get_task_metadata_block j k s) = some s') :
    (s'.master_metadata_pool = s.master_metadata_pool ∧
      s'.free_metadata_pool = s.free_metadata_pool ∧
      s'.free_metadata_blocks = s.free_metadata_blocks) ∨
    (∃ bi m, 1 ≤ s.free_metadata_blocks ∧
      rd s.free_metadata_pool (s.free_metadata_blocks - 1) = some bi ∧
      rd s.master_metadata_pool bi = some m ∧
      s'.master_metadata_pool = s.master_metadata_pool.set bi.toNat (allocated j k m) ∧
      s'.free_metadata_pool = s.free_metadata_pool.set (s.free_metadata_blocks - 1).toNat (-1) ∧
      s'.free_metadata_blocks = s.free_metadata_blocks - 1) := by
  by_cases hlock : s.free_metadata_mutex = true
  · simp [get_task_metadata_block, hlock, final_state] at h
    subst h; left; exact ⟨rfl, rfl, rfl⟩
  by_cases hfree : s.free_metadata_blocks < 1
  · simp [get_task_metadata_block, hlock, hfree, final_state] at h
    subst h; left; exact ⟨rfl, rfl, rfl⟩
  cases hbi : rd s.free_metadata_pool (s.free_metadata_blocks - 1) with
  | none => simp [get_task_metadata_block, hlock, hfree, hbi, final_state] at h
  | some bi =>
    by_cases hguard : bi < 0 ∨ 32 < bi
    · simp [get_task_metadata_block, hlock, hfree, hbi, hguard, final_state] at h
      subst h; left; exact ⟨rfl, rfl, rfl⟩
    have hguard2 : ¬ (bi < 0 ∨ bi > (total_metadata_pool_blocks : Int)) := by
      simpa using hguard
    obtain ⟨hb0, hbl⟩ := rd_lt hbi
    have hwr := wr_of_lt (-1) hb0 hbl
    cases hm : rd s.master_metadata_pool bi with
    | none => simp [get_task_metadata_block, hlock, hfree, hbi, hguard, hwr, hm, final_state] at h
    | some m =>
      right
      refine ⟨bi, m, by omega, rfl, hm, ?_⟩
      by_cases hk : k > 1
      · simp only [get_task_metadata_block, hlock, hfree, hbi, hguard2, hwr, hm, hk] at h
        simp only [Bool.false_eq_true, ↓reduceIte] at h
        split at h
        · simp [final_state] at h
        · rename_i t ht
          obtain ⟨h1, h2, h3, _⟩ := push_critical_frame _ _ _ ht
          simp only [final_state, Option.some.injEq] at h
          subst h
          exact ⟨h1, h2, h3⟩
      · simp [get_task_metadata_block, hlock, hfree, hbi, hguard, hwr, hm, hk, final_state] at h
        subst h
        exact ⟨rfl, by simp, rfl⟩

/-- What a call of `free_task_metadata_block` has done to the slot pool and the free pool when it returns. -/
theorem free_returns (mb : Nat) (s s' : Sched)
    (h : free_task_metadata_block mb s = .returns () s') :
    ∃ m b, s.master_metadata_pool[mb]? = some m ∧
      0 ≤ s.free_metadata_blocks ∧ s.free_metadata_blocks < 32 ∧
      s.free_metadata_blocks.toNat < s.free_metadata_pool.length ∧
      rd s.master_metadata_pool m.block_id = some b ∧
      s'.master_metadata_pool = s.master_metadata_pool.set m.block_id.toNat (cleared b) ∧
      s'.free_metadata_pool = s.free_metadata_pool.set s.free_metadata_blocks.toNat m.block_id ∧
      s'.free_metadata_blocks = s.free_metadata_blocks + 1 := by
  by_cases hlock : s.free_metadata_mutex = true
  · simp [free_task_metadata_block, hlock] at h
  cases hm : s.master_metadata_pool[mb]? with
  | none => simp [free_task_metadata_block, hlock, hm] at h
  | some m =>
    by_cases hfree : s.free_metadata_blocks < 32
    swap
    · simp [free_task_metadata_block, hlock, hm, hfree] at h
    cases hw : wr s.free_metadata_pool s.free_metadata_blocks m.block_id with
    | none => simp [free_task_metadata_block, hlock, hm, hfree, hw] at h
    | some fmp =>
      obtain ⟨hw0, hw1, hw2⟩ := wr_eq_some hw
      cases hb : rd s.master_metadata_pool m.block_id with
      | none => simp [free_task_metadata_block, hlock, hm, hfree, hw, hb] at h
      | some b =>
        refine ⟨m, b, rfl, hw0, hfree, hw1, hb, ?_⟩
        by_cases hc : b.crit_level > 1
        · simp only [free_task_metadata_block, hlock, hm, hfree, hw, hb, hc] at h
          simp only [Bool.false_eq_true, ↓reduceIte, Nat.cast_ofNat, hfree] at h
          split at h
          · cases h
          · cases h
          · cases h
          · split at h
            · cases h
            · rename_i t ht
              obtain ⟨h1, h2, h3, _⟩ := unlink_critical_frame _ _ _ _ ht
              simp only [clear_block, h1, hb] at h
              cases h
              simp [h1, h2, h3, hw2, cleared]
        · simp [free_task_metadata_block, hlock, hm, hfree, hw, hb, hc, clear_block] at h
          subst h
          simp [hw2, cleared]

theorem set_status_eq (mb : Nat) (st : Int) (s t : Sched) (h : set_status mb st s = some t) :
    ∃ m, s.master_metadata_pool[mb]? = some m ∧
      t = { s with master_metadata_pool := s.master_metadata_pool.set mb { m with status := st } } := by
  cases hm : s.master_metadata_pool[mb]? with
  | none => simp [set_status, hm] at h
  | some m =>
    simp [set_status, hm] at h
    exact ⟨m, rfl, h.symm⟩

/-- What the selector has done by the time it returns, exits or hangs: it has at most
    written the two assignment fields of its slot, and it returns only for the two job types. -/
theorem select_final (cfg : Build) (rand : Nat) (policy : Int) (mb : Nat) (s s' : Sched)
    (h : final_state (select_target_accelerator cfg rand policy mb s) = some s') :
    s' = s ∨
    (∃ m p i, s.master_metadata_pool[mb]? = some m ∧
      (m.job_type = FFT_TASK ∨ m.job_type = VITERBI_TASK) ∧
      s' = { s with master_metadata_pool := (s.master_metadata_pool.set mb
              { m with accelerator_type := p, accelerator_id := i }) }) := by
  by_cases hp : policy = SELECT_ACCEL_AND_WAIT_POLICY
  swap
  · simp [select_target_accelerator, hp, final_state] at h
    exact Or.inl h.symm
  simp only [select_target_accelerator, hp, ↓reduceIte] at h
  cases hm : s.master_metadata_pool[mb]? with
  | none => simp [pick_accel_and_wait_for_available, hm, final_state] at h
  | some m =>
    simp only [pick_accel_and_wait_for_available, hm] at h
    split at h
    · simp [final_state] at h; exact Or.inl h.symm
    · rename_i p hprop
      have hjob : m.job_type = FFT_TASK ∨ m.job_type = VITERBI_TASK := by
        by_cases h1 : m.job_type = FFT_TASK
        · exact Or.inl h1
        · by_cases h2 : m.job_type = VITERBI_TASK
          · exact Or.inr h2
          · simp [h1, h2] at hprop
      split at h
      · simp [final_state] at h
      · simp [final_state] at h; exact Or.inl h.symm
      · rename_i i _
        simp only [final_state, Option.some.injEq] at h
        exact Or.inr ⟨m, p, i, rfl, hjob, h.symm⟩

/-- What `dispatch` has done by the time it returns or exits. -/
theorem dispatch_final (mb : Nat) (s s' : Sched)
    (h : final_state (dispatch mb s) = some s') :
    s' = s ∨
    (∃ m t sg, s.master_metadata_pool[mb]? = some m ∧
      s' = { s with
        accelerator_in_use_by := t
        master_metadata_pool := s.master_metadata_pool.set mb { m with status := TASK_RUNNING }
        signalled := sg }) := by
  cases hm : s.master_metadata_pool[mb]? with
  | none => simp [dispatch, hm, final_state] at h
  | some m =>
    simp only [dispatch, hm] at h
    split at h
    · split at h
      · simp [final_state] at h
      · split at h
        · simp [final_state] at h; exact Or.inl h.symm
        · split at h
          · simp [final_state] at h
          · split at h
            · simp only [final_state, Option.some.injEq] at h
              exact Or.inr ⟨m, _, _, rfl, h.symm⟩
            · simp [final_state] at h
    · simp [final_state] at h; exact Or.inl h.symm

/-- What a call of `request_execution` has done to the slot pool and the free pool by the time it
    returns, exits or hangs. -/
theorem request_final (cfg : Build) (rand mb : Nat) (s s' : Sched)
    (h : final_state (request_execution cfg rand mb s) = some s') :
    ∃ m m', s.master_metadata_pool[mb]? = some m ∧
      s'.master_metadata_pool = s.master_metadata_pool.set mb m' ∧
      m'.block_id = m.block_id ∧ m'.job_type = m.job_type ∧ m'.crit_level = m.crit_level ∧
      (m'.status = TASK_QUEUED ∨ m'.status = TASK_RUNNING) ∧
      s'.free_metadata_pool = s.free_metadata_pool ∧
      s'.free_metadata_blocks = s.free_metadata_blocks ∧
      ((∃ v, request_execution cfg rand mb s = .returns v s') →
        m.job_type = FFT_TASK ∨ m.job_type = VITERBI_TASK) := by
  cases hs1 : set_status mb TASK_QUEUED s with
  | none => simp [request_execution, hs1, final_state] at h
  | some s1 =>
    obtain ⟨m, hm, hs1eq⟩ := set_status_eq _ _ _ _ hs1
    have hlen : mb < s.master_metadata_pool.length := (List.getElem?_eq_some.mp hm).1
    have hm1 : s1.master_metadata_pool[mb]? = some { m with status := TASK_QUEUED } := by
      rw [hs1eq]; simp [hlen]
    have key : ∀ t, final_state (select_target_accelerator cfg rand
          s1.global_scheduler_selection_policy mb s1) = some t →
        ∃ m2, t.master_metadata_pool[mb]? = some m2 ∧
          t.master_metadata_pool = s.master_metadata_pool.set mb m2 ∧
          m2.block_id = m.block_id ∧ m2.job_type = m.job_type ∧ m2.crit_level = m.crit_level ∧
          m2.status = TASK_QUEUED ∧
          t.free_metadata_pool = s.free_metadata_pool ∧
          t.free_metadata_blocks = s.free_metadata_blocks := by
      intro t ht
      rcases select_final cfg rand _ mb s1 t ht with h1 | ⟨m2, p, i, hm2, _, h1⟩
      · subst h1
        exact ⟨_, hm1, by rw [hs1eq], rfl, rfl, rfl, rfl, by rw [hs1eq], by rw [hs1eq]⟩
      · rw [hm1] at hm2; cases hm2
        refine ⟨{ m with status := TASK_QUEUED, accelerator_type := p, accelerator_id := i },
          ?_, ?_, rfl, rfl, rfl, rfl, by rw [h1, hs1eq], by rw [h1, hs1eq]⟩
        · rw [h1, hs1eq]; simp [hlen]
        · rw [h1, hs1eq]; simp
    simp only [request_execution, hs1] at h ⊢
    cases hsel : select_target_accelerator cfg rand s1.global_scheduler_selection_policy mb s1 with
    | undefined => simp [hsel, final_state] at h
    | exits c t =>
      simp only [hsel, final_state, Option.some.injEq] at h
      subst h
      obtain ⟨m2, _, hp2, hb2, hj2, hc2, hst2, hf2, hn2⟩ := key t (by rw [hsel]; rfl)
      refine ⟨m, m2, hm, hp2, hb2, hj2, hc2, Or.inl hst2, hf2, hn2, ?_⟩
      rintro ⟨v, hv⟩; cases hv
    | hangs t =>
      simp only [hsel, final_state, Option.some.injEq] at h
      subst h
      obtain ⟨m2, _, hp2, hb2, hj2, hc2, hst2, hf2, hn2⟩ := key t (by rw [hsel]; rfl)
      refine ⟨m, m2, hm, hp2, hb2, hj2, hc2, Or.inl hst2, hf2, hn2, ?_⟩
      rintro ⟨v, hv⟩; cases hv
    | returns u s2 =>
      simp only [hsel] at h ⊢
      have hsf := select_final cfg rand _ mb s1 s2 (by rw [hsel]; rfl)
      have hjob : m.job_type = FFT_TASK ∨ m.job_type = VITERBI_TASK := by
        rcases hsf with h1 | ⟨m2, p, i, hm2, hj, h1⟩
        · subst h1
          simp only [select_target_accelerator, pick_accel_and_wait_for_available, hm1] at hsel
          by_cases hp : s2.global_scheduler_selection_policy = SELECT_ACCEL_AND_WAIT_POLICY
          · simp only [hp, ↓reduceIte] at hsel
            by_cases h1 : m.job_type = FFT_TASK
            · exact Or.inl h1
            · by_cases h2 : m.job_type = VITERBI_TASK
              · exact Or.inr h2
              · simp [h1, h2] at hsel
          · simp [hp] at hsel
        · rw [hm1] at hm2; cases hm2; exact hj
      obtain ⟨m2, hm2, hp2, hb2, hj2, hc2, hst2, hf2, hn2⟩ := key s2 (by rw [hsel]; rfl)
      rcases dispatch_final mb s2 s' h with h1 | ⟨m3, t, sg, hm3, h1⟩
      · subst h1
        exact ⟨m, m2, hm, hp2, hb2, hj2, hc2, Or.inl hst2, hf2, hn2, fun _ => hjob⟩
      · rw [hm2] at hm3; cases hm3
        refine ⟨m, { m2 with status := TASK_RUNNING }, hm, ?_, hb2, hj2, hc2, Or.inr rfl,
          by rw [h1]; exact hf2, by rw [h1]; exact hn2, fun _ => hjob⟩
        rw [h1]; simp only; rw [hp2]; simp

/-- What a call of `mark_task_done` has done to the slot pool and the free pool when it returns. -/
theorem done_final (mb : Nat) (s s' : Sched)
    (h : final_state (mark_task_done inert_hooks mb s) = some s') :
    ∃ m, s.master_metadata_pool[mb]? = some m ∧
      s'.master_metadata_pool = s.master_metadata_pool.set mb
        { m with status := TASK_DONE, atFinish := none } ∧
      s'.free_metadata_pool = s.free_metadata_pool ∧
      s'.free_metadata_blocks = s.free_metadata_blocks := by
  cases hs1 : set_status mb TASK_DONE s with
  | none => simp [mark_task_done, hs1, final_state] at h
  | some s1 =>
    obtain ⟨m, hm, hs1eq⟩ := set_status_eq _ _ _ _ hs1
    have hlen : mb < s.master_metadata_pool.length := (List.getElem?_eq_some.mp hm).1
    have hm1 : s1.master_metadata_pool[mb]? = some { m with status := TASK_DONE } := by
      rw [hs1eq]; simp [hlen]
    simp only [mark_task_done, hs1] at h
    have hrel : ∀ o, release_accelerator_for_task mb s1 = o →
        o = .undefined ∨ ∃ t r, o = .returns ()
          { s1 with accelerator_in_use_by := t, mismatch_reports := r } := by
      intro o ho
      simp only [release_accelerator_for_task, hm1] at ho
      split at ho
      · exact Or.inl ho.symm
      · split at ho
        · exact Or.inr ⟨_, _, ho.symm⟩
        · split at ho
          · exact Or.inl ho.symm
          · exact Or.inr ⟨_, _, ho.symm⟩
    rcases hrel _ rfl with h1 | ⟨t, r, h1⟩
    · simp [h1, final_state] at h
    · have hlen1 : mb < s1.master_metadata_pool.length := by rw [hs1eq]; simpa using hlen
      simp only [h1, set_status, hm1, run_at_finish, List.getElem?_set_self hlen1] at h
      cases hh : m.atFinish with
      | none =>
        simp only [hh, clear_hook, List.getElem?_set_self hlen1, List.length_set,
          final_state, Option.some.injEq] at h
        subst h
        refine ⟨m, hm, ?_, by rw [hs1eq], by rw [hs1eq]⟩
        simp [hs1eq, hh]
      | some k =>
        simp only [hh, inert_hooks, clear_hook, List.getElem?_set_self hlen1, List.length_set,
          final_state, Option.some.injEq] at h
        subst h
        refine ⟨m, hm, ?_, by rw [hs1eq], by rw [hs1eq]⟩
        simp [hs1eq]

theorem take_set_self {α : Type} (l : List α) (n : Nat) (a : α) :
    (l.set n a).take n = l.take n := by
  rw [List.set_take]
  exact List.set_eq_of_length_le (by simp)

theorem take_succ_of_get {α : Type} (l : List α) (n : Nat) (a : α) (h : l[n]? = some a) :
    l.take (n + 1) = l.take n ++ [a] := by
  rw [List.take_succ, h]; rfl

theorem take_succ_set {α : Type} (l : List α) (n : Nat) (a : α) (h : n < l.length) :
    (l.set n a).take (n + 1) = l.take n ++ [a] := by
  rw [take_succ_of_get (l.set n a) n a (by simp [h]), take_set_self]

theorem init_pool : (initialize_scheduler startup).master_metadata_pool =
    List.map (fun (i : Nat) =>
      { block_id := Int.ofNat i, status := 0, job_type := 0, crit_level := 0, data_size := 0,
        accelerator_type := 0, accelerator_id := 0, atFinish := none }) (List.range 32) := by
  decide

theorem init_free_entries : free_entries (initialize_scheduler startup) =
    List.map (fun (i : Nat) => Int.ofNat i) (List.range 32) := by
  decide

theorem PoolInv_init : PoolInv (initialize_scheduler startup) := by
  have hget : ∀ (i : Nat) (m : task_metadata_block_t),
      (initialize_scheduler startup).master_metadata_pool[i]? = some m →
      i < 32 ∧ m.block_id = i ∧ m.status = 0 ∧ m.job_type = 0 := by
    intro i m h
    rw [init_pool, List.getElem?_map] at h
    by_cases hi : i < 32
    · rw [List.getElem?_range hi] at h
      simp at h
      subst h
      exact ⟨hi, rfl, rfl, rfl⟩
    · rw [List.getElem?_eq_none (by simpa using hi)] at h
      simp at h
  have hmem : ∀ i : Nat, i < 32 → (i : Int) ∈ free_entries (initialize_scheduler startup) := by
    intro i hi
    rw [init_free_entries]
    exact List.mem_map.mpr ⟨i, List.mem_range.mpr hi, rfl⟩
  constructor
  · decide
  · decide
  · decide
  · decide
  · rw [init_free_entries]
    exact (List.nodup_range 32).map (fun a b hab => by simpa using hab)
  · rw [init_free_entries]
    intro x hx
    obtain ⟨i, hi, rfl⟩ := List.mem_map.mp hx
    have := List.mem_range.mp hi
    simp only [Int.ofNat_eq_coe]
    omega
  · intro i m h; exact (hget i m h).2.1
  · intro i m h; exact Or.inl (hget i m h).2.2.1
  · intro i m h _; exact (hget i m h).2.2.2
  · intro i m h; exact ⟨fun _ => hmem i (hget i m h).1, fun _ => (hget i m h).2.2.1⟩

theorem PoolInv_congr (s t : Sched) (hp : t.master_metadata_pool = s.master_metadata_pool)
    (hf : t.free_metadata_pool = s.free_metadata_pool)
    (hn : t.free_metadata_blocks = s.free_metadata_blocks) (h : PoolInv s) : PoolInv t := by
  have he : free_entries t = free_entries s := by unfold free_entries; rw [hf, hn]
  constructor
  · rw [hp]; exact h.pool_len
  · rw [hf]; exact h.free_len
  · rw [hn]; exact h.free_lo
  · rw [hn]; exact h.free_hi
  · rw [he]; exact h.nodup
  · rw [he]; exact h.range
  · rw [hp]; exact h.ident
  · rw [hp]; exact h.status
  · rw [hp]; exact h.job
  · rw [hp, he]; exact h.free_iff

/-- Rewriting one slot that is not free to a slot that is not free keeps the invariant. -/
theorem PoolInv_set_active (s t : Sched) (mb : Nat) (m m' : task_metadata_block_t)
    (hm : s.master_metadata_pool[mb]? = some m)
    (hp : t.master_metadata_pool = s.master_metadata_pool.set mb m')
    (hf : t.free_metadata_pool = s.free_metadata_pool)
    (hn : t.free_metadata_blocks = s.free_metadata_blocks)
    (hid : m'.block_id = m.block_id)
    (hst : m'.status = 1 ∨ m'.status = 2 ∨ m'.status = 3 ∨ m'.status = 4)
    (hold : m.status ≠ 0)
    (h : PoolInv s) : PoolInv t := by
  have he : free_entries t = free_entries s := by unfold free_entries; rw [hf, hn]
  have hlen : mb < s.master_metadata_pool.length := (List.getElem?_eq_some.mp hm).1
  have hcase : ∀ (i : Nat) (x : task_metadata_block_t), t.master_metadata_pool[i]? = some x →
      (i = mb ∧ x = m') ∨ (i ≠ mb ∧ s.master_metadata_pool[i]? = some x) := by
    intro i x hx
    rw [hp] at hx
    by_cases hi : mb = i
    · subst hi
      rw [List.getElem?_set_self hlen] at hx
      exact Or.inl ⟨rfl, (Option.some.inj hx).symm⟩
    · rw [List.getElem?_set_ne hi] at hx
      exact Or.inr ⟨fun e => hi e.symm, hx⟩
  constructor
  · rw [hp]; simpa using h.pool_len
  · rw [hf]; exact h.free_len
  · rw [hn]; exact h.free_lo
  · rw [hn]; exact h.free_hi
  · rw [he]; exact h.nodup
  · rw [he]; exact h.range
  · intro i x hx
    rcases hcase i x hx with ⟨rfl, rfl⟩ | ⟨_, hx⟩
    · rw [hid]; exact h.ident _ _ hm
    · exact h.ident _ _ hx
  · intro i x hx
    rcases hcase i x hx with ⟨rfl, rfl⟩ | ⟨_, hx⟩
    · exact Or.inr hst
    · exact h.status _ _ hx
  · intro i x hx h0
    rcases hcase i x hx with ⟨rfl, rfl⟩ | ⟨_, hx⟩
    · omega
    · exact h.job _ _ hx h0
  · intro i x hx
    rw [he]
    rcases hcase i x hx with ⟨rfl, rfl⟩ | ⟨_, hx⟩
    · constructor
      · intro h0; omega
      · intro hmem
        exact absurd ((h.free_iff _ _ hm).mpr hmem) hold
    · exact h.free_iff _ _ hx

theorem PoolInv_get (j k : Int) (s s' : Sched) (h : PoolInv s)
    (hs : final_state (get_task_metadata_block j k s) = some s') : PoolInv s' := by
  rcases get_final j k s s' hs with ⟨hp, hf, hn⟩ | ⟨bi, m, h1, hbi, hm, hp, hf, hn⟩
  · exact PoolInv_congr s s' hp hf hn h
  · obtain ⟨hb0, hgetbi⟩ := rd_eq_some.mp hbi
    obtain ⟨k0, hk0⟩ : ∃ k0 : Nat, s.free_metadata_blocks = k0 + 1 :=
      ⟨(s.free_metadata_blocks - 1).toNat, by omega⟩
    have hkk : (s.free_metadata_blocks - 1).toNat = k0 := by omega
    have hk1 : s.free_metadata_blocks.toNat = k0 + 1 := by omega
    rw [hkk] at hgetbi hf
    have hE : free_entries s = s.free_metadata_pool.take k0 ++ [bi] := by
      unfold free_entries; rw [hk1]; exact take_succ_of_get _ _ _ hgetbi
    have hE' : free_entries s' = s.free_metadata_pool.take k0 := by
      unfold free_entries; rw [hf, hn, hkk]; exact take_set_self _ _ _
    have hnd := h.nodup
    rw [hE] at hnd
    have hbin : bi ∈ free_entries s := by rw [hE]; simp
    have hbr := h.range bi hbin
    have hnotin : bi ∉ s.free_metadata_pool.take k0 := by
      intro hmem
      have := (List.nodup_append.mp hnd).2.2 hmem (List.mem_singleton_self _)
      exact this
    obtain ⟨_, hgm⟩ := rd_eq_some.mp hm
    have hlen : bi.toNat < s.master_metadata_pool.length := (List.getElem?_eq_some.mp hgm).1
    have hcase : ∀ (i : Nat) (x : task_metadata_block_t), s'.master_metadata_pool[i]? = some x →
        (i = bi.toNat ∧ x = allocated j k m) ∨ (i ≠ bi.toNat ∧ s.master_metadata_pool[i]? = some x) := by
      intro i x hx
      rw [hp] at hx
      by_cases hi : bi.toNat = i
      · subst hi
        rw [List.getElem?_set_self hlen] at hx
        exact Or.inl ⟨rfl, (Option.some.inj hx).symm⟩
      · rw [List.getElem?_set_ne hi] at hx
        exact Or.inr ⟨fun e => hi e.symm, hx⟩
    constructor
    · rw [hp]; simpa using h.pool_len
    · rw [hf]; simpa using h.free_len
    · rw [hn]; omega
    · rw [hn]; have := h.free_hi; omega
    · rw [hE']; exact (List.nodup_append.mp hnd).1
    · rw [hE']; intro x hx; exact h.range x (by rw [hE]; simp [hx])
    · intro i x hx
      rcases hcase i x hx with ⟨rfl, rfl⟩ | ⟨_, hx⟩
      · exact h.ident _ m hgm
      · exact h.ident _ _ hx
    · intro i x hx
      rcases hcase i x hx with ⟨rfl, rfl⟩ | ⟨_, hx⟩
      · right; left; rfl
      · exact h.status _ _ hx
    · intro i x hx h0
      rcases hcase i x hx with ⟨rfl, rfl⟩ | ⟨_, hx⟩
      · simp [allocated] at h0
      · exact h.job _ _ hx h0
    · intro i x hx
      rw [hE']
      rcases hcase i x hx with ⟨rfl, rfl⟩ | ⟨hne, hx⟩
      · constructor
        · intro h0; simp [allocated] at h0
        · intro hmem
          have : ((bi.toNat : Nat) : Int) = bi := by omega
          rw [this] at hmem
          exact absurd hmem hnotin
      · rw [h.free_iff _ _ hx, hE]
        constructor
        · intro hmem
          rcases List.mem_append.mp hmem with hmem | hmem
          · exact hmem
          · exfalso
            have : (i : Int) = bi := by simpa using hmem
            omega
        · intro hmem; exact List.mem_append_left _ hmem

theorem PoolInv_free (mb : Nat) (s s' : Sched) (h : PoolInv s) (hlive : live s mb = true)
    (hs : free_task_metadata_block mb s = .returns () s') : PoolInv s' := by
  obtain ⟨m, b, hm, h0, h1, hl, hb, hp, hf, hn⟩ := free_returns mb s s' hs
  have hid := h.ident _ _ hm
  obtain ⟨_, hgb⟩ := rd_eq_some.mp hb
  rw [hid] at hgb hp hf
  simp only [Int.toNat_ofNat] at hgb hp
  rw [hm] at hgb
  cases hgb
  have hst : m.status ≠ 0 := by
    simpa [live, hm] using hlive
  obtain ⟨k0, hk0⟩ : ∃ k0 : Nat, s.free_metadata_blocks = k0 := ⟨s.free_metadata_blocks.toNat, by omega⟩
  have hkk : s.free_metadata_blocks.toNat = k0 := by omega
  rw [hkk] at hf hl
  have hE : free_entries s = s.free_metadata_pool.take k0 := by
    unfold free_entries; rw [hkk]
  have hE' : free_entries s' = free_entries s ++ [(mb : Int)] := by
    rw [hE]; unfold free_entries
    rw [hf, hn, show (s.free_metadata_blocks + 1).toNat = k0 + 1 by omega]
    exact take_succ_set _ _ _ hl
  have hnotin : (mb : Int) ∉ free_entries s := fun hmem => hst ((h.free_iff _ _ hm).mpr hmem)
  have hlen : mb < s.master_metadata_pool.length := (List.getElem?_eq_some.mp hm).1
  have hcase : ∀ (i : Nat) (x : task_metadata_block_t), s'.master_metadata_pool[i]? = some x →
      (i = mb ∧ x = cleared m) ∨ (i ≠ mb ∧ s.master_metadata_pool[i]? = some x) := by
    intro i x hx
    rw [hp] at hx
    by_cases hi : mb = i
    · subst hi
      rw [List.getElem?_set_self hlen] at hx
      exact Or.inl ⟨rfl, (Option.some.inj hx).symm⟩
    · rw [List.getElem?_set_ne hi] at hx
      exact Or.inr ⟨fun e => hi e.symm, hx⟩
  constructor
  · rw [hp]; simpa using h.pool_len
  · rw [hf]; simpa using h.free_len
  · rw [hn]; omega
  · rw [hn]; omega
  · rw [hE']
    refine List.nodup_append.mpr ⟨h.nodup, List.nodup_singleton _, ?_⟩
    intro x hx hx2
    rw [List.mem_singleton] at hx2
    subst hx2
    exact hnotin hx
  · rw [hE']
    intro x hx
    rcases List.mem_append.mp hx with hx | hx
    · exact h.range x hx
    · rw [List.mem_singleton] at hx
      subst hx
      have := h.pool_len
      omega
  · intro i x hx
    rcases hcase i x hx with ⟨rfl, rfl⟩ | ⟨_, hx⟩
    · exact hid
    · exact h.ident _ _ hx
  · intro i x hx
    rcases hcase i x hx with ⟨rfl, rfl⟩ | ⟨_, hx⟩
    · left; rfl
    · exact h.status _ _ hx
  · intro i x hx h0
    rcases hcase i x hx with ⟨rfl, rfl⟩ | ⟨_, hx⟩
    · rfl
    · exact h.job _ _ hx h0
  · intro i x hx
    rw [hE']
    rcases hcase i x hx with ⟨rfl, rfl⟩ | ⟨hne, hx⟩
    · exact ⟨fun _ => by simp, fun _ => rfl⟩
    · rw [h.free_iff _ _ hx]
      constructor
      · intro hmem; exact List.mem_append_left _ hmem
      · intro hmem
        rcases List.mem_append.mp hmem with hmem | hmem
        · exact hmem
        · exfalso
          have : (i : Int) = mb := by simpa using hmem
          omega

theorem PoolInv_request (cfg : Build) (rand mb : Nat) (s s' : Sched) (h : PoolInv s)
    (hs : request_execution cfg rand mb s = .returns () s') : PoolInv s' := by
  obtain ⟨m, m', hm, hp, hid, hjob, _, hst, hf, hn, hj⟩ :=
    request_final cfg rand mb s s' (by rw [hs]; rfl)
  have hold : m.status ≠ 0 := by
    intro h0
    have := h.job _ _ hm h0
    rcases hj ⟨(), hs⟩ with h1 | h1 <;> simp [this] at h1
  refine PoolInv_set_active s s' mb m m' hm hp hf hn hid ?_ hold h
  rcases hst with h1 | h1 <;> simp [h1]

theorem PoolInv_done (mb : Nat) (s s' : Sched) (h : PoolInv s) (hlive : live s mb = true)
    (hs : mark_task_done inert_hooks mb s = .returns () s') : PoolInv s' := by
  obtain ⟨m, hm, hp, hf, hn⟩ := done_final mb s s' (by rw [hs]; rfl)
  have hold : m.status ≠ 0 := by simpa [live, hm] using hlive
  exact PoolInv_set_active s s' mb m _ hm hp hf hn rfl (by simp) hold h

theorem PoolInv_step (cfg : Build) (c : Call) (s s' : Sched) (h : PoolInv s)
    (hal : on_live s c = true) (hs : step cfg c s = some s') : PoolInv s' := by
  cases c with
  | acquire j k r =>
    simp only [step] at hs
    split at hs
    · rename_i v t hg
      split at hs
      · cases hs
        exact PoolInv_get j k s s' h (by rw [hg]; rfl)
      · cases hs
    · cases hs
  | release mb =>
    simp only [step] at hs
    split at hs
    · rename_i v t hg
      cases hs
      exact PoolInv_free mb s s' h hal hg
    · cases hs
  | request rand mb =>
    simp only [step] at hs
    split at hs
    · rename_i v t hg
      cases hs
      exact PoolInv_request cfg rand mb s s' h hg
    · cases hs
  | done mb =>
    simp only [step] at hs
    split at hs
    · rename_i v t hg
      cases hs
      exact PoolInv_done mb s s' h hal hg
    · cases hs
  | policy p =>
    simp only [step, Option.some.injEq] at hs
    subst hs
    exact PoolInv_congr s _ rfl rfl rfl h

theorem PoolInv_run (cfg : Build) (cs : List Call) :
    ∀ (s s' : Sched), PoolInv s → run cfg on_live cs s = some s' → PoolInv s' := by
  induction cs with
  | nil => intro s s' h hr; simp [run] at hr; subst hr; exact h
  | cons c cs ih =>
    intro s s' h hr
    simp only [run] at hr
    split at hr
    · rename_i hal
      split at hr
      · cases hr
      · rename_i t ht
        exact ih t s' (PoolInv_step cfg c s t h hal ht) hr
    · cases hr

theorem PoolInv_slot (s : Sched) (h : PoolInv s) (i : Nat) (hi : i < 32) :
    ∃ m, s.master_metadata_pool[i]? = some m ∧
      (is_active s i = true ↔ m.status ≠ 0) ∧ (in_free_pool s i ↔ m.status = 0) := by
  have hlen : i < s.master_metadata_pool.length := by rw [h.pool_len]; exact hi
  refine ⟨s.master_metadata_pool[i], List.getElem?_eq_getElem hlen, ?_, ?_⟩
  · have hst := h.status i _ (List.getElem?_eq_getElem hlen)
    simp only [is_active, List.getElem?_eq_getElem hlen, decide_eq_true_eq, TASK_ALLOCATED,
      TASK_QUEUED, TASK_RUNNING, TASK_DONE]
    generalize s.master_metadata_pool[i].status = x at hst ⊢
    constructor
    · intro h1; omega
    · intro h1; omega
  · exact (h.free_iff i _ (List.getElem?_eq_getElem hlen)).symm

theorem PoolInv_exactly_one (s : Sched) (h : PoolInv s) (i : Nat) (hi : i < 32) :
    (in_free_pool s i ∧ is_active s i = false) ∨ (¬ in_free_pool s i ∧ is_active s i = true) := by
  obtain ⟨m, _, ha, hf⟩ := PoolInv_slot s h i hi
  by_cases h0 : m.status = 0
  · left
    refine ⟨hf.mpr h0, ?_⟩
    cases hact : is_active s i with
    | false => rfl
    | true => exact absurd h0 (ha.mp hact)
  · right
    exact ⟨fun hin => h0 (hf.mp hin), ha.mpr h0⟩

theorem PoolInv_count (s : Sched) (h : PoolInv s) :
    s.free_metadata_blocks + (active_count s : Int) = 32 := by
  have hlenE : (free_entries s).length = s.free_metadata_blocks.toNat := by
    unfold free_entries
    rw [List.length_take, h.free_len]
    have := h.free_hi
    have := h.free_lo
    omega
  have hperm : (free_entries s).Perm
      (List.map (fun (i : Nat) => Int.ofNat i)
        ((List.range 32).filter (fun i => !(is_active s i)))) := by
    rw [List.perm_ext_iff_of_nodup h.nodup]
    · intro x
      constructor
      · intro hx
        obtain ⟨hx0, hx1⟩ := h.range x hx
        refine List.mem_map.mpr ⟨x.toNat, ?_, by simp; omega⟩
        have hi : x.toNat < 32 := by omega
        rw [List.mem_filter]
        refine ⟨List.mem_range.mpr hi, ?_⟩
        rcases PoolInv_exactly_one s h x.toNat hi with ⟨_, h2⟩ | ⟨h1, _⟩
        · simp [h2]
        · exfalso
          apply h1
          unfold in_free_pool
          have : ((x.toNat : Nat) : Int) = x := by omega
          rw [this]; exact hx
      · intro hx
        obtain ⟨i, hi, rfl⟩ := List.mem_map.mp hx
        rw [List.mem_filter] at hi
        have hi32 := List.mem_range.mp hi.1
        rcases PoolInv_exactly_one s h i hi32 with ⟨h1, _⟩ | ⟨_, h2⟩
        · exact h1
        · simp [h2] at hi
    · exact ((List.nodup_range 32).filter _).map (fun a b hab => by simpa using hab)
  have hlen := hperm.length_eq
  rw [hlenE, List.length_map] at hlen
  have hsplit := List.length_eq_countP_add_countP (fun i => is_active s i) (List.range 32)
  simp only [List.length_range] at hsplit
  have hc1 : List.countP (fun i => is_active s i) (List.range 32) = active_count s := by
    unfold active_count
    rw [List.countP_eq_length_filter]
  have hc2 : List.countP (fun i => decide ¬ (is_active s i = true)) (List.range 32)
      = ((List.range 32).filter (fun i => !(is_active s i))).length := by
    rw [List.countP_eq_length_filter]
    congr 1
    apply List.filter_congr
    intro x _
    cases is_active s x <;> rfl
  have := h.free_lo
  omega

/-- What a call of `free_task_metadata_block` has done to the slot pool by the time it returns,
    exits or hangs. -/
theorem free_final (mb : Nat) (s s' : Sched)
    (h : final_state (free_task_metadata_block mb s) = some s') :
    s'.master_metadata_pool = s.master_metadata_pool ∨
    ∃ m b, s.master_metadata_pool[mb]? = some m ∧
      rd s.master_metadata_pool m.block_id = some b ∧
      s'.master_metadata_pool = s.master_metadata_pool.set m.block_id.toNat (cleared b) := by
  cases hout : free_task_metadata_block mb s with
  | undefined => rw [hout] at h; simp [final_state] at h
  | returns v t =>
    rw [hout] at h
    simp only [final_state, Option.some.injEq] at h
    subst h
    obtain ⟨m, b, hm, _, _, _, hb, hp, _, _⟩ := free_returns mb s t hout
    exact Or.inr ⟨m, b, hm, hb, hp⟩
  | exits c t =>
    rw [hout] at h
    simp only [final_state, Option.some.injEq] at h
    subst h
    left
    by_cases hlock : s.free_metadata_mutex = true
    · simp [free_task_metadata_block, hlock] at hout
    cases hm : s.master_metadata_pool[mb]? with
    | none => simp [free_task_metadata_block, hlock, hm] at hout
    | some m =>
      by_cases hfree : s.free_metadata_blocks < 32
      swap
      · simp [free_task_metadata_block, hlock, hm, hfree] at hout
        rw [← hout.2]
      cases hw : wr s.free_metadata_pool s.free_metadata_blocks m.block_id with
      | none => simp [free_task_metadata_block, hlock, hm, hfree, hw] at hout
      | some fmp =>
        cases hb : rd s.master_metadata_pool m.block_id with
        | none => simp [free_task_metadata_block, hlock, hm, hfree, hw, hb] at hout
        | some b =>
          by_cases hc : b.crit_level > 1
          · simp only [free_task_metadata_block, hlock, hm, hfree, hw, hb, hc] at hout
            simp only [Bool.false_eq_true, ↓reduceIte, Nat.cast_ofNat, hfree] at hout
            split at hout
            · cases hout
            · cases hout
            · cases hout; rfl
            · split at hout
              · cases hout
              · simp only [clear_block] at hout
                split at hout <;> cases hout
          · simp [free_task_metadata_block, hlock, hm, hfree, hw, hb, hc, clear_block] at hout
  | hangs t =>
    rw [hout] at h
    simp only [final_state, Option.some.injEq] at h
    subst h
    left
    by_cases hlock : s.free_metadata_mutex = true
    · simp [free_task_metadata_block, hlock] at hout
      rw [← hout]
    cases hm : s.master_metadata_pool[mb]? with
    | none => simp [free_task_metadata_block, hlock, hm] at hout
    | some m =>
      by_cases hfree : s.free_metadata_blocks < 32
      swap
      · simp [free_task_metadata_block, hlock, hm, hfree] at hout
      cases hw : wr s.free_metadata_pool s.free_metadata_blocks m.block_id with
      | none => simp [free_task_metadata_block, hlock, hm, hfree, hw] at hout
      | some fmp =>
        cases hb : rd s.master_metadata_pool m.block_id with
        | none => simp [free_task_metadata_block, hlock, hm, hfree, hw, hb] at hout
        | some b =>
          by_cases hc : b.crit_level > 1
          · simp only [free_task_metadata_block, hlock, hm, hfree, hw, hb, hc] at hout
            simp only [Bool.false_eq_true, ↓reduceIte, Nat.cast_ofNat, hfree] at hout
            split at hout
            · cases hout; rfl
            · cases hout
            · cases hout
            · split at hout
              · cases hout
              · simp only [clear_block] at hout
                split at hout <;> cases hout
          · simp [free_task_metadata_block, hlock, hm, hfree, hw, hb, hc, clear_block] at hout

/-- With the mutex not held, `get_task_metadata_block` returns `NULL` exactly when the free count
    is below 1, and then it has changed nothing but the mutex, which stays locked. -/
theorem get_returns_null (j k : Int) (s : Sched) (hlock : s.free_metadata_mutex = false) :
    (s.free_metadata_blocks < 1 →
      get_task_metadata_block j k s = .returns none { s with free_metadata_mutex := true }) ∧
    (∀ s', get_task_metadata_block j k s = .returns none s' → s.free_metadata_blocks < 1) := by
  constructor
  · intro h; simp [get_task_metadata_block, hlock, h]
  · intro s' h
    by_contra hfree
    cases hbi : rd s.free_metadata_pool (s.free_metadata_blocks - 1) with
    | none => simp [get_task_metadata_block, hlock, hfree, hbi] at h
    | some bi =>
      by_cases hguard : bi < 0 ∨ 32 < bi
      · simp [get_task_metadata_block, hlock, hfree, hbi, hguard] at h
      have hguard2 : ¬ (bi < 0 ∨ bi > (total_metadata_pool_blocks : Int)) := by
        simpa using hguard
      obtain ⟨hb0, hbl⟩ := rd_lt hbi
      have hwr := wr_of_lt (-1) hb0 hbl
      cases hm : rd s.master_metadata_pool bi with
      | none => simp [get_task_metadata_block, hlock, hfree, hbi, hguard, hwr, hm] at h
      | some m =>
        by_cases hk : k > 1
        · simp only [get_task_metadata_block, hlock, hfree, hbi, hguard2, hwr, hm, hk] at h
          simp only [Bool.false_eq_true, ↓reduceIte] at h
          split at h <;> simp at h
        · simp [get_task_metadata_block, hlock, hfree, hbi, hguard, hwr, hm, hk] at h

theorem last_or_lt (n : Nat) (pre : List Nat) (hpre : ∀ d ∈ pre, d < n) :
    ∀ (l0 : Option Nat), (∀ l, l0 = some l → l < n) → ∀ l, last_or l0 pre = some l → l < n := by
  induction pre with
  | nil => intro l0 h0 l hl; exact h0 l hl
  | cons d pre ih =>
    intro l0 _ l hl
    exact ih (fun e he => hpre e (List.mem_cons_of_mem _ he)) (some d)
      (fun l hl => by cases hl; exact hpre _ (List.mem_cons_self _ _)) l hl

theorem unlink_critical_some (lcli : Option Nat) (c : Nat) (t : Sched)
    (hc : c < t.critical_live_tasks_list.length)
    (hl : ∀ l, lcli = some l → l < t.critical_live_tasks_list.length)
    (h0 : 0 ≤ t.free_critlist_entries)
    (h1 : t.free_critlist_entries.toNat < t.free_critlist_pool.length) :
    ∃ t', unlink_critical lcli c t = some t' := by
  have hcn : t.critical_live_tasks_list[c]? = some t.critical_live_tasks_list[c] :=
    List.getElem?_eq_getElem hc
  cases lcli with
  | none =>
    simp only [unlink_critical, hcn, wr_of_lt _ h0 h1]
    simp [hc]
  | some l =>
    have hll := hl l rfl
    simp only [unlink_critical, hcn, wr_of_lt _ h0 h1]
    have h2 : l < (t.critical_live_tasks_list.set c
        { clt_block_id := -1, next := t.critical_live_tasks_list[c].next }).length := by
      simpa using hll
    simp only [List.getElem?_eq_getElem h2]
    have h3 : c < ((t.critical_live_tasks_list.set c
        { clt_block_id := -1, next := t.critical_live_tasks_list[c].next }).set l
        { clt_block_id := ((t.critical_live_tasks_list.set c
            { clt_block_id := -1, next := t.critical_live_tasks_list[c].next })[l]).clt_block_id,
          next := t.critical_live_tasks_list[c].next }).length := by
      simpa using hc
    simp only [List.getElem?_eq_getElem h3]
    exact ⟨_, rfl⟩

/-- The release of a critical slot returns when the scan reaches a node that carries its
    block id, whatever follows that node. -/
theorem free_critical_returns (s : Sched) (mb : Nat) (m b : task_metadata_block_t)
    (pre : List Nat) (c : Nat) (cn : blockid_linked_list_t)
    (hlock : s.free_metadata_mutex = false)
    (hmb : s.master_metadata_pool[mb]? = some m)
    (h0 : 0 ≤ s.free_metadata_blocks) (h1 : s.free_metadata_blocks < 32)
    (hl : s.free_metadata_blocks.toNat < s.free_metadata_pool.length)
    (hb : rd s.master_metadata_pool m.block_id = some b)
    (hc : b.crit_level > 1)
    (hseg : is_seg s.critical_live_tasks_list s.critical_live_task_head pre (some c) = true)
    (hcn : s.critical_live_tasks_list[c]? = some cn)
    (hid : cn.clt_block_id = m.block_id)
    (hnone : none_carries s.critical_live_tasks_list m.block_id pre)
    (hf0 : 0 ≤ s.free_critlist_entries)
    (hf1 : s.free_critlist_entries.toNat < s.free_critlist_pool.length) :
    ∃ s', free_task_metadata_block mb s = .returns () s' := by
  have hvalid := is_seg_lt _ _ _ _ hseg
  have hends : scan_ends s.critical_live_tasks_list m.block_id (some c) := by
    simp [scan_ends, hcn, hid]
  have hnot : ∀ d ∈ pre, ¬ scan_ends s.critical_live_tasks_list m.block_id (some d) := by
    intro d hd
    have hlt := hvalid d hd
    simp only [scan_ends, List.getElem?_eq_getElem hlt]
    exact hnone d hd _ (List.getElem?_eq_getElem hlt)
  have hlen := is_seg_length_le _ _ _ _ _ hseg hnot hends
  have hscan := scan_critical_stop s.critical_live_tasks_list m.block_id (some c)
    (fun c2 hc2 => by cases hc2; exact ⟨cn, hcn, hid⟩) pre s.critical_live_task_head none
    (s.critical_live_tasks_list.length + 1) hseg hnone (by omega)
  have hclt : c < s.critical_live_tasks_list.length := (List.getElem?_eq_some.mp hcn).1
  obtain ⟨t, ht⟩ := unlink_critical_some (last_or none pre) c
    { s with
      free_metadata_mutex := true
      free_metadata_pool := s.free_metadata_pool.set s.free_metadata_blocks.toNat m.block_id
      free_metadata_blocks := s.free_metadata_blocks + 1 } hclt
    (last_or_lt _ pre hvalid none (fun l hl => by cases hl)) hf0 hf1
  obtain ⟨hp, _⟩ := unlink_critical_frame _ _ _ _ ht
  dsimp only at ht hp
  generalize hres : free_task_metadata_block mb s = res
  simp [free_task_metadata_block, hlock, hmb, h1, wr_of_lt _ h0 hl, hb, hc, hscan, ht,
    clear_block, hp] at hres
  subst hres
  exact ⟨_, rfl⟩

/-- The guard of `get_task_metadata_block` on the popped index: an index below 0 or above P ends
    in `exit(-16)`; the index P itself passes the guard and is used to index the slot pool. -/
theorem get_bad_index (j k : Int) (s : Sched) (bi : Int)
    (hlock : s.free_metadata_mutex = false) (hfree : 1 ≤ s.free_metadata_blocks)
    (htop : rd s.free_metadata_pool (s.free_metadata_blocks - 1) = some bi) :
    ((bi < 0 ∨ bi > (total_metadata_pool_blocks : Int)) →
      get_task_metadata_block j k s = .exits (-16) { s with free_metadata_mutex := true }) ∧
    (bi = (total_metadata_pool_blocks : Int) →
      s.master_metadata_pool.length = total_metadata_pool_blocks →
      get_task_metadata_block j k s = .undefined) := by
  have hnotlt : ¬ s.free_metadata_blocks < 1 := by omega
  obtain ⟨h0, htl⟩ := rd_lt htop
  constructor
  · intro hbad
    have hbad2 : bi < 0 ∨ 32 < bi := by simpa using hbad
    simp [get_task_metadata_block, hlock, hnotlt, htop, hbad2]
  · intro hbi hlen
    simp only [total_metadata_pool_blocks, Nat.cast_ofNat] at hbi hlen
    subst hbi
    have hrd : rd s.master_metadata_pool 32 = none := by
      simp [rd, hlen]
    simp [get_task_metadata_block, hlock, hnotlt, htop, wr_of_lt (-1) h0 htl, hrd]

/-! ### The busy table -/

theorem to_unsigned_of_lt {x : Int} (h0 : 0 ≤ x) (h1 : x < 4294967296) : to_unsigned x = x := by
  unfold to_unsigned; omega

theorem to_unsigned_inj {x y : Int} (hx : is_int x) (hy : is_int y)
    (h : to_unsigned x = to_unsigned y) : x = y := by
  unfold to_unsigned at h
  unfold is_int at hx hy
  omega

theorem rd_in_use_eq_some {t : List (List Int)} {k i v : Int} :
    rd_in_use t k i = some v ↔ ∃ row, rd t k = some row ∧ rd row i = some v := by
  unfold rd_in_use
  cases rd t k <;> simp

theorem rd_set_same {α : Type} {a : List α} {i : Int} (w : α) (h0 : 0 ≤ i)
    (h1 : i.toNat < a.length) : rd (a.set i.toNat w) i = some w := by
  unfold rd; simp [h0, h1]

theorem rd_set_other {α : Type} (a : List α) {i j : Int} (w : α) (h0 : 0 ≤ i) (hij : j ≠ i) :
    rd (a.set i.toNat w) j = rd a j := by
  unfold rd
  by_cases hj : 0 ≤ j
  · have : i.toNat ≠ j.toNat := by omega
    simp [hj, List.getElem?_set_ne this]
  · simp [hj]

theorem wr_in_use_of_rd {t : List (List Int)} {k i v : Int} (w : Int)
    (h : rd_in_use t k i = some v) :
    ∃ row, rd t k = some row ∧ rd row i = some v ∧
      wr_in_use t k i w = some (t.set k.toNat (row.set i.toNat w)) := by
  obtain ⟨row, hrow, hv⟩ := rd_in_use_eq_some.mp h
  refine ⟨row, hrow, hv, ?_⟩
  obtain ⟨hk0, hk1⟩ := rd_lt hrow
  obtain ⟨hi0, hi1⟩ := rd_lt hv
  simp [wr_in_use, hrow, wr_of_lt w hi0 hi1, wr_of_lt _ hk0 hk1]

theorem rd_in_use_set_same {t : List (List Int)} {k i v : Int} {row : List Int} (w : Int)
    (hrow : rd t k = some row) (hv : rd row i = some v) :
    rd_in_use (t.set k.toNat (row.set i.toNat w)) k i = some w := by
  obtain ⟨hk0, hk1⟩ := rd_lt hrow
  obtain ⟨hi0, hi1⟩ := rd_lt hv
  unfold rd_in_use
  rw [rd_set_same _ hk0 hk1]
  exact rd_set_same _ hi0 hi1

theorem rd_in_use_set_other {t : List (List Int)} {k i v : Int} {row : List Int} (w : Int)
    (hrow : rd t k = some row) (hv : rd row i = some v) (k2 i2 : Int)
    (hne : k2 ≠ k ∨ i2 ≠ i) :
    rd_in_use (t.set k.toNat (row.set i.toNat w)) k2 i2 = rd_in_use t k2 i2 := by
  obtain ⟨hk0, hk1⟩ := rd_lt hrow
  obtain ⟨hi0, hi1⟩ := rd_lt hv
  unfold rd_in_use
  by_cases hk : k2 = k
  · subst hk
    have hi : i2 ≠ i := by
      rcases hne with h | h
      · exact absurd rfl h
      · exact h
    rw [rd_set_same _ hk0 hk1, hrow]
    exact rd_set_other row w hi0 hi
  · rw [rd_set_other t _ hk0 hk]

theorem set_rows {t : List (List Int)} {k : Int} {row : List Int} (i : Nat) (w : Int)
    (n : Nat) (hrow : rd t k = some row) (hcols : ∀ r ∈ t, r.length = n) :
    ∀ r ∈ t.set k.toNat (row.set i w), r.length = n := by
  intro r hr
  rcases List.mem_or_eq_of_mem_set hr with h | h
  · exact hcols r h
  · subst h
    have hmem : row ∈ t := by
      obtain ⟨_, h2⟩ := rd_eq_some.mp hrow
      exact List.getElem?_mem h2
    simpa using hcols row hmem

/-- An entry of a busy table of the declared shape has a kind below 3 and an index below 10. -/
theorem rd_in_use_bounds {t : List (List Int)} {k i v : Int} (h : rd_in_use t k i = some v)
    (hrows : t.length = 3) (hcols : ∀ r ∈ t, r.length = 10) :
    0 ≤ k ∧ k < 3 ∧ 0 ≤ i ∧ i < 10 := by
  obtain ⟨row, hrow, hv⟩ := rd_in_use_eq_some.mp h
  obtain ⟨hk0, hk1⟩ := rd_lt hrow
  obtain ⟨hi0, hi1⟩ := rd_lt hv
  have hmem : row ∈ t := List.getElem?_mem (rd_eq_some.mp hrow).2
  have := hcols row hmem
  omega

/-! ### Release of an accelerator and completion -/

theorem release_spec (mb : Nat) (s : Sched) (m : task_metadata_block_t) (v : Int)
    (hm : s.master_metadata_pool[mb]? = some m)
    (hrows : s.accelerator_in_use_by.length = 3)
    (hcols : ∀ r ∈ s.accelerator_in_use_by, r.length = 10)
    (hv : rd_in_use s.accelerator_in_use_by m.accelerator_type m.accelerator_id = some v)
    (hvi : is_int v) (hbi : is_int m.block_id) :
    release_accelerator_for_task mb s = .returns ()
      { s with
        accelerator_in_use_by :=
          released s.accelerator_in_use_by m.accelerator_type m.accelerator_id v m.block_id
        mismatch_reports :=
          if v = m.block_id then s.mismatch_reports else m.block_id :: s.mismatch_reports } := by
  obtain ⟨hk0, hk3, hi0, hi10⟩ := rd_in_use_bounds hv hrows hcols
  have hk : to_unsigned m.accelerator_type = m.accelerator_type :=
    to_unsigned_of_lt hk0 (by omega)
  have hi : to_unsigned m.accelerator_id = m.accelerator_id :=
    to_unsigned_of_lt hi0 (by omega)
  obtain ⟨row, hrow, _, hw⟩ := wr_in_use_of_rd (-1) hv
  by_cases hvb : v = m.block_id
  · subst hvb
    simp [release_accelerator_for_task, hm, hk, hi, hv, hw, released, hrow]
  · have hne : to_unsigned v ≠ to_unsigned m.block_id := fun h => hvb (to_unsigned_inj hvi hbi h)
    simp [release_accelerator_for_task, hm, hk, hi, hv, hne, released, hvb]

/-- The function `mark_task_done` on a slot whose assignment indexes an entry of the busy table: the
    accelerator is released and the status is DONE when `atFinish` is tested; a hook that is
    set is called once, in the state `at_finish`, and `atFinish = NULL` is assigned in the
    state it leaves. -/
theorem done_eq (hooks : Hooks) (mb : Nat) (s : Sched) (m : task_metadata_block_t) (v : Int)
    (hm : s.master_metadata_pool[mb]? = some m)
    (hrows : s.accelerator_in_use_by.length = 3)
    (hcols : ∀ r ∈ s.accelerator_in_use_by, r.length = 10)
    (hv : rd_in_use s.accelerator_in_use_by m.accelerator_type m.accelerator_id = some v)
    (hvi : is_int v) (hbi : is_int m.block_id) :
    mark_task_done hooks mb s =
      match m.atFinish with
      | none => clear_hook mb (completed mb m v s)
      | some h =>
        match hooks h mb (at_finish h mb m v s) with
        | .returns _ t => clear_hook mb t
        | o => o := by
  have hlen : mb < s.master_metadata_pool.length := (List.getElem?_eq_some.mp hm).1
  have h1 := release_spec mb
    { s with master_metadata_pool := s.master_metadata_pool.set mb { m with status := TASK_DONE } }
    { m with status := TASK_DONE } v (by simp [hlen]) hrows hcols hv hvi hbi
  simp only [mark_task_done, set_status, hm, h1, run_at_finish]
  simp only [List.getElem?_set_self hlen, List.length_set, List.set_set]
  rfl

theorem done_spec (mb : Nat) (s : Sched) (m : task_metadata_block_t) (v : Int)
    (hm : s.master_metadata_pool[mb]? = some m)
    (hrows : s.accelerator_in_use_by.length = 3)
    (hcols : ∀ r ∈ s.accelerator_in_use_by, r.length = 10)
    (hv : rd_in_use s.accelerator_in_use_by m.accelerator_type m.accelerator_id = some v)
    (hvi : is_int v) (hbi : is_int m.block_id) :
    mark_task_done inert_hooks mb s = .returns ()
      { s with
        master_metadata_pool := s.master_metadata_pool.set mb
          { m with status := TASK_DONE, atFinish := none }
        accelerator_in_use_by :=
          released s.accelerator_in_use_by m.accelerator_type m.accelerator_id v m.block_id
        mismatch_reports :=
          if v = m.block_id then s.mismatch_reports else m.block_id :: s.mismatch_reports
        finish_calls := finished m
          (released s.accelerator_in_use_by m.accelerator_type m.accelerator_id v m.block_id)
          s.finish_calls } := by
  have hlen : mb < s.master_metadata_pool.length := (List.getElem?_eq_some.mp hm).1
  rw [done_eq inert_hooks mb s m v hm hrows hcols hv hvi hbi]
  cases hh : m.atFinish with
  | none =>
    simp only [clear_hook, completed, List.getElem?_set_self hlen, List.length_set,
      List.set_set, finished, hh]
  | some h =>
    simp only [inert_hooks, clear_hook, at_finish, completed, List.getElem?_set_self hlen,
      List.length_set, List.set_set, finished, hh]

/-! ### The scan of the instances of a kind -/

theorem rd_nat {α : Type} (a : List α) (j : Nat) : rd a (j : Int) = a[j]? := by
  simp [rd]

theorem scan_instances_some (row : List Int) :
    ∀ (k i0 i : Nat), scan_instances row k i0 = some (some i) →
      i0 ≤ i ∧ i < i0 + k ∧ row[i]? = some (-1) ∧
      ∀ j, i0 ≤ j → j < i → ∃ v, row[j]? = some v ∧ v ≠ -1 := by
  intro k
  induction k with
  | zero => intro i0 i h; simp [scan_instances] at h
  | succ k ih =>
    intro i0 i h
    cases hr : row[i0]? with
    | none => simp [scan_instances, hr] at h
    | some v =>
      by_cases hv : v = -1
      · simp [scan_instances, hr, hv] at h
        subst h
        exact ⟨le_refl _, by omega, by rw [hr, hv], fun j h1 h2 => by omega⟩
      · simp only [scan_instances, hr, hv, ↓reduceIte] at h
        obtain ⟨h1, h2, h3, h4⟩ := ih (i0 + 1) i h
        refine ⟨by omega, by omega, h3, ?_⟩
        intro j hj1 hj2
        by_cases hj : j = i0
        · subst hj; exact ⟨v, hr, hv⟩
        · exact h4 j (by omega) hj2

theorem scan_instances_none (row : List Int) :
    ∀ (k i0 : Nat), scan_instances row k i0 = some none →
      ∀ j, i0 ≤ j → j < i0 + k → ∃ v, row[j]? = some v ∧ v ≠ -1 := by
  intro k
  induction k with
  | zero => intro i0 _ j h1 h2; omega
  | succ k ih =>
    intro i0 h j hj1 hj2
    cases hr : row[i0]? with
    | none => simp [scan_instances, hr] at h
    | some v =>
      by_cases hv : v = -1
      · simp [scan_instances, hr, hv] at h
      · simp only [scan_instances, hr, hv, ↓reduceIte] at h
        by_cases hj : j = i0
        · subst hj; exact ⟨v, hr, hv⟩
        · exact ih (i0 + 1) h j (by omega) (by omega)

theorem scan_instances_defined (row : List Int) :
    ∀ (k i0 : Nat), i0 + k ≤ row.length → scan_instances row k i0 ≠ none := by
  intro k
  induction k with
  | zero => intro i0 _; simp [scan_instances]
  | succ k ih =>
    intro i0 h
    have hlt : i0 < row.length := by omega
    simp only [scan_instances, List.getElem?_eq_getElem hlt]
    split
    · simp
    · exact ih (i0 + 1) (by omega)

/-- A scan that assigns instance `i` of kind `p`: it is the first free instance of the kind. -/
theorem scan_kind_some (p : Int) (s : Sched) (i : Nat) (h : scan_kind p s = some (some i)) :
    (∃ n, rd s.num_accelerators_of_type p = some n ∧ (i : Int) < n) ∧
    rd_in_use s.accelerator_in_use_by p i = some (-1) ∧
    free_instance s p i = true ∧ ∀ j, j < i → free_instance s p j = false := by
  cases hn : rd s.num_accelerators_of_type p with
  | none => simp [scan_kind, hn] at h
  | some n =>
    by_cases hn0 : n ≤ 0
    · simp [scan_kind, hn, hn0] at h
    cases hrow : rd s.accelerator_in_use_by p with
    | none => simp [scan_kind, hn, hn0, hrow] at h
    | some row =>
      simp only [scan_kind, hn, hn0, ↓reduceIte, hrow] at h
      obtain ⟨_, h2, h3, h4⟩ := scan_instances_some row _ _ _ h
      have hlt : (i : Int) < n := by omega
      have hrd : rd_in_use s.accelerator_in_use_by p i = some (-1) := by
        simp [rd_in_use, hrow, rd_nat, h3]
      refine ⟨⟨n, rfl, hlt⟩, hrd, ?_, ?_⟩
      · simp [free_instance, hn, hlt, hrd]
      · intro j hj
        obtain ⟨v, hv, hne⟩ := h4 j (Nat.zero_le _) hj
        simp [free_instance, hn, rd_in_use, hrow, rd_nat, hv, hne]

/-- A scan that finds nothing: the kind has no free instance. -/
theorem scan_kind_none (p : Int) (s : Sched) (h : scan_kind p s = some none) :
    ∀ j, free_instance s p j = false := by
  intro j
  cases hn : rd s.num_accelerators_of_type p with
  | none => simp [scan_kind, hn] at h
  | some n =>
    by_cases hn0 : n ≤ 0
    · have : ¬ ((j : Int) < n) := by omega
      simp [free_instance, hn, this]
    cases hrow : rd s.accelerator_in_use_by p with
    | none => simp [scan_kind, hn, hn0, hrow] at h
    | some row =>
      simp only [scan_kind, hn, hn0, ↓reduceIte, hrow] at h
      by_cases hj : (j : Int) < n
      · obtain ⟨v, hv, hne⟩ := scan_instances_none row _ _ h j (Nat.zero_le _) (by omega)
        simp [free_instance, hn, rd_in_use, hrow, rd_nat, hv, hne]
      · simp [free_instance, hn, hj]

/-- On tables of the declared sizes the scan of a kind below 3 indexes nothing out of bounds. -/
theorem scan_kind_defined (p : Int) (s : Sched) (hs : inventory_sized s) (h0 : 0 ≤ p)
    (h3 : p < 3) : scan_kind p s ≠ none := by
  obtain ⟨hrows, hcols, hnum, hle⟩ := hs
  simp only [NUM_ACCEL_TYPES, MAX_ACCEL_OF_EACH_TYPE, Nat.add_one_sub_one, Nat.cast_ofNat] at *
  obtain ⟨n, hn⟩ := rd_of_lt (a := s.num_accelerators_of_type) h0 (by omega)
  obtain ⟨row, hrow⟩ := rd_of_lt (a := s.accelerator_in_use_by) h0 (by omega)
  have hmem : row ∈ s.accelerator_in_use_by := List.getElem?_mem (rd_eq_some.mp hrow).2
  have hnmem : n ∈ s.num_accelerators_of_type := List.getElem?_mem (rd_eq_some.mp hn).2
  have h1 := hcols row hmem
  have h2 := hle n hnmem
  by_cases hn0 : n ≤ 0
  · simp [scan_kind, hn, hn0]
  · simp only [scan_kind, hn, hn0, ↓reduceIte, hrow]
    exact scan_instances_defined row _ _ (by omega)

/-! ### The selectors -/

theorem proposed_accel_range (cfg : Build) (rand : Nat) (job : Int) (p : Int)
    (h : proposed_accel cfg rand job = some p) :
    (job = FFT_TASK ∨ job = VITERBI_TASK) ∧ 0 ≤ p ∧ p < 3 := by
  unfold proposed_accel at h
  split at h
  · next hj =>
    refine ⟨Or.inl hj, ?_⟩
    split at h <;> (cases h; decide)
  · split at h
    · next hj =>
      refine ⟨Or.inr hj, ?_⟩
      split at h <;> (cases h; decide)
    · cases h

/-- The function `pick_accel_and_wait_for_available` in terms of the kind it proposes and of the scan. -/
theorem pick_eq (cfg : Build) (rand mb : Nat) (s : Sched) (m : task_metadata_block_t)
    (hm : s.master_metadata_pool[mb]? = some m) :
    pick_accel_and_wait_for_available cfg rand mb s =
      match proposed_accel cfg rand m.job_type with
      | none => .exits (-15) s
      | some p =>
        match scan_kind p s with
        | none => .undefined
        | some none => .hangs s
        | some (some i) => .returns () (assign p i mb s) := by
  simp only [pick_accel_and_wait_for_available, hm, assign]
  have hp : (if m.job_type = FFT_TASK then
      some (if ((rand % 100 : Nat) : Int) ≥ FFT_HW_THRESHOLD cfg then fft_hwr_accel_t
        else cpu_accel_t)
    else if m.job_type = VITERBI_TASK then
      some (if ((rand % 100 : Nat) : Int) ≥ VITERBI_HW_THRESHOLD cfg then vit_hwr_accel_t
        else cpu_accel_t)
    else none) = proposed_accel cfg rand m.job_type := rfl
  rw [hp]

theorem pick_returns (cfg : Build) (rand mb : Nat) (s s' : Sched)
    (h : pick_accel_and_wait_for_available cfg rand mb s = .returns () s') :
    ∃ m p i, s.master_metadata_pool[mb]? = some m ∧
      proposed_accel cfg rand m.job_type = some p ∧ scan_kind p s = some (some i) ∧
      s' = assign p i mb s := by
  cases hm : s.master_metadata_pool[mb]? with
  | none => simp [pick_accel_and_wait_for_available, hm] at h
  | some m =>
    rw [pick_eq cfg rand mb s m hm] at h
    cases hp : proposed_accel cfg rand m.job_type with
    | none => simp [hp] at h
    | some p =>
      cases hk : scan_kind p s with
      | none => simp [hp, hk] at h
      | some o =>
        cases o with
        | none => simp [hp, hk] at h
        | some i =>
          simp only [hp, hk, Outcome.returns.injEq, true_and] at h
          exact ⟨m, p, i, rfl, hp, hk, h.symm⟩

theorem scan_fast_some (b : Bool) (hw : Int) (s : Sched) (p : Int) (i : Nat)
    (h : scan_fast b hw s = some (some (p, i))) :
    p ∈ (if b then [hw, cpu_accel_t] else [cpu_accel_t]) ∧ scan_kind p s = some (some i) ∧
    (b = true → p ≠ hw → ∀ j, free_instance s hw j = false) := by
  cases b with
  | false =>
    simp only [scan_fast, Bool.false_eq_true, ↓reduceIte] at h
    cases hc : scan_kind cpu_accel_t s with
    | none => simp [hc] at h
    | some o =>
      cases o with
      | none => simp [hc] at h
      | some j =>
        simp only [hc, Option.some.injEq, Prod.mk.injEq] at h
        obtain ⟨rfl, rfl⟩ := h
        exact ⟨by simp, hc, by simp⟩
  | true =>
    simp only [scan_fast, ↓reduceIte] at h
    cases hh : scan_kind hw s with
    | none => simp [hh] at h
    | some o =>
      cases o with
      | some j =>
        simp only [hh, Option.some.injEq, Prod.mk.injEq] at h
        obtain ⟨rfl, rfl⟩ := h
        exact ⟨by simp, hh, fun _ hne => absurd rfl hne⟩
      | none =>
        simp only [hh] at h
        cases hc : scan_kind cpu_accel_t s with
        | none => simp [hc] at h
        | some o =>
          cases o with
          | none => simp [hc] at h
          | some j =>
            simp only [hc, Option.some.injEq, Prod.mk.injEq] at h
            obtain ⟨rfl, rfl⟩ := h
            exact ⟨by simp, hc, fun _ _ => scan_kind_none hw s hh⟩

theorem scan_fast_none (b : Bool) (hw : Int) (s : Sched) (h : scan_fast b hw s = some none) :
    ∀ k ∈ (if b then [hw, cpu_accel_t] else [cpu_accel_t]), ∀ j, free_instance s k j = false := by
  cases b with
  | false =>
    simp only [scan_fast, Bool.false_eq_true, ↓reduceIte] at h
    cases hc : scan_kind cpu_accel_t s with
    | none => simp [hc] at h
    | some o =>
      cases o with
      | some j => simp [hc] at h
      | none =>
        intro k hk
        simp only [Bool.false_eq_true, ↓reduceIte, List.mem_singleton] at hk
        subst hk
        exact scan_kind_none _ s hc
  | true =>
    simp only [scan_fast, ↓reduceIte] at h
    cases hh : scan_kind hw s with
    | none => simp [hh] at h
    | some o =>
      cases o with
      | some j => simp [hh] at h
      | none =>
        simp only [hh] at h
        cases hc : scan_kind cpu_accel_t s with
        | none => simp [hc] at h
        | some o =>
          cases o with
          | some j => simp [hc] at h
          | none =>
            intro k hk
            simp only [↓reduceIte, List.mem_cons, List.mem_singleton, List.not_mem_nil,
              or_false] at hk
            rcases hk with rfl | rfl
            · exact scan_kind_none _ s hh
            · exact scan_kind_none _ s hc

theorem scan_fast_defined (b : Bool) (hw : Int) (s : Sched) (hs : inventory_sized s)
    (h0 : 0 ≤ hw) (h3 : hw < 3) : scan_fast b hw s ≠ none := by
  have hc := scan_kind_defined cpu_accel_t s hs (by decide) (by decide)
  have hh := scan_kind_defined hw s hs h0 h3
  cases b with
  | false =>
    simp only [scan_fast, Bool.false_eq_true, ↓reduceIte]
    cases h1 : scan_kind cpu_accel_t s with
    | none => exact absurd h1 hc
    | some o => cases o <;> simp
  | true =>
    simp only [scan_fast, ↓reduceIte]
    cases h2 : scan_kind hw s with
    | none => exact absurd h2 hh
    | some o =>
      cases o with
      | some j => simp
      | none =>
        cases h1 : scan_kind cpu_accel_t s with
        | none => exact absurd h1 hc
        | some o => cases o <;> simp

/-- The closing loop of `fastest_to_slowest_first_available`, entered after a scan of kind `p`
    has assigned instance `i`, leaves the assignment as it is. -/
theorem closing_scan_same (p : Int) (i : Nat) (s : Sched)
    (hscan : scan_kind p s = some (some i)) (hp : p ≠ no_accelerator_t) :
    closing_scan p p i s = some (some (p, (i : Int))) := by
  obtain ⟨⟨n, hn, _⟩, _, _, _⟩ := scan_kind_some p s i hscan
  have hi : ¬ ((i : Int) < 0) := by omega
  simp only [closing_scan, hi, ↓reduceIte, hn, hp]

/-- The function `fastest_to_slowest_first_available` on the two job types it accepts. -/
theorem fast_eq (cfg : Build) (mb : Nat) (s : Sched) (m : task_metadata_block_t)
    (hm : s.master_metadata_pool[mb]? = some m)
    (hj : m.job_type = FFT_TASK ∨ m.job_type = VITERBI_TASK) :
    ∃ b hw, 0 ≤ hw ∧ hw < 3 ∧
      kinds_scanned cfg m.job_type = (if b then [hw, cpu_accel_t] else [cpu_accel_t]) ∧
      fastest_to_slowest_first_available cfg mb s =
        match scan_fast b hw s with
        | none => .undefined
        | some none => .hangs s
        | some (some (p, i)) => .returns () (assign p i mb s) := by
  have key : ∀ (b : Bool) (hw : Int), hw ≠ no_accelerator_t →
      (match scan_fast b hw s with
        | none => Outcome.undefined
        | some none => Outcome.hangs s
        | some (some (p, i)) =>
          match closing_scan p p i s with
          | none => Outcome.undefined
          | some none => Outcome.hangs s
          | some (some (t, j)) =>
            Outcome.returns () { s with
              master_metadata_pool := s.master_metadata_pool.set mb
                { m with accelerator_type := t, accelerator_id := j } }) =
      (match scan_fast b hw s with
        | none => Outcome.undefined
        | some none => Outcome.hangs s
        | some (some (p, i)) => Outcome.returns () (assign p i mb s)) := by
    intro b hw hhw
    cases hk : scan_fast b hw s with
    | none => rfl
    | some o =>
      cases o with
      | none => rfl
      | some pi =>
        obtain ⟨p, i⟩ := pi
        obtain ⟨hmem, hscan, _⟩ := scan_fast_some b hw s p i hk
        have hp : p ≠ no_accelerator_t := by
          cases b with
          | false =>
            simp only [Bool.false_eq_true, ↓reduceIte, List.mem_singleton] at hmem
            rw [hmem]; decide
          | true =>
            simp only [↓reduceIte, List.mem_cons, List.mem_singleton, List.not_mem_nil,
              or_false] at hmem
            rcases hmem with h | h
            · rw [h]; exact hhw
            · rw [h]; decide
        simp only [closing_scan_same p i s hscan hp, assign, hm]
  rcases hj with hj | hj
  · refine ⟨cfg.HW_FFT, fft_hwr_accel_t, by decide, by decide, ?_, ?_⟩
    · simp only [kinds_scanned, hj, ↓reduceIte]
    · simp only [fastest_to_slowest_first_available, hm]
      rw [if_pos hj]
      exact key cfg.HW_FFT fft_hwr_accel_t (by decide)
  · have hne : ¬ m.job_type = FFT_TASK := by rw [hj]; decide
    refine ⟨cfg.HW_VIT, vit_hwr_accel_t, by decide, by decide, ?_, ?_⟩
    · have hne2 : ¬ (VITERBI_TASK = FFT_TASK) := by decide
      simp only [kinds_scanned, hj, hne2, ↓reduceIte]
    · simp only [fastest_to_slowest_first_available, hm]
      rw [if_neg hne, if_pos hj]
      exact key cfg.HW_VIT vit_hwr_accel_t (by decide)

theorem fast_rejects (cfg : Build) (mb : Nat) (s : Sched) (m : task_metadata_block_t)
    (hm : s.master_metadata_pool[mb]? = some m)
    (h1 : m.job_type ≠ FFT_TASK) (h2 : m.job_type ≠ VITERBI_TASK) :
    fastest_to_slowest_first_available cfg mb s = .exits (-15) s := by
  simp [fastest_to_slowest_first_available, hm, h1, h2]

theorem pick_rejects (cfg : Build) (rand mb : Nat) (s : Sched) (m : task_metadata_block_t)
    (hm : s.master_metadata_pool[mb]? = some m)
    (h1 : m.job_type ≠ FFT_TASK) (h2 : m.job_type ≠ VITERBI_TASK) :
    pick_accel_and_wait_for_available cfg rand mb s = .exits (-15) s := by
  simp [pick_accel_and_wait_for_available, hm, h1, h2]

/-- The part of `request_execution` after the selector, on a slot that is assigned an
    instance of the busy table. -/
theorem dispatch_spec (mb : Nat) (s : Sched) (m : task_metadata_block_t) (v : Int)
    (hm : s.master_metadata_pool[mb]? = some m)
    (hrows : s.accelerator_in_use_by.length = 3)
    (hcols : ∀ r ∈ s.accelerator_in_use_by, r.length = 10)
    (hv : rd_in_use s.accelerator_in_use_by m.accelerator_type m.accelerator_id = some v)
    (hb0 : 0 ≤ m.block_id) (hb1 : m.block_id < 32) :
    (v ≠ -1 → dispatch mb s = .exits (-14) s) ∧
    (v = -1 → ∃ row, rd s.accelerator_in_use_by m.accelerator_type = some row ∧
      dispatch mb s = .returns ()
        { s with
          accelerator_in_use_by := s.accelerator_in_use_by.set m.accelerator_type.toNat
            (row.set m.accelerator_id.toNat m.block_id)
          master_metadata_pool := s.master_metadata_pool.set mb { m with status := TASK_RUNNING }
          signalled := m.block_id :: s.signalled }) := by
  obtain ⟨hk0, hk3, hi0, hi10⟩ := rd_in_use_bounds hv hrows hcols
  have hk : to_unsigned m.accelerator_type = m.accelerator_type :=
    to_unsigned_of_lt hk0 (by omega)
  have hi : to_unsigned m.accelerator_id = m.accelerator_id :=
    to_unsigned_of_lt hi0 (by omega)
  have hlt : m.accelerator_type < no_accelerator_t := hk3
  obtain ⟨row, hrow, _, hw⟩ := wr_in_use_of_rd m.block_id hv
  constructor
  · intro hne
    simp [dispatch, hm, hk, hi, hlt, hv, hne]
  · intro he
    refine ⟨row, hrow, ?_⟩
    simp [dispatch, hm, hk, hi, hlt, hv, he, hw, hb0, hb1]

theorem request_spec (cfg : Build) (rand mb : Nat) (s : Sched) (m : task_metadata_block_t)
    (p : Int) (i : Nat)
    (hpol : s.global_scheduler_selection_policy = SELECT_ACCEL_AND_WAIT_POLICY)
    (hm : s.master_metadata_pool[mb]? = some m)
    (hp : proposed_accel cfg rand m.job_type = some p)
    (hscan : scan_kind p s = some (some i))
    (hrows : s.accelerator_in_use_by.length = 3)
    (hcols : ∀ r ∈ s.accelerator_in_use_by, r.length = 10)
    (hb0 : 0 ≤ m.block_id) (hb1 : m.block_id < 32) :
    request_execution cfg rand mb s = .returns () (dispatched p i mb s) := by
  have hlen : mb < s.master_metadata_pool.length := (List.getElem?_eq_some.mp hm).1
  obtain ⟨_, hfree, _, _⟩ := scan_kind_some p s i hscan
  obtain ⟨row, hrow, hrowi⟩ := rd_in_use_eq_some.mp hfree
  have hi0 : (0 : Int) ≤ (i : Int) := Int.ofNat_nonneg i
  let s1 : Sched :=
    { s with master_metadata_pool := s.master_metadata_pool.set mb { m with status := TASK_QUEUED } }
  have hm1 : s1.master_metadata_pool[mb]? = some { m with status := TASK_QUEUED } := by
    simp [s1, hlen]
  have hpick := pick_eq cfg rand mb s1 _ hm1
  have hscan1 : scan_kind p s1 = some (some i) := hscan
  simp only [hp, hscan1] at hpick
  have hm2 : (assign p i mb s1).master_metadata_pool[mb]? =
      some { m with status := TASK_QUEUED, accelerator_type := p, accelerator_id := i } := by
    simp [assign, hm1, s1, hlen]
  obtain ⟨_, hd⟩ := dispatch_spec mb (assign p i mb s1) _ (-1) hm2
    (by simpa [assign, hm1] using hrows) (by simpa [assign, hm1] using hcols)
    (by simpa [assign, hm1] using hfree) hb0 hb1
  obtain ⟨row2, hrow2, hd⟩ := hd rfl
  have hrow2' : rd s.accelerator_in_use_by p = some row2 := by
    simpa [assign, hm1] using hrow2
  rw [hrow] at hrow2'
  cases hrow2'
  have hreq : request_execution cfg rand mb s =
      (match select_target_accelerator cfg rand s1.global_scheduler_selection_policy mb s1 with
        | .returns _ s => dispatch mb s
        | o => o) := by
    simp only [request_execution, set_status, hm, s1]
  have hpol1 : s1.global_scheduler_selection_policy = SELECT_ACCEL_AND_WAIT_POLICY := hpol
  have hsel : select_target_accelerator cfg rand s1.global_scheduler_selection_policy mb s1 =
      pick_accel_and_wait_for_available cfg rand mb s1 := by
    unfold select_target_accelerator
    rw [if_pos hpol1]
  rw [hreq, hsel, hpick]
  simp only [hd]
  simp [dispatched, hm, hrow, assign, hm1, s1]

/-! ### Slot identities and running slots -/

/-- The function `get_task_metadata_block` does not touch the busy table. -/
theorem get_in_use (j k : Int) (s s' : Sched)
    (h : final_state (get_task_metadata_block j k s) = some s') :
    s'.accelerator_in_use_by = s.accelerator_in_use_by := by
  by_cases hlock : s.free_metadata_mutex = true
  · simp [get_task_metadata_block, hlock, final_state] at h
    subst h; rfl
  by_cases hfree : s.free_metadata_blocks < 1
  · simp [get_task_metadata_block, hlock, hfree, final_state] at h
    subst h; rfl
  cases hbi : rd s.free_metadata_pool (s.free_metadata_blocks - 1) with
  | none => simp [get_task_metadata_block, hlock, hfree, hbi, final_state] at h
  | some bi =>
    by_cases hguard : bi < 0 ∨ 32 < bi
    · simp [get_task_metadata_block, hlock, hfree, hbi, hguard, final_state] at h
      subst h; rfl
    have hguard2 : ¬ (bi < 0 ∨ bi > (total_metadata_pool_blocks : Int)) := by
      simpa using hguard
    obtain ⟨hb0, hbl⟩ := rd_lt hbi
    have hwr := wr_of_lt (-1) hb0 hbl
    cases hm : rd s.master_metadata_pool bi with
    | none => simp [get_task_metadata_block, hlock, hfree, hbi, hguard, hwr, hm, final_state] at h
    | some m =>
      by_cases hk : k > 1
      · simp only [get_task_metadata_block, hlock, hfree, hbi, hguard2, hwr, hm, hk] at h
        simp only [Bool.false_eq_true, ↓reduceIte] at h
        split at h
        · simp [final_state] at h
        · rename_i t ht
          obtain ⟨_, _, _, _, h5⟩ := push_critical_frame _ _ _ ht
          simp only [final_state, Option.some.injEq] at h
          subst h
          exact h5
      · simp [get_task_metadata_block, hlock, hfree, hbi, hguard, hwr, hm, hk, final_state] at h
        subst h
        rfl

/-- The function `free_task_metadata_block` does not touch the busy table. -/
theorem free_in_use (mb : Nat) (s s' : Sched)
    (h : free_task_metadata_block mb s = .returns () s') :
    s'.accelerator_in_use_by = s.accelerator_in_use_by := by
  by_cases hlock : s.free_metadata_mutex = true
  · simp [free_task_metadata_block, hlock] at h
  cases hm : s.master_metadata_pool[mb]? with
  | none => simp [free_task_metadata_block, hlock, hm] at h
  | some m =>
    by_cases hfree : s.free_metadata_blocks < 32
    swap
    · simp [free_task_metadata_block, hlock, hm, hfree] at h
    cases hw : wr s.free_metadata_pool s.free_metadata_blocks m.block_id with
    | none => simp [free_task_metadata_block, hlock, hm, hfree, hw] at h
    | some fmp =>
      cases hb : rd s.master_metadata_pool m.block_id with
      | none => simp [free_task_metadata_block, hlock, hm, hfree, hw, hb] at h
      | some b =>
        by_cases hc : b.crit_level > 1
        · simp only [free_task_metadata_block, hlock, hm, hfree, hw, hb, hc] at h
          simp only [Bool.false_eq_true, ↓reduceIte, Nat.cast_ofNat, hfree] at h
          split at h
          · cases h
          · cases h
          · cases h
          · split at h
            · cases h
            · rename_i t ht
              obtain ⟨h1, _, _, _, h5⟩ := unlink_critical_frame _ _ _ _ ht
              simp only [clear_block, h1, hb] at h
              cases h
              exact h5
        · simp [free_task_metadata_block, hlock, hm, hfree, hw, hb, hc, clear_block] at h
          subst h
          rfl

theorem getElem?_set_cases {α : Type} (l : List α) (n i : Nat) (a x : α)
    (h : (l.set n a)[i]? = some x) : (i = n ∧ x = a ∧ n < l.length) ∨ (i ≠ n ∧ l[i]? = some x) := by
  by_cases hin : i = n
  · subst hin
    have hlt : i < l.length := by
      have := (List.getElem?_eq_some.mp h).1
      simpa using this
    rw [List.getElem?_set_self hlt] at h
    cases h
    exact Or.inl ⟨rfl, rfl, hlt⟩
  · rw [List.getElem?_set_ne (Ne.symm hin)] at h
    exact Or.inr ⟨hin, h⟩

/-- The invariant survives a step that rewrites one slot and the busy table, as long as
    the block id stays, the busy table keeps its shape and what the other running slots
    own, and the rewritten slot owns its instance if it is RUNNING. -/
theorem RunInv_update (s t : Sched) (mb : Nat) (m m' : task_metadata_block_t)
    (h : RunInv s) (hm : s.master_metadata_pool[mb]? = some m)
    (hp : t.master_metadata_pool = s.master_metadata_pool.set mb m')
    (hid : m'.block_id = m.block_id)
    (hty : is_int m'.accelerator_type ∧ is_int m'.accelerator_id)
    (hrows : t.accelerator_in_use_by.length = 3)
    (hcols : ∀ row ∈ t.accelerator_in_use_by, row.length = 10)
    (hent : ∀ k i v, rd_in_use t.accelerator_in_use_by k i = some v → -1 ≤ v ∧ v < 32)
    (hothers : ∀ (j : Nat) (x : task_metadata_block_t), j ≠ mb →
      s.master_metadata_pool[j]? = some x → x.status = TASK_RUNNING →
      rd_in_use t.accelerator_in_use_by x.accelerator_type x.accelerator_id =
        rd_in_use s.accelerator_in_use_by x.accelerator_type x.accelerator_id)
    (hown : m'.status = TASK_RUNNING →
      rd_in_use t.accelerator_in_use_by m'.accelerator_type m'.accelerator_id =
        some m'.block_id) : RunInv t := by
  refine ⟨by rw [hp, List.length_set]; exact h.pool_len, ?_, hrows, hcols, ?_, hent, ?_⟩
  · intro i x hx
    rw [hp] at hx
    rcases getElem?_set_cases _ _ _ _ _ hx with ⟨rfl, rfl, _⟩ | ⟨_, hx⟩
    · rw [hid]; exact h.ident _ m hm
    · exact h.ident i x hx
  · intro i x hx
    rw [hp] at hx
    rcases getElem?_set_cases _ _ _ _ _ hx with ⟨rfl, rfl, _⟩ | ⟨_, hx⟩
    · exact hty
    · exact h.typed i x hx
  · intro i x hx hst
    rw [hp] at hx
    rcases getElem?_set_cases _ _ _ _ _ hx with ⟨rfl, rfl, _⟩ | ⟨hne, hx⟩
    · exact hown hst
    · rw [hothers i x hne hx hst]
      exact h.running i x hx hst

theorem RunInv_slot (s : Sched) (h : RunInv s) (mb : Nat) (m : task_metadata_block_t)
    (hm : s.master_metadata_pool[mb]? = some m) :
    m.block_id = mb ∧ mb < 32 ∧ 0 ≤ m.block_id ∧ m.block_id < 32 ∧ is_int m.block_id := by
  have h1 := h.ident mb m hm
  have h2 : mb < 32 := by
    have := (List.getElem?_eq_some.mp hm).1
    rw [h.pool_len] at this
    exact this
  refine ⟨h1, h2, by omega, by omega, ?_⟩
  unfold is_int
  omega

theorem request_eq (cfg : Build) (rand mb : Nat) (s : Sched) (m : task_metadata_block_t)
    (hm : s.master_metadata_pool[mb]? = some m)
    (hpol : s.global_scheduler_selection_policy = SELECT_ACCEL_AND_WAIT_POLICY) :
    request_execution cfg rand mb s =
      match pick_accel_and_wait_for_available cfg rand mb
        { s with
          master_metadata_pool := s.master_metadata_pool.set mb { m with status := TASK_QUEUED } } with
      | .returns _ t => dispatch mb t
      | o => o := by
  have h1 : request_execution cfg rand mb s =
      (match select_target_accelerator cfg rand s.global_scheduler_selection_policy mb
        { s with
          master_metadata_pool := s.master_metadata_pool.set mb { m with status := TASK_QUEUED } } with
        | .returns _ t => dispatch mb t
        | o => o) := by
    simp only [request_execution, set_status, hm]
  rw [h1]
  unfold select_target_accelerator
  rw [if_pos hpol]

/-- When `request_execution` returns, the random-with-wait policy was selected, the selector
    has assigned the first free instance of the kind it proposed and the state is the
    dispatched one. -/
theorem request_returns (cfg : Build) (rand mb : Nat) (s s' : Sched) (hinv : RunInv s)
    (h : request_execution cfg rand mb s = .returns () s') :
    ∃ m p i, s.master_metadata_pool[mb]? = some m ∧
      s.global_scheduler_selection_policy = SELECT_ACCEL_AND_WAIT_POLICY ∧
      proposed_accel cfg rand m.job_type = some p ∧ scan_kind p s = some (some i) ∧
      s' = dispatched p i mb s := by
  cases hm : s.master_metadata_pool[mb]? with
  | none => simp [request_execution, set_status, hm] at h
  | some m =>
    have hlen : mb < s.master_metadata_pool.length := (List.getElem?_eq_some.mp hm).1
    obtain ⟨_, _, hb0, hb1, _⟩ := RunInv_slot s hinv mb m hm
    by_cases hpol : s.global_scheduler_selection_policy = SELECT_ACCEL_AND_WAIT_POLICY
    swap
    · simp [request_execution, set_status, hm, select_target_accelerator, hpol] at h
    have hm1 : (s.master_metadata_pool.set mb { m with status := TASK_QUEUED })[mb]? =
        some { m with status := TASK_QUEUED } := by simp [hlen]
    cases hp : proposed_accel cfg rand m.job_type with
    | none =>
      have := pick_eq cfg rand mb
        { s with master_metadata_pool := s.master_metadata_pool.set mb { m with status := TASK_QUEUED } }
        _ hm1
      simp only [hp] at this
      rw [request_eq cfg rand mb s m hm hpol, this] at h
      cases h
    | some p =>
      cases hk : scan_kind p s with
      | none =>
        have := pick_eq cfg rand mb
          { s with master_metadata_pool := s.master_metadata_pool.set mb { m with status := TASK_QUEUED } }
          _ hm1
        have hk1 : scan_kind p
          { s with master_metadata_pool := s.master_metadata_pool.set mb { m with status := TASK_QUEUED } }
          = none := hk
        simp only [hp, hk1] at this
        rw [request_eq cfg rand mb s m hm hpol, this] at h
        cases h
      | some o =>
        cases o with
        | none =>
          have := pick_eq cfg rand mb
            { s with master_metadata_pool := s.master_metadata_pool.set mb { m with status := TASK_QUEUED } }
            _ hm1
          have hk1 : scan_kind p
            { s with master_metadata_pool := s.master_metadata_pool.set mb { m with status := TASK_QUEUED } }
            = some none := hk
          simp only [hp, hk1] at this
          rw [request_eq cfg rand mb s m hm hpol, this] at h
          cases h
        | some i =>
          rw [request_spec cfg rand mb s m p i hpol hm hp hk hinv.rows hinv.cols hb0 hb1] at h
          simp only [Outcome.returns.injEq, true_and] at h
          exact ⟨m, p, i, rfl, hpol, hp, hk, h.symm⟩

/-- When `mark_task_done` returns, the slot was assigned an instance of the busy table and
    the state is the one of `done_spec`. -/
theorem done_returns (mb : Nat) (s s' : Sched) (hinv : RunInv s)
    (h : mark_task_done inert_hooks mb s = .returns () s') :
    ∃ m v, s.master_metadata_pool[mb]? = some m ∧
      rd_in_use s.accelerator_in_use_by m.accelerator_type m.accelerator_id = some v ∧
      s' = { s with
        master_metadata_pool := s.master_metadata_pool.set mb
          { m with status := TASK_DONE, atFinish := none }
        accelerator_in_use_by :=
          released s.accelerator_in_use_by m.accelerator_type m.accelerator_id v m.block_id
        mismatch_reports :=
          if v = m.block_id then s.mismatch_reports else m.block_id :: s.mismatch_reports
        finish_calls := finished m
          (released s.accelerator_in_use_by m.accelerator_type m.accelerator_id v m.block_id)
          s.finish_calls } := by
  cases hm : s.master_metadata_pool[mb]? with
  | none => simp [mark_task_done, set_status, hm] at h
  | some m =>
    have hlen : mb < s.master_metadata_pool.length := (List.getElem?_eq_some.mp hm).1
    obtain ⟨_, _, _, _, hbi⟩ := RunInv_slot s hinv mb m hm
    obtain ⟨hk, hi⟩ := hinv.typed mb m hm
    cases hv : rd_in_use s.accelerator_in_use_by (to_unsigned m.accelerator_type)
        (to_unsigned m.accelerator_id) with
    | none =>
      simp [mark_task_done, set_status, hm, release_accelerator_for_task, hlen, hv] at h
    | some v =>
      obtain ⟨hk0, hk3, hi0, hi10⟩ := rd_in_use_bounds hv hinv.rows hinv.cols
      have hk' : to_unsigned m.accelerator_type = m.accelerator_type := by
        unfold to_unsigned at hk0 hk3 ⊢
        unfold is_int at hk
        omega
      have hi' : to_unsigned m.accelerator_id = m.accelerator_id := by
        unfold to_unsigned at hi0 hi10 ⊢
        unfold is_int at hi
        omega
      rw [hk', hi'] at hv
      have hvi : is_int v := by
        have := hinv.entries _ _ _ hv
        unfold is_int
        omega
      rw [done_spec mb s m v hm hinv.rows hinv.cols hv hvi hbi] at h
      simp only [Outcome.returns.injEq, true_and] at h
      exact ⟨m, v, rfl, hv, h.symm⟩

theorem RunInv_congr (s t : Sched) (hp : t.master_metadata_pool = s.master_metadata_pool)
    (ht : t.accelerator_in_use_by = s.accelerator_in_use_by) (h : RunInv s) : RunInv t := by
  refine ⟨by rw [hp]; exact h.pool_len, by rw [hp]; exact h.ident, by rw [ht]; exact h.rows,
    by rw [ht]; exact h.cols, by rw [hp]; exact h.typed, by rw [ht]; exact h.entries, ?_⟩
  rw [hp, ht]; exact h.running

theorem RunInv_init : RunInv (initialize_scheduler startup) := by
  have hget : ∀ (i : Nat) (m : task_metadata_block_t),
      (initialize_scheduler startup).master_metadata_pool[i]? = some m →
      m.block_id = i ∧ m.status = 0 ∧ m.accelerator_type = 0 ∧ m.accelerator_id = 0 := by
    intro i m h
    rw [init_pool, List.getElem?_map] at h
    by_cases hi : i < 32
    · rw [List.getElem?_range hi] at h
      simp at h
      subst h
      exact ⟨rfl, rfl, rfl, rfl⟩
    · rw [List.getElem?_eq_none (by simpa using hi)] at h
      simp at h
  have ht : (initialize_scheduler startup).accelerator_in_use_by =
      List.replicate 3 (List.replicate 10 (-1)) := rfl
  refine ⟨by decide, fun i m h => (hget i m h).1, by decide, ?_, ?_, ?_, ?_⟩
  · rw [ht]
    intro row hrow
    rw [List.eq_of_mem_replicate hrow]
    simp
  · intro i m h
    obtain ⟨_, _, h3, h4⟩ := hget i m h
    rw [h3, h4]
    decide
  · intro k i v h
    rw [ht] at h
    obtain ⟨row, hrow, hv⟩ := rd_in_use_eq_some.mp h
    have h1 := List.eq_of_mem_replicate (List.getElem?_mem (rd_eq_some.mp hrow).2)
    subst h1
    have h2 := List.eq_of_mem_replicate (List.getElem?_mem (rd_eq_some.mp hv).2)
    subst h2
    decide
  · intro i m h hst
    rw [(hget i m h).2.1] at hst
    exact absurd hst (by decide)

/-- Writing `w` to an entry of the busy table keeps the shape of the table and the range of
    its entries. -/
theorem table_set (t : List (List Int)) (k i v w : Int) (row : List Int)
    (hrow : rd t k = some row) (hv : rd row i = some v)
    (hrows : t.length = 3) (hcols : ∀ r ∈ t, r.length = 10)
    (hent : ∀ k i v, rd_in_use t k i = some v → -1 ≤ v ∧ v < 32)
    (hw : -1 ≤ w ∧ w < 32) :
    (t.set k.toNat (row.set i.toNat w)).length = 3 ∧
    (∀ r ∈ t.set k.toNat (row.set i.toNat w), r.length = 10) ∧
    (∀ k2 i2 v2, rd_in_use (t.set k.toNat (row.set i.toNat w)) k2 i2 = some v2 →
      -1 ≤ v2 ∧ v2 < 32) := by
  refine ⟨by simpa using hrows, set_rows _ _ _ hrow hcols, ?_⟩
  intro k2 i2 v2 h2
  by_cases hsame : k2 = k ∧ i2 = i
  · obtain ⟨rfl, rfl⟩ := hsame
    rw [rd_in_use_set_same w hrow hv] at h2
    cases h2
    exact hw
  · rw [rd_in_use_set_other w hrow hv k2 i2 (by tauto)] at h2
    exact hent _ _ _ h2

theorem RunInv_get (j k : Int) (r : Option Nat) (s s' : Sched) (h : RunInv s)
    (hg : get_task_metadata_block j k s = .returns r s') : RunInv s' := by
  have hf : final_state (get_task_metadata_block j k s) = some s' := by rw [hg]; rfl
  have ht := get_in_use j k s s' hf
  rcases get_final j k s s' hf with ⟨hp, _, _⟩ | ⟨bi, m, _, _, hm, hp, _, _⟩
  · exact RunInv_congr s s' hp ht h
  · have hm2 : s.master_metadata_pool[bi.toNat]? = some m := (rd_eq_some.mp hm).2
    refine RunInv_update s s' bi.toNat m (allocated j k m) h hm2 hp rfl
      ⟨by show is_int 3; decide, by show is_int (-1); decide⟩
      (by rw [ht]; exact h.rows) (by rw [ht]; exact h.cols) (by rw [ht]; exact h.entries)
      (fun _ _ _ _ _ => by rw [ht]) ?_
    intro hst
    exact absurd hst (by show ¬ ((1 : Int) = 3); decide)

theorem RunInv_free (mb : Nat) (s s' : Sched) (h : RunInv s)
    (hg : free_task_metadata_block mb s = .returns () s') : RunInv s' := by
  have ht := free_in_use mb s s' hg
  obtain ⟨m, b, _, _, _, _, hb, hp, _, _⟩ := free_returns mb s s' hg
  have hb2 : s.master_metadata_pool[m.block_id.toNat]? = some b := (rd_eq_some.mp hb).2
  refine RunInv_update s s' m.block_id.toNat b (cleared b) h hb2 hp rfl (h.typed _ b hb2)
    (by rw [ht]; exact h.rows) (by rw [ht]; exact h.cols) (by rw [ht]; exact h.entries)
    (fun _ _ _ _ _ => by rw [ht]) ?_
  intro hst
  exact absurd hst (by show ¬ ((0 : Int) = 3); decide)

theorem dispatched_eq (p : Int) (i mb : Nat) (s : Sched) (m : task_metadata_block_t)
    (row : List Int) (hm : s.master_metadata_pool[mb]? = some m)
    (hrow : rd s.accelerator_in_use_by p = some row) :
    dispatched p i mb s =
      { s with
        accelerator_in_use_by :=
          s.accelerator_in_use_by.set p.toNat (row.set ((i : Int)).toNat m.block_id)
        master_metadata_pool := s.master_metadata_pool.set mb
          { m with status := TASK_RUNNING, accelerator_type := p, accelerator_id := i }
        signalled := m.block_id :: s.signalled } := by
  simp [dispatched, hm, hrow]

theorem RunInv_request (cfg : Build) (rand mb : Nat) (s s' : Sched) (h : RunInv s)
    (hg : request_execution cfg rand mb s = .returns () s') : RunInv s' := by
  obtain ⟨m, p, i, hm, _, hp, hscan, rfl⟩ := request_returns cfg rand mb s s' h hg
  obtain ⟨_, hfree, _, _⟩ := scan_kind_some p s i hscan
  obtain ⟨row, hrow, hrowi⟩ := rd_in_use_eq_some.mp hfree
  obtain ⟨_, _, hb0, hb1, _⟩ := RunInv_slot s h mb m hm
  obtain ⟨_, hp0, hp3⟩ := proposed_accel_range cfg rand _ p hp
  obtain ⟨_, _, hi0, hi10⟩ := rd_in_use_bounds hfree h.rows h.cols
  obtain ⟨h1, h2, h3⟩ := table_set _ p i (-1) m.block_id row hrow hrowi h.rows h.cols h.entries
    ⟨by omega, hb1⟩
  rw [dispatched_eq p i mb s m row hm hrow]
  refine RunInv_update s _ mb m
    { m with status := TASK_RUNNING, accelerator_type := p, accelerator_id := i } h hm rfl rfl
    ⟨by show is_int p; unfold is_int; omega,
     by show is_int (i : Int); unfold is_int; omega⟩ h1 h2 h3 ?_ ?_
  · intro j x hj hx hst
    have hrun := h.running j x hx hst
    obtain ⟨_, _, hx0, _, _⟩ := RunInv_slot s h j x hx
    refine rd_in_use_set_other _ hrow hrowi _ _ ?_
    by_contra hcon
    have hcon2 : x.accelerator_type = p ∧ x.accelerator_id = (i : Int) := by tauto
    rw [hcon2.1, hcon2.2, hfree] at hrun
    have := Option.some.inj hrun
    omega
  · intro _
    exact rd_in_use_set_same _ hrow hrowi

theorem released_eq (t : List (List Int)) (k i v bid : Int) (row : List Int)
    (hrow : rd t k = some row) :
    released t k i v bid = if v = bid then t.set k.toNat (row.set i.toNat (-1)) else t := by
  simp [released, hrow]

theorem RunInv_done (mb : Nat) (s s' : Sched) (h : RunInv s)
    (hg : mark_task_done inert_hooks mb s = .returns () s') : RunInv s' := by
  obtain ⟨m, v, hm, hv, rfl⟩ := done_returns mb s s' h hg
  obtain ⟨row, hrow, hrowi⟩ := rd_in_use_eq_some.mp hv
  obtain ⟨hid, _, hb0, hb1, _⟩ := RunInv_slot s h mb m hm
  obtain ⟨h1, h2, h3⟩ := table_set _ m.accelerator_type m.accelerator_id v (-1) row hrow hrowi
    h.rows h.cols h.entries ⟨by omega, by omega⟩
  have hrel := released_eq s.accelerator_in_use_by m.accelerator_type m.accelerator_id v
    m.block_id row hrow
  refine RunInv_update s _ mb m { m with status := TASK_DONE, atFinish := none } h hm rfl rfl
    (h.typed mb m hm) ?_ ?_ ?_ ?_ ?_
  · show (released _ _ _ _ _).length = 3
    rw [hrel]; split
    · exact h1
    · exact h.rows
  · show ∀ r ∈ released _ _ _ _ _, r.length = 10
    rw [hrel]; split
    · exact h2
    · exact h.cols
  · show ∀ k i w, rd_in_use (released _ _ _ _ _) k i = some w → _
    rw [hrel]; split
    · exact h3
    · exact h.entries
  · intro j x hj hx hst
    show rd_in_use (released _ _ _ _ _) _ _ = _
    rw [hrel]
    split
    · next hvb =>
      have hrun := h.running j x hx hst
      obtain ⟨hxid, _, _, _, _⟩ := RunInv_slot s h j x hx
      refine rd_in_use_set_other _ hrow hrowi _ _ ?_
      by_contra hcon
      have hcon2 : x.accelerator_type = m.accelerator_type ∧
          x.accelerator_id = m.accelerator_id := by tauto
      rw [hcon2.1, hcon2.2, hv] at hrun
      cases hrun
      apply hj
      have : (j : Int) = (mb : Int) := by rw [← hxid, ← hid, hvb]
      exact_mod_cast this
    · rfl
  · intro hst
    exact absurd hst (by show ¬ ((4 : Int) = 3); decide)

theorem RunInv_step (cfg : Build) (c : Call) (s s' : Sched) (h : RunInv s)
    (hs : step cfg c s = some s') : RunInv s' := by
  cases c with
  | acquire j k r =>
    simp only [step] at hs
    split at hs
    · rename_i v t hg
      split at hs
      · cases hs
        exact RunInv_get j k v s s' h hg
      · cases hs
    · cases hs
  | release mb =>
    simp only [step] at hs
    split at hs
    · rename_i v t hg
      cases hs
      exact RunInv_free mb s s' h hg
    · cases hs
  | request rand mb =>
    simp only [step] at hs
    split at hs
    · rename_i v t hg
      cases hs
      exact RunInv_request cfg rand mb s s' h hg
    · cases hs
  | done mb =>
    simp only [step] at hs
    split at hs
    · rename_i v t hg
      cases hs
      exact RunInv_done mb s s' h hg
    · cases hs
  | policy p =>
    simp only [step, Option.some.injEq] at hs
    subst hs
    exact RunInv_congr s _ rfl rfl h

theorem RunInv_run (cfg : Build) (allowed : Sched → Call → Bool) (cs : List Call) :
    ∀ (s s' : Sched), RunInv s → run cfg allowed cs s = some s' → RunInv s' := by
  induction cs with
  | nil => intro s s' h hr; simp [run] at hr; subst hr; exact h
  | cons c cs ih =>
    intro s s' h hr
    simp only [run] at hr
    split at hr
    · split at hr
      · cases hr
      · rename_i t ht
        exact ih t s' (RunInv_step cfg c s t h ht) hr
    · cases hr

/-! ### Ownership of busy entries under the life-cycle discipline -/

theorem owned_congr (s t : Sched) (hp : t.master_metadata_pool = s.master_metadata_pool)
    (ht : t.accelerator_in_use_by = s.accelerator_in_use_by) (h : owned s) : owned t := by
  unfold owned
  rw [hp, ht]
  exact h

theorem owned_init : owned (initialize_scheduler startup) := by
  have ht : (initialize_scheduler startup).accelerator_in_use_by =
      List.replicate 3 (List.replicate 10 (-1)) := rfl
  intro k i b h hb
  rw [ht] at h
  obtain ⟨row, hrow, hv⟩ := rd_in_use_eq_some.mp h
  have h1 := List.eq_of_mem_replicate (List.getElem?_mem (rd_eq_some.mp hrow).2)
  subst h1
  have h2 := List.eq_of_mem_replicate (List.getElem?_mem (rd_eq_some.mp hv).2)
  exact absurd h2 hb

/-- Ownership survives a step that rewrites slot `mb` when every entry of the new busy table
    that is not -1 either names `mb`, now RUNNING on that instance, or is an old entry that
    names another slot. -/
theorem owned_update (s t : Sched) (mb : Nat) (m' : task_metadata_block_t)
    (hlen : mb < s.master_metadata_pool.length)
    (hp : t.master_metadata_pool = s.master_metadata_pool.set mb m')
    (hcases : ∀ (k i b : Int), rd_in_use t.accelerator_in_use_by k i = some b → b ≠ -1 →
      (b = mb ∧ m'.status = TASK_RUNNING ∧ m'.accelerator_type = k ∧ m'.accelerator_id = i) ∨
      (b ≠ mb ∧ rd_in_use s.accelerator_in_use_by k i = some b))
    (h : owned s) : owned t := by
  intro k i b hb hne
  rcases hcases k i b hb hne with ⟨rfl, h1, h2, h3⟩ | ⟨hbm, hold⟩
  · refine ⟨m', ?_, h1, h2, h3⟩
    rw [hp]
    have := rd_set_same (a := s.master_metadata_pool) (i := (mb : Int)) m'
      (Int.ofNat_nonneg mb) (by simpa using hlen)
    simpa using this
  · obtain ⟨x, hx, h1, h2, h3⟩ := h k i b hold hne
    refine ⟨x, ?_, h1, h2, h3⟩
    rw [hp]
    have := rd_set_other s.master_metadata_pool (i := (mb : Int)) (j := b) m'
      (Int.ofNat_nonneg mb) hbm
    rw [← hx]
    simpa using this

theorem top_mem_free_entries (s : Sched) (bi : Int) (h1 : 1 ≤ s.free_metadata_blocks)
    (h : rd s.free_metadata_pool (s.free_metadata_blocks - 1) = some bi) :
    bi ∈ free_entries s := by
  obtain ⟨_, hget⟩ := rd_eq_some.mp h
  unfold free_entries
  apply List.getElem?_mem (n := (s.free_metadata_blocks - 1).toNat)
  have : (s.free_metadata_blocks - 1).toNat < s.free_metadata_blocks.toNat := by omega
  rw [List.getElem?_take_of_lt this]
  exact hget

theorem owned_get (j k : Int) (r : Option Nat) (s s' : Sched) (hp : PoolInv s) (h : owned s)
    (hg : get_task_metadata_block j k s = .returns r s') : owned s' := by
  have hf : final_state (get_task_metadata_block j k s) = some s' := by rw [hg]; rfl
  have ht := get_in_use j k s s' hf
  rcases get_final j k s s' hf with ⟨hpool, _, _⟩ | ⟨bi, m, h1, htop, hm, hpool, _, _⟩
  · exact owned_congr s s' hpool ht h
  · obtain ⟨hb0, hm2⟩ := rd_eq_some.mp hm
    have hlen : bi.toNat < s.master_metadata_pool.length := (List.getElem?_eq_some.mp hm2).1
    have hmem := top_mem_free_entries s bi h1 htop
    have hst : m.status = 0 := by
      apply (hp.free_iff bi.toNat m hm2).mpr
      rw [Int.toNat_of_nonneg hb0]
      exact hmem
    refine owned_update s s' bi.toNat (allocated j k m) hlen hpool ?_ h
    intro k2 i2 b hb hne
    rw [ht] at hb
    refine Or.inr ⟨?_, hb⟩
    intro hbb
    obtain ⟨x, hx, hx1, _, _⟩ := h k2 i2 b hb hne
    rw [hbb, Int.toNat_of_nonneg hb0, hm] at hx
    cases hx
    rw [hst] at hx1
    exact absurd hx1 (by decide)

theorem status_of_eq {s : Sched} {mb : Nat} {st : Int} (h : status_of s mb = some st) :
    ∃ m, s.master_metadata_pool[mb]? = some m ∧ m.status = st := by
  unfold status_of at h
  cases hm : s.master_metadata_pool[mb]? with
  | none => simp [hm] at h
  | some m => simp [hm] at h; exact ⟨m, rfl, h⟩

theorem owned_free (mb : Nat) (s s' : Sched) (hr : RunInv s) (h : owned s)
    (hal : status_of s mb = some TASK_DONE)
    (hg : free_task_metadata_block mb s = .returns () s') : owned s' := by
  have ht := free_in_use mb s s' hg
  obtain ⟨m, b, hm, _, _, _, hb, hpool, _, _⟩ := free_returns mb s s' hg
  obtain ⟨m0, hm0, hst⟩ := status_of_eq hal
  rw [hm] at hm0
  cases hm0
  obtain ⟨hid, _, _, _, _⟩ := RunInv_slot s hr mb m hm
  have hlen : mb < s.master_metadata_pool.length := (List.getElem?_eq_some.mp hm).1
  have hpool2 : s'.master_metadata_pool = s.master_metadata_pool.set mb (cleared b) := by
    rw [hpool, hid]; simp
  refine owned_update s s' mb (cleared b) hlen hpool2 ?_ h
  intro k2 i2 b2 hb2 hne
  rw [ht] at hb2
  refine Or.inr ⟨?_, hb2⟩
  intro hbb
  obtain ⟨x, hx, hx1, _, _⟩ := h k2 i2 b2 hb2 hne
  rw [hbb] at hx
  have : rd s.master_metadata_pool (mb : Int) = some m := by
    rw [rd_nat]; exact hm
  rw [this] at hx
  cases hx
  rw [hst] at hx1
  exact absurd hx1 (by decide)

theorem owned_request (cfg : Build) (rand mb : Nat) (s s' : Sched) (hr : RunInv s)
    (h : owned s) (hal : status_of s mb = some TASK_ALLOCATED)
    (hg : request_execution cfg rand mb s = .returns () s') : owned s' := by
  obtain ⟨m, p, i, hm, _, hp, hscan, rfl⟩ := request_returns cfg rand mb s s' hr hg
  obtain ⟨_, hfree, _, _⟩ := scan_kind_some p s i hscan
  obtain ⟨row, hrow, hrowi⟩ := rd_in_use_eq_some.mp hfree
  obtain ⟨hid, _, _, _, _⟩ := RunInv_slot s hr mb m hm
  obtain ⟨m0, hm0, hst⟩ := status_of_eq hal
  rw [hm] at hm0
  cases hm0
  have hlen : mb < s.master_metadata_pool.length := (List.getElem?_eq_some.mp hm).1
  rw [dispatched_eq p i mb s m row hm hrow]
  refine owned_update s _ mb
    { m with status := TASK_RUNNING, accelerator_type := p, accelerator_id := i } hlen rfl ?_ h
  intro k2 i2 b hb hne
  by_cases hsame : k2 = p ∧ i2 = (i : Int)
  · obtain ⟨rfl, rfl⟩ := hsame
    have := rd_in_use_set_same (t := s.accelerator_in_use_by) m.block_id hrow hrowi
    rw [show (s.accelerator_in_use_by.set k2.toNat (row.set ((i : Int)).toNat m.block_id)) =
      s.accelerator_in_use_by.set k2.toNat (row.set ((i : Int)).toNat m.block_id) from rfl] at this
    have hb' : rd_in_use (s.accelerator_in_use_by.set k2.toNat
        (row.set ((i : Int)).toNat m.block_id)) k2 i = some b := hb
    rw [this] at hb'
    cases hb'
    exact Or.inl ⟨hid, rfl, rfl, rfl⟩
  · have hb' : rd_in_use (s.accelerator_in_use_by.set p.toNat
        (row.set ((i : Int)).toNat m.block_id)) k2 i2 = some b := hb
    rw [rd_in_use_set_other _ hrow hrowi k2 i2 (by tauto)] at hb'
    refine Or.inr ⟨?_, hb'⟩
    intro hbb
    obtain ⟨x, hx, hx1, _, _⟩ := h k2 i2 b hb' hne
    rw [hbb, rd_nat, hm] at hx
    cases hx
    rw [hst] at hx1
    exact absurd hx1 (by decide)

theorem owned_done (mb : Nat) (s s' : Sched) (hr : RunInv s)
    (h : owned s) (hal : status_of s mb = some TASK_RUNNING)
    (hg : mark_task_done inert_hooks mb s = .returns () s') : owned s' := by
  obtain ⟨m, v, hm, hv, rfl⟩ := done_returns mb s s' hr hg
  obtain ⟨row, hrow, hrowi⟩ := rd_in_use_eq_some.mp hv
  obtain ⟨hid, _, _, _, _⟩ := RunInv_slot s hr mb m hm
  obtain ⟨m0, hm0, hst⟩ := status_of_eq hal
  rw [hm] at hm0
  cases hm0
  have hlen : mb < s.master_metadata_pool.length := (List.getElem?_eq_some.mp hm).1
  have hvb : v = m.block_id := by
    have := hr.running mb m hm hst
    rw [hv] at this
    exact Option.some.inj this
  have hrel : released s.accelerator_in_use_by m.accelerator_type m.accelerator_id v m.block_id
      = s.accelerator_in_use_by.set m.accelerator_type.toNat
          (row.set m.accelerator_id.toNat (-1)) := by
    rw [released_eq _ _ _ _ _ row hrow, if_pos hvb]
  refine owned_update s _ mb { m with status := TASK_DONE, atFinish := none } hlen rfl ?_ h
  intro k2 i2 b hb hne
  have hb' : rd_in_use (released s.accelerator_in_use_by m.accelerator_type m.accelerator_id v
      m.block_id) k2 i2 = some b := hb
  rw [hrel] at hb'
  by_cases hsame : k2 = m.accelerator_type ∧ i2 = m.accelerator_id
  · obtain ⟨rfl, rfl⟩ := hsame
    rw [rd_in_use_set_same _ hrow hrowi] at hb'
    exact absurd (Option.some.inj hb').symm hne
  · rw [rd_in_use_set_other _ hrow hrowi k2 i2 (by tauto)] at hb'
    refine Or.inr ⟨?_, hb'⟩
    intro hbb
    obtain ⟨x, hx, _, hx2, hx3⟩ := h k2 i2 b hb' hne
    rw [hbb, rd_nat, hm] at hx
    cases hx
    exact hsame ⟨hx2.symm, hx3.symm⟩

theorem in_order_on_live (s : Sched) (c : Call) (h : in_order s c = true) :
    on_live s c = true := by
  cases c with
  | acquire j k r => rfl
  | request rand mb => rfl
  | policy p => rfl
  | release mb =>
    simp only [in_order, decide_eq_true_eq] at h
    obtain ⟨m, hm, hst⟩ := status_of_eq h
    simp [on_live, live, hm, hst]
  | done mb =>
    simp only [in_order, decide_eq_true_eq] at h
    obtain ⟨m, hm, hst⟩ := status_of_eq h
    simp [on_live, live, hm, hst]

theorem owned_step (cfg : Build) (c : Call) (s s' : Sched) (hr : RunInv s) (hp : PoolInv s)
    (h : owned s) (hal : in_order s c = true) (hs : step cfg c s = some s') : owned s' := by
  cases c with
  | acquire j k r =>
    simp only [step] at hs
    split at hs
    · rename_i v t hg
      split at hs
      · cases hs
        exact owned_get j k v s s' hp h hg
      · cases hs
    · cases hs
  | release mb =>
    simp only [in_order, decide_eq_true_eq] at hal
    simp only [step] at hs
    split at hs
    · rename_i v t hg
      cases hs
      exact owned_free mb s s' hr h hal hg
    · cases hs
  | request rand mb =>
    simp only [in_order, decide_eq_true_eq] at hal
    simp only [step] at hs
    split at hs
    · rename_i v t hg
      cases hs
      exact owned_request cfg rand mb s s' hr h hal hg
    · cases hs
  | done mb =>
    simp only [in_order, decide_eq_true_eq] at hal
    simp only [step] at hs
    split at hs
    · rename_i v t hg
      cases hs
      exact owned_done mb s s' hr h hal hg
    · cases hs
  | policy p =>
    simp only [step, Option.some.injEq] at hs
    subst hs
    exact owned_congr s _ rfl rfl h

theorem owned_run (cfg : Build) (cs : List Call) :
    ∀ (s s' : Sched), RunInv s → PoolInv s → owned s → run cfg in_order cs s = some s' →
      RunInv s' ∧ owned s' := by
  induction cs with
  | nil => intro s s' h1 _ h3 hr; simp [run] at hr; subst hr; exact ⟨h1, h3⟩
  | cons c cs ih =>
    intro s s' h1 h2 h3 hr
    simp only [run] at hr
    split at hr
    · rename_i hal
      split at hr
      · cases hr
      · rename_i t ht
        exact ih t s' (RunInv_step cfg c s t h1 ht)
          (PoolInv_step cfg c s t h2 (in_order_on_live s c hal) ht)
          (owned_step cfg c s t h1 h2 h3 hal ht) hr
    · cases hr

/-! ### The walk of `wait_all_critical` -/

theorem walk_step (nodes : List blockid_linked_list_t) (pool : List task_metadata_block_t)
    (fuel c : Nat) (h : refers_done nodes pool c = true) :
    ∃ n, nodes[c]? = some n ∧
      walk_critical nodes pool (fuel + 1) (some c) = walk_critical nodes pool fuel n.next ∧
      ∀ head, wait_loop nodes pool head (fuel + 1) (some c) =
        wait_loop nodes pool head fuel n.next := by
  unfold refers_done at h
  cases hn : nodes[c]? with
  | none => simp [hn] at h
  | some n =>
    cases hm : rd pool n.clt_block_id with
    | none => simp [hn, hm] at h
    | some m =>
      simp only [hn, hm, decide_eq_true_eq] at h
      exact ⟨n, rfl, by simp [walk_critical, hn, hm, h], fun head => by simp [wait_loop, hn, hm, h]⟩

theorem walk_stop (nodes : List blockid_linked_list_t) (pool : List task_metadata_block_t)
    (c : Nat) (h : refers_done nodes pool c = false) :
    ∃ r, (r = Walk.restart ∨ r = Walk.wild) ∧
      ∀ fuel, walk_critical nodes pool (fuel + 1) (some c) = r := by
  unfold refers_done at h
  cases hn : nodes[c]? with
  | none => exact ⟨.wild, Or.inr rfl, fun fuel => by simp [walk_critical, hn]⟩
  | some n =>
    cases hm : rd pool n.clt_block_id with
    | none => exact ⟨.wild, Or.inr rfl, fun fuel => by simp [walk_critical, hn, hm]⟩
    | some m =>
      simp only [hn, hm, decide_eq_false_iff_not] at h
      exact ⟨.restart, Or.inl rfl, fun fuel => by simp [walk_critical, hn, hm, h]⟩

theorem walk_critical_succ (nodes : List blockid_linked_list_t)
    (pool : List task_metadata_block_t) :
    ∀ (fuel : Nat) (a : Option Nat), walk_critical nodes pool fuel a ≠ .spins →
      walk_critical nodes pool (fuel + 1) a = walk_critical nodes pool fuel a := by
  intro fuel
  induction fuel with
  | zero => intro a h; simp [walk_critical] at h
  | succ f ih =>
    intro a h
    cases a with
    | none => simp [walk_critical]
    | some c =>
      cases hd : refers_done nodes pool c with
      | true =>
        obtain ⟨n, _, h1, _⟩ := walk_step nodes pool f c hd
        obtain ⟨_, _, h2, _⟩ := walk_step nodes pool (f + 1) c hd
        simp_all
      | false =>
        unfold refers_done at hd
        cases hn : nodes[c]? with
        | none => simp [walk_critical, hn]
        | some n =>
          cases hm : rd pool n.clt_block_id with
          | none => simp [walk_critical, hn, hm]
          | some m =>
            simp only [hn, hm, decide_eq_false_iff_not] at hd
            simp [walk_critical, hn, hm, hd]

theorem walk_critical_le (nodes : List blockid_linked_list_t)
    (pool : List task_metadata_block_t) (f g : Nat) (a : Option Nat) (hfg : f ≤ g)
    (h : walk_critical nodes pool f a ≠ .spins) :
    walk_critical nodes pool g a = walk_critical nodes pool f a := by
  induction g with
  | zero =>
    have : f = 0 := by omega
    subst this; rfl
  | succ g ih =>
    by_cases hf : f = g + 1
    · subst hf; rfl
    · have hle : f ≤ g := by omega
      have h2 := ih hle
      rw [← h2] at h
      rw [walk_critical_succ nodes pool g a h, h2]

/-- The nodes a walk visits before it ends. -/
theorem walk_critical_path (nodes : List blockid_linked_list_t)
    (pool : List task_metadata_block_t) :
    ∀ (fuel : Nat) (a : Option Nat), walk_critical nodes pool fuel a ≠ .spins →
      ∃ pre z, is_seg nodes a pre z = true ∧ (∀ d ∈ pre, ¬ walk_ends nodes pool (some d)) ∧
        walk_ends nodes pool z ∧ (∀ d ∈ pre, refers_done nodes pool d = true) ∧
        (walk_critical nodes pool fuel a = .done → z = none) ∧
        walk_critical nodes pool (pre.length + 1) a = walk_critical nodes pool fuel a := by
  intro fuel
  induction fuel with
  | zero => intro a h; simp [walk_critical] at h
  | succ f ih =>
    intro a h
    cases a with
    | none =>
      exact ⟨[], none, by simp [is_seg], by simp, trivial, by simp, fun _ => rfl,
        by simp [walk_critical]⟩
    | some c =>
      cases hd : refers_done nodes pool c with
      | false =>
        refine ⟨[], some c, by simp [is_seg], by simp, hd, by simp, ?_, ?_⟩
        · intro hdone
          obtain ⟨r, hr, hw⟩ := walk_stop nodes pool c hd
          rw [hw f] at hdone
          rcases hr with hr | hr <;> rw [hr] at hdone <;> cases hdone
        · obtain ⟨r, _, hw⟩ := walk_stop nodes pool c hd
          simp only [List.length_nil, Nat.zero_add]
          rw [hw 0, hw f]
      | true =>
        obtain ⟨n, hn, h1, _⟩ := walk_step nodes pool f c hd
        rw [h1] at h ⊢
        obtain ⟨pre, z, hseg, hpre, hz, hall, hdone, heq⟩ := ih n.next h
        refine ⟨c :: pre, z, ?_, ?_, hz, ?_, hdone, ?_⟩
        · rw [is_seg_cons]; exact ⟨rfl, n, hn, hseg⟩
        · intro d hd2
          rcases List.mem_cons.mp hd2 with rfl | hd2
          · simp [walk_ends, hd]
          · exact hpre d hd2
        · intro d hd2
          rcases List.mem_cons.mp hd2 with rfl | hd2
          · exact hd
          · exact hall d hd2
        · obtain ⟨n2, hn2, h2, _⟩ := walk_step nodes pool (pre.length + 1) c hd
          rw [hn] at hn2
          cases hn2
          simp only [List.length_cons]
          rw [h2, heq]

/-- The bound on the walk is sound: a walk that has not ended after one step more than there
    are nodes is in a cycle of nodes that refer to DONE slots and never ends. -/
theorem walk_critical_spins (nodes : List blockid_linked_list_t)
    (pool : List task_metadata_block_t) (a : Option Nat)
    (h : walk_critical nodes pool (nodes.length + 1) a = .spins) :
    ∀ fuel, walk_critical nodes pool fuel a = .spins := by
  intro fuel
  by_contra hne
  obtain ⟨pre, z, hseg, hpre, hz, _, _, heq⟩ := walk_critical_path nodes pool fuel a hne
  have hlen := is_seg_length_le nodes (walk_ends nodes pool) pre a z hseg hpre hz
  have h1 : walk_critical nodes pool (pre.length + 1) a ≠ .spins := by rw [heq]; exact hne
  have := walk_critical_le nodes pool (pre.length + 1) (nodes.length + 1) a (by omega) h1
  rw [h] at this
  exact h1 this.symm

/-- A walk down a null-terminated list whose nodes all refer to DONE slots reaches `NULL`. -/
theorem walk_of_chain (nodes : List blockid_linked_list_t) (pool : List task_metadata_block_t)
    (ns : List Nat) :
    ∀ (a : Option Nat) (fuel : Nat), is_chain nodes a ns = true →
      (∀ c ∈ ns, refers_done nodes pool c = true) → ns.length < fuel →
      walk_critical nodes pool fuel a = .done := by
  induction ns with
  | nil =>
    intro a fuel h _ hf
    unfold is_chain at h
    rw [is_seg_nil] at h
    subst h
    obtain ⟨f, rfl⟩ : ∃ f, fuel = f + 1 := ⟨fuel - 1, by simp at hf; omega⟩
    simp [walk_critical]
  | cons d ns ih =>
    intro a fuel h hall hf
    unfold is_chain at h
    rw [is_seg_cons] at h
    obtain ⟨ha, n, hn, h⟩ := h
    subst ha
    obtain ⟨f, rfl⟩ : ∃ f, fuel = f + 1 := ⟨fuel - 1, by simp at hf; omega⟩
    obtain ⟨n2, hn2, h2, _⟩ := walk_step nodes pool f d (hall d (List.mem_cons_self _ _))
    rw [hn] at hn2
    cases hn2
    rw [h2]
    exact ih _ f h (fun c hc => hall c (List.mem_cons_of_mem _ hc)) (by simp at hf; omega)

/-- A walk that reaches `NULL` has gone down a null-terminated list whose nodes all refer to
    DONE slots. -/
theorem walk_done_chain (nodes : List blockid_linked_list_t)
    (pool : List task_metadata_block_t) (fuel : Nat) (a : Option Nat)
    (h : walk_critical nodes pool fuel a = .done) :
    ∃ ns, is_chain nodes a ns = true ∧ ∀ c ∈ ns, refers_done nodes pool c = true := by
  obtain ⟨pre, z, hseg, _, _, hall, hdone, _⟩ :=
    walk_critical_path nodes pool fuel a (by rw [h]; exact fun hh => by cases hh)
  have hz := hdone h
  subst hz
  exact ⟨pre, hseg, hall⟩

/-- The loop of `wait_all_critical` never ends when the walk from the head meets a node whose
    slot is not DONE, or goes round a cycle: it is out of fuel whatever the fuel. -/
theorem wait_loop_never (nodes : List blockid_linked_list_t)
    (pool : List task_metadata_block_t) (head : Option Nat)
    (h : walk_critical nodes pool (nodes.length + 1) head = .restart ∨
      walk_critical nodes pool (nodes.length + 1) head = .spins) :
    ∀ fuel, wait_loop nodes pool head fuel head = .spins := by
  have key : ∀ (fuel : Nat) (cli : Option Nat),
      ((∃ k, walk_critical nodes pool k cli = .restart) ∨
        (∀ k, walk_critical nodes pool k cli = .spins)) →
      ((∃ k, walk_critical nodes pool k head = .restart) ∨
        (∀ k, walk_critical nodes pool k head = .spins)) →
      wait_loop nodes pool head fuel cli = .spins := by
    intro fuel
    induction fuel with
    | zero => intro cli _ _; rfl
    | succ f ih =>
      intro cli hc hh
      cases cli with
      | none =>
        rcases hc with ⟨k, hk⟩ | hk
        · cases k <;> simp [walk_critical] at hk
        · have := hk 1
          simp [walk_critical] at this
      | some c =>
        cases hn : nodes[c]? with
        | none =>
          rcases hc with ⟨k, hk⟩ | hk
          · cases k <;> simp [walk_critical, hn] at hk
          · have := hk 1
            simp [walk_critical, hn] at this
        | some n =>
          cases hm : rd pool n.clt_block_id with
          | none =>
            rcases hc with ⟨k, hk⟩ | hk
            · cases k <;> simp [walk_critical, hn, hm] at hk
            · have := hk 1
              simp [walk_critical, hn, hm] at this
          | some m =>
            by_cases hst : m.status = TASK_DONE
            · have hnext : (∃ k, walk_critical nodes pool k n.next = .restart) ∨
                  (∀ k, walk_critical nodes pool k n.next = .spins) := by
                rcases hc with ⟨k, hk⟩ | hk
                · cases k with
                  | zero => simp [walk_critical] at hk
                  | succ k =>
                    simp only [walk_critical, hn, hm, hst, ne_eq, not_true_eq_false,
                      ↓reduceIte] at hk
                    exact Or.inl ⟨k, hk⟩
                · right
                  intro k
                  have := hk (k + 1)
                  simpa [walk_critical, hn, hm, hst] using this
              simp only [wait_loop, hn, hm, hst, ne_eq, not_true_eq_false, ↓reduceIte]
              exact ih n.next hnext hh
            · simp only [wait_loop, hn, hm, hst, ne_eq, not_false_eq_true, ↓reduceIte]
              exact ih head hh hh
  intro fuel
  have hh : (∃ k, walk_critical nodes pool k head = .restart) ∨
      (∀ k, walk_critical nodes pool k head = .spins) := by
    rcases h with h | h
    · exact Or.inl ⟨_, h⟩
    · exact Or.inr (walk_critical_spins nodes pool head h)
  exact key fuel head hh hh

/-- The loop of `wait_all_critical` ends exactly as a walk that reaches `NULL` or uses a wild
    pointer does. -/
theorem wait_loop_ends (nodes : List blockid_linked_list_t)
    (pool : List task_metadata_block_t) (head : Option Nat) :
    ∀ (fuel : Nat) (cli : Option Nat),
      (walk_critical nodes pool fuel cli = .done ∨ walk_critical nodes pool fuel cli = .wild) →
      wait_loop nodes pool head fuel cli = walk_critical nodes pool fuel cli := by
  intro fuel
  induction fuel with
  | zero => intro cli h; simp [walk_critical] at h
  | succ f ih =>
    intro cli h
    cases cli with
    | none => rfl
    | some c =>
      cases hn : nodes[c]? with
      | none => simp [walk_critical, wait_loop, hn]
      | some n =>
        cases hm : rd pool n.clt_block_id with
        | none => simp [walk_critical, wait_loop, hn, hm]
        | some m =>
          by_cases hst : m.status = TASK_DONE
          · simp only [walk_critical, wait_loop, hn, hm, hst, ne_eq, not_true_eq_false,
              ↓reduceIte] at h ⊢
            exact ih n.next h
          · simp [walk_critical, hn, hm, hst] at h

theorem queued_eq (mb : Nat) (s : Sched) (m : task_metadata_block_t)
    (hm : s.master_metadata_pool[mb]? = some m) :
    queued mb s = { s with
      master_metadata_pool := s.master_metadata_pool.set mb { m with status := TASK_QUEUED } } := by
  simp [queued, set_status, hm]

/-- What `request_execution` does under a policy other than random-with-wait. -/
theorem request_other_policy (cfg : Build) (rand mb : Nat) (s : Sched)
    (m : task_metadata_block_t) (hm : s.master_metadata_pool[mb]? = some m)
    (hpol : s.global_scheduler_selection_policy ≠ SELECT_ACCEL_AND_WAIT_POLICY) :
    request_execution cfg rand mb s = .exits (-15) (queued mb s) := by
  rw [queued_eq mb s m hm]
  have hpol2 : ¬ (s.global_scheduler_selection_policy = 0) := hpol
  simp [request_execution, set_status, hm, select_target_accelerator, hpol2]

/-- The entries of the busy table after a release, read back. -/
theorem released_entries (t : List (List Int)) (k i v bid : Int)
    (hv : rd_in_use t k i = some v) :
    rd_in_use (released t k i v bid) k i = some (if v = bid then -1 else v) ∧
    (∀ k2 i2, (k2 ≠ k ∨ i2 ≠ i) →
      rd_in_use (released t k i v bid) k2 i2 = rd_in_use t k2 i2) ∧
    (v ≠ bid → released t k i v bid = t) ∧
    (released t k i v bid).length = t.length ∧
    (∀ n, (∀ r ∈ t, r.length = n) → ∀ r ∈ released t k i v bid, r.length = n) := by
  obtain ⟨row, hrow, hrowi⟩ := rd_in_use_eq_some.mp hv
  rw [released_eq t k i v bid row hrow]
  by_cases hvb : v = bid
  · simp only [hvb, ↓reduceIte, ne_eq, not_true_eq_false, false_implies, List.length_set, true_and]
    exact ⟨rd_in_use_set_same _ hrow hrowi,
      fun k2 i2 hne => rd_in_use_set_other _ hrow hrowi k2 i2 hne,
      fun n hn => set_rows _ _ n hrow hn⟩
  · simp only [hvb, ↓reduceIte, ne_eq, not_false_eq_true, implies_true, true_and]
    exact ⟨hv, fun _ hn => hn⟩

theorem proposed_accel_some (cfg : Build) (rand : Nat) (job : Int)
    (hj : job = FFT_TASK ∨ job = VITERBI_TASK) : ∃ p, proposed_accel cfg rand job = some p := by
  rcases hj with hj | hj
  · subst hj
    exact ⟨_, if_pos rfl⟩
  · subst hj
    exact ⟨_, rfl⟩

/-- What `pick_accel_and_wait_for_available` does on a job type it accepts. -/
theorem pick_total (cfg : Build) (rand mb : Nat) (s : Sched) (m : task_metadata_block_t)
    (hm : s.master_metadata_pool[mb]? = some m) (hs : inventory_sized s)
    (hj : m.job_type = FFT_TASK ∨ m.job_type = VITERBI_TASK) :
    ∃ p, proposed_accel cfg rand m.job_type = some p ∧ p ≠ no_accelerator_t ∧
      ((∃ i, pick_accel_and_wait_for_available cfg rand mb s = .returns () (assign p i mb s) ∧
          free_instance s p i = true) ∨
       (pick_accel_and_wait_for_available cfg rand mb s = .hangs s ∧
          ∀ i, free_instance s p i = false)) := by
  obtain ⟨p, hp⟩ := proposed_accel_some cfg rand m.job_type hj
  obtain ⟨_, hp0, hp3⟩ := proposed_accel_range cfg rand _ p hp
  have hdef := scan_kind_defined p s hs hp0 hp3
  have hne : p ≠ no_accelerator_t := by
    intro h; rw [h] at hp3; exact absurd hp3 (by decide)
  refine ⟨p, hp, hne, ?_⟩
  rw [pick_eq cfg rand mb s m hm]
  simp only [hp]
  cases hk : scan_kind p s with
  | none => exact absurd hk hdef
  | some o =>
    cases o with
    | none => exact Or.inr ⟨rfl, scan_kind_none p s hk⟩
    | some i => exact Or.inl ⟨i, rfl, (scan_kind_some p s i hk).2.2.1⟩

/-- What `fastest_to_slowest_first_available` does on a job type it accepts. -/
theorem fast_total (cfg : Build) (mb : Nat) (s : Sched) (m : task_metadata_block_t)
    (hm : s.master_metadata_pool[mb]? = some m) (hs : inventory_sized s)
    (hj : m.job_type = FFT_TASK ∨ m.job_type = VITERBI_TASK) :
    (∃ k i, fastest_to_slowest_first_available cfg mb s = .returns () (assign k i mb s) ∧
        k ∈ kinds_scanned cfg m.job_type ∧ k ≠ no_accelerator_t ∧
        free_instance s k i = true) ∨
    (fastest_to_slowest_first_available cfg mb s = .hangs s ∧
        ∀ k ∈ kinds_scanned cfg m.job_type, ∀ i, free_instance s k i = false) := by
  obtain ⟨b, hw, hw0, hw3, hkinds, heq⟩ := fast_eq cfg mb s m hm hj
  have hdef := scan_fast_defined b hw s hs hw0 hw3
  rw [heq, hkinds]
  cases hk : scan_fast b hw s with
  | none => exact absurd hk hdef
  | some o =>
    cases o with
    | none => exact Or.inr ⟨rfl, scan_fast_none b hw s hk⟩
    | some pi =>
      obtain ⟨p, i⟩ := pi
      obtain ⟨hmem, hscan, _⟩ := scan_fast_some b hw s p i hk
      refine Or.inl ⟨p, i, rfl, hmem, ?_, (scan_kind_some p s i hscan).2.2.1⟩
      intro hp
      subst hp
      cases b with
      | false => simp at hmem
      | true =>
        simp only [↓reduceIte, List.mem_cons, List.mem_singleton, List.not_mem_nil,
          or_false] at hmem
        rcases hmem with h | h
        · rw [← h] at hw3; exact absurd hw3 (by decide)
        · exact absurd h (by decide)

/-! ### Successful acquires, the lock, and runs -/

/-- What a call of `get_task_metadata_block` that returns a slot has done. -/
theorem get_returns_some (j k : Int) (s s' : Sched) (v : Nat)
    (h : get_task_metadata_block j k s = .returns (some v) s') :
    ∃ bi m, s.free_metadata_mutex = false ∧ 1 ≤ s.free_metadata_blocks ∧
      rd s.free_metadata_pool (s.free_metadata_blocks - 1) = some bi ∧
      0 ≤ bi ∧ v = bi.toNat ∧
      rd s.master_metadata_pool bi = some m ∧
      s'.master_metadata_pool = s.master_metadata_pool.set bi.toNat (allocated j k m) ∧
      s'.free_metadata_pool = s.free_metadata_pool.set (s.free_metadata_blocks - 1).toNat (-1) ∧
      s'.free_metadata_blocks = s.free_metadata_blocks - 1 ∧
      s'.free_metadata_mutex = false := by
  by_cases hlock : s.free_metadata_mutex = true
  · simp [get_task_metadata_block, hlock] at h
  by_cases hfree : s.free_metadata_blocks < 1
  · simp [get_task_metadata_block, hlock, hfree] at h
  cases hbi : rd s.free_metadata_pool (s.free_metadata_blocks - 1) with
  | none => simp [get_task_metadata_block, hlock, hfree, hbi] at h
  | some bi =>
    by_cases hguard : bi < 0 ∨ 32 < bi
    · simp [get_task_metadata_block, hlock, hfree, hbi, hguard] at h
    have hguard2 : ¬ (bi < 0 ∨ bi > (total_metadata_pool_blocks : Int)) := by
      simpa using hguard
    obtain ⟨hb0, hbl⟩ := rd_lt hbi
    have hwr := wr_of_lt (-1) hb0 hbl
    cases hm : rd s.master_metadata_pool bi with
    | none => simp [get_task_metadata_block, hlock, hfree, hbi, hguard, hwr, hm] at h
    | some m =>
      have hbi0 : 0 ≤ bi := by
        by_contra hneg
        exact hguard (Or.inl (by omega))
      refine ⟨bi, m, by simpa using hlock, by omega, rfl, hbi0, ?_⟩
      by_cases hk : k > 1
      · simp only [get_task_metadata_block, hlock, hfree, hbi, hguard2, hwr, hm, hk] at h
        simp only [Bool.false_eq_true, ↓reduceIte] at h
        split at h
        · cases h
        · rename_i t ht
          obtain ⟨h1, h2, h3, _⟩ := push_critical_frame _ _ _ ht
          simp only [Outcome.returns.injEq, Option.some.injEq] at h
          obtain ⟨hv, h⟩ := h
          subst h
          exact ⟨hv.symm, hm, h1, h2, h3, rfl⟩
      · simp [get_task_metadata_block, hlock, hfree, hbi, hguard, hwr, hm, hk] at h
        obtain ⟨hv, h⟩ := h
        subst h
        exact ⟨hv.symm, hm, rfl, by simp, rfl, rfl⟩

/-- A call of `get_task_metadata_block` that returns `NULL` has locked the mutex and done nothing else. -/
theorem get_null_locks (j k : Int) (s s' : Sched)
    (h : get_task_metadata_block j k s = .returns none s') :
    s.free_metadata_mutex = false ∧ s' = { s with free_metadata_mutex := true } := by
  by_cases hlock : s.free_metadata_mutex = true
  · simp [get_task_metadata_block, hlock] at h
  have hl : s.free_metadata_mutex = false := by simpa using hlock
  obtain ⟨h1, h2⟩ := get_returns_null j k s hl
  have hfree := h2 s' h
  have := h1 hfree
  rw [this] at h
  simp only [Outcome.returns.injEq, true_and] at h
  exact ⟨hl, h.symm⟩

/-- A call of `free_task_metadata_block` that returns found the mutex free and leaves it free. -/
theorem free_unlocks (mb : Nat) (s s' : Sched)
    (h : free_task_metadata_block mb s = .returns () s') :
    s.free_metadata_mutex = false ∧ s'.free_metadata_mutex = false := by
  by_cases hlock : s.free_metadata_mutex = true
  · simp [free_task_metadata_block, hlock] at h
  refine ⟨by simpa using hlock, ?_⟩
  cases hm : s.master_metadata_pool[mb]? with
  | none => simp [free_task_metadata_block, hlock, hm] at h
  | some m =>
    by_cases hfree : s.free_metadata_blocks < 32
    swap
    · simp [free_task_metadata_block, hlock, hm, hfree] at h
    cases hw : wr s.free_metadata_pool s.free_metadata_blocks m.block_id with
    | none => simp [free_task_metadata_block, hlock, hm, hfree, hw] at h
    | some fmp =>
      cases hb : rd s.master_metadata_pool m.block_id with
      | none => simp [free_task_metadata_block, hlock, hm, hfree, hw, hb] at h
      | some b =>
        by_cases hc : b.crit_level > 1
        · simp only [free_task_metadata_block, hlock, hm, hfree, hw, hb, hc] at h
          simp only [Bool.false_eq_true, ↓reduceIte, Nat.cast_ofNat, hfree] at h
          split at h
          · cases h
          · cases h
          · cases h
          · split at h
            · cases h
            · rename_i t ht
              obtain ⟨h1, h2, h3, _⟩ := unlink_critical_frame _ _ _ _ ht
              simp only [clear_block, h1, hb] at h
              cases h
              rfl
        · simp [free_task_metadata_block, hlock, hm, hfree, hw, hb, hc, clear_block] at h
          subst h
          rfl

theorem run_append (cfg : Build) (allowed : Sched → Call → Bool) (cs ds : List Call) :
    ∀ s, run cfg allowed (cs ++ ds) s = (run cfg allowed cs s).bind (run cfg allowed ds) := by
  induction cs with
  | nil => intro s; rfl
  | cons c cs ih =>
    intro s
    simp only [List.cons_append, run]
    by_cases ha : allowed s c = true
    · simp only [ha, ↓reduceIte]
      cases hst : step cfg c s with
      | none => rfl
      | some t => exact ih t
    · simp only [ha, Bool.false_eq_true, ↓reduceIte]
      rfl

theorem run_mono (cfg : Build) (a b : Sched → Call → Bool)
    (hab : ∀ s c, a s c = true → b s c = true) (cs : List Call) :
    ∀ s s', run cfg a cs s = some s' → run cfg b cs s = some s' := by
  induction cs with
  | nil => intro s s' h; exact h
  | cons c cs ih =>
    intro s s' h
    simp only [run] at h ⊢
    by_cases ha : a s c = true
    · simp only [ha, ↓reduceIte] at h
      simp only [hab s c ha, ↓reduceIte]
      cases hst : step cfg c s with
      | none => simp [hst] at h
      | some t =>
        simp only [hst] at h
        exact ih t s' h
    · simp [ha] at h

theorem acquire_release_on_live (s : Sched) (c : Call) (h : acquire_release s c = true) :
    on_live s c = true := by
  cases c with
  | acquire j k r => rfl
  | release mb => exact h
  | request r mb => rfl
  | done mb => cases h
  | policy p => rfl

/-- The invariant of the slot pool holds after successful acquires and releases of live slots. -/
theorem PoolInv_acquire_release (cfg : Build) (cs : List Call) (s : Sched)
    (h : run cfg acquire_release cs (initialize_scheduler startup) = some s) : PoolInv s :=
  PoolInv_run cfg cs _ s PoolInv_init
    (run_mono cfg acquire_release on_live acquire_release_on_live cs _ s h)

/-- A slot handed out by `get_task_metadata_block` was not live before and is live afterwards. -/
theorem get_some_live (j k : Int) (s s' : Sched) (b : Nat) (hinv : PoolInv s)
    (h : get_task_metadata_block j k s = .returns (some b) s') :
    live s b = false ∧ live s' b = true ∧
    ∀ a, a ≠ b → s'.master_metadata_pool[a]? = s.master_metadata_pool[a]? := by
  obtain ⟨bi, m, _, h1, htop, hbi0, hb, hm, hpool, _, _, _⟩ := get_returns_some j k s s' b h
  have hmem := top_mem_free_entries s bi h1 htop
  obtain ⟨_, hget⟩ := rd_eq_some.mp hm
  have hbi : ((b : Nat) : Int) = bi := by omega
  rw [← hb] at hget hpool
  have hfree := (hinv.free_iff b m hget).mpr (by rw [hbi]; exact hmem)
  have hlt : b < s.master_metadata_pool.length := by
    by_contra hge
    rw [List.getElem?_eq_none (by omega)] at hget
    cases hget
  refine ⟨by simp [live, hget, hfree], ?_, ?_⟩
  · simp [live, hpool, List.getElem?_set_self hlt, allocated]
  · intro a ha
    rw [hpool, List.getElem?_set_ne (Ne.symm ha)]

/-- A successful acquire or a release of a live slot other than `a` keeps the live slot `a`
    live, and an acquire does not return `a`. -/
theorem live_kept (cfg : Build) (c : Call) (s s' : Sched) (a : Nat)
    (hinv : PoolInv s) (hlive : live s a = true) (hal : acquire_release s c = true)
    (hc : c ≠ .release a) (hst : step cfg c s = some s') :
    live s' a = true ∧ ∀ j k b, c = .acquire j k (some b) → b ≠ a := by
  cases c with
  | acquire j k r =>
    cases r with
    | none => cases hal
    | some b =>
      simp only [step] at hst
      split at hst
      · rename_i v t hget
        split at hst
        · rename_i hv
          cases hst
          subst hv
          obtain ⟨h1, _, h3⟩ := get_some_live j k s s' b hinv hget
          have hne : a ≠ b := by
            intro hab
            rw [hab, h1] at hlive
            cases hlive
          refine ⟨?_, ?_⟩
          · unfold live at hlive ⊢
            rw [h3 a hne]
            exact hlive
          · intro j' k' b' hcb
            cases hcb
            exact Ne.symm hne
        · cases hst
      · cases hst
  | release mb =>
    have hne : mb ≠ a := fun h => hc (by rw [h])
    simp only [step] at hst
    split at hst
    · rename_i u t hfree
      cases hst
      obtain ⟨m, b, hm, _, _, _, _, hpool, _, _⟩ := free_returns mb s s' hfree
      have hid := hinv.ident mb m hm
      refine ⟨?_, fun j k b' hcb => by cases hcb⟩
      unfold live at hlive ⊢
      rw [hpool, hid, Int.toNat_ofNat, List.getElem?_set_ne hne]
      exact hlive
    · cases hst
  | request r mb => cases hal
  | done mb => cases hal
  | policy p => cases hal

theorem live_run (cfg : Build) (a : Nat) (cs : List Call) :
    ∀ s s', PoolInv s → live s a = true → keeps a cs →
      run cfg acquire_release cs s = some s' → PoolInv s' ∧ live s' a = true := by
  induction cs with
  | nil => intro s s' h1 h2 _ hr; simp [run] at hr; subst hr; exact ⟨h1, h2⟩
  | cons c cs ih =>
    intro s s' h1 h2 hk hr
    simp only [run] at hr
    split at hr
    · rename_i hal
      split at hr
      · cases hr
      · rename_i t ht
        have hc : c ≠ .release a := by
          intro hca
          exact hk (by rw [hca]; exact List.mem_cons_self _ _)
        have hk2 : keeps a cs := fun hmem => hk (List.mem_cons_of_mem _ hmem)
        exact ih t s' (PoolInv_step cfg c s t h1 (acquire_release_on_live s c hal) ht)
          (live_kept cfg c s t a h1 h2 hal hc ht).1 hk2 hr
    · cases hr

/-- Two acquires with no release of the first slot in between return different slots, and
    the first slot is still live after the second acquire. -/
theorem acquires_differ (cfg : Build) (cs mid : List Call) (j k j' k' : Int) (a b : Nat)
    (s : Sched) (hk : keeps a mid)
    (h : run cfg acquire_release
      (cs ++ Call.acquire j k (some a) :: (mid ++ [Call.acquire j' k' (some b)]))
      (initialize_scheduler startup) = some s) : a ≠ b ∧ live s a = true ∧ live s b = true := by
  rw [run_append] at h
  cases h0 : run cfg acquire_release cs (initialize_scheduler startup) with
  | none => simp [h0] at h
  | some s0 =>
    have hinv0 := PoolInv_acquire_release cfg cs s0 h0
    simp only [h0, Option.some_bind, run] at h
    split at h
    swap
    · cases h
    rename_i hal
    split at h
    · cases h
    rename_i s1 hs1
    have hinv1 := PoolInv_step cfg _ s0 s1 hinv0 (acquire_release_on_live _ _ hal) hs1
    have hlive1 : live s1 a = true := by
      simp only [step] at hs1
      split at hs1
      · rename_i v t hget
        split at hs1
        · rename_i hv
          cases hs1
          subst hv
          exact (get_some_live j k s0 s1 a hinv0 hget).2.1
        · cases hs1
      · cases hs1
    rw [run_append] at h
    cases h2 : run cfg acquire_release mid s1 with
    | none => simp [h2] at h
    | some s2 =>
      obtain ⟨hinv2, hlive2⟩ := live_run cfg a mid s1 s2 hinv1 hlive1 hk h2
      simp only [h2, Option.some_bind, run] at h
      split at h
      swap
      · cases h
      rename_i hal2
      split at h
      · cases h
      rename_i s3 hs3
      have hs : s3 = s := Option.some.inj h
      rw [← hs]
      obtain ⟨hl3, hne⟩ := live_kept cfg _ s2 s3 a hinv2 hlive2 hal2 (by intro hh; cases hh) hs3
      refine ⟨Ne.symm (hne j' k' b rfl), hl3, ?_⟩
      simp only [step] at hs3
      split at hs3
      · rename_i v t hget
        split at hs3
        · rename_i hv
          cases hs3
          subst hv
          exact (get_some_live j' k' s2 s3 b hinv2 hget).2.1
        · cases hs3
      · cases hs3

/-! ### The instance a selector assigns -/

theorem least_free_unique (s : Sched) (k : Int) (i i0 : Nat)
    (h1 : free_instance s k i = true) (h2 : ∀ j, j < i → free_instance s k j = false)
    (h3 : free_instance s k i0 = true) (h4 : ∀ j, j < i0 → free_instance s k j = false) :
    i0 = i := by
  rcases Nat.lt_trichotomy i0 i with h | h | h
  · rw [h2 i0 h] at h3; cases h3
  · exact h
  · rw [h4 i h] at h1; cases h1

/-- The selector `pick_accel_and_wait_for_available` assigns the least free instance of the proposed kind. -/
theorem pick_least (cfg : Build) (rand mb : Nat) (s : Sched) (m : task_metadata_block_t)
    (k : Int) (i : Nat)
    (hm : s.master_metadata_pool[mb]? = some m) (hs : inventory_sized s)
    (hp : proposed_accel cfg rand m.job_type = some k)
    (hfree : free_instance s k i = true) (hleast : ∀ j, j < i → free_instance s k j = false) :
    pick_accel_and_wait_for_available cfg rand mb s = .returns () (assign k i mb s) := by
  obtain ⟨_, hp0, hp3⟩ := proposed_accel_range cfg rand _ k hp
  have hdef := scan_kind_defined k s hs hp0 hp3
  rw [pick_eq cfg rand mb s m hm]
  simp only [hp]
  cases hk : scan_kind k s with
  | none => exact absurd hk hdef
  | some o =>
    cases o with
    | none =>
      have := scan_kind_none k s hk i
      rw [this] at hfree; cases hfree
    | some i0 =>
      obtain ⟨_, _, hf0, hl0⟩ := scan_kind_some k s i0 hk
      rw [least_free_unique s k i i0 hfree hleast hf0 hl0]

/-- The selector `pick_accel_and_wait_for_available` spins when the proposed kind has no free instance. -/
theorem pick_spins (cfg : Build) (rand mb : Nat) (s : Sched) (m : task_metadata_block_t)
    (k : Int)
    (hm : s.master_metadata_pool[mb]? = some m) (hs : inventory_sized s)
    (hp : proposed_accel cfg rand m.job_type = some k)
    (hnone : ∀ i, free_instance s k i = false) :
    pick_accel_and_wait_for_available cfg rand mb s = .hangs s := by
  obtain ⟨_, hp0, hp3⟩ := proposed_accel_range cfg rand _ k hp
  have hdef := scan_kind_defined k s hs hp0 hp3
  rw [pick_eq cfg rand mb s m hm]
  simp only [hp]
  cases hk : scan_kind k s with
  | none => exact absurd hk hdef
  | some o =>
    cases o with
    | none => rfl
    | some i0 =>
      obtain ⟨_, _, hf0, _⟩ := scan_kind_some k s i0 hk
      rw [hnone i0] at hf0; cases hf0

/-- The selector `fastest_to_slowest_first_available` assigns the least free instance of the first kind,
    in the order of its scan, that has a free instance. -/
theorem fast_least (cfg : Build) (mb : Nat) (s : Sched) (m : task_metadata_block_t)
    (pre post : List Int) (k : Int) (i : Nat)
    (hm : s.master_metadata_pool[mb]? = some m) (hs : inventory_sized s)
    (hkinds : kinds_scanned cfg m.job_type = pre ++ k :: post)
    (hpre : ∀ k' ∈ pre, ∀ j, free_instance s k' j = false)
    (hfree : free_instance s k i = true) (hleast : ∀ j, j < i → free_instance s k j = false) :
    fastest_to_slowest_first_available cfg mb s = .returns () (assign k i mb s) ∧
    scan_kind k s = some (some i) ∧ k ≠ no_accelerator_t := by
  have hj : m.job_type = FFT_TASK ∨ m.job_type = VITERBI_TASK := by
    by_contra hnot
    push_neg at hnot
    have : kinds_scanned cfg m.job_type = [] := by
      simp [kinds_scanned, hnot.1, hnot.2]
    rw [this] at hkinds
    cases pre <;> cases hkinds
  obtain ⟨b, hw, hw0, hw3, hk2, heq⟩ := fast_eq cfg mb s m hm hj
  have hdef := scan_fast_defined b hw s hs hw0 hw3
  have hkmem : k ∈ (if b then [hw, cpu_accel_t] else [cpu_accel_t]) := by
    rw [← hk2, hkinds]; simp
  rw [heq]
  cases hk : scan_fast b hw s with
  | none => exact absurd hk hdef
  | some o =>
    cases o with
    | none =>
      have := scan_fast_none b hw s hk k hkmem i
      rw [this] at hfree; cases hfree
    | some pi =>
      obtain ⟨p, i0⟩ := pi
      obtain ⟨hmem, hscan, hskip⟩ := scan_fast_some b hw s p i0 hk
      obtain ⟨_, _, hf0, hl0⟩ := scan_kind_some p s i0 hscan
      have hpk : p = k := by
        rw [hkinds] at hk2
        cases b with
        | false =>
          simp only [Bool.false_eq_true, ↓reduceIte, List.mem_singleton] at hmem hk2
          cases pre with
          | nil =>
            simp only [List.nil_append, List.cons.injEq] at hk2
            rw [hmem, hk2.1]
          | cons x xs =>
            cases xs <;> simp at hk2
        | true =>
          simp only [↓reduceIte, List.mem_cons, List.mem_singleton, List.not_mem_nil,
            or_false] at hmem hk2
          cases pre with
          | nil =>
            simp only [List.nil_append, List.cons.injEq] at hk2
            by_contra hne
            have hphw : p ≠ hw := by rw [← hk2.1]; exact hne
            have := hskip rfl hphw i
            rw [hk2.1, this] at hfree; cases hfree
          | cons x xs =>
            cases xs with
            | nil =>
              simp only [List.cons_append, List.nil_append, List.cons.injEq, and_true] at hk2
              obtain ⟨hx, hkc⟩ := hk2
              rcases hmem with h | h
              · have := hpre x (List.mem_cons_self _ _) i0
                rw [h, ← hx, this] at hf0; cases hf0
              · rw [h, hkc.1]
            | cons y ys =>
              cases ys <;> simp at hk2
      subst hpk
      have hi := least_free_unique s p i i0 hfree hleast hf0 hl0
      subst hi
      refine ⟨rfl, hscan, ?_⟩
      intro hp
      rw [hp] at hkmem
      cases b with
      | false => simp at hkmem
      | true =>
        simp only [↓reduceIte, List.mem_cons, List.mem_singleton, List.not_mem_nil,
          or_false] at hkmem
        rcases hkmem with h | h
        · rw [← h] at hw3; exact absurd hw3 (by decide)
        · exact absurd h (by decide)

/-- What `fastest_to_slowest_first_available` has done when it returns. -/
theorem fast_returns (cfg : Build) (mb : Nat) (s s' : Sched)
    (h : fastest_to_slowest_first_available cfg mb s = .returns () s') :
    ∃ m k i, s.master_metadata_pool[mb]? = some m ∧
      k ∈ kinds_scanned cfg m.job_type ∧ scan_kind k s = some (some i) ∧
      s' = assign k i mb s := by
  cases hm : s.master_metadata_pool[mb]? with
  | none => simp [fastest_to_slowest_first_available, hm] at h
  | some m =>
    by_cases hj : m.job_type = FFT_TASK ∨ m.job_type = VITERBI_TASK
    · obtain ⟨b, hw, _, _, hk2, heq⟩ := fast_eq cfg mb s m hm hj
      rw [heq] at h
      cases hk : scan_fast b hw s with
      | none => simp [hk] at h
      | some o =>
        cases o with
        | none => simp [hk] at h
        | some pi =>
          obtain ⟨p, i⟩ := pi
          obtain ⟨hmem, hscan, _⟩ := scan_fast_some b hw s p i hk
          simp only [hk, Outcome.returns.injEq, true_and] at h
          exact ⟨m, p, i, rfl, by rw [hk2]; exact hmem, hscan, h.symm⟩
    · push_neg at hj
      rw [fast_rejects cfg mb s m hm hj.1 hj.2] at h
      cases h

/-- The state `assign k i mb s` differs from `s` in the assignment of slot `mb` only. -/
theorem assign_eq (k : Int) (i mb : Nat) (s : Sched) (m : task_metadata_block_t)
    (hm : s.master_metadata_pool[mb]? = some m) :
    assign k i mb s = { s with
      master_metadata_pool := s.master_metadata_pool.set mb
        { m with accelerator_type := k, accelerator_id := i } } := by
  simp only [assign, hm]

/-- An acquire that follows a release which returned: if it returns, it returns the slot just
    released, and it does return when the task is not critical. -/
theorem release_then_acquire (mb : Nat) (j k : Int) (s s1 : Sched) (hinv : PoolInv s)
    (hfree : free_task_metadata_block mb s = .returns () s1) :
    (∀ v s2, get_task_metadata_block j k s1 = .returns v s2 → v = some mb) ∧
    (¬ k > 1 → ∃ s2, get_task_metadata_block j k s1 = .returns (some mb) s2) := by
  obtain ⟨m, b, hm, h0, h1, hl, hb, hpool, hfmp, hfmb⟩ := free_returns mb s s1 hfree
  obtain ⟨_, hlock⟩ := free_unlocks mb s s1 hfree
  have hid := hinv.ident mb m hm
  have htop : rd s1.free_metadata_pool (s1.free_metadata_blocks - 1) = some (mb : Int) := by
    rw [hfmp, hfmb, hid]
    have : s.free_metadata_blocks + 1 - 1 = s.free_metadata_blocks := by omega
    rw [this]
    apply rd_eq_some.mpr
    refine ⟨h0, ?_⟩
    rw [List.getElem?_set_self hl]
  have hmb : mb < 32 := by
    have := hinv.pool_len
    by_contra hge
    rw [List.getElem?_eq_none (by omega)] at hm
    cases hm
  refine ⟨?_, ?_⟩
  · intro v s2 hget
    cases v with
    | none =>
      have := (get_returns_null j k s1 hlock).2 s2 hget
      omega
    | some x =>
      obtain ⟨bi, _, _, _, hbi, _, hx, _⟩ := get_returns_some j k s1 s2 x hget
      rw [htop] at hbi
      cases hbi
      rw [hx]; rfl
  · intro hk
    have hlen1 : s1.master_metadata_pool.length = 32 := by
      rw [hpool, List.length_set]; exact hinv.pool_len
    obtain ⟨m1, hm1⟩ := rd_of_lt (a := s1.master_metadata_pool) (i := (mb : Int))
      (by omega) (by rw [hlen1]; omega)
    obtain ⟨hb0, hbl⟩ := rd_lt htop
    have hwr := wr_of_lt (-1 : Int) hb0 hbl
    have hfree1 : ¬ s1.free_metadata_blocks < 1 := by omega
    have hguard : ¬ (((mb : Nat) : Int) < 0 ∨ 32 < ((mb : Nat) : Int)) := by omega
    simp [get_task_metadata_block, hlock, hfree1, htop, hguard, hwr, hm1, hk]
    rw [if_neg (by omega)]
    exact ⟨_, rfl⟩

/-! ### The busy table in executions with direct releases of accelerators -/

theorem TableInv_of_RunInv (s : Sched) (h : RunInv s) : TableInv s :=
  ⟨h.pool_len, h.ident, h.rows, h.cols, h.typed, h.entries⟩

theorem TableInv_init : TableInv (initialize_scheduler startup) :=
  TableInv_of_RunInv _ RunInv_init

theorem TableInv_slot (s : Sched) (h : TableInv s) (mb : Nat) (m : task_metadata_block_t)
    (hm : s.master_metadata_pool[mb]? = some m) :
    m.block_id = mb ∧ mb < 32 ∧ 0 ≤ m.block_id ∧ m.block_id < 32 ∧ is_int m.block_id := by
  have h1 := h.ident mb m hm
  have h2 : mb < 32 := by
    have := (List.getElem?_eq_some.mp hm).1
    rw [h.pool_len] at this
    exact this
  refine ⟨h1, h2, by omega, by omega, ?_⟩
  unfold is_int
  omega

/-- The invariant survives a step that rewrites one slot and the busy table, as long as the
    block id stays and the busy table keeps its shape. -/
theorem TableInv_update (s t : Sched) (mb : Nat) (m m' : task_metadata_block_t)
    (h : TableInv s) (hm : s.master_metadata_pool[mb]? = some m)
    (hp : t.master_metadata_pool = s.master_metadata_pool.set mb m')
    (hid : m'.block_id = m.block_id)
    (hty : is_int m'.accelerator_type ∧ is_int m'.accelerator_id)
    (hrows : t.accelerator_in_use_by.length = 3)
    (hcols : ∀ row ∈ t.accelerator_in_use_by, row.length = 10)
    (hent : ∀ k i v, rd_in_use t.accelerator_in_use_by k i = some v → -1 ≤ v ∧ v < 32) :
    TableInv t := by
  refine ⟨by rw [hp, List.length_set]; exact h.pool_len, ?_, hrows, hcols, ?_, hent⟩
  · intro i x hx
    rw [hp] at hx
    rcases getElem?_set_cases _ _ _ _ _ hx with ⟨rfl, rfl, _⟩ | ⟨_, hx⟩
    · rw [hid]; exact h.ident _ m hm
    · exact h.ident i x hx
  · intro i x hx
    rw [hp] at hx
    rcases getElem?_set_cases _ _ _ _ _ hx with ⟨rfl, rfl, _⟩ | ⟨_, hx⟩
    · exact hty
    · exact h.typed i x hx

theorem TableInv_congr (s t : Sched) (hp : t.master_metadata_pool = s.master_metadata_pool)
    (ht : t.accelerator_in_use_by = s.accelerator_in_use_by) (h : TableInv s) : TableInv t :=
  ⟨by rw [hp]; exact h.pool_len, by rw [hp]; exact h.ident, by rw [ht]; exact h.rows,
    by rw [ht]; exact h.cols, by rw [hp]; exact h.typed, by rw [ht]; exact h.entries⟩

/-- When `request_execution` returns in a state with slot identities and a busy table of the
    declared shape, the random-with-wait policy was selected, the selector has assigned the
    first free instance of the kind it proposed and the state is the dispatched one. -/
theorem request_dispatches (cfg : Build) (rand mb : Nat) (s s' : Sched) (hinv : TableInv s)
    (h : request_execution cfg rand mb s = .returns () s') :
    ∃ m p i, s.master_metadata_pool[mb]? = some m ∧
      s.global_scheduler_selection_policy = SELECT_ACCEL_AND_WAIT_POLICY ∧
      proposed_accel cfg rand m.job_type = some p ∧ scan_kind p s = some (some i) ∧
      s' = dispatched p i mb s := by
  cases hm : s.master_metadata_pool[mb]? with
  | none => simp [request_execution, set_status, hm] at h
  | some m =>
    have hlen : mb < s.master_metadata_pool.length := (List.getElem?_eq_some.mp hm).1
    obtain ⟨_, _, hb0, hb1, _⟩ := TableInv_slot s hinv mb m hm
    by_cases hpol : s.global_scheduler_selection_policy = SELECT_ACCEL_AND_WAIT_POLICY
    swap
    · simp [request_execution, set_status, hm, select_target_accelerator, hpol] at h
    have hm1 : (s.master_metadata_pool.set mb { m with status := TASK_QUEUED })[mb]? =
        some { m with status := TASK_QUEUED } := by simp [hlen]
    have hpick := pick_eq cfg rand mb
      { s with master_metadata_pool := s.master_metadata_pool.set mb { m with status := TASK_QUEUED } }
      _ hm1
    cases hp : proposed_accel cfg rand m.job_type with
    | none =>
      simp only [hp] at hpick
      rw [request_eq cfg rand mb s m hm hpol, hpick] at h
      cases h
    | some p =>
      cases hk : scan_kind p s with
      | none =>
        have hk1 : scan_kind p
          { s with master_metadata_pool := s.master_metadata_pool.set mb { m with status := TASK_QUEUED } }
          = none := hk
        simp only [hp, hk1] at hpick
        rw [request_eq cfg rand mb s m hm hpol, hpick] at h
        cases h
      | some o =>
        cases o with
        | none =>
          have hk1 : scan_kind p
            { s with master_metadata_pool := s.master_metadata_pool.set mb { m with status := TASK_QUEUED } }
            = some none := hk
          simp only [hp, hk1] at hpick
          rw [request_eq cfg rand mb s m hm hpol, hpick] at h
          cases h
        | some i =>
          rw [request_spec cfg rand mb s m p i hpol hm hp hk hinv.rows hinv.cols hb0 hb1] at h
          simp only [Outcome.returns.injEq, true_and] at h
          exact ⟨m, p, i, rfl, hpol, hp, hk, h.symm⟩

/-- The function `request_execution` in a state with slot identities and a busy table of the declared
    shape never ends in the `exit(-14)` of its double-claim check: if it terminates the
    process, the exit code is -15. -/
theorem request_exit_code (cfg : Build) (rand mb : Nat) (s t : Sched) (c : Int)
    (hinv : TableInv s) (h : request_execution cfg rand mb s = .exits c t) : c = -15 := by
  cases hm : s.master_metadata_pool[mb]? with
  | none => simp [request_execution, set_status, hm] at h
  | some m =>
    have hlen : mb < s.master_metadata_pool.length := (List.getElem?_eq_some.mp hm).1
    obtain ⟨_, _, hb0, hb1, _⟩ := TableInv_slot s hinv mb m hm
    by_cases hpol : s.global_scheduler_selection_policy = SELECT_ACCEL_AND_WAIT_POLICY
    swap
    · rw [request_other_policy cfg rand mb s m hm hpol] at h
      simp only [Outcome.exits.injEq] at h
      exact h.1.symm
    have hm1 : (s.master_metadata_pool.set mb { m with status := TASK_QUEUED })[mb]? =
        some { m with status := TASK_QUEUED } := by simp [hlen]
    have hpick := pick_eq cfg rand mb
      { s with master_metadata_pool := s.master_metadata_pool.set mb { m with status := TASK_QUEUED } }
      _ hm1
    cases hp : proposed_accel cfg rand m.job_type with
    | none =>
      simp only [hp] at hpick
      rw [request_eq cfg rand mb s m hm hpol, hpick] at h
      simp only [Outcome.exits.injEq] at h
      exact h.1.symm
    | some p =>
      cases hk : scan_kind p s with
      | none =>
        have hk1 : scan_kind p
          { s with master_metadata_pool := s.master_metadata_pool.set mb { m with status := TASK_QUEUED } }
          = none := hk
        simp only [hp, hk1] at hpick
        rw [request_eq cfg rand mb s m hm hpol, hpick] at h
        cases h
      | some o =>
        cases o with
        | none =>
          have hk1 : scan_kind p
            { s with master_metadata_pool := s.master_metadata_pool.set mb { m with status := TASK_QUEUED } }
            = some none := hk
          simp only [hp, hk1] at hpick
          rw [request_eq cfg rand mb s m hm hpol, hpick] at h
          cases h
        | some i =>
          rw [request_spec cfg rand mb s m p i hpol hm hp hk hinv.rows hinv.cols hb0 hb1] at h
          cases h

/-- When `release_accelerator_for_task` returns in a state with slot identities and a busy table of
    the declared shape, the slot was assigned an instance of the busy table and the state is
    the one of `release_spec`. -/
theorem release_returns (mb : Nat) (s s' : Sched) (hinv : TableInv s)
    (h : release_accelerator_for_task mb s = .returns () s') :
    ∃ m v, s.master_metadata_pool[mb]? = some m ∧
      rd_in_use s.accelerator_in_use_by m.accelerator_type m.accelerator_id = some v ∧
      s' = { s with
        accelerator_in_use_by :=
          released s.accelerator_in_use_by m.accelerator_type m.accelerator_id v m.block_id
        mismatch_reports :=
          if v = m.block_id then s.mismatch_reports else m.block_id :: s.mismatch_reports } := by
  cases hm : s.master_metadata_pool[mb]? with
  | none => simp [release_accelerator_for_task, hm] at h
  | some m =>
    obtain ⟨_, _, _, _, hbi⟩ := TableInv_slot s hinv mb m hm
    obtain ⟨hk, hi⟩ := hinv.typed mb m hm
    cases hv : rd_in_use s.accelerator_in_use_by (to_unsigned m.accelerator_type)
        (to_unsigned m.accelerator_id) with
    | none => simp [release_accelerator_for_task, hm, hv] at h
    | some v =>
      obtain ⟨hk0, hk3, hi0, hi10⟩ := rd_in_use_bounds hv hinv.rows hinv.cols
      have hk' : to_unsigned m.accelerator_type = m.accelerator_type := by
        unfold to_unsigned at hk0 hk3 ⊢
        unfold is_int at hk
        omega
      have hi' : to_unsigned m.accelerator_id = m.accelerator_id := by
        unfold to_unsigned at hi0 hi10 ⊢
        unfold is_int at hi
        omega
      rw [hk', hi'] at hv
      have hvi : is_int v := by
        have := hinv.entries _ _ _ hv
        unfold is_int
        omega
      rw [release_spec mb s m v hm hinv.rows hinv.cols hv hvi hbi] at h
      simp only [Outcome.returns.injEq, true_and] at h
      exact ⟨m, v, rfl, hv, h.symm⟩

/-- When `mark_task_done` returns in a state with slot identities and a busy table of the declared
    shape, the slot was assigned an instance of the busy table and the state is the one of
    `done_spec`. -/
theorem done_releases (mb : Nat) (s s' : Sched) (hinv : TableInv s)
    (h : mark_task_done inert_hooks mb s = .returns () s') :
    ∃ m v, s.master_metadata_pool[mb]? = some m ∧
      rd_in_use s.accelerator_in_use_by m.accelerator_type m.accelerator_id = some v ∧
      s' = { s with
        master_metadata_pool := s.master_metadata_pool.set mb
          { m with status := TASK_DONE, atFinish := none }
        accelerator_in_use_by :=
          released s.accelerator_in_use_by m.accelerator_type m.accelerator_id v m.block_id
        mismatch_reports :=
          if v = m.block_id then s.mismatch_reports else m.block_id :: s.mismatch_reports
        finish_calls := finished m
          (released s.accelerator_in_use_by m.accelerator_type m.accelerator_id v m.block_id)
          s.finish_calls } := by
  cases hm : s.master_metadata_pool[mb]? with
  | none => simp [mark_task_done, set_status, hm] at h
  | some m =>
    have hlen : mb < s.master_metadata_pool.length := (List.getElem?_eq_some.mp hm).1
    obtain ⟨_, _, _, _, hbi⟩ := TableInv_slot s hinv mb m hm
    obtain ⟨hk, hi⟩ := hinv.typed mb m hm
    cases hv : rd_in_use s.accelerator_in_use_by (to_unsigned m.accelerator_type)
        (to_unsigned m.accelerator_id) with
    | none =>
      simp [mark_task_done, set_status, hm, release_accelerator_for_task, hlen, hv] at h
    | some v =>
      obtain ⟨hk0, hk3, hi0, hi10⟩ := rd_in_use_bounds hv hinv.rows hinv.cols
      have hk' : to_unsigned m.accelerator_type = m.accelerator_type := by
        unfold to_unsigned at hk0 hk3 ⊢
        unfold is_int at hk
        omega
      have hi' : to_unsigned m.accelerator_id = m.accelerator_id := by
        unfold to_unsigned at hi0 hi10 ⊢
        unfold is_int at hi
        omega
      rw [hk', hi'] at hv
      have hvi : is_int v := by
        have := hinv.entries _ _ _ hv
        unfold is_int
        omega
      rw [done_spec mb s m v hm hinv.rows hinv.cols hv hvi hbi] at h
      simp only [Outcome.returns.injEq, true_and] at h
      exact ⟨m, v, rfl, hv, h.symm⟩

theorem TableInv_get (j k : Int) (r : Option Nat) (s s' : Sched) (h : TableInv s)
    (hg : get_task_metadata_block j k s = .returns r s') : TableInv s' := by
  have hf : final_state (get_task_metadata_block j k s) = some s' := by rw [hg]; rfl
  have ht := get_in_use j k s s' hf
  rcases get_final j k s s' hf with ⟨hp, _, _⟩ | ⟨bi, m, _, _, hm, hp, _, _⟩
  · exact TableInv_congr s s' hp ht h
  · have hm2 : s.master_metadata_pool[bi.toNat]? = some m := (rd_eq_some.mp hm).2
    exact TableInv_update s s' bi.toNat m (allocated j k m) h hm2 hp rfl
      ⟨by show is_int 3; decide, by show is_int (-1); decide⟩
      (by rw [ht]; exact h.rows) (by rw [ht]; exact h.cols) (by rw [ht]; exact h.entries)

theorem TableInv_free (mb : Nat) (s s' : Sched) (h : TableInv s)
    (hg : free_task_metadata_block mb s = .returns () s') : TableInv s' := by
  have ht := free_in_use mb s s' hg
  obtain ⟨m, b, _, _, _, _, hb, hp, _, _⟩ := free_returns mb s s' hg
  have hb2 : s.master_metadata_pool[m.block_id.toNat]? = some b := (rd_eq_some.mp hb).2
  exact TableInv_update s s' m.block_id.toNat b (cleared b) h hb2 hp rfl (h.typed _ b hb2)
    (by rw [ht]; exact h.rows) (by rw [ht]; exact h.cols) (by rw [ht]; exact h.entries)

theorem TableInv_request (cfg : Build) (rand mb : Nat) (s s' : Sched) (h : TableInv s)
    (hg : request_execution cfg rand mb s = .returns () s') : TableInv s' := by
  obtain ⟨m, p, i, hm, _, hp, hscan, rfl⟩ := request_dispatches cfg rand mb s s' h hg
  obtain ⟨_, hfree, _, _⟩ := scan_kind_some p s i hscan
  obtain ⟨row, hrow, hrowi⟩ := rd_in_use_eq_some.mp hfree
  obtain ⟨_, _, hb0, hb1, _⟩ := TableInv_slot s h mb m hm
  obtain ⟨_, hp0, hp3⟩ := proposed_accel_range cfg rand _ p hp
  obtain ⟨_, _, hi0, hi10⟩ := rd_in_use_bounds hfree h.rows h.cols
  obtain ⟨h1, h2, h3⟩ := table_set _ p i (-1) m.block_id row hrow hrowi h.rows h.cols h.entries
    ⟨by omega, hb1⟩
  rw [dispatched_eq p i mb s m row hm hrow]
  exact TableInv_update s _ mb m
    { m with status := TASK_RUNNING, accelerator_type := p, accelerator_id := i } h hm rfl rfl
    ⟨by show is_int p; unfold is_int; omega,
     by show is_int (i : Int); unfold is_int; omega⟩ h1 h2 h3

/-- The busy table after `release_accelerator_for_task` keeps its shape and the range of its entries. -/
theorem released_shape (t : List (List Int)) (k i v bid : Int)
    (hv : rd_in_use t k i = some v)
    (hrows : t.length = 3) (hcols : ∀ r ∈ t, r.length = 10)
    (hent : ∀ k i v, rd_in_use t k i = some v → -1 ≤ v ∧ v < 32) :
    (released t k i v bid).length = 3 ∧
    (∀ r ∈ released t k i v bid, r.length = 10) ∧
    (∀ k2 i2 v2, rd_in_use (released t k i v bid) k2 i2 = some v2 → -1 ≤ v2 ∧ v2 < 32) := by
  obtain ⟨row, hrow, hrowi⟩ := rd_in_use_eq_some.mp hv
  obtain ⟨h1, h2, h3⟩ := table_set t k i v (-1) row hrow hrowi hrows hcols hent
    ⟨by omega, by omega⟩
  rw [released_eq t k i v bid row hrow]
  split
  · exact ⟨h1, h2, h3⟩
  · exact ⟨hrows, hcols, hent⟩

theorem TableInv_done (mb : Nat) (s s' : Sched) (h : TableInv s)
    (hg : mark_task_done inert_hooks mb s = .returns () s') : TableInv s' := by
  obtain ⟨m, v, hm, hv, rfl⟩ := done_releases mb s s' h hg
  obtain ⟨h1, h2, h3⟩ := released_shape s.accelerator_in_use_by m.accelerator_type
    m.accelerator_id v m.block_id hv h.rows h.cols h.entries
  exact TableInv_update s _ mb m { m with status := TASK_DONE, atFinish := none } h hm rfl rfl
    (h.typed mb m hm) h1 h2 h3

theorem TableInv_release (mb : Nat) (s s' : Sched) (h : TableInv s)
    (hg : release_accelerator_for_task mb s = .returns () s') : TableInv s' := by
  obtain ⟨m, v, hm, hv, rfl⟩ := release_returns mb s s' h hg
  obtain ⟨h1, h2, h3⟩ := released_shape s.accelerator_in_use_by m.accelerator_type
    m.accelerator_id v m.block_id hv h.rows h.cols h.entries
  exact ⟨h.pool_len, h.ident, h1, h2, h.typed, h3⟩

/-- The table after `release_accelerator_for_task` on a slot with block id `bid`: an entry that holds
    another block id is where it was. -/
theorem released_keeps (t : List (List Int)) (k i v bid : Int) (k2 i2 w : Int)
    (hv : rd_in_use t k i = some v) (hw : rd_in_use t k2 i2 = some w) (hne : w ≠ bid) :
    rd_in_use (released t k i v bid) k2 i2 = some w := by
  obtain ⟨row, hrow, hrowi⟩ := rd_in_use_eq_some.mp hv
  rw [released_eq t k i v bid row hrow]
  split
  · next hvb =>
    rw [rd_in_use_set_other (-1) hrow hrowi k2 i2 ?_]
    · exact hw
    · by_contra hcon
      have hcon2 : k2 = k ∧ i2 = i := by tauto
      rw [hcon2.1, hcon2.2, hv] at hw
      have := Option.some.inj hw
      exact hne (by rw [← this, hvb])
  · exact hw

/-- The state an event leaves when it returns. -/
theorem occur_eq (cfg : Build) (e : Event) (s s' : Sched) (h : occur cfg e s = some s') :
    (∃ j k r, e = .call (.acquire j k r) ∧ get_task_metadata_block j k s = .returns r s') ∨
    (∃ mb, e = .call (.release mb) ∧ free_task_metadata_block mb s = .returns () s') ∨
    (∃ rand mb, e = .call (.request rand mb) ∧
      request_execution cfg rand mb s = .returns () s') ∨
    (∃ mb, e = .call (.done mb) ∧ mark_task_done inert_hooks mb s = .returns () s') ∨
    (∃ p, e = .call (.policy p) ∧ s' = { s with global_scheduler_selection_policy := p }) ∨
    (∃ mb, e = .release_accelerator mb ∧
      release_accelerator_for_task mb s = .returns () s') := by
  cases e with
  | call c =>
    cases c with
    | acquire j k r =>
      simp only [occur, step] at h
      split at h
      · rename_i v t hg
        split at h
        · rename_i hv
          cases h
          subst hv
          exact Or.inl ⟨j, k, v, rfl, hg⟩
        · cases h
      · cases h
    | release mb =>
      simp only [occur, step] at h
      split at h
      · rename_i v t hg
        cases h
        exact Or.inr (Or.inl ⟨mb, rfl, hg⟩)
      · cases h
    | request rand mb =>
      simp only [occur, step] at h
      split at h
      · rename_i v t hg
        cases h
        exact Or.inr (Or.inr (Or.inl ⟨rand, mb, rfl, hg⟩))
      · cases h
    | done mb =>
      simp only [occur, step] at h
      split at h
      · rename_i v t hg
        cases h
        exact Or.inr (Or.inr (Or.inr (Or.inl ⟨mb, rfl, hg⟩)))
      · cases h
    | policy p =>
      simp only [occur, step, Option.some.injEq] at h
      exact Or.inr (Or.inr (Or.inr (Or.inr (Or.inl ⟨p, rfl, h.symm⟩))))
  | release_accelerator mb =>
    simp only [occur] at h
    split at h
    · rename_i v t hg
      cases h
      exact Or.inr (Or.inr (Or.inr (Or.inr (Or.inr ⟨mb, rfl, hg⟩))))
    · cases h

theorem TableInv_occur (cfg : Build) (e : Event) (s s' : Sched) (h : TableInv s)
    (hs : occur cfg e s = some s') : TableInv s' := by
  rcases occur_eq cfg e s s' hs with ⟨j, k, r, _, hg⟩ | ⟨mb, _, hg⟩ | ⟨rand, mb, _, hg⟩ |
    ⟨mb, _, hg⟩ | ⟨p, _, hg⟩ | ⟨mb, _, hg⟩
  · exact TableInv_get j k r s s' h hg
  · exact TableInv_free mb s s' h hg
  · exact TableInv_request cfg rand mb s s' h hg
  · exact TableInv_done mb s s' h hg
  · subst hg; exact TableInv_congr s _ rfl rfl h
  · exact TableInv_release mb s s' h hg

theorem TableInv_history (cfg : Build) (es : List Event) :
    ∀ (s s' : Sched), TableInv s → history cfg es s = some s' → TableInv s' := by
  induction es with
  | nil => intro s s' h hr; simp [history] at hr; subst hr; exact h
  | cons e es ih =>
    intro s s' h hr
    simp only [history] at hr
    split at hr
    · cases hr
    · rename_i t ht
      exact ih t s' (TableInv_occur cfg e s t h ht) hr

/-- A busy entry that holds the block id of slot `a` is where it was after every event that
    is neither `mark_task_done` nor `release_accelerator_for_task` on slot `a`. -/
theorem entry_occur (cfg : Build) (e : Event) (s s' : Sched) (a : Nat) (k i : Int)
    (hinv : TableInv s) (hs : occur cfg e s = some s')
    (hv : rd_in_use s.accelerator_in_use_by k i = some (a : Int))
    (h1 : e ≠ .call (.done a)) (h2 : e ≠ .release_accelerator a) :
    rd_in_use s'.accelerator_in_use_by k i = some (a : Int) := by
  rcases occur_eq cfg e s s' hs with ⟨j, k', r, _, hg⟩ | ⟨mb, _, hg⟩ | ⟨rand, mb, _, hg⟩ |
    ⟨mb, he, hg⟩ | ⟨p, _, hg⟩ | ⟨mb, he, hg⟩
  · rw [get_in_use j k' s s' (by rw [hg]; rfl)]; exact hv
  · rw [free_in_use mb s s' hg]; exact hv
  · obtain ⟨m, p, j, hm, _, _, hscan, rfl⟩ := request_dispatches cfg rand mb s s' hinv hg
    obtain ⟨_, hfree, _, _⟩ := scan_kind_some p s j hscan
    obtain ⟨row, hrow, hrowi⟩ := rd_in_use_eq_some.mp hfree
    rw [dispatched_eq p j mb s m row hm hrow]
    show rd_in_use (s.accelerator_in_use_by.set p.toNat (row.set ((j : Int)).toNat m.block_id))
      k i = some (a : Int)
    rw [rd_in_use_set_other m.block_id hrow hrowi k i ?_]
    · exact hv
    · by_contra hcon
      have hcon2 : k = p ∧ i = (j : Int) := by tauto
      rw [hcon2.1, hcon2.2, hfree] at hv
      have := Option.some.inj hv
      omega
  · obtain ⟨m, v, hm, hmv, rfl⟩ := done_releases mb s s' hinv hg
    obtain ⟨hid, _, _, _, _⟩ := TableInv_slot s hinv mb m hm
    refine released_keeps _ _ _ _ _ _ _ _ hmv hv ?_
    intro hab
    apply h1
    have : a = mb := by
      have : (a : Int) = (mb : Int) := by rw [hab, hid]
      exact_mod_cast this
    rw [he, this]
  · subst hg; exact hv
  · obtain ⟨m, v, hm, hmv, rfl⟩ := release_returns mb s s' hinv hg
    obtain ⟨hid, _, _, _, _⟩ := TableInv_slot s hinv mb m hm
    refine released_keeps _ _ _ _ _ _ _ _ hmv hv ?_
    intro hab
    apply h2
    have : a = mb := by
      have : (a : Int) = (mb : Int) := by rw [hab, hid]
      exact_mod_cast this
    rw [he, this]

theorem entry_history (cfg : Build) (a : Nat) (k i : Int) (es : List Event) :
    ∀ (s s' : Sched), TableInv s → history cfg es s = some s' → holds_accelerator a es →
      rd_in_use s.accelerator_in_use_by k i = some (a : Int) →
      rd_in_use s'.accelerator_in_use_by k i = some (a : Int) := by
  induction es with
  | nil => intro s s' _ hr _ hv; simp [history] at hr; subst hr; exact hv
  | cons e es ih =>
    intro s s' h hr hk hv
    simp only [history] at hr
    split at hr
    · cases hr
    · rename_i t ht
      have h1 : e ≠ .call (.done a) := fun he => hk.1 (by rw [he]; exact List.mem_cons_self _ _)
      have h2 : e ≠ .release_accelerator a :=
        fun he => hk.2 (by rw [he]; exact List.mem_cons_self _ _)
      have hk' : holds_accelerator a es :=
        ⟨fun hm => hk.1 (List.mem_cons_of_mem _ hm), fun hm => hk.2 (List.mem_cons_of_mem _ hm)⟩
      exact ih t s' (TableInv_occur cfg e s t h ht) hr hk'
        (entry_occur cfg e s t a k i h ht hv h1 h2)

/-- What a dispatch by `request_execution` has done: the instance assigned was free, the slot
    is RUNNING with that assignment, the busy entry of the instance holds the block id of the
    slot, and no other slot and no other busy entry has changed. -/
theorem dispatched_slot (cfg : Build) (rand mb : Nat) (s s' : Sched) (hinv : TableInv s)
    (h : request_execution cfg rand mb s = .returns () s') :
    ∃ (m : task_metadata_block_t) (p : Int) (i : Nat),
      s.master_metadata_pool[mb]? = some m ∧
      rd_in_use s.accelerator_in_use_by p i = some (-1) ∧ 0 ≤ p ∧ p < 3 ∧
      s'.master_metadata_pool[mb]? = some
        { m with status := TASK_RUNNING, accelerator_type := p, accelerator_id := i } ∧
      (∀ j, j ≠ mb → s'.master_metadata_pool[j]? = s.master_metadata_pool[j]?) ∧
      rd_in_use s'.accelerator_in_use_by p i = some (mb : Int) ∧
      (∀ k2 i2, (k2 ≠ p ∨ i2 ≠ (i : Int)) →
        rd_in_use s'.accelerator_in_use_by k2 i2 = rd_in_use s.accelerator_in_use_by k2 i2) := by
  obtain ⟨m, p, i, hm, _, hp, hscan, rfl⟩ := request_dispatches cfg rand mb s s' hinv h
  obtain ⟨_, hfree, _, _⟩ := scan_kind_some p s i hscan
  obtain ⟨row, hrow, hrowi⟩ := rd_in_use_eq_some.mp hfree
  obtain ⟨hid, _, _, _, _⟩ := TableInv_slot s hinv mb m hm
  obtain ⟨_, hp0, hp3⟩ := proposed_accel_range cfg rand _ p hp
  have hlen : mb < s.master_metadata_pool.length := (List.getElem?_eq_some.mp hm).1
  rw [dispatched_eq p i mb s m row hm hrow]
  refine ⟨m, p, i, hm, hfree, hp0, hp3, ?_, ?_, ?_, ?_⟩
  · exact List.getElem?_set_self hlen
  · intro j hj
    exact List.getElem?_set_ne (Ne.symm hj)
  · show rd_in_use (s.accelerator_in_use_by.set p.toNat (row.set ((i : Int)).toNat m.block_id))
      p i = some (mb : Int)
    rw [rd_in_use_set_same m.block_id hrow hrowi, hid]
  · intro k2 i2 hne
    exact rd_in_use_set_other m.block_id hrow hrowi k2 i2 hne

/-- The property `claims_own a` holds after every event that is neither `mark_task_done` nor
    `release_accelerator_for_task` on slot `a`. -/
theorem claims_own_occur (cfg : Build) (e : Event) (s s' : Sched) (a : Nat)
    (hinv : TableInv s) (hs : occur cfg e s = some s') (hown : claims_own a s)
    (h1 : e ≠ .call (.done a)) (h2 : e ≠ .release_accelerator a) : claims_own a s' := by
  have hentry : ∀ k i, rd_in_use s.accelerator_in_use_by k i = some (a : Int) →
      rd_in_use s'.accelerator_in_use_by k i = some (a : Int) :=
    fun k i hv => entry_occur cfg e s s' a k i hinv hs hv h1 h2
  have hsame : ∀ m', s.master_metadata_pool[a]? = some m' →
      (m'.accelerator_type = no_accelerator_t ∧ m'.accelerator_id = -1) ∨
      rd_in_use s'.accelerator_in_use_by m'.accelerator_type m'.accelerator_id
        = some (a : Int) := by
    intro m' hm'
    rcases hown m' hm' with hl | hr
    · exact Or.inl hl
    · exact Or.inr (hentry _ _ hr)
  intro m' hm'
  rcases occur_eq cfg e s s' hs with ⟨j, k', r, _, hg⟩ | ⟨mb, _, hg⟩ | ⟨rand, mb, _, hg⟩ |
    ⟨mb, he, hg⟩ | ⟨p, _, hg⟩ | ⟨mb, he, hg⟩
  · rcases get_final j k' s s' (by rw [hg]; rfl) with ⟨hp, _, _⟩ | ⟨bi, m, _, _, _, hp, _, _⟩
    · rw [hp] at hm'
      exact hsame m' hm'
    · rw [hp] at hm'
      rcases getElem?_set_cases _ _ _ _ _ hm' with ⟨_, rfl, _⟩ | ⟨_, hx⟩
      · exact Or.inl ⟨rfl, rfl⟩
      · exact hsame m' hx
  · obtain ⟨m, b, _, _, _, _, hb, hp, _, _⟩ := free_returns mb s s' hg
    rw [hp] at hm'
    rcases getElem?_set_cases _ _ _ _ _ hm' with ⟨ha, rfl, _⟩ | ⟨_, hx⟩
    · have hb2 : s.master_metadata_pool[a]? = some b := by
        rw [ha]; exact (rd_eq_some.mp hb).2
      exact hsame b hb2
    · exact hsame m' hx
  · obtain ⟨m, p, i, hm, _, _, _, hnew, hother, hent, _⟩ :=
      dispatched_slot cfg rand mb s s' hinv hg
    by_cases hab : a = mb
    · subst hab
      rw [hnew] at hm'
      cases hm'
      exact Or.inr hent
    · rw [hother a hab] at hm'
      exact hsame m' hm'
  · obtain ⟨m, v, hm, _, rfl⟩ := done_releases mb s s' hinv hg
    have hab : a ≠ mb := fun hab => h1 (by rw [he, hab])
    have hm2 : s.master_metadata_pool[a]? = some m' := by
      rw [← hm']
      exact (List.getElem?_set_ne (Ne.symm hab)).symm
    exact hsame m' hm2
  · subst hg
    exact hsame m' hm'
  · obtain ⟨m, v, hm, _, rfl⟩ := release_returns mb s s' hinv hg
    exact hsame m' hm'

theorem claims_own_history (cfg : Build) (a : Nat) (es : List Event) :
    ∀ (s s' : Sched), TableInv s → history cfg es s = some s' → holds_accelerator a es →
      claims_own a s → claims_own a s' := by
  induction es with
  | nil => intro s s' _ hr _ hv; simp [history] at hr; subst hr; exact hv
  | cons e es ih =>
    intro s s' h hr hk hv
    simp only [history] at hr
    split at hr
    · cases hr
    · rename_i t ht
      have h1 : e ≠ .call (.done a) := fun he => hk.1 (by rw [he]; exact List.mem_cons_self _ _)
      have h2 : e ≠ .release_accelerator a :=
        fun he => hk.2 (by rw [he]; exact List.mem_cons_self _ _)
      have hk' : holds_accelerator a es :=
        ⟨fun hm => hk.1 (List.mem_cons_of_mem _ hm), fun hm => hk.2 (List.mem_cons_of_mem _ hm)⟩
      exact ih t s' (TableInv_occur cfg e s t h ht) hr hk'
        (claims_own_occur cfg e s t a h ht hv h1 h2)

/-- After the selector has returned inside `request_execution`, the rest of the function
    returns: the double-claim check finds the entry of the assigned instance free. -/
theorem dispatch_after_selector (cfg : Build) (rand mb : Nat) (s t : Sched)
    (hinv : TableInv s)
    (hsel : select_target_accelerator cfg rand s.global_scheduler_selection_policy mb
      (queued mb s) = .returns () t) :
    ∃ u, dispatch mb t = .returns () u ∧ request_execution cfg rand mb s = .returns () u := by
  cases hm : s.master_metadata_pool[mb]? with
  | none =>
    have hq : queued mb s = s := by simp [queued, set_status, hm]
    rw [hq] at hsel
    unfold select_target_accelerator at hsel
    split at hsel
    · simp [pick_accel_and_wait_for_available, hm] at hsel
    · cases hsel
  | some m =>
    by_cases hpol : s.global_scheduler_selection_policy = SELECT_ACCEL_AND_WAIT_POLICY
    swap
    · unfold select_target_accelerator at hsel
      rw [if_neg hpol] at hsel
      cases hsel
    have hlen : mb < s.master_metadata_pool.length := (List.getElem?_eq_some.mp hm).1
    obtain ⟨_, _, hb0, hb1, _⟩ := TableInv_slot s hinv mb m hm
    rw [queued_eq mb s m hm] at hsel
    unfold select_target_accelerator at hsel
    rw [if_pos hpol] at hsel
    have hreq := request_eq cfg rand mb s m hm hpol
    rw [hsel] at hreq
    obtain ⟨m', p, i, hm', hp, hscan, _⟩ := pick_returns cfg rand mb _ t hsel
    have hm1 : m' = { m with status := TASK_QUEUED } := by
      have : (s.master_metadata_pool.set mb { m with status := TASK_QUEUED })[mb]? =
          some { m with status := TASK_QUEUED } := by simp [hlen]
      rw [this] at hm'
      exact (Option.some.inj hm').symm
    rw [hm1] at hp
    have hscan2 : scan_kind p s = some (some i) := hscan
    have hspec := request_spec cfg rand mb s m p i hpol hm hp hscan2 hinv.rows hinv.cols hb0 hb1
    refine ⟨dispatched p i mb s, ?_, hspec⟩
    rw [← hspec]
    exact hreq.symm

/-! ### Completion hooks -/

/-- On a slot that holds no hook `mark_task_done` calls none: its outcome is the same whatever the
    hooks of the application do. -/
theorem done_without_hook (hooks : Hooks) (mb : Nat) (s : Sched)
    (h : ∀ m, s.master_metadata_pool[mb]? = some m → m.atFinish = none) :
    mark_task_done hooks mb s = mark_task_done inert_hooks mb s := by
  cases hs1 : set_status mb TASK_DONE s with
  | none => simp [mark_task_done, hs1]
  | some s1 =>
    obtain ⟨m, hm, hs1eq⟩ := set_status_eq _ _ _ _ hs1
    have hlen : mb < s.master_metadata_pool.length := (List.getElem?_eq_some.mp hm).1
    have hm1 : s1.master_metadata_pool[mb]? = some { m with status := TASK_DONE } := by
      rw [hs1eq]; simp [hlen]
    have hlen1 : mb < s1.master_metadata_pool.length := by rw [hs1eq]; simpa using hlen
    have hrel : ∀ o, release_accelerator_for_task mb s1 = o →
        o = .undefined ∨ ∃ t r, o = .returns ()
          { s1 with accelerator_in_use_by := t, mismatch_reports := r } := by
      intro o ho
      simp only [release_accelerator_for_task, hm1] at ho
      split at ho
      · exact Or.inl ho.symm
      · split at ho
        · exact Or.inr ⟨_, _, ho.symm⟩
        · split at ho
          · exact Or.inl ho.symm
          · exact Or.inr ⟨_, _, ho.symm⟩
    simp only [mark_task_done, hs1]
    rcases hrel _ rfl with h1 | ⟨t, r, h1⟩
    · simp [h1]
    · simp only [h1, set_status, hm1, run_at_finish, List.getElem?_set_self hlen1, h m hm]

/-- The slot pool after `request_execution` has returned: the slot keeps its hook. -/
theorem request_keeps_hook (cfg : Build) (rand mb : Nat) (s s' : Sched)
    (h : request_execution cfg rand mb s = .returns () s') :
    ∃ m m', s.master_metadata_pool[mb]? = some m ∧
      s'.master_metadata_pool = s.master_metadata_pool.set mb m' ∧
      m'.atFinish = m.atFinish := by
  cases hs1 : set_status mb TASK_QUEUED s with
  | none => simp [request_execution, hs1] at h
  | some s1 =>
    obtain ⟨m, hm, hs1eq⟩ := set_status_eq _ _ _ _ hs1
    have hlen : mb < s.master_metadata_pool.length := (List.getElem?_eq_some.mp hm).1
    have hm1 : s1.master_metadata_pool[mb]? = some { m with status := TASK_QUEUED } := by
      rw [hs1eq]; simp [hlen]
    simp only [request_execution, hs1] at h
    cases hsel : select_target_accelerator cfg rand s1.global_scheduler_selection_policy mb s1 with
    | returns u s2 =>
      simp only [hsel] at h
      have hs2 := select_final cfg rand _ mb s1 s2 (by rw [hsel]; rfl)
      have hd := dispatch_final mb s2 s' (by rw [h]; rfl)
      have hp2 : ∃ m2, s2.master_metadata_pool = s.master_metadata_pool.set mb m2 ∧
          m2.atFinish = m.atFinish := by
        rcases hs2 with hs2 | ⟨m1, p, i, hm1', _, hs2⟩
        · exact ⟨{ m with status := TASK_QUEUED }, by rw [hs2, hs1eq], rfl⟩
        · rw [hm1] at hm1'
          cases hm1'
          exact ⟨{ m with status := TASK_QUEUED, accelerator_type := p, accelerator_id := i },
            by rw [hs2, hs1eq]; simp, rfl⟩
      obtain ⟨m2, hp2, hh2⟩ := hp2
      rcases hd with hd | ⟨m3, t, sg, hm3, hd⟩
      · exact ⟨m, m2, hm, by rw [hd, hp2], hh2⟩
      · have : m3 = m2 := by
          rw [hp2, List.getElem?_set_self hlen] at hm3
          exact (Option.some.inj hm3).symm
        subst this
        exact ⟨m, { m3 with status := TASK_RUNNING }, hm, by rw [hd, hp2]; simp, hh2⟩
    | exits c s2 => simp [hsel] at h
    | hangs s2 => simp [hsel] at h
    | undefined => simp [hsel] at h

theorem no_hook_init : no_hook (initialize_scheduler startup) := by decide

theorem no_hook_set (s t : Sched) (mb : Nat) (m' : task_metadata_block_t)
    (h : no_hook s) (hp : t.master_metadata_pool = s.master_metadata_pool.set mb m')
    (hm' : m'.atFinish = none) : no_hook t := by
  intro x hx
  rw [hp] at hx
  rcases List.mem_or_eq_of_mem_set hx with hx | hx
  · exact h x hx
  · rw [hx]; exact hm'

theorem no_hook_step (cfg : Build) (c : Call) (s s' : Sched) (h : no_hook s)
    (hs : step cfg c s = some s') : no_hook s' := by
  cases c with
  | acquire j k r =>
    simp only [step] at hs
    split at hs
    · rename_i v t hg
      split at hs
      · cases hs
        rcases get_final j k s s' (by rw [hg]; rfl) with ⟨hp, _, _⟩ | ⟨bi, m, _, _, _, hp, _, _⟩
        · intro x hx
          rw [hp] at hx
          exact h x hx
        · exact no_hook_set s s' _ _ h hp rfl
      · cases hs
    · cases hs
  | release mb =>
    simp only [step] at hs
    split at hs
    · rename_i v t hg
      cases hs
      obtain ⟨m, b, _, _, _, _, hb, hp, _, _⟩ := free_returns mb s s' hg
      exact no_hook_set s s' _ _ h hp (h b (List.getElem?_mem (rd_eq_some.mp hb).2))
    · cases hs
  | request rand mb =>
    simp only [step] at hs
    split at hs
    · rename_i v t hg
      cases hs
      obtain ⟨m, m', hm, hp, hh⟩ := request_keeps_hook cfg rand mb s s' hg
      exact no_hook_set s s' _ _ h hp (by rw [hh]; exact h m (List.getElem?_mem hm))
    · cases hs
  | done mb =>
    simp only [step] at hs
    split at hs
    · rename_i v t hg
      cases hs
      obtain ⟨m, _, hp, _, _⟩ := done_final mb s s' (by rw [hg]; rfl)
      exact no_hook_set s s' _ _ h hp rfl
    · cases hs
  | policy p =>
    simp only [step, Option.some.injEq] at hs
    subst hs
    exact h

/-- No call stores a completion hook: in every state of an execution from the initial state
    no slot holds one, and `mark_task_done` calls none. -/
theorem no_hook_run (cfg : Build) (allowed : Sched → Call → Bool) (cs : List Call) :
    ∀ (s s' : Sched), no_hook s → run cfg allowed cs s = some s' → no_hook s' := by
  induction cs with
  | nil => intro s s' h hr; simp [run] at hr; subst hr; exact h
  | cons c cs ih =>
    intro s s' h hr
    simp only [run] at hr
    split at hr
    · split at hr
      · cases hr
      · rename_i t ht
        exact ih t s' (no_hook_step cfg c s t h ht) hr
    · cases hr

theorem clear_hook_returns (mb : Nat) (t s1 : Sched) (h : clear_hook mb t = .returns () s1) :
    ∃ m2, t.master_metadata_pool[mb]? = some m2 ∧
      s1 = { t with
        master_metadata_pool := t.master_metadata_pool.set mb { m2 with atFinish := none } } ∧
      s1.master_metadata_pool[mb]? = some { m2 with atFinish := none } := by
  cases hm : t.master_metadata_pool[mb]? with
  | none => simp [clear_hook, hm] at h
  | some m2 =>
    have hlen : mb < t.master_metadata_pool.length := (List.getElem?_eq_some.mp hm).1
    simp only [clear_hook, hm, Outcome.returns.injEq, true_and] at h
    subst h
    exact ⟨m2, rfl, rfl, List.getElem?_set_self hlen⟩

/-- In every state of an execution from the initial state `mark_task_done` has the same outcome
    whatever the hooks of the application do: the slot holds none. -/
theorem done_in_run (cfg : Build) (allowed : Sched → Call → Bool) (cs : List Call) (s : Sched)
    (hooks : Hooks) (mb : Nat)
    (h : run cfg allowed cs (initialize_scheduler startup) = some s) :
    mark_task_done hooks mb s = mark_task_done inert_hooks mb s :=
  done_without_hook hooks mb s (fun m hm =>
    no_hook_run cfg allowed cs _ s no_hook_init h m (List.getElem?_mem hm))

/-- A call of `mark_task_done` on a slot that holds no hook leaves the record of the hook calls as
    it is. -/
theorem done_without_hook_log (mb : Nat) (s s' : Sched)
    (h : ∀ m, s.master_metadata_pool[mb]? = some m → m.atFinish = none)
    (hret : mark_task_done inert_hooks mb s = .returns () s') :
    s'.finish_calls = s.finish_calls := by
  cases hs1 : set_status mb TASK_DONE s with
  | none => simp [mark_task_done, hs1] at hret
  | some s1 =>
    obtain ⟨m, hm, hs1eq⟩ := set_status_eq _ _ _ _ hs1
    have hlen : mb < s.master_metadata_pool.length := (List.getElem?_eq_some.mp hm).1
    have hm1 : s1.master_metadata_pool[mb]? = some { m with status := TASK_DONE } := by
      rw [hs1eq]; simp [hlen]
    have hlen1 : mb < s1.master_metadata_pool.length := by rw [hs1eq]; simpa using hlen
    have hrel : ∀ o, release_accelerator_for_task mb s1 = o →
        o = .undefined ∨ ∃ t r, o = .returns ()
          { s1 with accelerator_in_use_by := t, mismatch_reports := r } := by
      intro o ho
      simp only [release_accelerator_for_task, hm1] at ho
      split at ho
      · exact Or.inl ho.symm
      · split at ho
        · exact Or.inr ⟨_, _, ho.symm⟩
        · split at ho
          · exact Or.inl ho.symm
          · exact Or.inr ⟨_, _, ho.symm⟩
    simp only [mark_task_done, hs1] at hret
    rcases hrel _ rfl with h1 | ⟨t, r, h1⟩
    · simp [h1] at hret
    · simp only [h1, set_status, hm1, run_at_finish, List.getElem?_set_self hlen1, h m hm,
        clear_hook, List.length_set, Outcome.returns.injEq, true_and] at hret
      subst hret
      rw [hs1eq]

/-! ## The claims -/

/-! ### C1 -/

theorem is_seg_self_loop (nodes : List blockid_linked_list_t) (c : Nat)
    (n : blockid_linked_list_t) (hn : nodes[c]? = some n) (hnext : n.next = some c)
    (ns : List Nat) : is_seg nodes (some c) ns none = false := by
  induction ns with
  | nil => simp [is_seg]
  | cons d ns ih =>
    by_cases h : c = d
    · subst h; simp [is_seg, hn, hnext, ih]
    · simp [is_seg, h]

/-- C1 (fails on the code): after the calls acquire(FFT, BASE) = slot 31,
    acquire(FFT, CRITICAL) = slot 30, release(slot 30), acquire(FFT, CRITICAL) = slot 30,
    acquire(FFT, CRITICAL) = slot 29, all successful and the release on a live slot,
    slot 30 is live with criticality CRITICAL but no node of the critical list carries block
    id 30: the head is node 30, which now carries block id 29 and whose `next` is itself,
    so the list is no null-terminated list and has no number of entries.
    `free_task_metadata_block` returned the block id 30 to the critlist pool where it had
    taken node 31, so node 30 was handed out twice. -/
theorem C1_live_critical_slot_missing_from_list :
    ∃ s, run ⟨false, false⟩ acquire_release
        [.acquire FFT_TASK BASE_TASK (some 31), .acquire FFT_TASK CRITICAL_TASK (some 30),
         .release 30, .acquire FFT_TASK CRITICAL_TASK (some 30),
         .acquire FFT_TASK CRITICAL_TASK (some 29)]
        (initialize_scheduler startup) = some s ∧
      live s 30 = true ∧
      (s.master_metadata_pool[30]?).map (fun m => m.crit_level) = some CRITICAL_TASK ∧
      (∀ n ∈ s.critical_live_tasks_list, n.clt_block_id ≠ 30) ∧
      s.critical_live_task_head = some 30 ∧
      s.critical_live_tasks_list[30]? = some { clt_block_id := 29, next := some 30 } ∧
      ∀ ns, is_chain s.critical_live_tasks_list s.critical_live_task_head ns = false := by
  refine ⟨_, rfl, ?_, ?_, ?_, ?_, ?_, ?_⟩
  · decide
  · decide
  · decide
  · decide
  · decide
  · intro ns
    exact is_seg_self_loop _ 30 { clt_block_id := 29, next := some 30 } (by decide) rfl ns

/-! ### C2 -/

/-- C2 (fails on the code): in the state reached by one acquire(FFT, BASE), the round trip
    acquire(FFT, CRITICAL) then release of the returned slot 30 restores the free pool and
    both free counts, but not the critlist node pool: the acquire popped node index 31 from
    position 31 of `free_critlist_pool`, the release stores the block id 30 there. -/
theorem C2_round_trip_changes_critlist_pool :
    ∃ s1 s2 s3, run ⟨false, false⟩ acquire_release [.acquire FFT_TASK BASE_TASK (some 31)]
        (initialize_scheduler startup) = some s1 ∧
      get_task_metadata_block FFT_TASK CRITICAL_TASK s1 = .returns (some 30) s2 ∧
      free_task_metadata_block 30 s2 = .returns () s3 ∧
      s1.free_critlist_pool[31]? = some 31 ∧
      s2.critical_live_task_head = some 31 ∧
      s3.free_critlist_pool[31]? = some 30 ∧
      s3.free_critlist_pool ≠ s1.free_critlist_pool ∧
      s3.free_metadata_pool = s1.free_metadata_pool ∧
      s3.free_metadata_blocks = s1.free_metadata_blocks ∧
      s3.free_critlist_entries = s1.free_critlist_entries ∧
      s3.critical_live_task_head = s1.critical_live_task_head := by
  refine ⟨_, _, _, rfl, rfl, rfl, ?_, ?_, ?_, ?_, ?_, ?_, ?_, ?_⟩ <;> decide

/-! ### C3 -/

/-- The effect of a successful `get_task_metadata_block`.  In every state with arrays of the
    declared size, the mutex not held, a free
    count of at least 1 and a top free-pool entry `bi` in `[0, P)`, and, when `crit > BASE`,
    a top critlist-pool entry `li` in `[0, P)`: `get_task_metadata_block(job, crit)` returns
    slot `bi`, decreases the free count by one, leaves slot `bi` with the given job type and
    criticality, status ALLOCATED, data size 0, no accelerator, id -1, no hook and its
    block id unchanged, and changes no other slot.  If `crit > BASE` and the critical list
    is the null-terminated list of nodes `ns` with `li` not among them, the list afterwards
    is node `li`, carrying `bi`, followed by `ns`; if not `crit > BASE` the list is unchanged.
    The popped node is on the list in the states that `free_task_metadata_block` produces by
    returning a block id to the critlist pool (the theorem of C3 below). -/
theorem get_pops_top_slot (s : Sched) (job crit bi : Int)
    (hsize : well_sized s)
    (hlock : s.free_metadata_mutex = false)
    (hfree : 1 ≤ s.free_metadata_blocks)
    (htop : rd s.free_metadata_pool (s.free_metadata_blocks - 1) = some bi)
    (hbi : 0 ≤ bi ∧ bi < (total_metadata_pool_blocks : Int))
    (hpop : crit > BASE_TASK →
      ∃ li, rd s.free_critlist_pool (s.free_critlist_entries - 1) = some li
        ∧ 0 ≤ li ∧ li < (total_metadata_pool_blocks : Int)) :
    ∃ m s', rd s.master_metadata_pool bi = some m ∧
      get_task_metadata_block job crit s = .returns (some bi.toNat) s' ∧
      s'.free_metadata_blocks = s.free_metadata_blocks - 1 ∧
      rd s'.master_metadata_pool bi = some
        { block_id := m.block_id, status := TASK_ALLOCATED, job_type := job, crit_level := crit,
          data_size := 0, accelerator_type := no_accelerator_t, accelerator_id := -1,
          atFinish := none } ∧
      (∀ j : Nat, (j : Int) ≠ bi → s'.master_metadata_pool[j]? = s.master_metadata_pool[j]?) ∧
      (crit > BASE_TASK → ∀ li ns,
          rd s.free_critlist_pool (s.free_critlist_entries - 1) = some li →
          is_chain s.critical_live_tasks_list s.critical_live_task_head ns = true →
          li.toNat ∉ ns →
          s'.critical_live_task_head = some li.toNat ∧
          is_chain s'.critical_live_tasks_list s'.critical_live_task_head (li.toNat :: ns) = true ∧
          ids_of s'.critical_live_tasks_list (li.toNat :: ns)
            = bi :: ids_of s.critical_live_tasks_list ns) ∧
      (¬ crit > BASE_TASK →
          s'.critical_live_task_head = s.critical_live_task_head ∧
          s'.critical_live_tasks_list = s.critical_live_tasks_list) := by
  obtain ⟨hmp, hfp, hcl, hcp⟩ := hsize
  simp only [total_metadata_pool_blocks, Nat.cast_ofNat, BASE_TASK] at *
  obtain ⟨h0, htl⟩ := rd_lt htop
  have hbl : bi.toNat < s.master_metadata_pool.length := by rw [hmp]; omega
  obtain ⟨m, hm⟩ := rd_of_lt hbi.1 hbl
  have hguard : ¬ (bi < 0 ∨ 32 < bi) := by omega
  have hnotlt : ¬ s.free_metadata_blocks < 1 := by omega
  have hframe : ∀ j : Nat, (j : Int) ≠ bi →
      (s.master_metadata_pool.set bi.toNat
        { block_id := m.block_id, status := TASK_ALLOCATED, job_type := job, crit_level := crit,
          data_size := 0, accelerator_type := no_accelerator_t, accelerator_id := -1,
          atFinish := none })[j]? = s.master_metadata_pool[j]? := by
    intro j hj
    have : bi.toNat ≠ j := by omega
    simp [List.getElem?_set_ne this]
  by_cases hc : crit > 1
  · obtain ⟨li, hli, hli0, hli1⟩ := hpop hc
    obtain ⟨hf0, hfl⟩ := rd_lt hli
    have hll : li.toNat < s.critical_live_tasks_list.length := by rw [hcl]; omega
    generalize hres : get_task_metadata_block job crit s = res
    simp [get_task_metadata_block, hlock, hnotlt, htop, hguard, wr_of_lt (-1) h0 htl,
        hm, hc, push_critical, hli, wr_of_lt (-1) hf0 hfl, wr_of_lt _ hli0 hll] at hres
    subst hres
    refine ⟨m, _, hm, rfl, rfl, ?_, hframe, ?_, fun h => absurd hc h⟩
    · simp [rd, hbi.1, hbl]
    · intro _ li2 ns hli2 hch hnot
      rw [hli] at hli2
      cases hli2
      refine ⟨rfl, ?_, ?_⟩
      · rw [is_chain, is_seg_cons]
        refine ⟨rfl, { clt_block_id := bi, next := s.critical_live_task_head }, ?_, ?_⟩
        · simp [hll]
        · rw [is_seg_set_of_not_mem _ _ _ _ _ _ hnot]; exact hch
      · rw [ids_of_cons _ _ { clt_block_id := bi, next := s.critical_live_task_head } _
          (by simp [hll]), ids_of_set_of_not_mem _ _ _ _ hnot]
  · generalize hres : get_task_metadata_block job crit s = res
    simp [get_task_metadata_block, hlock, hnotlt, htop, hguard, wr_of_lt (-1) h0 htl,
        hm, hc] at hres
    subst hres
    refine ⟨m, _, hm, rfl, rfl, ?_, hframe, fun h => absurd h hc, fun _ => ⟨rfl, rfl⟩⟩
    simp [rd, hbi.1, hbl]

/-- The lemma `get_pops_top_slot` applied to a critical acquire in the initial state: slot 31 is returned and
    the critical list becomes the single node 31 carrying block id 31. -/
theorem get_pops_top_slot_initial :
    well_sized (initialize_scheduler startup) ∧
    rd (initialize_scheduler startup).free_metadata_pool
      ((initialize_scheduler startup).free_metadata_blocks - 1) = some 31 ∧
    ∃ s', get_task_metadata_block FFT_TASK CRITICAL_TASK (initialize_scheduler startup)
        = .returns (some 31) s' ∧
      s'.free_metadata_blocks = 31 ∧
      is_chain s'.critical_live_tasks_list s'.critical_live_task_head [31] = true ∧
      ids_of s'.critical_live_tasks_list [31] = [31] := by
  refine ⟨by decide, by decide, ?_⟩
  obtain ⟨m, s', _, hret, hcount, _, _, hlist, _⟩ :=
    get_pops_top_slot (initialize_scheduler startup) FFT_TASK CRITICAL_TASK 31
      (by decide) (by decide) (by decide) (by decide) (by decide)
      (fun _ => ⟨31, by decide, by decide, by decide⟩)
  obtain ⟨_, hch, hids⟩ := hlist (by decide) 31 [] (by decide) (by decide) (by decide)
  exact ⟨s', hret, by rw [hcount]; decide, hch, hids⟩

/-- C3 (fails on the code): in the state reached by acquire(FFT, BASE) = slot 31,
    acquire(FFT, CRITICAL) = slot 30, release(slot 30), acquire(FFT, CRITICAL) = slot 30, all
    successful and the release on a live slot, the free count is 30, the top free-pool entry
    is 29 and the critical list is the one node 30, carrying block id 30.
    acquire(FFT, CRITICAL) returns slot 29 but the list afterwards is not a new head node
    followed by the previous list: the head is node 30 again, it now carries 29 and its
    `next` is itself, no node carries 30 any more, and the list is no null-terminated list.
    The release had stored the block id 30 in `free_critlist_pool` where node index 31 had
    been popped, so the acquire pops node 30, which is on the list. -/
theorem C3_acquire_pops_node_on_live_list :
    ∃ s s', run ⟨false, false⟩ acquire_release
        [.acquire FFT_TASK BASE_TASK (some 31), .acquire FFT_TASK CRITICAL_TASK (some 30),
         .release 30, .acquire FFT_TASK CRITICAL_TASK (some 30)]
        (initialize_scheduler startup) = some s ∧
      s.free_metadata_blocks = 30 ∧
      rd s.free_metadata_pool (s.free_metadata_blocks - 1) = some 29 ∧
      rd s.free_critlist_pool (s.free_critlist_entries - 1) = some 30 ∧
      is_chain s.critical_live_tasks_list s.critical_live_task_head [30] = true ∧
      ids_of s.critical_live_tasks_list [30] = [30] ∧
      get_task_metadata_block FFT_TASK CRITICAL_TASK s = .returns (some 29) s' ∧
      s'.critical_live_task_head = some 30 ∧
      s'.critical_live_tasks_list[30]? = some { clt_block_id := 29, next := some 30 } ∧
      (∀ n ∈ s'.critical_live_tasks_list, n.clt_block_id ≠ 30) ∧
      ∀ ns, is_chain s'.critical_live_tasks_list s'.critical_live_task_head ns = false := by
  refine ⟨_, _, rfl, ?_, ?_, ?_, ?_, ?_, rfl, ?_, ?_, ?_, ?_⟩
  · decide
  · decide
  · decide
  · decide
  · decide
  · decide
  · decide
  · decide
  · intro ns
    exact is_seg_self_loop _ 30 { clt_block_id := 29, next := some 30 } (by decide) rfl ns

/-! ### C4 -/

/-- C4 (fails on the code): after 32 successful acquires from the initial state the free count
    is 0; the next acquire returns `NULL` and changes nothing but the mutex, which it leaves
    locked (the early `return NULL` skips `pthread_mutex_unlock`); the acquire after that
    blocks on the mutex and never returns, instead of returning `NULL`. -/
theorem C4_second_exhausted_acquire_hangs :
    ∃ s s', run ⟨false, false⟩ acquire_release
        ((List.range 32).reverse.map (fun i => Call.acquire FFT_TASK BASE_TASK (some i)))
        (initialize_scheduler startup) = some s ∧
      s.free_metadata_blocks = 0 ∧
      get_task_metadata_block FFT_TASK BASE_TASK s = .returns none s' ∧
      s' = { s with free_metadata_mutex := true } ∧
      get_task_metadata_block FFT_TASK BASE_TASK s' = .hangs s' := by
  refine ⟨_, _, rfl, ?_, rfl, ?_, ?_⟩ <;> decide

/-! ### C5 -/

theorem none_carries_of_not_mem (nodes : List blockid_linked_list_t) (bi : Int) (ns : List Nat)
    (h : bi ∉ ids_of nodes ns) : none_carries nodes bi ns := by
  intro d hd n hn hid
  apply h
  unfold ids_of
  rw [List.mem_filterMap]
  exact ⟨d, hd, by simp [hn, hid]⟩

theorem ids_of_erase (nodes : List blockid_linked_list_t) (bi : Int) (pre post : List Nat)
    (c : Nat) (cn : blockid_linked_list_t) (hcn : nodes[c]? = some cn)
    (hid : cn.clt_block_id = bi) (hpre : none_carries nodes bi pre) :
    (ids_of nodes (pre ++ c :: post)).erase bi = ids_of nodes pre ++ ids_of nodes post := by
  rw [ids_of_append, ids_of_cons nodes c cn post hcn, hid,
    List.erase_append_right _ (not_mem_ids_of nodes bi pre hpre), List.erase_cons_head]

/-- The effect of a `free_task_metadata_block` that finds its node.  In every state with arrays
    of the declared size, the mutex not held and a
    free count in `[0, P)`, for a slot `mb` whose block id `bi` names the slot `b`, where `b` is
    either not critical or the critlist free count is in `[0, P)` and the critical list is a
    null-terminated list `ns` with a node carrying `bi`: `free_task_metadata_block` returns,
    stores `bi` at position `free_metadata_blocks` of the free pool, increases the free count
    by one, clears job type, status, criticality and data size of slot `bi` and changes no
    other slot and no block id; if `b` was critical the list afterwards is `ns` without its
    first node carrying `bi`, the others in their order; otherwise the list is unchanged.
    On a list that is not null-terminated the node is not removed
    (the theorem of C5 below). -/
theorem free_pushes_and_unlinks (s : Sched) (mb : Nat) (m b : task_metadata_block_t)
    (bi : Int) (ns : List Nat)
    (hsize : well_sized s)
    (hlock : s.free_metadata_mutex = false)
    (hmb : s.master_metadata_pool[mb]? = some m) (hbi : m.block_id = bi)
    (hb : rd s.master_metadata_pool bi = some b)
    (h0 : 0 ≤ s.free_metadata_blocks)
    (h1 : s.free_metadata_blocks < (total_metadata_pool_blocks : Int))
    (hcrit : b.crit_level > BASE_TASK →
      0 ≤ s.free_critlist_entries ∧ s.free_critlist_entries < (total_metadata_pool_blocks : Int) ∧
      is_chain s.critical_live_tasks_list s.critical_live_task_head ns = true ∧
      bi ∈ ids_of s.critical_live_tasks_list ns) :
    ∃ s', free_task_metadata_block mb s = .returns () s' ∧
      s'.free_metadata_pool = s.free_metadata_pool.set s.free_metadata_blocks.toNat bi ∧
      s'.free_metadata_blocks = s.free_metadata_blocks + 1 ∧
      s'.master_metadata_pool = s.master_metadata_pool.set bi.toNat
        { block_id := b.block_id, status := TASK_FREE, job_type := NO_TASK_JOB,
          crit_level := NO_TASK, data_size := 0, accelerator_type := b.accelerator_type,
          accelerator_id := b.accelerator_id, atFinish := b.atFinish } ∧
      (b.crit_level > BASE_TASK →
        ∃ pre c post, ns = pre ++ c :: post ∧
          none_carries s.critical_live_tasks_list bi pre ∧
          (s.critical_live_tasks_list[c]?).map (fun n => n.clt_block_id) = some bi ∧
          is_chain s'.critical_live_tasks_list s'.critical_live_task_head (pre ++ post) = true ∧
          ids_of s'.critical_live_tasks_list (pre ++ post)
            = (ids_of s.critical_live_tasks_list ns).erase bi) ∧
      (¬ b.crit_level > BASE_TASK →
        s'.critical_live_tasks_list = s.critical_live_tasks_list ∧
        s'.critical_live_task_head = s.critical_live_task_head) := by
  obtain ⟨hmp, hfp, hcl, hcp⟩ := hsize
  simp only [total_metadata_pool_blocks, Nat.cast_ofNat, BASE_TASK] at *
  subst hbi
  have hl : s.free_metadata_blocks.toNat < s.free_metadata_pool.length := by rw [hfp]; omega
  by_cases hc : b.crit_level > 1
  · obtain ⟨hf0, hf1, hch, hmem⟩ := hcrit hc
    have hfl : s.free_critlist_entries.toNat < s.free_critlist_pool.length := by rw [hcp]; omega
    obtain ⟨pre, c, post, cn, hsplit, hcn, hid, hnone⟩ := first_carrier _ _ _ hmem
    subst hsplit
    obtain ⟨N, H, hret, _, hchain, hids⟩ := free_critical_found s mb m b pre post c cn
      hlock hmb h0 h1 hl hb hc hch hcn hid hnone hf0 hfl
    refine ⟨_, hret, rfl, rfl, rfl, ?_, fun h => absurd hc h⟩
    intro _
    refine ⟨pre, c, post, rfl, hnone, by simp [hcn, hid], hchain, ?_⟩
    rw [ids_of_erase _ _ _ _ _ cn hcn hid hnone]
    exact hids
  · refine ⟨_, free_noncritical s mb m b hlock hmb h0 h1 hl hb hc, rfl, rfl, rfl,
      fun h => absurd h hc, fun _ => ⟨rfl, rfl⟩⟩

/-- The lemma `free_pushes_and_unlinks` applied to the release of the critical slot 30 in the state reached by
    acquire(FFT, BASE) = 31 and acquire(FFT, CRITICAL) = 30: the critical list becomes empty. -/
theorem free_pushes_and_unlinks_example :
    run ⟨false, false⟩ acquire_release
        [.acquire FFT_TASK BASE_TASK (some 31), .acquire FFT_TASK CRITICAL_TASK (some 30)]
        (initialize_scheduler startup)
      = some (after [.acquire FFT_TASK BASE_TASK (some 31),
          .acquire FFT_TASK CRITICAL_TASK (some 30)]) ∧
    ∃ s', free_task_metadata_block 30 (after [.acquire FFT_TASK BASE_TASK (some 31),
          .acquire FFT_TASK CRITICAL_TASK (some 30)]) = .returns () s' ∧
      s'.free_metadata_blocks = 31 ∧
      is_chain s'.critical_live_tasks_list s'.critical_live_task_head [] = true := by
  refine ⟨by decide, ?_⟩
  obtain ⟨s', hret, _, hcount, _, hlist, _⟩ :=
    free_pushes_and_unlinks
      (after [.acquire FFT_TASK BASE_TASK (some 31), .acquire FFT_TASK CRITICAL_TASK (some 30)])
      30
      { block_id := 30, status := TASK_ALLOCATED, job_type := FFT_TASK,
        crit_level := CRITICAL_TASK, data_size := 0, accelerator_type := no_accelerator_t,
        accelerator_id := -1, atFinish := none }
      { block_id := 30, status := TASK_ALLOCATED, job_type := FFT_TASK,
        crit_level := CRITICAL_TASK, data_size := 0, accelerator_type := no_accelerator_t,
        accelerator_id := -1, atFinish := none }
      30 [31] (by decide) (by decide) (by decide) (by decide) (by decide) (by decide)
      (by decide) (fun _ => ⟨by decide, by decide, by decide, by decide⟩)
  obtain ⟨pre, c, post, hsplit, _, _, hchain, _⟩ := hlist (by decide)
  have hpre : pre = [] ∧ post = [] := by
    cases pre with
    | nil => simp at hsplit; exact ⟨rfl, hsplit.2⟩
    | cons d pre =>
      have := congrArg List.length hsplit
      simp at this
  rw [hpre.1, hpre.2] at hchain
  exact ⟨s', hret, by rw [hcount]; decide, hchain⟩

/-- C5 (fails on the code): in the state reached by acquire(FFT, BASE) = slot 31,
    acquire(FFT, CRITICAL) = slot 30, release(slot 30), acquire(FFT, CRITICAL) = slot 30,
    acquire(FFT, CRITICAL) = slot 29, all successful and the release on a live slot, the
    free pool is not full and slot 29 is critical with a node carrying 29 on the critical
    list: the head node 30.  release(slot 29) returns, the free pool, the free count and
    the slot are as claimed, but the node that carried 29 is not removed from the list: it
    is still the head afterwards, now carrying -1.  Node 30 had been handed out twice
    because the release of slot 30 returned the block id 30 to the critlist pool in the
    place of node index 31; its `next` is itself, and that is what the release stores in
    the head. -/
theorem C5_release_keeps_node_on_list :
    ∃ s s', run ⟨false, false⟩ acquire_release
        [.acquire FFT_TASK BASE_TASK (some 31), .acquire FFT_TASK CRITICAL_TASK (some 30),
         .release 30, .acquire FFT_TASK CRITICAL_TASK (some 30),
         .acquire FFT_TASK CRITICAL_TASK (some 29)]
        (initialize_scheduler startup) = some s ∧
      s.free_metadata_blocks = 29 ∧
      (s.master_metadata_pool[29]?).map (fun m => (m.block_id, m.crit_level))
        = some (29, CRITICAL_TASK) ∧
      s.critical_live_task_head = some 30 ∧
      s.critical_live_tasks_list[30]? = some { clt_block_id := 29, next := some 30 } ∧
      free_task_metadata_block 29 s = .returns () s' ∧
      s'.free_metadata_blocks = 30 ∧
      rd s'.free_metadata_pool 29 = some 29 ∧
      (s'.master_metadata_pool[29]?).map
          (fun m => (m.block_id, m.status, m.job_type, m.crit_level, m.data_size))
        = some (29, TASK_FREE, NO_TASK_JOB, NO_TASK, 0) ∧
      s'.critical_live_task_head = some 30 ∧
      s'.critical_live_tasks_list[30]? = some { clt_block_id := -1, next := none } ∧
      is_chain s'.critical_live_tasks_list s'.critical_live_task_head [30] = true ∧
      ids_of s'.critical_live_tasks_list [30] = [-1] := by
  refine ⟨_, _, rfl, ?_, ?_, ?_, ?_, rfl, ?_, ?_, ?_, ?_, ?_, ?_, ?_⟩ <;> decide

/-! ### C6 -/

/-- C6 as stated fails: after acquire = 31, acquire = 30 and release(31), slot 31 has status
    FREE and slot 30 is still live.  A second release(31) returns normally and pushes block
    id 31 onto the free pool a second time (positions 30 and 31 both hold 31), the free
    count becomes 32. -/
theorem C6_duplicate_release_is_not_fatal :
    ∃ s s', run ⟨false, false⟩ acquire_release
        [.acquire FFT_TASK BASE_TASK (some 31), .acquire FFT_TASK BASE_TASK (some 30),
         .release 31] (initialize_scheduler startup) = some s ∧
      status_of s 31 = some TASK_FREE ∧ live s 30 = true ∧
      s.free_metadata_pool[30]? = some 31 ∧ s.free_metadata_blocks = 31 ∧
      free_task_metadata_block 31 s = .returns () s' ∧
      s'.free_metadata_pool[30]? = some 31 ∧ s'.free_metadata_pool[31]? = some 31 ∧
      s'.free_metadata_blocks = 32 := by
  refine ⟨_, _, rfl, ?_, ?_, ?_, ?_, rfl, ?_, ?_, ?_⟩ <;> decide

/-- C6 (amended): `free_task_metadata_block` does not look at the status of the slot.  Called
    with the mutex not held on a slot whose status is already FREE (and whose criticality is
    not above BASE, as a release leaves it), it terminates the process (exit code -5) when
    the free count is at least P; when the free count is in `[0, P)` it returns normally
    and has pushed the block id onto the free pool once more. -/
theorem C6_release_of_free_slot (s : Sched) (mb : Nat) (m b : task_metadata_block_t)
    (hlock : s.free_metadata_mutex = false)
    (hmb : s.master_metadata_pool[mb]? = some m)
    (hb : rd s.master_metadata_pool m.block_id = some b)
    (_hfree : b.status = TASK_FREE)
    (hcrit : ¬ b.crit_level > BASE_TASK) :
    (¬ s.free_metadata_blocks < (total_metadata_pool_blocks : Int) →
      free_task_metadata_block mb s = .exits (-5) { s with free_metadata_mutex := true }) ∧
    (0 ≤ s.free_metadata_blocks →
      s.free_metadata_blocks < (total_metadata_pool_blocks : Int) →
      s.free_metadata_blocks.toNat < s.free_metadata_pool.length →
      free_task_metadata_block mb s = .returns () { s with
        free_metadata_pool := s.free_metadata_pool.set s.free_metadata_blocks.toNat m.block_id
        free_metadata_blocks := s.free_metadata_blocks + 1
        master_metadata_pool := s.master_metadata_pool.set m.block_id.toNat (cleared b)
        free_metadata_mutex := false }) := by
  simp only [total_metadata_pool_blocks, Nat.cast_ofNat, BASE_TASK] at *
  exact ⟨fun hfull => free_full s mb m hlock hmb hfull,
    fun h0 h1 hl => free_noncritical s mb m b hlock hmb h0 h1 hl hb hcrit⟩

/-- The amended C6 applied to the second release of slot 31 while slot 30 is live. -/
theorem C6_release_of_free_slot_witness :
    run ⟨false, false⟩ acquire_release [.acquire FFT_TASK BASE_TASK (some 31),
        .acquire FFT_TASK BASE_TASK (some 30), .release 31] (initialize_scheduler startup)
      = some (after [.acquire FFT_TASK BASE_TASK (some 31),
        .acquire FFT_TASK BASE_TASK (some 30), .release 31]) ∧
    status_of (after [.acquire FFT_TASK BASE_TASK (some 31),
      .acquire FFT_TASK BASE_TASK (some 30), .release 31]) 31 = some TASK_FREE ∧
    ∃ s', free_task_metadata_block 31 (after [.acquire FFT_TASK BASE_TASK (some 31),
        .acquire FFT_TASK BASE_TASK (some 30), .release 31]) = .returns () s' ∧
      s'.free_metadata_blocks = 32 := by
  refine ⟨by decide, by decide, _, (C6_release_of_free_slot
    (after [.acquire FFT_TASK BASE_TASK (some 31), .acquire FFT_TASK BASE_TASK (some 30),
      .release 31]) 31
    { block_id := 31, status := TASK_FREE, job_type := NO_TASK_JOB, crit_level := NO_TASK,
      data_size := 0, accelerator_type := no_accelerator_t, accelerator_id := -1,
      atFinish := none }
    { block_id := 31, status := TASK_FREE, job_type := NO_TASK_JOB, crit_level := NO_TASK,
      data_size := 0, accelerator_type := no_accelerator_t, accelerator_id := -1,
      atFinish := none }
    (by decide) (by decide) (by decide) (by decide) (by decide)).2
      (by decide) (by decide) (by decide), by decide⟩

/-! ### C7 -/

/-- C7 (fails on the code): the guard is `(bi < 0) || (bi > total_metadata_pool_blocks)`, so a
    top free-pool entry equal to P = 32 passes it and `master_metadata_pool[32]` is indexed,
    one element past the end of the array; entries 33 and -1 do end in `exit(-16)`. -/
theorem C7_top_entry_32_passes_the_guard :
    get_task_metadata_block FFT_TASK BASE_TASK
        { initialize_scheduler startup with
          free_metadata_pool := (initialize_scheduler startup).free_metadata_pool.set 31 32 }
      = .undefined ∧
    (∃ s, get_task_metadata_block FFT_TASK BASE_TASK
        { initialize_scheduler startup with
          free_metadata_pool := (initialize_scheduler startup).free_metadata_pool.set 31 33 }
      = .exits (-16) s) ∧
    (∃ s, get_task_metadata_block FFT_TASK BASE_TASK
        { initialize_scheduler startup with
          free_metadata_pool := (initialize_scheduler startup).free_metadata_pool.set 31 (-1) }
      = .exits (-16) s) := by
  refine ⟨by decide, ⟨_, rfl⟩, ⟨_, rfl⟩⟩

/-! ### C8 -/

theorem scan_critical_self_loop (nodes : List blockid_linked_list_t) (bi : Int) (c : Nat)
    (n : blockid_linked_list_t) (hn : nodes[c]? = some n) (hnext : n.next = some c)
    (hid : n.clt_block_id ≠ bi) :
    ∀ (fuel : Nat) (l : Option Nat), scan_critical nodes bi fuel l (some c) = .spins := by
  intro fuel
  induction fuel with
  | zero => intro l; rfl
  | succ f ih => intro l; simp [scan_critical, hn, hid, hnext, ih]

/-- The ways `free_task_metadata_block` ends.  With arrays of the declared size and the mutex
    not held, it (1) terminates the process with exit code -5 whenever the free
    count is at least P, for every slot; (2) returns normally whenever the free count is in
    `[0, P)` and the slot named by the block id is not critical, or is critical with the
    critlist free count in `[0, P)` and a node carrying its block id reached from the head
    of the critical list (over nodes `pre` that do not carry it); (3) terminates the process with exit code -6 when the free count is in
    `[0, P)`, that slot is critical and the critical list is null-terminated with no node
    carrying its block id.  On a list that is not null-terminated the scan does not end
    (the theorem of C8 below). -/
theorem free_fatal_paths (s : Sched) (mb : Nat) (m b : task_metadata_block_t)
    (hsize : well_sized s)
    (hlock : s.free_metadata_mutex = false)
    (hmb : s.master_metadata_pool[mb]? = some m)
    (hb : rd s.master_metadata_pool m.block_id = some b) :
    (¬ s.free_metadata_blocks < (total_metadata_pool_blocks : Int) →
      free_task_metadata_block mb s = .exits (-5) { s with free_metadata_mutex := true }) ∧
    (0 ≤ s.free_metadata_blocks →
      s.free_metadata_blocks < (total_metadata_pool_blocks : Int) →
      (¬ b.crit_level > BASE_TASK ∨
        (0 ≤ s.free_critlist_entries ∧
          s.free_critlist_entries < (total_metadata_pool_blocks : Int) ∧
          ∃ pre c, is_seg s.critical_live_tasks_list s.critical_live_task_head pre (some c) = true ∧
            none_carries s.critical_live_tasks_list m.block_id pre ∧
            (s.critical_live_tasks_list[c]?).map (fun n => n.clt_block_id) = some m.block_id)) →
      ∃ s', free_task_metadata_block mb s = .returns () s') ∧
    (0 ≤ s.free_metadata_blocks →
      s.free_metadata_blocks < (total_metadata_pool_blocks : Int) →
      b.crit_level > BASE_TASK →
      ∀ ns, is_chain s.critical_live_tasks_list s.critical_live_task_head ns = true →
        m.block_id ∉ ids_of s.critical_live_tasks_list ns →
        free_task_metadata_block mb s = .exits (-6) { s with
          free_metadata_pool := s.free_metadata_pool.set s.free_metadata_blocks.toNat m.block_id
          free_metadata_blocks := s.free_metadata_blocks + 1
          free_metadata_mutex := true }) := by
  obtain ⟨hmp, hfp, hcl, hcp⟩ := hsize
  simp only [total_metadata_pool_blocks, Nat.cast_ofNat, BASE_TASK] at *
  refine ⟨fun hfull => free_full s mb m hlock hmb hfull, ?_, ?_⟩
  · intro h0 h1 hcase
    have hl : s.free_metadata_blocks.toNat < s.free_metadata_pool.length := by rw [hfp]; omega
    by_cases hc : b.crit_level > 1
    · rcases hcase with hnc | ⟨hf0, hf1, pre, c, hseg, hnone, hcarry⟩
      · exact absurd hc hnc
      · have hfl : s.free_critlist_entries.toNat < s.free_critlist_pool.length := by
          rw [hcp]; omega
        cases hcn : s.critical_live_tasks_list[c]? with
        | none => simp [hcn] at hcarry
        | some cn =>
          have hid : cn.clt_block_id = m.block_id := by simpa [hcn] using hcarry
          exact free_critical_returns s mb m b pre c cn hlock hmb h0 h1 hl hb hc hseg hcn hid
            hnone hf0 hfl
    · exact ⟨_, free_noncritical s mb m b hlock hmb h0 h1 hl hb hc⟩
  · intro h0 h1 hc ns hch hnot
    have hl : s.free_metadata_blocks.toNat < s.free_metadata_pool.length := by rw [hfp]; omega
    exact free_critical_missing s mb m b ns hlock hmb h0 h1 hl hb hc hch
      (none_carries_of_not_mem _ _ _ hnot)

/-- The lemma `free_fatal_paths` applied to the initial state (free pool full: exit code -5) and to the
    state reached by acquire(FFT, BASE) = 31, acquire(FFT, CRITICAL) = 30, release(30),
    acquire(FFT, CRITICAL) = 30, acquire(FFT, CRITICAL) = 29, release(29), in which the
    critical list is the single node 30 carrying -1 and the critical slot 30 is on no node
    (exit code -6). -/
theorem free_fatal_paths_examples :
    free_task_metadata_block 0 (initialize_scheduler startup)
      = .exits (-5) { initialize_scheduler startup with free_metadata_mutex := true } ∧
    run ⟨false, false⟩ acquire_release
        [.acquire FFT_TASK BASE_TASK (some 31), .acquire FFT_TASK CRITICAL_TASK (some 30),
          .release 30, .acquire FFT_TASK CRITICAL_TASK (some 30),
          .acquire FFT_TASK CRITICAL_TASK (some 29), .release 29] (initialize_scheduler startup)
      = some (after [.acquire FFT_TASK BASE_TASK (some 31),
          .acquire FFT_TASK CRITICAL_TASK (some 30), .release 30,
          .acquire FFT_TASK CRITICAL_TASK (some 30),
          .acquire FFT_TASK CRITICAL_TASK (some 29), .release 29]) ∧
    ∃ s', free_task_metadata_block 30
        (after [.acquire FFT_TASK BASE_TASK (some 31), .acquire FFT_TASK CRITICAL_TASK (some 30),
          .release 30, .acquire FFT_TASK CRITICAL_TASK (some 30),
          .acquire FFT_TASK CRITICAL_TASK (some 29), .release 29])
      = .exits (-6) s' := by
  refine ⟨(free_fatal_paths (initialize_scheduler startup) 0
      { block_id := 0, status := 0, job_type := 0, crit_level := 0, data_size := 0,
        accelerator_type := 0, accelerator_id := 0, atFinish := none }
      { block_id := 0, status := 0, job_type := 0, crit_level := 0, data_size := 0,
        accelerator_type := 0, accelerator_id := 0, atFinish := none }
      (by decide) (by decide) (by decide) (by decide)).1 (by decide), by decide, _,
    (free_fatal_paths
      (after [.acquire FFT_TASK BASE_TASK (some 31), .acquire FFT_TASK CRITICAL_TASK (some 30),
          .release 30, .acquire FFT_TASK CRITICAL_TASK (some 30),
          .acquire FFT_TASK CRITICAL_TASK (some 29), .release 29])
      30
      { block_id := 30, status := TASK_ALLOCATED, job_type := FFT_TASK,
        crit_level := CRITICAL_TASK, data_size := 0, accelerator_type := no_accelerator_t,
        accelerator_id := -1, atFinish := none }
      { block_id := 30, status := TASK_ALLOCATED, job_type := FFT_TASK,
        crit_level := CRITICAL_TASK, data_size := 0, accelerator_type := no_accelerator_t,
        accelerator_id := -1, atFinish := none }
      (by decide) (by decide) (by decide) (by decide)).2.2 (by decide) (by decide) (by decide)
      [30] (by decide) (by decide)⟩

/-- C8 (fails on the code): in the state reached by acquire(FFT, BASE) = slot 31,
    acquire(FFT, CRITICAL) = slot 30, release(slot 30), acquire(FFT, CRITICAL) = slot 30,
    acquire(FFT, CRITICAL) = slot 29, all successful and the release on a live slot, the
    free count is below P, the mutex is free, slot 30 is live and critical and no node of
    the critical list carries block id 30.  release(slot 30) does not terminate the
    process: the head node 30 carries 29 and its `next` is node 30 itself, so the scan
    never reaches NULL (after every number of tests of the loop condition it has not
    ended) and the call hangs before its `exit(-6)`.  Node 30 had been handed out twice
    because the earlier release returned the block id 30 to the critlist pool in the place
    of node index 31. -/
theorem C8_release_hangs_on_cyclic_list :
    ∃ s s', run ⟨false, false⟩ acquire_release
        [.acquire FFT_TASK BASE_TASK (some 31), .acquire FFT_TASK CRITICAL_TASK (some 30),
         .release 30, .acquire FFT_TASK CRITICAL_TASK (some 30),
         .acquire FFT_TASK CRITICAL_TASK (some 29)]
        (initialize_scheduler startup) = some s ∧
      s.free_metadata_blocks = 29 ∧
      s.free_metadata_mutex = false ∧
      live s 30 = true ∧
      (s.master_metadata_pool[30]?).map (fun m => (m.block_id, m.crit_level))
        = some (30, CRITICAL_TASK) ∧
      (∀ n ∈ s.critical_live_tasks_list, n.clt_block_id ≠ 30) ∧
      s.critical_live_task_head = some 30 ∧
      s.critical_live_tasks_list[30]? = some { clt_block_id := 29, next := some 30 } ∧
      free_task_metadata_block 30 s = .hangs s' ∧
      ∀ fuel, scan_critical s.critical_live_tasks_list 30 fuel none s.critical_live_task_head
        = .spins := by
  refine ⟨_, _, rfl, ?_, ?_, ?_, ?_, ?_, ?_, ?_, rfl, ?_⟩
  · decide
  · decide
  · decide
  · decide
  · decide
  · decide
  · decide
  · intro fuel
    exact scan_critical_self_loop _ 30 30 { clt_block_id := 29, next := some 30 } (by decide)
      rfl (by decide) fuel none

/-! ### C9 -/

/-- C9 as stated fails for arbitrary sequences of calls.  (1) acquire = 31, acquire = 30,
    release(31), release(31): every call returns; afterwards the free count is 32 while
    slot 30 is still ALLOCATED, so free count plus active slots is 33 (block id 31 is in
    the free pool twice).  (2) `mark_task_done`
    on the never acquired slot 0 of the initial state returns and leaves slot 0 with status
    DONE while it is still recorded in the free pool. -/
theorem C9_accounting_counterexample :
    (∃ s, run ⟨false, false⟩ any_call
        [.acquire FFT_TASK BASE_TASK (some 31), .acquire FFT_TASK BASE_TASK (some 30),
         .release 31, .release 31] (initialize_scheduler startup) = some s ∧
      s.free_metadata_blocks = 32 ∧ active_count s = 1 ∧ is_active s 30 = true ∧
      s.free_metadata_pool[30]? = some 31 ∧ s.free_metadata_pool[31]? = some 31) ∧
    (∃ s, run ⟨false, false⟩ any_call [.done 0] (initialize_scheduler startup) = some s ∧
      status_of s 0 = some TASK_DONE ∧ is_active s 0 = true ∧ in_free_pool s 0) := by
  refine ⟨⟨_, rfl, ?_, ?_, ?_, ?_, ?_⟩, ⟨_, rfl, ?_, ?_, ?_⟩⟩ <;> decide

/-- C9 (amended): in every state reached from the initial state by calls of
    `get_task_metadata_block`, `request_execution`, `mark_task_done` and
    `free_task_metadata_block` that return, where `mark_task_done` and
    `free_task_metadata_block` are only applied to live slots (status not FREE), the free
    count plus the number of slots with a status in {ALLOCATED, QUEUED, RUNNING, DONE} is P,
    and every slot is either recorded in the free pool or has such a status, never both and
    never neither. -/
theorem C9_pool_accounting (cfg : Build) (cs : List Call) (s : Sched)
    (h : run cfg on_live cs (initialize_scheduler startup) = some s) :
    s.free_metadata_blocks + (active_count s : Int) = (total_metadata_pool_blocks : Int) ∧
    ∀ i, i < total_metadata_pool_blocks →
      (in_free_pool s i ∧ is_active s i = false) ∨ (¬ in_free_pool s i ∧ is_active s i = true) := by
  have hinv := PoolInv_run cfg cs _ s PoolInv_init h
  exact ⟨PoolInv_count s hinv, fun i hi => PoolInv_exactly_one s hinv i hi⟩

/-- The amended C9 applied to the run of one complete task (policy selection, acquire = 31,
    request_execution(31), mark_task_done(31)) followed by a critical acquire = 30 and by
    release(31). -/
theorem C9_pool_accounting_witness :
    run ⟨false, false⟩ on_live
        (one_task ++ [.acquire VITERBI_TASK CRITICAL_TASK (some 30), .release 31])
        (initialize_scheduler startup)
      = some (after (one_task ++ [.acquire VITERBI_TASK CRITICAL_TASK (some 30), .release 31])) ∧
    (after (one_task ++ [.acquire VITERBI_TASK CRITICAL_TASK (some 30),
        .release 31])).free_metadata_blocks
      + (active_count (after (one_task ++ [.acquire VITERBI_TASK CRITICAL_TASK (some 30),
        .release 31])) : Int) = 32 :=
  ⟨by decide, (C9_pool_accounting ⟨false, false⟩
    (one_task ++ [.acquire VITERBI_TASK CRITICAL_TASK (some 30), .release 31]) _
    (by decide)).1⟩

/-! ### C10 -/

theorem status_of_set (pool : List task_metadata_block_t) (s s' : Sched) (k : Nat)
    (x : task_metadata_block_t) (hs : s.master_metadata_pool = pool)
    (hs' : s'.master_metadata_pool = pool.set k x) (i : Nat) (a b : Int)
    (ha : status_of s i = some a) (hb : status_of s' i = some b) (hne : a ≠ b) :
    i = k ∧ b = x.status := by
  unfold status_of at ha hb
  rw [hs] at ha
  rw [hs'] at hb
  by_cases hik : k = i
  · subst hik
    refine ⟨rfl, ?_⟩
    cases hp : pool[k]? with
    | none => simp [hp] at ha
    | some y =>
      have hlt : k < pool.length := (List.getElem?_eq_some.mp hp).1
      rw [List.getElem?_set_self hlt] at hb
      simpa using hb.symm
  · rw [List.getElem?_set_ne hik] at hb
    rw [ha] at hb
    exact absurd (Option.some.inj hb) hne

theorem follows_edges_of_eq (s s' : Sched)
    (h : s'.master_metadata_pool = s.master_metadata_pool) : follows_edges s s' := by
  intro i a b ha hb hne
  unfold status_of at ha hb
  rw [h, ha] at hb
  exact absurd (Option.some.inj hb) hne

/-- C10 as stated fails: the operations do not look at the status they overwrite.
    (1) After acquire = 31 slot 31 is ALLOCATED and release(31) moves it to FREE
    (edge ALLOCATED→FREE).  (2) After one complete task (acquire, request_execution,
    mark_task_done) slot 31 is DONE, and a second request_execution(31) returns with slot 31
    RUNNING: it has written QUEUED and then RUNNING over DONE (edge DONE→QUEUED). -/
theorem C10_status_counterexample :
    (∃ s s', run ⟨false, false⟩ acquire_release [.acquire FFT_TASK BASE_TASK (some 31)]
        (initialize_scheduler startup) = some s ∧
      status_of s 31 = some TASK_ALLOCATED ∧
      free_task_metadata_block 31 s = .returns () s' ∧
      status_of s' 31 = some TASK_FREE) ∧
    (∃ s s1 s', run ⟨false, false⟩ on_live one_task (initialize_scheduler startup) = some s ∧
      status_of s 31 = some TASK_DONE ∧
      set_status 31 TASK_QUEUED s = some s1 ∧
      status_of s1 31 = some TASK_QUEUED ∧
      request_execution ⟨false, false⟩ 0 31 s = .returns () s' ∧
      status_of s' 31 = some TASK_RUNNING) := by
  refine ⟨⟨_, _, rfl, ?_, rfl, ?_⟩, ⟨_, _, _, rfl, ?_, rfl, ?_, rfl, ?_⟩⟩ <;> decide

/-- C10 (amended): each operation writes fixed statuses to one slot and changes the status of
    no other slot, without looking at the status it overwrites; hence every status change
    follows one of the edges FREE→ALLOCATED, ALLOCATED→QUEUED, QUEUED→RUNNING, RUNNING→DONE,
    DONE→FREE whenever the operation is applied to a slot in the source status of its edge:
    `get_task_metadata_block` popping a FREE slot, `request_execution` (whose first
    assignment, leading to `s1`, writes QUEUED and whose later one writes RUNNING) on an
    ALLOCATED slot, `mark_task_done` on a RUNNING slot (one that holds no completion hook, or
    whose hook writes no global of the scheduler; what a hook of the application writes is
    not an operation of the scheduler), `free_task_metadata_block` on a slot
    whose block id names a DONE slot.  This holds for the state in which the call returns,
    exits or hangs. -/
theorem C10_status_changes_follow_edges (cfg : Build) (s s' : Sched) :
    (∀ j k, final_state (get_task_metadata_block j k s) = some s' →
      (∀ bi m, rd s.free_metadata_pool (s.free_metadata_blocks - 1) = some bi →
        rd s.master_metadata_pool bi = some m → m.status = TASK_FREE) →
      follows_edges s s') ∧
    (∀ rand mb s1, status_of s mb = some TASK_ALLOCATED →
      set_status mb TASK_QUEUED s = some s1 →
      final_state (request_execution cfg rand mb s) = some s' →
      follows_edges s s1 ∧ follows_edges s1 s') ∧
    (∀ hooks mb, status_of s mb = some TASK_RUNNING →
      ((∀ m, s.master_metadata_pool[mb]? = some m → m.atFinish = none) ∨ hooks = inert_hooks) →
      final_state (mark_task_done hooks mb s) = some s' → follows_edges s s') ∧
    (∀ mb m b, s.master_metadata_pool[mb]? = some m →
      rd s.master_metadata_pool m.block_id = some b → b.status = TASK_DONE →
      final_state (free_task_metadata_block mb s) = some s' → follows_edges s s') := by
  refine ⟨?_, ?_, ?_, ?_⟩
  · intro j k hfin hfree
    rcases get_final j k s s' hfin with ⟨hp, _, _⟩ | ⟨bi, m, _, hbi, hm, hp, _, _⟩
    · exact follows_edges_of_eq s s' hp
    · intro i a b ha hb hne
      obtain ⟨hi, hbs⟩ := status_of_set _ s s' _ _ rfl hp i a b ha hb hne
      subst hi
      have hst := hfree bi m hbi hm
      have hgm := (rd_eq_some.mp hm).2
      have : a = TASK_FREE := by
        unfold status_of at ha
        rw [hgm] at ha
        simp at ha
        rw [← ha]; exact hst
      subst this
      subst hbs
      exact (by decide : status_edge TASK_FREE TASK_ALLOCATED = true)
  · intro rand mb s1 hst hs1 hfin
    obtain ⟨m, hm, hs1eq⟩ := set_status_eq _ _ _ _ hs1
    obtain ⟨m0, m', hm0, hp, _, _, _, hst', _, _, _⟩ := request_final cfg rand mb s s' hfin
    have ha0 : m.status = TASK_ALLOCATED := by
      unfold status_of at hst
      rw [hm] at hst
      simpa using hst
    have hp1 : s1.master_metadata_pool = s.master_metadata_pool.set mb
        { m with status := TASK_QUEUED } := by rw [hs1eq]
    constructor
    · intro i a b ha hb hne
      obtain ⟨hi, hbs⟩ := status_of_set _ s s1 _ _ rfl hp1 i a b ha hb hne
      subst hi
      unfold status_of at ha
      rw [hm] at ha
      simp at ha
      rw [← ha, ha0, hbs]
      exact (by decide : status_edge TASK_ALLOCATED TASK_QUEUED = true)
    · intro i a b ha hb hne
      have hp2 : s'.master_metadata_pool = s1.master_metadata_pool.set mb m' := by
        rw [hp, hp1]; simp
      obtain ⟨hi, hbs⟩ := status_of_set _ s1 s' _ _ rfl hp2 i a b ha hb hne
      subst hi
      have hlen : i < s.master_metadata_pool.length := (List.getElem?_eq_some.mp hm).1
      unfold status_of at ha
      rw [hp1, List.getElem?_set_self hlen] at ha
      simp at ha
      rcases hst' with h1 | h1
      · rw [hbs, h1] at hne; exact absurd ha.symm hne
      · rw [← ha, hbs, h1]
        exact (by decide : status_edge TASK_QUEUED TASK_RUNNING = true)
  · intro hooks mb hst hcase hfin
    have hsame : mark_task_done hooks mb s = mark_task_done inert_hooks mb s := by
      rcases hcase with h | h
      · exact done_without_hook hooks mb s h
      · rw [h]
    rw [hsame] at hfin
    obtain ⟨m, hm, hp, _, _⟩ := done_final mb s s' hfin
    intro i a b ha hb hne
    obtain ⟨hi, hbs⟩ := status_of_set _ s s' _ _ rfl hp i a b ha hb hne
    subst hi
    rw [hst] at ha
    cases ha
    rw [hbs]
    exact (by decide : status_edge TASK_RUNNING TASK_DONE = true)
  · intro mb m b hm hb hdone hfin
    rcases free_final mb s s' hfin with hp | ⟨m2, b2, hm2, hb2, hp⟩
    · exact follows_edges_of_eq s s' hp
    · rw [hm] at hm2
      cases hm2
      rw [hb] at hb2
      cases hb2
      intro i a c ha hc hne
      obtain ⟨hi, hcs⟩ := status_of_set _ s s' _ _ rfl hp i a c ha hc hne
      subst hi
      have hgb := (rd_eq_some.mp hb).2
      unfold status_of at ha
      rw [hgb] at ha
      simp at ha
      rw [← ha, hdone, hcs]
      exact (by decide : status_edge TASK_DONE TASK_FREE = true)

/-- The amended C10 applied to the release of slot 31 after one complete task: its only
    status change is DONE→FREE. -/
theorem C10_status_changes_follow_edges_witness :
    run ⟨false, false⟩ on_live (one_task ++ [.release 31]) (initialize_scheduler startup)
      = some (after (one_task ++ [.release 31])) ∧
    status_of (after one_task) 31 = some TASK_DONE ∧
    status_of (after (one_task ++ [.release 31])) 31 = some TASK_FREE ∧
    follows_edges (after one_task) (after (one_task ++ [.release 31])) := by
  refine ⟨by decide, by decide, by decide, ?_⟩
  have h := (C10_status_changes_follow_edges ⟨false, false⟩ (after one_task)
    (after (one_task ++ [.release 31]))).2.2.2 31
    { block_id := 31, status := TASK_DONE, job_type := FFT_TASK, crit_level := BASE_TASK,
      data_size := 0, accelerator_type := cpu_accel_t, accelerator_id := 0, atFinish := none }
    { block_id := 31, status := TASK_DONE, job_type := FFT_TASK, crit_level := BASE_TASK,
      data_size := 0, accelerator_type := cpu_accel_t, accelerator_id := 0, atFinish := none }
  exact h (by decide) (by decide) (by decide) (by decide)

/-! ### C11 -/

/-- C11 (fails on the code for FAST_TO_SLOW): `request_execution` on a slot of the pool, with a busy table of the declared
    shape.  (1) Under FAST_TO_SLOW it terminates with `exit(-15)` after it has set the status
    to QUEUED, whatever the selector of that policy would assign.  (2) Under RANDOM_WAIT, when
    the selector returns, it has assigned an instance `(k, i)` whose busy entry is -1, and
    `request_execution` returns with `busy[k][i] = block_id`, the slot RUNNING on `(k, i)`,
    the agent signalled, every other slot and every other busy entry unchanged.  (3) If the
    busy entry of the instance the slot is assigned to is not -1 at the check, the part after
    the selector terminates with `exit(-14)` and writes nothing. -/
theorem C11_request_execution_dispatches (cfg : Build) (rand mb : Nat) (s : Sched)
    (m : task_metadata_block_t) (hm : s.master_metadata_pool[mb]? = some m)
    (hid : 0 ≤ m.block_id ∧ m.block_id < 32)
    (hrows : s.accelerator_in_use_by.length = 3)
    (hcols : ∀ r ∈ s.accelerator_in_use_by, r.length = 10) :
    (s.global_scheduler_selection_policy = FAST_TO_SLOW_FIRST_AVAIL_POLICY →
      request_execution cfg rand mb s = .exits (-15) (queued mb s)) ∧
    (s.global_scheduler_selection_policy = SELECT_ACCEL_AND_WAIT_POLICY →
      ∀ s1, pick_accel_and_wait_for_available cfg rand mb (queued mb s) = .returns () s1 →
        ∃ (k : Int) (i : Nat) (s' : Sched),
          (m.job_type = FFT_TASK ∨ m.job_type = VITERBI_TASK) ∧
          s1 = assign k i mb (queued mb s) ∧
          rd_in_use s.accelerator_in_use_by k i = some (-1) ∧
          request_execution cfg rand mb s = .returns () s' ∧
          rd_in_use s'.accelerator_in_use_by k i = some m.block_id ∧
          s'.master_metadata_pool[mb]? = some
            { m with status := TASK_RUNNING, accelerator_type := k, accelerator_id := i } ∧
          (∀ j, j ≠ mb → s'.master_metadata_pool[j]? = s.master_metadata_pool[j]?) ∧
          (∀ k2 i2, (k2 ≠ k ∨ i2 ≠ (i : Int)) →
            rd_in_use s'.accelerator_in_use_by k2 i2 = rd_in_use s.accelerator_in_use_by k2 i2) ∧
          s'.signalled = m.block_id :: s.signalled) ∧
    (∀ v, rd_in_use s.accelerator_in_use_by m.accelerator_type m.accelerator_id = some v →
      v ≠ -1 → dispatch mb s = .exits (-14) s) := by
  have hlen : mb < s.master_metadata_pool.length := (List.getElem?_eq_some.mp hm).1
  refine ⟨?_, ?_, ?_⟩
  · intro hpol
    exact request_other_policy cfg rand mb s m hm (by rw [hpol]; decide)
  · intro hpol s1 hpick
    rw [queued_eq mb s m hm] at hpick ⊢
    obtain ⟨m1, p, i, hm1, hp, hscan, hs1⟩ := pick_returns cfg rand mb _ s1 hpick
    have hm1' : m1 = { m with status := TASK_QUEUED } := by
      simp [hlen] at hm1; exact hm1.symm
    subst hm1'
    have hscan' : scan_kind p s = some (some i) := hscan
    obtain ⟨_, hfree, _, _⟩ := scan_kind_some p s i hscan'
    obtain ⟨row, hrow, hrowi⟩ := rd_in_use_eq_some.mp hfree
    obtain ⟨hjob, _, _⟩ := proposed_accel_range cfg rand _ p hp
    have hreq := request_spec cfg rand mb s m p i hpol hm hp hscan' hrows hcols hid.1 hid.2
    rw [dispatched_eq p i mb s m row hm hrow] at hreq
    refine ⟨p, i, _, hjob, hs1, hfree, hreq, ?_, ?_, ?_, ?_, rfl⟩
    · exact rd_in_use_set_same _ hrow hrowi
    · simp [hlen]
    · intro j hj
      simp [List.getElem?_set_ne (Ne.symm hj)]
    · intro k2 i2 hne
      exact rd_in_use_set_other _ hrow hrowi k2 i2 hne
  · intro v hv hne
    exact (dispatch_spec mb s m v hm hrows hcols hv hid.1 hid.2).1 hne

/-- C11 at the failing input: the policy is FAST_TO_SLOW and an FFT task is allocated in slot 31.
    The selector of that policy, called on the queued slot, returns the assignment
    (FFT_HW, 0) whose busy entry is -1; `request_execution` exits with -15, the slot is left
    QUEUED and the busy table is not written.  With the policy RANDOM_WAIT instead, the
    same request returns with the slot RUNNING on an instance that was free. -/
theorem C11_request_execution_dispatches_witness :
    (after (allocated_task FAST_TO_SLOW_FIRST_AVAIL_POLICY)).master_metadata_pool[31]? = some
      { block_id := 31, status := TASK_ALLOCATED, job_type := FFT_TASK, crit_level := BASE_TASK,
        data_size := 0, accelerator_type := no_accelerator_t, accelerator_id := -1,
        atFinish := none } ∧
    (after (allocated_task FAST_TO_SLOW_FIRST_AVAIL_POLICY)).global_scheduler_selection_policy =
      FAST_TO_SLOW_FIRST_AVAIL_POLICY ∧
    fastest_to_slowest_first_available ⟨true, true⟩ 31
        (queued 31 (after (allocated_task FAST_TO_SLOW_FIRST_AVAIL_POLICY))) =
      .returns () (assign fft_hwr_accel_t 0 31
        (queued 31 (after (allocated_task FAST_TO_SLOW_FIRST_AVAIL_POLICY)))) ∧
    rd_in_use (after (allocated_task FAST_TO_SLOW_FIRST_AVAIL_POLICY)).accelerator_in_use_by
      fft_hwr_accel_t 0 = some (-1) ∧
    request_execution ⟨true, true⟩ 0 31 (after (allocated_task FAST_TO_SLOW_FIRST_AVAIL_POLICY)) =
      .exits (-15) (queued 31 (after (allocated_task FAST_TO_SLOW_FIRST_AVAIL_POLICY))) ∧
    status_of (queued 31 (after (allocated_task FAST_TO_SLOW_FIRST_AVAIL_POLICY))) 31 =
      some TASK_QUEUED ∧
    (queued 31 (after (allocated_task FAST_TO_SLOW_FIRST_AVAIL_POLICY))).accelerator_in_use_by =
      (after (allocated_task FAST_TO_SLOW_FIRST_AVAIL_POLICY)).accelerator_in_use_by ∧
    (∃ (k : Int) (i : Nat) (s' : Sched),
      rd_in_use (after (allocated_task SELECT_ACCEL_AND_WAIT_POLICY)).accelerator_in_use_by k i
        = some (-1) ∧
      request_execution ⟨true, true⟩ 0 31 (after (allocated_task SELECT_ACCEL_AND_WAIT_POLICY)) =
        .returns () s' ∧
      rd_in_use s'.accelerator_in_use_by k i = some 31 ∧
      s'.master_metadata_pool[31]? = some
        { block_id := 31, status := TASK_RUNNING, job_type := FFT_TASK, crit_level := BASE_TASK,
          data_size := 0, accelerator_type := k, accelerator_id := i, atFinish := none }) := by
  refine ⟨by decide, by decide, by decide, by decide, ?_, by decide, by decide, ?_⟩
  · exact (C11_request_execution_dispatches ⟨true, true⟩ 0 31
      (after (allocated_task FAST_TO_SLOW_FIRST_AVAIL_POLICY))
      { block_id := 31, status := TASK_ALLOCATED, job_type := FFT_TASK, crit_level := BASE_TASK,
        data_size := 0, accelerator_type := no_accelerator_t, accelerator_id := -1,
        atFinish := none }
      (by decide) (by decide) (by decide) (by decide)).1 (by decide)
  · obtain ⟨k, i, s', _, _, h3, h4, h5, h6, _⟩ :=
      (C11_request_execution_dispatches ⟨true, true⟩ 0 31
        (after (allocated_task SELECT_ACCEL_AND_WAIT_POLICY))
        { block_id := 31, status := TASK_ALLOCATED, job_type := FFT_TASK,
          crit_level := BASE_TASK, data_size := 0, accelerator_type := no_accelerator_t,
          accelerator_id := -1, atFinish := none }
        (by decide) (by decide) (by decide) (by decide)).2.1 (by decide)
        (assign cpu_accel_t 0 31 (queued 31 (after (allocated_task SELECT_ACCEL_AND_WAIT_POLICY))))
        (by decide)
    exact ⟨k, i, s', h3, h4, h5, h6⟩

/-! ### C12 -/

/-- C12 as stated fails: slot 31 runs an FFT task on CPU instance 0 (the state reached by the
    calls `running_task`) and the application has stored in it the completion hook 7, a
    function that gives the slot back to the pool (`free_task_metadata_block` on the slot it
    is handed; no function of the scheduler stores a hook).  `mark_task_done(slot 31)` returns; the
    hook was called once, with the slot DONE and the instance released; but the call leaves
    the slot with status FREE, not DONE, and back in the free pool. -/
theorem C12_hook_releases_slot_counterexample :
    (with_hook 7 31 (after running_task)).master_metadata_pool[31]? = some
      { block_id := 31, status := TASK_RUNNING, job_type := FFT_TASK, crit_level := BASE_TASK,
        data_size := 0, accelerator_type := cpu_accel_t, accelerator_id := 0,
        atFinish := some 7 } ∧
    rd_in_use (with_hook 7 31 (after running_task)).accelerator_in_use_by cpu_accel_t 0
      = some 31 ∧
    ∃ s1, mark_task_done releasing_hooks 31 (with_hook 7 31 (after running_task))
        = .returns () s1 ∧
      s1.finish_calls.map (fun (c : FinishCall) => (c.hook, c.block.status)) = [(7, TASK_DONE)] ∧
      rd_in_use s1.accelerator_in_use_by cpu_accel_t 0 = some (-1) ∧
      status_of s1 31 = some TASK_FREE ∧
      s1.free_metadata_blocks = 32 ∧ in_free_pool s1 31 := by
  refine ⟨by decide, by decide, _, rfl, ?_, ?_, ?_, ?_, ?_⟩ <;> decide

/-- C12 (amended): `mark_task_done` on a slot of the pool whose assignment indexes an entry `v` of
    the busy table (block id in [0, P), values that fit an `int`), in an application whose
    hooks behave as `hooks`.  When `atFinish` is tested the slot is DONE, the busy entry has
    been set to -1 if it held the block id and the busy table is unchanged otherwise, and
    no other entry and no other slot has changed.  If no hook is set the call returns in
    that state and calls no hook.  If a hook is set it is called exactly once, in that state
    (the call being recorded), and `atFinish = NULL` is assigned in the state the hook
    leaves: if the hook returns, the call returns with the slot holding no hook, its status
    and the busy table as the hook has left them, so DONE and released if the hook has not
    written the slot pool and the busy table; if the hook does not return, the call does
    not.  A second `mark_task_done` after one that has returned has the same outcome
    whatever the hooks do and, if it returns, has called none. -/
theorem C12_mark_done_completes (hooks : Hooks) (mb : Nat) (s : Sched)
    (m : task_metadata_block_t) (v : Int)
    (hm : s.master_metadata_pool[mb]? = some m)
    (hid : 0 ≤ m.block_id ∧ m.block_id < 32)
    (hrows : s.accelerator_in_use_by.length = 3)
    (hcols : ∀ r ∈ s.accelerator_in_use_by, r.length = 10)
    (hv : rd_in_use s.accelerator_in_use_by m.accelerator_type m.accelerator_id = some v)
    (hvi : is_int v) :
    (status_of (completed mb m v s) mb = some TASK_DONE ∧
      (v = m.block_id →
        rd_in_use (completed mb m v s).accelerator_in_use_by m.accelerator_type
          m.accelerator_id = some (-1)) ∧
      (v ≠ m.block_id → (completed mb m v s).accelerator_in_use_by = s.accelerator_in_use_by) ∧
      (∀ k2 i2, (k2 ≠ m.accelerator_type ∨ i2 ≠ m.accelerator_id) →
        rd_in_use (completed mb m v s).accelerator_in_use_by k2 i2
          = rd_in_use s.accelerator_in_use_by k2 i2) ∧
      rd_in_use (completed mb m v s).accelerator_in_use_by m.accelerator_type m.accelerator_id
        ≠ some m.block_id ∧
      (∀ j, j ≠ mb →
        (completed mb m v s).master_metadata_pool[j]? = s.master_metadata_pool[j]?)) ∧
    (m.atFinish = none →
      mark_task_done hooks mb s = .returns () (completed mb m v s) ∧
      (completed mb m v s).finish_calls = s.finish_calls ∧
      ∀ hooks2, mark_task_done hooks2 mb s = mark_task_done hooks mb s) ∧
    (∀ h, m.atFinish = some h →
      (at_finish h mb m v s).master_metadata_pool = (completed mb m v s).master_metadata_pool ∧
      (at_finish h mb m v s).accelerator_in_use_by = (completed mb m v s).accelerator_in_use_by ∧
      (at_finish h mb m v s).finish_calls =
        { hook := h, block := { m with status := TASK_DONE },
          in_use := (completed mb m v s).accelerator_in_use_by } :: s.finish_calls ∧
      mark_task_done hooks mb s =
        (match hooks h mb (at_finish h mb m v s) with
         | .returns _ t => clear_hook mb t
         | o => o) ∧
      (∀ t m2, hooks h mb (at_finish h mb m v s) = .returns () t →
        t.master_metadata_pool[mb]? = some m2 →
        mark_task_done hooks mb s = .returns () { t with
          master_metadata_pool := t.master_metadata_pool.set mb { m2 with atFinish := none } }) ∧
      (∀ t, hooks h mb (at_finish h mb m v s) = .returns () t →
        t.master_metadata_pool = (at_finish h mb m v s).master_metadata_pool →
        t.accelerator_in_use_by = (at_finish h mb m v s).accelerator_in_use_by →
        ∃ s1, mark_task_done hooks mb s = .returns () s1 ∧
          s1.master_metadata_pool = s.master_metadata_pool.set mb
            { m with status := TASK_DONE, atFinish := none } ∧
          s1.accelerator_in_use_by = (completed mb m v s).accelerator_in_use_by ∧
          s1.finish_calls = t.finish_calls)) ∧
    (∀ s1, mark_task_done hooks mb s = .returns () s1 →
      (∃ m1, s1.master_metadata_pool[mb]? = some m1 ∧ m1.atFinish = none) ∧
      ∀ hooks2, mark_task_done hooks2 mb s1 = mark_task_done inert_hooks mb s1 ∧
        ∀ s2, mark_task_done hooks2 mb s1 = .returns () s2 →
          s2.finish_calls = s1.finish_calls) := by
  have hlen : mb < s.master_metadata_pool.length := (List.getElem?_eq_some.mp hm).1
  have hbi : is_int m.block_id := by unfold is_int; omega
  obtain ⟨hsame, hother, hkeep, _, _⟩ :=
    released_entries s.accelerator_in_use_by m.accelerator_type m.accelerator_id v m.block_id hv
  have heq := fun hk => done_eq hk mb s m v hm hrows hcols hv hvi hbi
  have hcm : (completed mb m v s).master_metadata_pool[mb]? =
      some { m with status := TASK_DONE } := by
    simp [completed, hlen]
  have hfirst : ∀ s1, mark_task_done hooks mb s = .returns () s1 →
      ∃ m1, s1.master_metadata_pool[mb]? = some m1 ∧ m1.atFinish = none := by
    intro s1 hret
    rw [heq hooks] at hret
    cases hh : m.atFinish with
    | none =>
      simp only [hh] at hret
      obtain ⟨m2, _, _, h3⟩ := clear_hook_returns mb _ s1 hret
      exact ⟨_, h3, rfl⟩
    | some h =>
      simp only [hh] at hret
      cases hk : hooks h mb (at_finish h mb m v s) with
      | returns u t =>
        simp only [hk] at hret
        obtain ⟨m2, _, _, h3⟩ := clear_hook_returns mb _ s1 hret
        exact ⟨_, h3, rfl⟩
      | exits c t => simp [hk] at hret
      | hangs t => simp [hk] at hret
      | undefined => simp [hk] at hret
  refine ⟨⟨?_, ?_, ?_, ?_, ?_, ?_⟩, ?_, ?_, ?_⟩
  · simp [status_of, hcm]
  · intro hvb
    show rd_in_use (released _ _ _ _ _) _ _ = _
    rw [hsame, if_pos hvb]
  · intro hvb
    exact hkeep hvb
  · exact hother
  · show rd_in_use (released _ _ _ _ _) _ _ ≠ _
    rw [hsame]
    split
    · intro hcon
      have := Option.some.inj hcon
      omega
    · next hne => exact fun hcon => hne (Option.some.inj hcon)
  · intro j hj
    show (s.master_metadata_pool.set mb _)[j]? = _
    exact List.getElem?_set_ne (Ne.symm hj)
  · intro hh
    have hret : ∀ hk, mark_task_done hk mb s = .returns () (completed mb m v s) := by
      intro hk
      rw [heq hk]
      simp only [hh, clear_hook, hcm]
      have : (completed mb m v s).master_metadata_pool.set mb
          { ({ m with status := TASK_DONE } : task_metadata_block_t) with atFinish := none } =
          (completed mb m v s).master_metadata_pool := by
        apply List.ext_getElem?
        intro j
        by_cases hj : j = mb
        · subst hj
          rw [List.getElem?_set_self (by simpa [completed] using hlen), hcm, ← hh]
        · rw [List.getElem?_set_ne (Ne.symm hj)]
      rw [this]
    exact ⟨hret hooks, rfl, fun hooks2 => by rw [hret hooks2, hret hooks]⟩
  · intro h hh
    have hmain : mark_task_done hooks mb s =
        (match hooks h mb (at_finish h mb m v s) with
         | .returns _ t => clear_hook mb t
         | o => o) := by
      rw [heq hooks]
      simp only [hh]
    refine ⟨rfl, rfl, rfl, hmain, ?_, ?_⟩
    · intro t m2 ht hm2
      rw [hmain, ht]
      simp only [clear_hook, hm2]
    · intro t ht hp htab
      have hm2 : t.master_metadata_pool[mb]? = some { m with status := TASK_DONE } := by
        rw [hp]; exact hcm
      refine ⟨{ t with master_metadata_pool := (t.master_metadata_pool.set mb
          { m with status := TASK_DONE, atFinish := none }) },
        by rw [hmain, ht]; simp only [clear_hook, hm2], ?_, htab, rfl⟩
      show t.master_metadata_pool.set mb _ = _
      rw [hp]
      show (s.master_metadata_pool.set mb _).set mb _ = _
      rw [List.set_set]
  · intro s1 hret
    obtain ⟨m1, hm1, hh1⟩ := hfirst s1 hret
    have hnone : ∀ x, s1.master_metadata_pool[mb]? = some x → x.atFinish = none := by
      intro x hx
      rw [hm1] at hx
      cases hx
      exact hh1
    refine ⟨⟨m1, hm1, hh1⟩, fun hooks2 => ⟨done_without_hook hooks2 mb s1 hnone, ?_⟩⟩
    intro s2 h2
    rw [done_without_hook hooks2 mb s1 hnone] at h2
    exact done_without_hook_log mb s1 s2 hnone h2

/-- The amended C12 applied to the task that runs in slot 31 on CPU instance 0, with hook 7
    stored in the slot and hooks that write nothing: the hook is called once, with the slot
    DONE and the instance free, and the call returns with the slot DONE and the hook
    cleared. -/
theorem C12_mark_done_completes_witness :
    ∃ s1, mark_task_done inert_hooks 31 (with_hook 7 31 (after running_task)) = .returns () s1 ∧
      s1.master_metadata_pool[31]? = some
        { block_id := 31, status := TASK_DONE, job_type := FFT_TASK, crit_level := BASE_TASK,
          data_size := 0, accelerator_type := cpu_accel_t, accelerator_id := 0,
          atFinish := none } ∧
      rd_in_use s1.accelerator_in_use_by cpu_accel_t 0 = some (-1) ∧
      s1.finish_calls = [FinishCall.mk 7
          { block_id := 31, status := TASK_DONE, job_type := FFT_TASK, crit_level := BASE_TASK,
            data_size := 0, accelerator_type := cpu_accel_t, accelerator_id := 0,
            atFinish := some 7 }
          s1.accelerator_in_use_by] := by
  obtain ⟨s1, h1, h2, h3, h4⟩ := (C12_mark_done_completes inert_hooks 31
    (with_hook 7 31 (after running_task))
    { block_id := 31, status := TASK_RUNNING, job_type := FFT_TASK, crit_level := BASE_TASK,
      data_size := 0, accelerator_type := cpu_accel_t, accelerator_id := 0, atFinish := some 7 }
    31 (by decide) (by decide) (by decide) (by decide) (by decide) (by decide)).2.2.1 7 rfl
      |>.2.2.2.2.2 _ rfl rfl rfl
  refine ⟨s1, h1, ?_, ?_, ?_⟩
  · rw [h2]; decide
  · rw [h3]; decide
  · rw [h4, h3]; decide

/-! ### C13 -/

/-- C13: `release_accelerator_for_task` on a slot of the pool whose assignment `(k, i)` indexes an
    entry `v` of the busy table (so `k` is not NONE; values that fit an `int`).  If `v` is the
    block id of the slot the call returns with that entry set to -1; otherwise it returns
    after it has reported the mismatch, with the busy table unchanged.  In both cases every
    other entry of the busy table and the whole slot pool are unchanged. -/
theorem C13_release_accelerator (mb : Nat) (s : Sched) (m : task_metadata_block_t) (v : Int)
    (hm : s.master_metadata_pool[mb]? = some m)
    (hrows : s.accelerator_in_use_by.length = 3)
    (hcols : ∀ r ∈ s.accelerator_in_use_by, r.length = 10)
    (hv : rd_in_use s.accelerator_in_use_by m.accelerator_type m.accelerator_id = some v)
    (hvi : is_int v) (hbi : is_int m.block_id) :
    m.accelerator_type ≠ no_accelerator_t ∧
    ∃ s1, release_accelerator_for_task mb s = .returns () s1 ∧
      s1.master_metadata_pool = s.master_metadata_pool ∧
      (v = m.block_id →
        rd_in_use s1.accelerator_in_use_by m.accelerator_type m.accelerator_id = some (-1) ∧
        s1.mismatch_reports = s.mismatch_reports) ∧
      (v ≠ m.block_id →
        s1.accelerator_in_use_by = s.accelerator_in_use_by ∧
        s1.mismatch_reports = m.block_id :: s.mismatch_reports) ∧
      (∀ k2 i2, (k2 ≠ m.accelerator_type ∨ i2 ≠ m.accelerator_id) →
        rd_in_use s1.accelerator_in_use_by k2 i2 = rd_in_use s.accelerator_in_use_by k2 i2) := by
  obtain ⟨_, hk3, _, _⟩ := rd_in_use_bounds hv hrows hcols
  have h1 := release_spec mb s m v hm hrows hcols hv hvi hbi
  obtain ⟨hsame, hother, hkeep, _, _⟩ :=
    released_entries s.accelerator_in_use_by m.accelerator_type m.accelerator_id v m.block_id hv
  refine ⟨?_, _, h1, rfl, ?_, ?_, hother⟩
  · intro hk
    rw [hk] at hk3
    exact absurd hk3 (by decide)
  · intro hvb
    refine ⟨?_, by simp [hvb]⟩
    show rd_in_use (released _ _ _ _ _) _ _ = _
    rw [hsame, if_pos hvb]
  · intro hvb
    exact ⟨hkeep hvb, by simp [hvb]⟩

/-- C13 applied to the task that runs in slot 31 on CPU instance 0: the entry is freed. -/
theorem C13_release_accelerator_witness :
    rd_in_use (after running_task).accelerator_in_use_by cpu_accel_t 0 = some 31 ∧
    ∃ s1, release_accelerator_for_task 31 (after running_task) = .returns () s1 ∧
      rd_in_use s1.accelerator_in_use_by cpu_accel_t 0 = some (-1) ∧
      s1.master_metadata_pool = (after running_task).master_metadata_pool := by
  obtain ⟨_, s1, h1, h2, h3, _, _⟩ := C13_release_accelerator 31 (after running_task)
    { block_id := 31, status := TASK_RUNNING, job_type := FFT_TASK, crit_level := BASE_TASK,
      data_size := 0, accelerator_type := cpu_accel_t, accelerator_id := 0, atFinish := none }
    31 (by decide) (by decide) (by decide) (by decide) (by decide) (by decide)
  exact ⟨by decide, s1, h1, (h3 rfl).1, h2⟩

/-! ### C14 -/

/-- C14: for a slot of the pool with block id in [0, P) whose assignment indexes a busy entry
    that holds that block id, two calls of `release_accelerator_for_task` in a row leave the
    same busy table as one call, the first call reports nothing and the second one takes the
    mismatch branch: the entry -1, converted to `unsigned`, differs from the block id. -/
theorem C14_release_twice (mb : Nat) (s : Sched) (m : task_metadata_block_t)
    (hm : s.master_metadata_pool[mb]? = some m)
    (hid : 0 ≤ m.block_id ∧ m.block_id < 32)
    (hrows : s.accelerator_in_use_by.length = 3)
    (hcols : ∀ r ∈ s.accelerator_in_use_by, r.length = 10)
    (hv : rd_in_use s.accelerator_in_use_by m.accelerator_type m.accelerator_id
      = some m.block_id) :
    ∃ s1 s2, release_accelerator_for_task mb s = .returns () s1 ∧
      release_accelerator_for_task mb s1 = .returns () s2 ∧
      s2.accelerator_in_use_by = s1.accelerator_in_use_by ∧
      rd_in_use s1.accelerator_in_use_by m.accelerator_type m.accelerator_id = some (-1) ∧
      s1.mismatch_reports = s.mismatch_reports ∧
      s2.mismatch_reports = m.block_id :: s.mismatch_reports ∧
      to_unsigned (-1) ≠ to_unsigned m.block_id := by
  have hbi : is_int m.block_id := by unfold is_int; omega
  obtain ⟨hsame, _, _, hlen2, hcols2⟩ := released_entries s.accelerator_in_use_by
    m.accelerator_type m.accelerator_id m.block_id m.block_id hv
  rw [if_pos rfl] at hsame
  have hne : (-1 : Int) ≠ m.block_id := by omega
  obtain ⟨s1, h1, hp1, ht1, hr1⟩ : ∃ s1, release_accelerator_for_task mb s = .returns () s1 ∧
      s1.master_metadata_pool = s.master_metadata_pool ∧
      s1.accelerator_in_use_by = released s.accelerator_in_use_by m.accelerator_type
        m.accelerator_id m.block_id m.block_id ∧
      s1.mismatch_reports = s.mismatch_reports :=
    ⟨_, release_spec mb s m m.block_id hm hrows hcols hv hbi hbi, rfl, rfl, by simp⟩
  have hv1 : rd_in_use s1.accelerator_in_use_by m.accelerator_type m.accelerator_id
      = some (-1) := by rw [ht1]; exact hsame
  obtain ⟨_, _, hkeep, _, _⟩ := released_entries s1.accelerator_in_use_by
    m.accelerator_type m.accelerator_id (-1) m.block_id hv1
  obtain ⟨s2, h2, ht2, hr2⟩ : ∃ s2, release_accelerator_for_task mb s1 = .returns () s2 ∧
      s2.accelerator_in_use_by = released s1.accelerator_in_use_by m.accelerator_type
        m.accelerator_id (-1) m.block_id ∧
      s2.mismatch_reports = m.block_id :: s1.mismatch_reports :=
    ⟨_, release_spec mb s1 m (-1) (by rw [hp1]; exact hm) (by rw [ht1, hlen2]; exact hrows)
      (by rw [ht1]; exact hcols2 10 hcols) hv1 (by decide) hbi, rfl, by simp [hne]⟩
  refine ⟨s1, s2, h1, h2, by rw [ht2]; exact hkeep hne, hv1, hr1, by rw [hr2, hr1], ?_⟩
  unfold to_unsigned
  omega

/-- C14 applied to the task that runs in slot 31 on CPU instance 0. -/
theorem C14_release_twice_witness :
    rd_in_use (after running_task).accelerator_in_use_by cpu_accel_t 0 = some 31 ∧
    ∃ s1 s2, release_accelerator_for_task 31 (after running_task) = .returns () s1 ∧
      release_accelerator_for_task 31 s1 = .returns () s2 ∧
      s2.accelerator_in_use_by = s1.accelerator_in_use_by ∧
      s2.mismatch_reports = [31] := by
  obtain ⟨s1, s2, h1, h2, h3, _, _, h6, _⟩ := C14_release_twice 31 (after running_task)
    { block_id := 31, status := TASK_RUNNING, job_type := FFT_TASK, crit_level := BASE_TASK,
      data_size := 0, accelerator_type := cpu_accel_t, accelerator_id := 0, atFinish := none }
    (by decide) (by decide) (by decide) (by decide) (by decide)
  exact ⟨by decide, s1, s2, h1, h2, h3, h6⟩

/-! ### C15 -/

/-- C15 as stated fails: after one complete task (acquire, request, mark_task_done) slot 31 is DONE and
    still carries the assignment (CPU, 0), which is not NONE, while `accelerator_in_use_by[CPU][0]`
    is -1 and not its block id 31.  Right after `initialize_scheduler` every slot carries
    the zero-initialised assignment (CPU, 0) as well, with all busy entries -1. -/
theorem C15_completed_slot_counterexample :
    run ⟨false, false⟩ any_call one_task (initialize_scheduler startup) = some (after one_task) ∧
    (after one_task).master_metadata_pool[31]? = some
      { block_id := 31, status := TASK_DONE, job_type := FFT_TASK, crit_level := BASE_TASK,
        data_size := 0, accelerator_type := cpu_accel_t, accelerator_id := 0, atFinish := none } ∧
    cpu_accel_t ≠ no_accelerator_t ∧
    rd_in_use (after one_task).accelerator_in_use_by cpu_accel_t 0 = some (-1) ∧
    (initialize_scheduler startup).master_metadata_pool[5]? = some
      { block_id := 5, status := TASK_FREE, job_type := NO_TASK_JOB, crit_level := NO_TASK,
        data_size := 0, accelerator_type := cpu_accel_t, accelerator_id := 0, atFinish := none } ∧
    rd_in_use (initialize_scheduler startup).accelerator_in_use_by cpu_accel_t 0 = some (-1) := by
  decide

/-- C15 (amended): in every state reached from `initialize_scheduler` by calls of the interface that
    return, every slot whose status is RUNNING is assigned a kind other than NONE and
    `accelerator_in_use_by[accelerator_type][accelerator_id]` holds its block id. -/
theorem C15_running_slot_owns_instance (cfg : Build) (cs : List Call) (s : Sched)
    (h : run cfg any_call cs (initialize_scheduler startup) = some s)
    (mb : Nat) (m : task_metadata_block_t)
    (hm : s.master_metadata_pool[mb]? = some m) (hst : m.status = TASK_RUNNING) :
    m.accelerator_type ≠ no_accelerator_t ∧
    rd_in_use s.accelerator_in_use_by m.accelerator_type m.accelerator_id = some m.block_id := by
  have hinv := RunInv_run cfg any_call cs _ s RunInv_init h
  have hrun := hinv.running mb m hm hst
  obtain ⟨_, hk3, _, _⟩ := rd_in_use_bounds hrun hinv.rows hinv.cols
  refine ⟨?_, hrun⟩
  intro hk
  rw [hk] at hk3
  exact absurd hk3 (by decide)

/-- The amended C15 applied to the task that runs in slot 31. -/
theorem C15_running_slot_owns_instance_witness :
    run ⟨false, false⟩ any_call running_task (initialize_scheduler startup) =
      some (after running_task) ∧
    status_of (after running_task) 31 = some TASK_RUNNING ∧
    rd_in_use (after running_task).accelerator_in_use_by cpu_accel_t 0 = some 31 :=
  ⟨by decide, by decide,
    (C15_running_slot_owns_instance ⟨false, false⟩ running_task (after running_task)
      (by decide) 31
      { block_id := 31, status := TASK_RUNNING, job_type := FFT_TASK, crit_level := BASE_TASK,
        data_size := 0, accelerator_type := cpu_accel_t, accelerator_id := 0, atFinish := none }
      (by decide) (by decide)).2⟩

/-! ### C16 -/

/-- C16: in every state reached from `initialize_scheduler` by calls that return and that respect the
    life cycle (`request_execution` only on ALLOCATED slots, `mark_task_done` only on RUNNING slots,
    `free_task_metadata_block` only on DONE slots), `accelerator_in_use_by[k][i]` holds a block id
    `b` other than -1 exactly when slot `b` is RUNNING and assigned to instance `i` of kind `k`. -/
theorem C16_busy_entry_iff_running (cfg : Build) (cs : List Call) (s : Sched)
    (h : run cfg in_order cs (initialize_scheduler startup) = some s) (k i b : Int) :
    (rd_in_use s.accelerator_in_use_by k i = some b ∧ b ≠ -1) ↔
    (∃ m, rd s.master_metadata_pool b = some m ∧ m.status = TASK_RUNNING ∧
      m.accelerator_type = k ∧ m.accelerator_id = i) := by
  obtain ⟨hinv, hown⟩ := owned_run cfg cs _ s RunInv_init PoolInv_init owned_init h
  constructor
  · rintro ⟨hb, hne⟩
    exact hown k i b hb hne
  · rintro ⟨m, hm, hst, rfl, rfl⟩
    obtain ⟨hb0, hm2⟩ := rd_eq_some.mp hm
    have hrun := hinv.running b.toNat m hm2 hst
    have hid := hinv.ident b.toNat m hm2
    rw [Int.toNat_of_nonneg hb0] at hid
    rw [hid] at hrun
    exact ⟨hrun, by omega⟩

/-- C16 applied to the task that runs in slot 31: `accelerator_in_use_by[CPU][0]` is 31. -/
theorem C16_busy_entry_iff_running_witness :
    run ⟨false, false⟩ in_order running_task (initialize_scheduler startup) =
      some (after running_task) ∧
    ((rd_in_use (after running_task).accelerator_in_use_by cpu_accel_t 0 = some 31 ∧
        (31 : Int) ≠ -1) ↔
      (∃ m, rd (after running_task).master_metadata_pool 31 = some m ∧
        m.status = TASK_RUNNING ∧ m.accelerator_type = cpu_accel_t ∧ m.accelerator_id = 0)) ∧
    rd_in_use (after running_task).accelerator_in_use_by cpu_accel_t 0 = some 31 :=
  ⟨by decide,
    C16_busy_entry_iff_running ⟨false, false⟩ running_task (after running_task) (by decide)
      cpu_accel_t 0 31,
    by decide⟩

/-! ### C17 -/

/-- C17 (fails on the code): with the policy variable set to FAST_TO_SLOW, `request_execution` on any slot of
    the pool, in any state and build, terminates with `exit(-15)`: the slot is left QUEUED, no
    busy entry is written and no agent is signalled. -/
theorem C17_fast_to_slow_is_fatal (cfg : Build) (rand mb : Nat) (s : Sched)
    (m : task_metadata_block_t) (hm : s.master_metadata_pool[mb]? = some m)
    (hpol : s.global_scheduler_selection_policy = FAST_TO_SLOW_FIRST_AVAIL_POLICY) :
    request_execution cfg rand mb s = .exits (-15) (queued mb s) ∧
    status_of (queued mb s) mb = some TASK_QUEUED ∧
    (queued mb s).accelerator_in_use_by = s.accelerator_in_use_by ∧
    (queued mb s).signalled = s.signalled := by
  have hlen : mb < s.master_metadata_pool.length := (List.getElem?_eq_some.mp hm).1
  refine ⟨request_other_policy cfg rand mb s m hm (by rw [hpol]; decide), ?_, ?_, ?_⟩
  · rw [queued_eq mb s m hm]; simp [status_of, hlen]
  · rw [queued_eq mb s m hm]
  · rw [queued_eq mb s m hm]

/-- C17 at scenario S4 (FFT hardware compiled in, 2 FFT instances, all instances free, four FFT
    tasks acquired): `request_execution` on the first task exits with -15, whereas the selector
    `fastest_to_slowest_first_available`, called directly and followed by the dispatch, assigns
    FFT_HW 0, FFT_HW 1, CPU 0, CPU 1 to the four tasks. -/
theorem C17_fast_to_slow_is_fatal_witness :
    (scenario_s4 2).global_scheduler_selection_policy = FAST_TO_SLOW_FIRST_AVAIL_POLICY ∧
    (scenario_s4 2).num_accelerators_of_type = [10, 2, 4] ∧
    request_execution ⟨true, false⟩ 0 31 (scenario_s4 2) =
      .exits (-15) (queued 31 (scenario_s4 2)) ∧
    (assign_all ⟨true, false⟩ [31, 30, 29, 28] (scenario_s4 2)).map
        (fun t => [31, 30, 29, 28].map (assignment t)) =
      some [some (fft_hwr_accel_t, 0), some (fft_hwr_accel_t, 1), some (cpu_accel_t, 0),
        some (cpu_accel_t, 1)] :=
  ⟨by decide, by decide,
    (C17_fast_to_slow_is_fatal ⟨true, false⟩ 0 31 (scenario_s4 2)
      { block_id := 31, status := TASK_ALLOCATED, job_type := FFT_TASK, crit_level := BASE_TASK,
        data_size := 0, accelerator_type := no_accelerator_t, accelerator_id := -1,
        atFinish := none } (by decide) (by decide)).1,
    by decide⟩

/-! ### C18 -/

/-- C18: with a policy value other than RANDOM_WAIT and FAST_TO_SLOW, `request_execution` on any
    slot of the pool terminates with `exit(-15)`; the slot has been set to QUEUED (not RUNNING),
    every other slot, the busy table and the record of signalled agents are unchanged. -/
theorem C18_unknown_policy_is_fatal (cfg : Build) (rand mb : Nat) (s : Sched)
    (m : task_metadata_block_t) (hm : s.master_metadata_pool[mb]? = some m)
    (h1 : s.global_scheduler_selection_policy ≠ SELECT_ACCEL_AND_WAIT_POLICY)
    (_h2 : s.global_scheduler_selection_policy ≠ FAST_TO_SLOW_FIRST_AVAIL_POLICY) :
    request_execution cfg rand mb s = .exits (-15) (queued mb s) ∧
    (queued mb s).master_metadata_pool =
      s.master_metadata_pool.set mb { m with status := TASK_QUEUED } ∧
    (queued mb s).accelerator_in_use_by = s.accelerator_in_use_by ∧
    (queued mb s).signalled = s.signalled := by
  refine ⟨request_other_policy cfg rand mb s m hm h1, ?_, ?_, ?_⟩ <;> rw [queued_eq mb s m hm]

/-- C18 applied to the policy value 7 and an FFT task allocated in slot 31. -/
theorem C18_unknown_policy_is_fatal_witness :
    (after (allocated_task 7)).global_scheduler_selection_policy = 7 ∧
    request_execution ⟨true, true⟩ 0 31 (after (allocated_task 7)) =
      .exits (-15) (queued 31 (after (allocated_task 7))) ∧
    status_of (queued 31 (after (allocated_task 7))) 31 = some TASK_QUEUED :=
  ⟨by decide,
    (C18_unknown_policy_is_fatal ⟨true, true⟩ 0 31 (after (allocated_task 7))
      { block_id := 31, status := TASK_ALLOCATED, job_type := FFT_TASK, crit_level := BASE_TASK,
        data_size := 0, accelerator_type := no_accelerator_t, accelerator_id := -1,
        atFinish := none } (by decide) (by decide) (by decide)).1,
    by decide⟩

/-! ### C19 -/

/-- C19: the two selectors on a slot of the pool, with tables of the declared sizes that do not
    change during the call.  For job type FFT or VITERBI: `pick_accel_and_wait_for_available`
    returns if the kind it proposes has a free instance and spins for ever otherwise;
    `fastest_to_slowest_first_available` returns if one of the kinds it scans has a free
    instance and spins for ever otherwise; a selector that returns has written an assignment
    `(k, i)` to the slot with `k` not NONE, `0 ≤ i < num_accelerators_of_type[k]` and
    `accelerator_in_use_by[k][i] = -1`, and nothing else.  For any other job type both
    selectors terminate with `exit(-15)`. -/
theorem C19_selectors_return_free_instance (cfg : Build) (rand mb : Nat) (s : Sched)
    (m : task_metadata_block_t) (hm : s.master_metadata_pool[mb]? = some m)
    (hs : inventory_sized s) :
    ((m.job_type = FFT_TASK ∨ m.job_type = VITERBI_TASK) →
      (∃ p, proposed_accel cfg rand m.job_type = some p ∧
        ((∃ i, free_instance s p i = true) →
          ∃ s', pick_accel_and_wait_for_available cfg rand mb s = .returns () s') ∧
        ((∀ i, free_instance s p i = false) →
          pick_accel_and_wait_for_available cfg rand mb s = .hangs s)) ∧
      ((∃ k ∈ kinds_scanned cfg m.job_type, ∃ i, free_instance s k i = true) →
        ∃ s', fastest_to_slowest_first_available cfg mb s = .returns () s') ∧
      ((∀ k ∈ kinds_scanned cfg m.job_type, ∀ i, free_instance s k i = false) →
        fastest_to_slowest_first_available cfg mb s = .hangs s)) ∧
    (∀ s', pick_accel_and_wait_for_available cfg rand mb s = .returns () s' →
      ∃ (k : Int) (i : Nat), s' = assign k i mb s ∧ k ≠ no_accelerator_t ∧
        proposed_accel cfg rand m.job_type = some k ∧
        (∃ n, rd s.num_accelerators_of_type k = some n ∧ (i : Int) < n) ∧
        rd_in_use s.accelerator_in_use_by k i = some (-1)) ∧
    (∀ s', fastest_to_slowest_first_available cfg mb s = .returns () s' →
      ∃ (k : Int) (i : Nat), s' = assign k i mb s ∧ k ≠ no_accelerator_t ∧
        k ∈ kinds_scanned cfg m.job_type ∧
        (∃ n, rd s.num_accelerators_of_type k = some n ∧ (i : Int) < n) ∧
        rd_in_use s.accelerator_in_use_by k i = some (-1)) ∧
    (m.job_type ≠ FFT_TASK → m.job_type ≠ VITERBI_TASK →
      pick_accel_and_wait_for_available cfg rand mb s = .exits (-15) s ∧
      fastest_to_slowest_first_available cfg mb s = .exits (-15) s) := by
  have free_iff : ∀ (k : Int) (i : Nat), free_instance s k i = true →
      (∃ n, rd s.num_accelerators_of_type k = some n ∧ (i : Int) < n) ∧
      rd_in_use s.accelerator_in_use_by k i = some (-1) := by
    intro k i h
    unfold free_instance at h
    cases hn : rd s.num_accelerators_of_type k with
    | none => simp [hn] at h
    | some n =>
      simp only [hn, Bool.and_eq_true, decide_eq_true_eq] at h
      exact ⟨⟨n, rfl, h.1⟩, h.2⟩
  refine ⟨?_, ?_, ?_, ?_⟩
  · intro hj
    refine ⟨?_, ?_, ?_⟩
    · obtain ⟨p, hp, _, hpick⟩ := pick_total cfg rand mb s m hm hs hj
      refine ⟨p, hp, ?_, ?_⟩
      · rintro ⟨i, hi⟩
        rcases hpick with ⟨i2, h1, _⟩ | ⟨_, h2⟩
        · exact ⟨_, h1⟩
        · rw [h2 i] at hi; cases hi
      · intro hall
        rcases hpick with ⟨i2, _, h1⟩ | ⟨h2, _⟩
        · rw [hall i2] at h1; cases h1
        · exact h2
    · rintro ⟨k, hk, i, hi⟩
      rcases fast_total cfg mb s m hm hs hj with ⟨k2, i2, h1, _⟩ | ⟨_, h2⟩
      · exact ⟨_, h1⟩
      · rw [h2 k hk i] at hi; cases hi
    · intro hall
      rcases fast_total cfg mb s m hm hs hj with ⟨k2, i2, _, hk2, _, h1⟩ | ⟨h2, _⟩
      · rw [hall k2 hk2 i2] at h1; cases h1
      · exact h2
  · intro s' hret
    by_cases hj : m.job_type = FFT_TASK ∨ m.job_type = VITERBI_TASK
    · obtain ⟨p, hp, hne, hpick⟩ := pick_total cfg rand mb s m hm hs hj
      rcases hpick with ⟨i, h1, h2⟩ | ⟨h1, _⟩
      · rw [h1] at hret
        cases hret
        exact ⟨p, i, rfl, hne, hp, free_iff p i h2⟩
      · rw [h1] at hret; cases hret
    · rw [pick_rejects cfg rand mb s m hm (fun h => hj (Or.inl h)) (fun h => hj (Or.inr h))]
        at hret
      cases hret
  · intro s' hret
    by_cases hj : m.job_type = FFT_TASK ∨ m.job_type = VITERBI_TASK
    · rcases fast_total cfg mb s m hm hs hj with ⟨k, i, h1, hk, hne, h2⟩ | ⟨h1, _⟩
      · rw [h1] at hret
        cases hret
        exact ⟨k, i, rfl, hne, hk, free_iff k i h2⟩
      · rw [h1] at hret; cases hret
    · rw [fast_rejects cfg mb s m hm (fun h => hj (Or.inl h)) (fun h => hj (Or.inr h))] at hret
      cases hret
  · intro h1 h2
    exact ⟨pick_rejects cfg rand mb s m hm h1 h2, fast_rejects cfg mb s m hm h1 h2⟩

/-- C19 applied to the FFT task that runs in slot 31 while slot 30 holds a second FFT task, in a
    build with FFT hardware: with `rand()` returning 0 the first selector proposes the CPU, whose
    instance 0 is taken, and assigns CPU instance 1; the second selector assigns FFT_HW 0. -/
theorem C19_selectors_return_free_instance_witness :
    inventory_sized (after (running_task ++ [.acquire FFT_TASK BASE_TASK (some 30)])) ∧
    rd_in_use (after (running_task ++ [.acquire FFT_TASK BASE_TASK (some 30)])).accelerator_in_use_by
      cpu_accel_t 0 = some 31 ∧
    pick_accel_and_wait_for_available ⟨true, true⟩ 0 30
        (after (running_task ++ [.acquire FFT_TASK BASE_TASK (some 30)])) =
      .returns () (assign cpu_accel_t 1 30
        (after (running_task ++ [.acquire FFT_TASK BASE_TASK (some 30)]))) ∧
    fastest_to_slowest_first_available ⟨true, true⟩ 30
        (after (running_task ++ [.acquire FFT_TASK BASE_TASK (some 30)])) =
      .returns () (assign fft_hwr_accel_t 0 30
        (after (running_task ++ [.acquire FFT_TASK BASE_TASK (some 30)]))) ∧
    ∃ (k : Int) (i : Nat),
      assign cpu_accel_t 1 30 (after (running_task ++ [.acquire FFT_TASK BASE_TASK (some 30)])) =
        assign k i 30 (after (running_task ++ [.acquire FFT_TASK BASE_TASK (some 30)])) ∧
      k ≠ no_accelerator_t ∧
      rd_in_use (after (running_task ++
        [.acquire FFT_TASK BASE_TASK (some 30)])).accelerator_in_use_by k i = some (-1) := by
  refine ⟨by decide, by decide, by decide, by decide, ?_⟩
  obtain ⟨k, i, h1, h2, _, _, h5⟩ := (C19_selectors_return_free_instance ⟨true, true⟩ 0 30
    (after (running_task ++ [.acquire FFT_TASK BASE_TASK (some 30)]))
    { block_id := 30, status := TASK_ALLOCATED, job_type := FFT_TASK, crit_level := BASE_TASK,
      data_size := 0, accelerator_type := no_accelerator_t, accelerator_id := -1,
      atFinish := none } (by decide) (by decide)).2.1
    (assign cpu_accel_t 1 30 (after (running_task ++ [.acquire FFT_TASK BASE_TASK (some 30)])))
    (by decide)
  exact ⟨k, i, h1, h2, h5⟩

/-! ### C20 -/

/-- C20 as stated fails: slot 31 is released twice (slot 30 being live), handed out for a critical
    task and handed out again for a base-level task.  Slot 31 is now a base-level slot with
    status ALLOCATED, the critical live list still has the node that carries block id 31, and
    `wait_all_critical` never returns; it would return if that base-level slot were DONE. -/
theorem C20_base_slot_blocks_counterexample :
    run ⟨false, false⟩ any_call released_twice (initialize_scheduler startup) =
      some (after released_twice) ∧
    (after released_twice).master_metadata_pool[31]? = some
      { block_id := 31, status := TASK_ALLOCATED, job_type := FFT_TASK, crit_level := BASE_TASK,
        data_size := 0, accelerator_type := no_accelerator_t, accelerator_id := -1,
        atFinish := none } ∧
    (after released_twice).critical_live_task_head = some 31 ∧
    (after released_twice).critical_live_tasks_list[31]? =
      some { clt_block_id := 31, next := none } ∧
    wait_all_critical (after released_twice) = .hangs (after released_twice) ∧
    (set_status 31 TASK_DONE (after released_twice)).isSome = true ∧
    (set_status 31 TASK_DONE (after released_twice)).map wait_all_critical =
      (set_status 31 TASK_DONE (after released_twice)).map (fun t => .returns () t) := by
  decide

/-- C20 (amended): `wait_all_critical` on globals that do not change during the call.  If it returns,
    the globals are unchanged and the critical live list is a null-terminated list whose nodes
    all refer to slots with status DONE; with an empty list it returns at once; and it returns
    whenever the list is null-terminated and every node on it refers to a DONE slot, whatever
    the status of the slots no node of the list refers to.  A call that does not return is a
    loop that does not end, whatever the number of tests of its condition. -/
theorem C20_wait_all_critical_returns (s : Sched) :
    (∀ s', wait_all_critical s = .returns () s' →
      s' = s ∧
      ∃ ns, is_chain s.critical_live_tasks_list s.critical_live_task_head ns = true ∧
        ∀ c ∈ ns, refers_done s.critical_live_tasks_list s.master_metadata_pool c = true) ∧
    (s.critical_live_task_head = none → wait_all_critical s = .returns () s) ∧
    (∀ ns, is_chain s.critical_live_tasks_list s.critical_live_task_head ns = true →
      (∀ c ∈ ns, refers_done s.critical_live_tasks_list s.master_metadata_pool c = true) →
      wait_all_critical s = .returns () s) ∧
    (wait_all_critical s = .returns () s →
      wait_loop s.critical_live_tasks_list s.master_metadata_pool s.critical_live_task_head
        (s.critical_live_tasks_list.length + 1) s.critical_live_task_head = .done) ∧
    (wait_all_critical s = .hangs s →
      ∀ fuel, wait_loop s.critical_live_tasks_list s.master_metadata_pool
        s.critical_live_task_head fuel s.critical_live_task_head = .spins) := by
  have hchain : ∀ ns, is_chain s.critical_live_tasks_list s.critical_live_task_head ns = true →
      (∀ c ∈ ns, refers_done s.critical_live_tasks_list s.master_metadata_pool c = true) →
      wait_all_critical s = .returns () s := by
    intro ns h1 h2
    have hlen := is_chain_length_le _ ns _ h1
    have := walk_of_chain _ s.master_metadata_pool ns _ (s.critical_live_tasks_list.length + 1)
      h1 h2 (by omega)
    simp [wait_all_critical, this]
  refine ⟨?_, ?_, hchain, ?_, ?_⟩
  · intro s' h
    cases hw : walk_critical s.critical_live_tasks_list s.master_metadata_pool
        (s.critical_live_tasks_list.length + 1) s.critical_live_task_head with
    | done =>
      simp only [wait_all_critical, hw, Outcome.returns.injEq, true_and] at h
      exact ⟨h.symm, walk_done_chain _ _ _ _ hw⟩
    | restart => simp [wait_all_critical, hw] at h
    | spins => simp [wait_all_critical, hw] at h
    | wild => simp [wait_all_critical, hw] at h
  · intro hh
    exact hchain [] (by simp [is_chain, is_seg, hh]) (by simp)
  · intro h
    cases hw : walk_critical s.critical_live_tasks_list s.master_metadata_pool
        (s.critical_live_tasks_list.length + 1) s.critical_live_task_head with
    | done => rw [wait_loop_ends _ _ _ _ _ (Or.inl hw), hw]
    | restart => simp [wait_all_critical, hw] at h
    | spins => simp [wait_all_critical, hw] at h
    | wild => simp [wait_all_critical, hw] at h
  · intro h
    cases hw : walk_critical s.critical_live_tasks_list s.master_metadata_pool
        (s.critical_live_tasks_list.length + 1) s.critical_live_task_head with
    | done => simp [wait_all_critical, hw] at h
    | restart => exact wait_loop_never _ _ _ (Or.inl hw)
    | spins => exact wait_loop_never _ _ _ (Or.inr hw)
    | wild => simp [wait_all_critical, hw] at h

/-- The amended C20 applied to a state in which the critical task of slot 31 is DONE and the
    base-level task of slot 30 is RUNNING: `wait_all_critical` returns. -/
theorem C20_wait_all_critical_returns_witness :
    run ⟨false, false⟩ any_call critical_done_base_running (initialize_scheduler startup) =
      some (after critical_done_base_running) ∧
    is_chain (after critical_done_base_running).critical_live_tasks_list
      (after critical_done_base_running).critical_live_task_head [31] = true ∧
    status_of (after critical_done_base_running) 31 = some TASK_DONE ∧
    status_of (after critical_done_base_running) 30 = some TASK_RUNNING ∧
    wait_all_critical (after critical_done_base_running) =
      .returns () (after critical_done_base_running) :=
  ⟨by decide, by decide, by decide, by decide,
    (C20_wait_all_critical_returns (after critical_done_base_running)).2.2.1 [31]
      (by decide) (by decide)⟩

/-! ### C21 -/

/-- C21 (fails on the code): two reachable states in which the free pool is not full and the
    release of a live slot never returns, so that no acquire follows it.  (1) After
    acquire(FFT, BASE) = 31, acquire(FFT, CRITICAL) = 30, release(30),
    acquire(FFT, CRITICAL) = 30, acquire(FFT, CRITICAL) = 29 the free count is 29, the mutex
    is free and slot 30 is live; release(slot 30) scans the critical live list, whose head
    node points to itself, for ever.  (2) After 32 successful acquires the free count is 0;
    the acquire that finds the pool exhausted returns `NULL` with the mutex locked, and the
    release of the live slot 0 that follows blocks on the mutex. -/
theorem C21_release_of_live_slot_never_returns :
    (∃ s t, run ⟨false, false⟩ acquire_release cyclic_list (initialize_scheduler startup)
        = some s ∧
      s.free_metadata_mutex = false ∧ s.free_metadata_blocks = 29 ∧ live s 30 = true ∧
      free_task_metadata_block 30 s = .hangs t) ∧
    (∃ s s', run ⟨false, false⟩ acquire_release exhaust_pool (initialize_scheduler startup)
        = some s ∧
      s.free_metadata_blocks = 0 ∧
      get_task_metadata_block FFT_TASK BASE_TASK s = .returns none s' ∧
      s'.free_metadata_blocks = 0 ∧ live s' 0 = true ∧
      free_task_metadata_block 0 s' = .hangs s') := by
  refine ⟨⟨_, _, rfl, ?_, ?_, ?_, rfl⟩, ⟨_, _, rfl, ?_, rfl, ?_, ?_, ?_⟩⟩ <;> decide

/-! ### C22 -/

/-- C22 as stated fails: in a build with both hardware kinds the thresholds are 25.  The draw
    0 is below the threshold and the selector proposes the CPU kind, for an FFT and for a
    VITERBI job; the draw 99 is not below it and the selector proposes the hardware kind.
    On slot 31, just acquired for an FFT task, with every instance free, the call with
    `rand()` returning 0 assigns CPU instance 0 and the call with `rand()` returning 99
    assigns instance 0 of the hardware FFT kind.  In a build without hardware the threshold
    is 101, every draw is below it and every draw proposes the CPU kind. -/
theorem C22_below_threshold_counterexample :
    (drawn 0 < FFT_HW_THRESHOLD ⟨true, true⟩ ∧
      proposed_accel ⟨true, true⟩ 0 FFT_TASK = some cpu_accel_t) ∧
    (drawn 0 < VITERBI_HW_THRESHOLD ⟨true, true⟩ ∧
      proposed_accel ⟨true, true⟩ 0 VITERBI_TASK = some cpu_accel_t) ∧
    (¬ drawn 99 < FFT_HW_THRESHOLD ⟨true, true⟩ ∧
      proposed_accel ⟨true, true⟩ 99 FFT_TASK = some fft_hwr_accel_t) ∧
    (¬ drawn 99 < VITERBI_HW_THRESHOLD ⟨true, true⟩ ∧
      proposed_accel ⟨true, true⟩ 99 VITERBI_TASK = some vit_hwr_accel_t) ∧
    free_instance (after [.acquire FFT_TASK BASE_TASK (some 31)]) fft_hwr_accel_t 0 = true ∧
    pick_accel_and_wait_for_available ⟨true, true⟩ 0 31
        (after [.acquire FFT_TASK BASE_TASK (some 31)]) =
      .returns () (assign cpu_accel_t 0 31 (after [.acquire FFT_TASK BASE_TASK (some 31)])) ∧
    pick_accel_and_wait_for_available ⟨true, true⟩ 99 31
        (after [.acquire FFT_TASK BASE_TASK (some 31)]) =
      .returns () (assign fft_hwr_accel_t 0 31
        (after [.acquire FFT_TASK BASE_TASK (some 31)])) ∧
    (drawn 0 < FFT_HW_THRESHOLD ⟨false, false⟩ ∧
      proposed_accel ⟨false, false⟩ 0 FFT_TASK = some cpu_accel_t) := by
  decide

/-- C22 (amended): in `pick_accel_and_wait_for_available`, for every value of `rand()` the
    drawn integer `num = rand() % 100` is in [0, 99], and for each job type FFT or VITERBI:
    if `num` is at or above that job's threshold the selector proposes the hardware kind for
    the job (FFT_HW for FFT, VIT_HW for VITERBI), and otherwise (`num` below the threshold)
    it proposes the CPU kind; the kind a call that returns has written to the slot is the
    proposed kind. -/
theorem C22_proposes_hardware_at_or_above_threshold (cfg : Build) (rand mb : Nat)
    (s : Sched) (m : task_metadata_block_t) (hm : s.master_metadata_pool[mb]? = some m) :
    (0 ≤ drawn rand ∧ drawn rand ≤ 99) ∧
    (FFT_HW_THRESHOLD cfg ≤ drawn rand →
      proposed_accel cfg rand FFT_TASK = some fft_hwr_accel_t) ∧
    (drawn rand < FFT_HW_THRESHOLD cfg →
      proposed_accel cfg rand FFT_TASK = some cpu_accel_t) ∧
    (VITERBI_HW_THRESHOLD cfg ≤ drawn rand →
      proposed_accel cfg rand VITERBI_TASK = some vit_hwr_accel_t) ∧
    (drawn rand < VITERBI_HW_THRESHOLD cfg →
      proposed_accel cfg rand VITERBI_TASK = some cpu_accel_t) ∧
    (∀ s', pick_accel_and_wait_for_available cfg rand mb s = .returns () s' →
      ∃ k i, proposed_accel cfg rand m.job_type = some k ∧
        s'.master_metadata_pool[mb]? =
          some { m with accelerator_type := k, accelerator_id := (i : Nat) }) := by
  refine ⟨?_, ?_, ?_, ?_, ?_, ?_⟩
  · unfold drawn; omega
  · intro h
    have h2 : ((rand % 100 : Nat) : Int) ≥ FFT_HW_THRESHOLD cfg := h
    simp only [proposed_accel, h2, ↓reduceIte]
  · intro h
    have h2 : ¬ ((rand % 100 : Nat) : Int) ≥ FFT_HW_THRESHOLD cfg := by
      unfold drawn at h; omega
    simp only [proposed_accel, h2, ↓reduceIte]
  · intro h
    have h2 : ((rand % 100 : Nat) : Int) ≥ VITERBI_HW_THRESHOLD cfg := h
    have hne : ¬ (VITERBI_TASK = FFT_TASK) := by decide
    simp only [proposed_accel, hne, h2, ↓reduceIte]
  · intro h
    have h2 : ¬ ((rand % 100 : Nat) : Int) ≥ VITERBI_HW_THRESHOLD cfg := by
      unfold drawn at h; omega
    have hne : ¬ (VITERBI_TASK = FFT_TASK) := by decide
    simp only [proposed_accel, hne, h2, ↓reduceIte]
  · intro s' h
    obtain ⟨m', p, i, hm', hp, _, hs'⟩ := pick_returns cfg rand mb s s' h
    rw [hm] at hm'
    cases hm'
    refine ⟨p, i, hp, ?_⟩
    have hlt : mb < s.master_metadata_pool.length := by
      by_contra hge
      rw [List.getElem?_eq_none (by omega)] at hm
      cases hm
    rw [hs', assign_eq p i mb s m hm]
    simp [List.getElem?_set_self hlt]

/-- The amended C22 applied to slot 31, acquired for an FFT task, in a build with the hardware
    FFT kind and `rand()` returning 99: the draw is at the threshold or above and the slot is
    assigned to the hardware FFT kind. -/
theorem C22_proposes_hardware_at_or_above_threshold_witness :
    FFT_HW_THRESHOLD ⟨true, false⟩ ≤ drawn 99 ∧
    proposed_accel ⟨true, false⟩ 99 FFT_TASK = some fft_hwr_accel_t ∧
    ∃ k i, proposed_accel ⟨true, false⟩ 99 FFT_TASK = some k ∧
      (assign fft_hwr_accel_t 0 31
        (after [.acquire FFT_TASK BASE_TASK (some 31)])).master_metadata_pool[31]? =
        some { block_id := 31, status := TASK_ALLOCATED, job_type := FFT_TASK,
               crit_level := BASE_TASK, data_size := 0, accelerator_type := k,
               accelerator_id := (i : Nat), atFinish := none } :=
  ⟨by decide,
   (C22_proposes_hardware_at_or_above_threshold ⟨true, false⟩ 99 31
      (after [.acquire FFT_TASK BASE_TASK (some 31)])
      { block_id := 31, status := TASK_ALLOCATED, job_type := FFT_TASK,
        crit_level := BASE_TASK, data_size := 0, accelerator_type := no_accelerator_t,
        accelerator_id := -1, atFinish := none } (by decide)).2.1 (by decide),
   (C22_proposes_hardware_at_or_above_threshold ⟨true, false⟩ 99 31
      (after [.acquire FFT_TASK BASE_TASK (some 31)])
      { block_id := 31, status := TASK_ALLOCATED, job_type := FFT_TASK,
        crit_level := BASE_TASK, data_size := 0, accelerator_type := no_accelerator_t,
        accelerator_id := -1, atFinish := none } (by decide)).2.2.2.2.2
      (assign fft_hwr_accel_t 0 31 (after [.acquire FFT_TASK BASE_TASK (some 31)]))
      (by decide)⟩

/-! ### C23 -/

/-- C23: the threshold of a job is 25 when its hardware kind is compiled in and 101 when it is
    not.  Over the 100 draws 0..99 of `pick_accel_and_wait_for_available`: with the hardware
    kind present exactly 75 draws propose the hardware kind and 25 propose the CPU kind, for
    FFT and for VITERBI; with the hardware kind absent no draw proposes a hardware kind and
    all 100 propose the CPU kind, so for every value of `rand()` the kind proposed is the CPU
    kind and a call that returns has assigned a CPU instance to the slot. -/
theorem C23_draw_counts (b : Bool) :
    (FFT_HW_THRESHOLD ⟨true, b⟩ = 25 ∧ VITERBI_HW_THRESHOLD ⟨b, true⟩ = 25 ∧
      FFT_HW_THRESHOLD ⟨false, b⟩ = 101 ∧ VITERBI_HW_THRESHOLD ⟨b, false⟩ = 101) ∧
    ((draws_proposing ⟨true, b⟩ FFT_TASK fft_hwr_accel_t).length = 75 ∧
      (draws_proposing ⟨true, b⟩ FFT_TASK cpu_accel_t).length = 25 ∧
      (draws_proposing ⟨b, true⟩ VITERBI_TASK vit_hwr_accel_t).length = 75 ∧
      (draws_proposing ⟨b, true⟩ VITERBI_TASK cpu_accel_t).length = 25) ∧
    (draws_proposing ⟨false, b⟩ FFT_TASK fft_hwr_accel_t = [] ∧
      draws_proposing ⟨false, b⟩ FFT_TASK vit_hwr_accel_t = [] ∧
      (draws_proposing ⟨false, b⟩ FFT_TASK cpu_accel_t).length = 100 ∧
      draws_proposing ⟨b, false⟩ VITERBI_TASK vit_hwr_accel_t = [] ∧
      draws_proposing ⟨b, false⟩ VITERBI_TASK fft_hwr_accel_t = [] ∧
      (draws_proposing ⟨b, false⟩ VITERBI_TASK cpu_accel_t).length = 100) ∧
    (∀ rand, proposed_accel ⟨false, b⟩ rand FFT_TASK = some cpu_accel_t) ∧
    (∀ rand, proposed_accel ⟨b, false⟩ rand VITERBI_TASK = some cpu_accel_t) ∧
    (∀ (rand mb : Nat) (s s' : Sched) (m : task_metadata_block_t),
      s.master_metadata_pool[mb]? = some m →
      m.job_type = FFT_TASK ∨ m.job_type = VITERBI_TASK →
      pick_accel_and_wait_for_available ⟨false, false⟩ rand mb s = .returns () s' →
      ∃ i : Nat, s'.master_metadata_pool[mb]? =
        some { m with accelerator_type := cpu_accel_t, accelerator_id := i }) := by
  have hfft : ∀ (c : Bool) (rand : Nat),
      proposed_accel ⟨false, c⟩ rand FFT_TASK = some cpu_accel_t := by
    intro c rand
    have h2 : ¬ ((rand % 100 : Nat) : Int) ≥ FFT_HW_THRESHOLD ⟨false, c⟩ := by
      show ¬ ((rand % 100 : Nat) : Int) ≥ 101
      omega
    simp only [proposed_accel, h2, ↓reduceIte]
  have hvit : ∀ (c : Bool) (rand : Nat),
      proposed_accel ⟨c, false⟩ rand VITERBI_TASK = some cpu_accel_t := by
    intro c rand
    have h2 : ¬ ((rand % 100 : Nat) : Int) ≥ VITERBI_HW_THRESHOLD ⟨c, false⟩ := by
      show ¬ ((rand % 100 : Nat) : Int) ≥ 101
      omega
    have hne : ¬ (VITERBI_TASK = FFT_TASK) := by decide
    simp only [proposed_accel, hne, h2, ↓reduceIte]
  refine ⟨?_, ?_, ?_, hfft b, hvit b, ?_⟩
  · cases b <;> decide
  · cases b <;> decide
  · cases b <;> decide
  · intro rand mb s s' m hm hj h
    obtain ⟨m', p, i, hm', hp, _, hs'⟩ := pick_returns ⟨false, false⟩ rand mb s s' h
    rw [hm] at hm'
    cases hm'
    have hpc : p = cpu_accel_t := by
      rcases hj with hj | hj
      · rw [hj, hfft false rand] at hp
        exact (Option.some.inj hp).symm
      · rw [hj, hvit false rand] at hp
        exact (Option.some.inj hp).symm
    subst hpc
    have hlt : mb < s.master_metadata_pool.length := by
      by_contra hge
      rw [List.getElem?_eq_none (by omega)] at hm
      cases hm
    refine ⟨i, ?_⟩
    rw [hs', assign_eq _ i mb s m hm]
    simp [List.getElem?_set_self hlt]

/-- C23 applied to slot 31, acquired for an FFT task, in the build without hardware and with
    `rand()` returning 99: the selector assigns a CPU instance. -/
theorem C23_draw_counts_witness :
    pick_accel_and_wait_for_available ⟨false, false⟩ 99 31
        (after [.acquire FFT_TASK BASE_TASK (some 31)]) =
      .returns () (assign cpu_accel_t 0 31 (after [.acquire FFT_TASK BASE_TASK (some 31)])) ∧
    ∃ i : Nat, (assign cpu_accel_t 0 31
        (after [.acquire FFT_TASK BASE_TASK (some 31)])).master_metadata_pool[31]? =
      some { block_id := 31, status := TASK_ALLOCATED, job_type := FFT_TASK,
             crit_level := BASE_TASK, data_size := 0, accelerator_type := cpu_accel_t,
             accelerator_id := i, atFinish := none } :=
  ⟨by decide,
   (C23_draw_counts false).2.2.2.2.2 99 31 (after [.acquire FFT_TASK BASE_TASK (some 31)])
     (assign cpu_accel_t 0 31 (after [.acquire FFT_TASK BASE_TASK (some 31)]))
     { block_id := 31, status := TASK_ALLOCATED, job_type := FFT_TASK,
       crit_level := BASE_TASK, data_size := 0, accelerator_type := no_accelerator_t,
       accelerator_id := -1, atFinish := none } (by decide) (Or.inl rfl) (by decide)⟩

/-! ### C24 -/

/-- C24: `pick_accel_and_wait_for_available` on a slot of the pool, with tables of the declared sizes
    that do not change during the call, and `k` the kind it proposes.  If `k` has a free
    instance the call returns, and the assignment it has written is `(k, i)` with `i` the
    least index below `num_accelerators_of_type[k]` with `accelerator_in_use_by[k][i] = -1`;
    a call that returns has always written the proposed kind; and when no instance of `k` is
    free the call never returns, whatever instances of the other kinds are free. -/
theorem C24_random_selector_assigns_least_free (cfg : Build) (rand mb : Nat) (s : Sched)
    (m : task_metadata_block_t) (k : Int)
    (hm : s.master_metadata_pool[mb]? = some m) (hs : inventory_sized s)
    (hp : proposed_accel cfg rand m.job_type = some k) :
    (∀ i, free_instance s k i = true → (∀ j, j < i → free_instance s k j = false) →
      pick_accel_and_wait_for_available cfg rand mb s = .returns () (assign k i mb s)) ∧
    ((∃ i, free_instance s k i = true) →
      ∃ i, free_instance s k i = true ∧ (∀ j, j < i → free_instance s k j = false) ∧
        pick_accel_and_wait_for_available cfg rand mb s = .returns () (assign k i mb s)) ∧
    (∀ s', pick_accel_and_wait_for_available cfg rand mb s = .returns () s' →
      ∃ i, free_instance s k i = true ∧ (∀ j, j < i → free_instance s k j = false) ∧
        s' = assign k i mb s ∧
        s'.master_metadata_pool[mb]? =
          some { m with accelerator_type := k, accelerator_id := (i : Nat) }) ∧
    ((∀ i, free_instance s k i = false) →
      pick_accel_and_wait_for_available cfg rand mb s = .hangs s) := by
  have hret : ∀ s', pick_accel_and_wait_for_available cfg rand mb s = .returns () s' →
      ∃ i, free_instance s k i = true ∧ (∀ j, j < i → free_instance s k j = false) ∧
        s' = assign k i mb s ∧
        s'.master_metadata_pool[mb]? =
          some { m with accelerator_type := k, accelerator_id := (i : Nat) } := by
    intro s' h
    obtain ⟨m', p, i, hm', hp', hscan, hs'⟩ := pick_returns cfg rand mb s s' h
    rw [hm] at hm'
    cases hm'
    rw [hp] at hp'
    cases hp'
    obtain ⟨_, _, hf, hl⟩ := scan_kind_some k s i hscan
    have hlt : mb < s.master_metadata_pool.length := by
      by_contra hge
      rw [List.getElem?_eq_none (by omega)] at hm
      cases hm
    refine ⟨i, hf, hl, hs', ?_⟩
    rw [hs', assign_eq k i mb s m hm]
    simp [List.getElem?_set_self hlt]
  refine ⟨fun i hf hl => pick_least cfg rand mb s m k i hm hs hp hf hl, ?_, hret,
    fun hnone => pick_spins cfg rand mb s m k hm hs hp hnone⟩
  rintro ⟨i, hi⟩
  obtain ⟨hj, _, _⟩ := proposed_accel_range cfg rand _ k hp
  obtain ⟨p, hp', _, hcase⟩ := pick_total cfg rand mb s m hm hs hj
  rw [hp] at hp'
  cases hp'
  rcases hcase with ⟨i0, hret0, _⟩ | ⟨_, hnone⟩
  · obtain ⟨i1, hf, hl, _, _⟩ := hret _ hret0
    exact ⟨i1, hf, hl, pick_least cfg rand mb s m k i1 hm hs hp hf hl⟩
  · rw [hnone i] at hi
    cases hi

/-- C24 applied in the build without hardware, with `rand()` returning 0, so that the CPU
    kind is proposed.  (1) Slot 30, allocated while the task of slot 31 runs on CPU instance
    0: the least free CPU instance is 1 and it is the one assigned.  (2) Slot 21, allocated
    after ten FFT tasks have occupied the ten CPU instances: no CPU instance is free,
    instance 0 of the hardware FFT kind is free, and the selector never returns. -/
theorem C24_random_selector_assigns_least_free_witness :
    (free_instance (after (running_task ++ [.acquire FFT_TASK BASE_TASK (some 30)]))
        cpu_accel_t 0 = false ∧
      free_instance (after (running_task ++ [.acquire FFT_TASK BASE_TASK (some 30)]))
        cpu_accel_t 1 = true ∧
      pick_accel_and_wait_for_available ⟨false, false⟩ 0 30
          (after (running_task ++ [.acquire FFT_TASK BASE_TASK (some 30)])) =
        .returns () (assign cpu_accel_t 1 30
          (after (running_task ++ [.acquire FFT_TASK BASE_TASK (some 30)])))) ∧
    (run ⟨false, false⟩ in_order cpu_saturated (initialize_scheduler startup) =
        some (after cpu_saturated) ∧
      proposed_accel ⟨false, false⟩ 0 FFT_TASK = some cpu_accel_t ∧
      (∀ i, free_instance (after cpu_saturated) cpu_accel_t i = false) ∧
      free_instance (after cpu_saturated) fft_hwr_accel_t 0 = true ∧
      pick_accel_and_wait_for_available ⟨false, false⟩ 0 21 (after cpu_saturated) =
        .hangs (after cpu_saturated)) := by
  have hbusy : ∀ i, free_instance (after cpu_saturated) cpu_accel_t i = false := by
    intro i
    by_cases hi : i < 10
    · have : ∀ i : Fin 10, free_instance (after cpu_saturated) cpu_accel_t i = false := by
        decide
      exact this ⟨i, hi⟩
    · have hn : rd (after cpu_saturated).num_accelerators_of_type cpu_accel_t = some 10 := by
        decide
      have hge : ¬ ((i : Int) < 10) := by omega
      simp only [free_instance, hn, hge, decide_False, Bool.false_and]
  have hleast : ∀ j, j < 1 →
      free_instance (after (running_task ++ [.acquire FFT_TASK BASE_TASK (some 30)]))
        cpu_accel_t j = false := by
    intro j hj
    have hj0 : j = 0 := by omega
    subst hj0
    decide
  exact ⟨⟨by decide, by decide,
    (C24_random_selector_assigns_least_free ⟨false, false⟩ 0 30
      (after (running_task ++ [.acquire FFT_TASK BASE_TASK (some 30)]))
      { block_id := 30, status := TASK_ALLOCATED, job_type := FFT_TASK,
        crit_level := BASE_TASK, data_size := 0, accelerator_type := no_accelerator_t,
        accelerator_id := -1, atFinish := none } cpu_accel_t
      (by decide) (by decide) (by decide)).1 1 (by decide) hleast⟩,
    ⟨by decide, by decide, hbusy, by decide,
    (C24_random_selector_assigns_least_free ⟨false, false⟩ 0 21 (after cpu_saturated)
      { block_id := 21, status := TASK_ALLOCATED, job_type := FFT_TASK,
        crit_level := BASE_TASK, data_size := 0, accelerator_type := no_accelerator_t,
        accelerator_id := -1, atFinish := none } cpu_accel_t
      (by decide) (by decide) (by decide)).2.2.2 hbusy⟩⟩

/-! ### C25 -/

/-- C25: `fastest_to_slowest_first_available` on a slot of the pool with job type FFT (hardware kind
    `fft_hwr_accel_t`, present with `HW_FFT`) or VITERBI (hardware kind `vit_hwr_accel_t`,
    present with `HW_VIT`), with tables of the declared sizes that do not change during the
    call.  If the hardware kind is present and has a free instance, the call returns with the
    assignment (hardware kind, least free hardware index); if the hardware kind is absent or
    has no free instance and the CPU kind has a free instance, it returns with the assignment
    (CPU, least free CPU index).  In both cases the loop that closes the function, entered
    with that assignment, leaves it as it is. -/
theorem C25_fastest_assigns_first_free_kind (cfg : Build) (mb : Nat) (s : Sched)
    (m : task_metadata_block_t) (hw : Int) (present : Bool)
    (hm : s.master_metadata_pool[mb]? = some m) (hs : inventory_sized s)
    (hjob : (m.job_type = FFT_TASK ∧ hw = fft_hwr_accel_t ∧ present = cfg.HW_FFT) ∨
      (m.job_type = VITERBI_TASK ∧ hw = vit_hwr_accel_t ∧ present = cfg.HW_VIT)) :
    (∀ i, present = true → free_instance s hw i = true →
      (∀ j, j < i → free_instance s hw j = false) →
      fastest_to_slowest_first_available cfg mb s = .returns () (assign hw i mb s) ∧
      closing_scan hw hw i s = some (some (hw, (i : Int)))) ∧
    (∀ i, (present = true → ∀ j, free_instance s hw j = false) →
      free_instance s cpu_accel_t i = true →
      (∀ j, j < i → free_instance s cpu_accel_t j = false) →
      fastest_to_slowest_first_available cfg mb s = .returns () (assign cpu_accel_t i mb s) ∧
      closing_scan cpu_accel_t cpu_accel_t i s = some (some (cpu_accel_t, (i : Int)))) := by
  have hkinds : kinds_scanned cfg m.job_type =
      (if present then [hw, cpu_accel_t] else [cpu_accel_t]) := by
    rcases hjob with ⟨hj, hh, hpr⟩ | ⟨hj, hh, hpr⟩
    · rw [hj, hh, hpr]; rfl
    · rw [hj, hh, hpr]; rfl
  refine ⟨?_, ?_⟩
  · intro i hpr hf hl
    rw [hpr] at hkinds
    obtain ⟨h1, h2, h3⟩ := fast_least cfg mb s m [] [cpu_accel_t] hw i hm hs hkinds
      (fun k' hk' => by cases hk') hf hl
    exact ⟨h1, closing_scan_same hw i s h2 h3⟩
  · intro i hnone hf hl
    cases hpr : present with
    | true =>
      rw [hpr] at hkinds
      obtain ⟨h1, h2, h3⟩ := fast_least cfg mb s m [hw] [] cpu_accel_t i hm hs hkinds
        (fun k' hk' => by
          rw [List.mem_singleton] at hk'
          rw [hk']
          exact hnone hpr) hf hl
      exact ⟨h1, closing_scan_same cpu_accel_t i s h2 h3⟩
    | false =>
      rw [hpr] at hkinds
      obtain ⟨h1, h2, h3⟩ := fast_least cfg mb s m [] [] cpu_accel_t i hm hs hkinds
        (fun k' hk' => by cases hk') hf hl
      exact ⟨h1, closing_scan_same cpu_accel_t i s h2 h3⟩

/-- C25 applied to the FFT task of slot 30, allocated while the task of slot 31 runs on CPU
    instance 0.  In a build with the hardware FFT kind, instance 0 of that kind is free and
    is the one assigned; in a build without it, the least free CPU instance, 1, is assigned.
    The closing loop leaves either assignment as it is. -/
theorem C25_fastest_assigns_first_free_kind_witness :
    (free_instance (after (running_task ++ [.acquire FFT_TASK BASE_TASK (some 30)]))
        fft_hwr_accel_t 0 = true ∧
      fastest_to_slowest_first_available ⟨true, false⟩ 30
          (after (running_task ++ [.acquire FFT_TASK BASE_TASK (some 30)])) =
        .returns () (assign fft_hwr_accel_t 0 30
          (after (running_task ++ [.acquire FFT_TASK BASE_TASK (some 30)]))) ∧
      closing_scan fft_hwr_accel_t fft_hwr_accel_t (0 : Nat)
          (after (running_task ++ [.acquire FFT_TASK BASE_TASK (some 30)])) =
        some (some (fft_hwr_accel_t, ((0 : Nat) : Int)))) ∧
    (free_instance (after (running_task ++ [.acquire FFT_TASK BASE_TASK (some 30)]))
        cpu_accel_t 0 = false ∧
      fastest_to_slowest_first_available ⟨false, false⟩ 30
          (after (running_task ++ [.acquire FFT_TASK BASE_TASK (some 30)])) =
        .returns () (assign cpu_accel_t 1 30
          (after (running_task ++ [.acquire FFT_TASK BASE_TASK (some 30)]))) ∧
      closing_scan cpu_accel_t cpu_accel_t (1 : Nat)
          (after (running_task ++ [.acquire FFT_TASK BASE_TASK (some 30)])) =
        some (some (cpu_accel_t, ((1 : Nat) : Int)))) := by
  have hleast : ∀ j, j < 1 →
      free_instance (after (running_task ++ [.acquire FFT_TASK BASE_TASK (some 30)]))
        cpu_accel_t j = false := by
    intro j hj
    have hj0 : j = 0 := by omega
    subst hj0
    decide
  exact ⟨⟨by decide,
    (C25_fastest_assigns_first_free_kind ⟨true, false⟩ 30
      (after (running_task ++ [.acquire FFT_TASK BASE_TASK (some 30)]))
      { block_id := 30, status := TASK_ALLOCATED, job_type := FFT_TASK,
        crit_level := BASE_TASK, data_size := 0, accelerator_type := no_accelerator_t,
        accelerator_id := -1, atFinish := none } fft_hwr_accel_t true
      (by decide) (by decide) (Or.inl ⟨rfl, rfl, rfl⟩)).1 0 rfl (by decide)
      (fun j hj => absurd hj (Nat.not_lt_zero j))⟩,
    ⟨by decide,
    (C25_fastest_assigns_first_free_kind ⟨false, false⟩ 30
      (after (running_task ++ [.acquire FFT_TASK BASE_TASK (some 30)]))
      { block_id := 30, status := TASK_ALLOCATED, job_type := FFT_TASK,
        crit_level := BASE_TASK, data_size := 0, accelerator_type := no_accelerator_t,
        accelerator_id := -1, atFinish := none } fft_hwr_accel_t false
      (by decide) (by decide) (Or.inl ⟨rfl, rfl, rfl⟩)).2 1 (fun hp => by cases hp)
      (by decide) hleast⟩⟩

/-! ### C26 -/

/-- C26: when `pick_accel_and_wait_for_available` or `fastest_to_slowest_first_available` returns, the
    state differs from the one before the call in the fields `accelerator_type` and
    `accelerator_id` of the slot it was given, and in nothing else: the busy table, the
    instance counts, every other slot, and status, job type, criticality, data size,
    completion hook and block id of the slot itself are as before the call. -/
theorem C26_selectors_write_only_the_assignment (cfg : Build) (rand mb : Nat) (s s' : Sched)
    (h : pick_accel_and_wait_for_available cfg rand mb s = .returns () s' ∨
      fastest_to_slowest_first_available cfg mb s = .returns () s') :
    ∃ m k i, s.master_metadata_pool[mb]? = some m ∧
      s' = { s with
        master_metadata_pool := s.master_metadata_pool.set mb
          { m with accelerator_type := k, accelerator_id := i } } ∧
      s'.accelerator_in_use_by = s.accelerator_in_use_by ∧
      s'.num_accelerators_of_type = s.num_accelerators_of_type ∧
      (∀ j, j ≠ mb → s'.master_metadata_pool[j]? = s.master_metadata_pool[j]?) ∧
      ∃ m', s'.master_metadata_pool[mb]? = some m' ∧
        m'.status = m.status ∧ m'.job_type = m.job_type ∧ m'.crit_level = m.crit_level ∧
        m'.data_size = m.data_size ∧ m'.atFinish = m.atFinish ∧ m'.block_id = m.block_id := by
  have key : ∃ m k, ∃ i : Nat, s.master_metadata_pool[mb]? = some m ∧ s' = assign k i mb s := by
    rcases h with h | h
    · obtain ⟨m, p, i, hm, _, _, hs'⟩ := pick_returns cfg rand mb s s' h
      exact ⟨m, p, i, hm, hs'⟩
    · obtain ⟨m, p, i, hm, _, _, hs'⟩ := fast_returns cfg mb s s' h
      exact ⟨m, p, i, hm, hs'⟩
  obtain ⟨m, k, i, hm, hs'⟩ := key
  have hlt : mb < s.master_metadata_pool.length := by
    by_contra hge
    rw [List.getElem?_eq_none (by omega)] at hm
    cases hm
  rw [assign_eq k i mb s m hm] at hs'
  subst hs'
  refine ⟨m, k, i, hm, rfl, rfl, rfl, ?_, _, List.getElem?_set_self hlt,
    rfl, rfl, rfl, rfl, rfl, rfl⟩
  intro j hj
  exact List.getElem?_set_ne (Ne.symm hj)

/-- C26 applied to `pick_accel_and_wait_for_available` on slot 30 while the task of slot 31 runs on CPU
    instance 0: the busy table still records slot 31 on CPU instance 0 only, and slot 30 is
    still ALLOCATED. -/
theorem C26_selectors_write_only_the_assignment_witness :
    ∃ s', pick_accel_and_wait_for_available ⟨false, false⟩ 0 30
        (after (running_task ++ [.acquire FFT_TASK BASE_TASK (some 30)])) = .returns () s' ∧
      s'.accelerator_in_use_by =
        (after (running_task ++ [.acquire FFT_TASK BASE_TASK (some 30)])).accelerator_in_use_by ∧
      rd_in_use s'.accelerator_in_use_by cpu_accel_t 0 = some 31 ∧
      rd_in_use s'.accelerator_in_use_by cpu_accel_t 1 = some (-1) ∧
      s'.master_metadata_pool[31]? =
        (after (running_task ++ [.acquire FFT_TASK BASE_TASK (some 30)])).master_metadata_pool[31]? ∧
      status_of s' 30 = some TASK_ALLOCATED := by
  obtain ⟨s', hs'⟩ : ∃ s', pick_accel_and_wait_for_available ⟨false, false⟩ 0 30
      (after (running_task ++ [.acquire FFT_TASK BASE_TASK (some 30)])) = .returns () s' :=
    ⟨assign cpu_accel_t 1 30 (after (running_task ++ [.acquire FFT_TASK BASE_TASK (some 30)])),
      by decide⟩
  obtain ⟨m, k, i, hm, _, htab, _, hother, m', hm', hst, _⟩ :=
    C26_selectors_write_only_the_assignment ⟨false, false⟩ 0 30 _ s' (Or.inl hs')
  have hm0 : (after (running_task ++
      [.acquire FFT_TASK BASE_TASK (some 30)])).master_metadata_pool[30]? = some
        { block_id := 30, status := TASK_ALLOCATED, job_type := FFT_TASK,
          crit_level := BASE_TASK, data_size := 0, accelerator_type := no_accelerator_t,
          accelerator_id := -1, atFinish := none } := by decide
  rw [hm0] at hm
  cases hm
  refine ⟨s', hs', htab, ?_, ?_, hother 31 (by decide), ?_⟩
  · rw [htab]; decide
  · rw [htab]; decide
  · simp only [status_of, hm', Option.map_some']
    rw [hst]

/-! ### C27 -/

/-- C27 (fails on the code): the calls acquire(FFT, BASE) = 31, acquire(FFT, CRITICAL) = 30,
    request_execution(30), mark_task_done(30), release(30), acquire(FFT, CRITICAL) = 30,
    request_execution(30), mark_task_done(30), acquire(FFT, CRITICAL) = 29,
    request_execution(29), mark_task_done(29) all return, every acquire is successful and the
    one release is that of a live slot in status DONE.  Afterwards every live critical slot
    (30 and 29) is DONE, but the head of the critical live list is node 30, which carries
    block id 29 and whose `next` is node 30 itself: the list is not null-terminated, and
    `wait_all_critical` walks from node 30 to node 30 for ever, whatever the number of tests of
    its loop condition.  The same holds in the state reached by the acquires and the release
    alone when the status of the slots 30 and 29 is set to DONE. -/
theorem C27_wait_all_critical_spins_on_cyclic_list :
    run ⟨false, false⟩ in_order cyclic_all_done (initialize_scheduler startup) =
      some (after cyclic_all_done) ∧
    (∀ m ∈ (after cyclic_all_done).master_metadata_pool,
      m.status ≠ TASK_FREE → m.crit_level > BASE_TASK → m.status = TASK_DONE) ∧
    status_of (after cyclic_all_done) 30 = some TASK_DONE ∧
    status_of (after cyclic_all_done) 29 = some TASK_DONE ∧
    (after cyclic_all_done).critical_live_task_head = some 30 ∧
    (after cyclic_all_done).critical_live_tasks_list[30]? =
      some { clt_block_id := 29, next := some 30 } ∧
    (∀ ns, is_chain (after cyclic_all_done).critical_live_tasks_list
      (after cyclic_all_done).critical_live_task_head ns = false) ∧
    wait_all_critical (after cyclic_all_done) = .hangs (after cyclic_all_done) ∧
    (∀ fuel, wait_loop (after cyclic_all_done).critical_live_tasks_list
      (after cyclic_all_done).master_metadata_pool
      (after cyclic_all_done).critical_live_task_head fuel
      (after cyclic_all_done).critical_live_task_head = .spins) ∧
    (∃ s t, run ⟨false, false⟩ acquire_release cyclic_list (initialize_scheduler startup)
        = some s ∧
      (set_status 30 TASK_DONE s).bind (set_status 29 TASK_DONE) = some t ∧
      (∀ m ∈ t.master_metadata_pool,
        m.status ≠ TASK_FREE → m.crit_level > BASE_TASK → m.status = TASK_DONE) ∧
      wait_all_critical t = .hangs t) := by
  refine ⟨by decide, by decide, by decide, by decide, by decide, by decide, ?_, by decide, ?_,
    ⟨_, _, rfl, rfl, ?_, ?_⟩⟩
  · intro ns
    exact is_seg_self_loop _ 30 { clt_block_id := 29, next := some 30 } (by decide) rfl ns
  · exact wait_loop_never _ _ _ (Or.inr (by decide))
  · decide
  · decide

/-! ### C28 -/

/-- C28: `execute_task_on_accelerator` on a slot of the pool calls exactly one kernel, chosen by
    the accelerator kind of the slot and, for the CPU kind, by its job type: CPU with FFT the CPU
    FFT kernel, CPU with VITERBI the CPU Viterbi kernel, the hardware FFT kind the hardware FFT
    driver, the hardware Viterbi kind the hardware Viterbi driver, and then reaches no `exit`
    of its own; it calls no kernel and terminates the process with exit code -11 when the
    kind is NONE, with -12 when the kind is none of the four enumerated values, and with -13
    when the kind is CPU and the job type is neither FFT nor VITERBI. -/
theorem C28_execute_dispatches_one_kernel (mb : Nat) (s : Sched) (m : task_metadata_block_t)
    (hm : s.master_metadata_pool[mb]? = some m) :
    (m.accelerator_type = cpu_accel_t → m.job_type = FFT_TASK →
      execute_task_on_accelerator mb s = some ⟨[.execute_cpu_fft_accelerator], none⟩) ∧
    (m.accelerator_type = cpu_accel_t → m.job_type = VITERBI_TASK →
      execute_task_on_accelerator mb s = some ⟨[.execute_cpu_viterbi_accelerator], none⟩) ∧
    (m.accelerator_type = fft_hwr_accel_t →
      execute_task_on_accelerator mb s = some ⟨[.execute_hwr_fft_accelerator], none⟩) ∧
    (m.accelerator_type = vit_hwr_accel_t →
      execute_task_on_accelerator mb s = some ⟨[.execute_hwr_viterbi_accelerator], none⟩) ∧
    (m.accelerator_type = no_accelerator_t →
      execute_task_on_accelerator mb s = some ⟨[], some (-11)⟩) ∧
    (m.accelerator_type ≠ cpu_accel_t → m.accelerator_type ≠ fft_hwr_accel_t →
      m.accelerator_type ≠ vit_hwr_accel_t → m.accelerator_type ≠ no_accelerator_t →
      execute_task_on_accelerator mb s = some ⟨[], some (-12)⟩) ∧
    (m.accelerator_type = cpu_accel_t → m.job_type ≠ FFT_TASK → m.job_type ≠ VITERBI_TASK →
      execute_task_on_accelerator mb s = some ⟨[], some (-13)⟩) ∧
    (∃ r, execute_task_on_accelerator mb s = some r ∧
      ((r.calls.length = 1 ∧ r.exit_code = none) ∨ (r.calls = [] ∧ r.exit_code ≠ none))) := by
  refine ⟨?_, ?_, ?_, ?_, ?_, ?_, ?_, ?_⟩
  · intro ht hj
    simp [execute_task_on_accelerator, hm, ht, hj]
  · intro ht hj
    simp [execute_task_on_accelerator, hm, ht, hj]
  · intro ht
    simp [execute_task_on_accelerator, hm, ht]
  · intro ht
    simp [execute_task_on_accelerator, hm, ht]
  · intro ht
    simp [execute_task_on_accelerator, hm, ht]
  · intro h1 h2 h3 h4
    simp [execute_task_on_accelerator, hm, h1, h2, h3, h4]
  · intro ht h1 h2
    simp [execute_task_on_accelerator, hm, ht, h1, h2]
  · simp only [execute_task_on_accelerator, hm]
    split_ifs <;> simp

/-- C28 applied to the running FFT task of slot 31, which is assigned to CPU instance 0: the
    one kernel called is the CPU FFT kernel. -/
theorem C28_execute_dispatches_one_kernel_witness :
    (after running_task).master_metadata_pool[31]? = some
      { block_id := 31, status := TASK_RUNNING, job_type := FFT_TASK, crit_level := BASE_TASK,
        data_size := 0, accelerator_type := cpu_accel_t, accelerator_id := 0,
        atFinish := none } ∧
    execute_task_on_accelerator 31 (after running_task) =
      some ⟨[.execute_cpu_fft_accelerator], none⟩ :=
  ⟨by decide,
   (C28_execute_dispatches_one_kernel 31 (after running_task)
      { block_id := 31, status := TASK_RUNNING, job_type := FFT_TASK, crit_level := BASE_TASK,
        data_size := 0, accelerator_type := cpu_accel_t, accelerator_id := 0,
        atFinish := none } (by decide)).1 rfl rfl⟩

/-! ### C29 -/

/-- C29 (fails on the code): a call of `get_task_metadata_block` that returns `NULL` found the free
    count below 1 and leaves the mutex locked (line 169 returns without
    `pthread_mutex_unlock`), so that the next `get_task_metadata_block` and the next
    `free_task_metadata_block` of the same caller block on it for ever.  A call of
    `get_task_metadata_block` that returns a slot and a call of `free_task_metadata_block` that returns
    leave the mutex free. -/
theorem C29_null_return_leaves_lock_held (j k j' k' : Int) (mb : Nat) (s s' : Sched) :
    (get_task_metadata_block j k s = .returns none s' →
      s.free_metadata_blocks < 1 ∧ s'.free_metadata_mutex = true ∧
      get_task_metadata_block j' k' s' = .hangs s' ∧
      free_task_metadata_block mb s' = .hangs s') ∧
    (∀ v, get_task_metadata_block j k s = .returns (some v) s' →
      s'.free_metadata_mutex = false) ∧
    (free_task_metadata_block mb s = .returns () s' → s'.free_metadata_mutex = false) := by
  refine ⟨?_, ?_, ?_⟩
  · intro h
    obtain ⟨hl, hs'⟩ := get_null_locks j k s s' h
    have hfree := (get_returns_null j k s hl).2 s' h
    subst hs'
    refine ⟨hfree, rfl, ?_, ?_⟩
    · simp [get_task_metadata_block]
    · simp [free_task_metadata_block]
  · intro v h
    obtain ⟨_, _, _, _, _, _, _, _, _, _, _, hl⟩ := get_returns_some j k s s' v h
    exact hl
  · intro h
    exact (free_unlocks mb s s' h).2

/-- C29 (fails on the code) at the exhausted pool: after 32 successful acquires the next acquire
    returns `NULL` and leaves the mutex locked; the release of slot 0 that follows never
    returns. -/
theorem C29_null_return_leaves_lock_held_witness :
    run ⟨false, false⟩ acquire_release exhaust_pool (initialize_scheduler startup) =
      some (after exhaust_pool) ∧
    get_task_metadata_block FFT_TASK BASE_TASK (after exhaust_pool) =
      .returns none { after exhaust_pool with free_metadata_mutex := true } ∧
    ({ after exhaust_pool with free_metadata_mutex := true } : Sched).free_metadata_mutex
      = true ∧
    free_task_metadata_block 0 { after exhaust_pool with free_metadata_mutex := true } =
      .hangs { after exhaust_pool with free_metadata_mutex := true } :=
  ⟨by decide, by decide,
   ((C29_null_return_leaves_lock_held FFT_TASK BASE_TASK FFT_TASK BASE_TASK 0
      (after exhaust_pool) { after exhaust_pool with free_metadata_mutex := true }).1
      (by decide)).2.1,
   ((C29_null_return_leaves_lock_held FFT_TASK BASE_TASK FFT_TASK BASE_TASK 0
      (after exhaust_pool) { after exhaust_pool with free_metadata_mutex := true }).1
      (by decide)).2.2.2⟩

/-! ### C30 -/

/-- C30: in every state reached from the initial state by successful calls of
    `get_task_metadata_block` and returning calls of `free_task_metadata_block` on live slots, the
    first `free_metadata_blocks` entries of the free pool are pairwise distinct, each is a
    block id in `[0, P)`, and a slot has status FREE exactly if its index is among them;
    and if, from the initial state, such calls `cs` are followed by an acquire that returns
    slot `a`, by such calls `mid` none of which releases slot `a`, and by an acquire that
    returns slot `b`, then `a` and `b` are different slots with different block ids. -/
theorem C30_free_pool_lists_the_free_slots (cfg : Build) (cs : List Call) (s : Sched)
    (h : run cfg acquire_release cs (initialize_scheduler startup) = some s) :
    (0 ≤ s.free_metadata_blocks ∧
      s.free_metadata_blocks ≤ (total_metadata_pool_blocks : Int) ∧
      (free_entries s).length = s.free_metadata_blocks.toNat) ∧
    (free_entries s).Nodup ∧
    (∀ x ∈ free_entries s, 0 ≤ x ∧ x < (total_metadata_pool_blocks : Int)) ∧
    (∀ i, i < total_metadata_pool_blocks →
      (status_of s i = some TASK_FREE ↔ (i : Int) ∈ free_entries s)) ∧
    (∀ (pre mid : List Call) (j k j' k' : Int) (a b : Nat),
      cs = pre ++ Call.acquire j k (some a) :: (mid ++ [Call.acquire j' k' (some b)]) →
      keeps a mid →
      a ≠ b ∧
      (s.master_metadata_pool[a]?).map (fun m => m.block_id) ≠
        (s.master_metadata_pool[b]?).map (fun m => m.block_id)) := by
  have hinv := PoolInv_acquire_release cfg cs s h
  refine ⟨⟨hinv.free_lo, hinv.free_hi, ?_⟩, hinv.nodup, hinv.range, ?_, ?_⟩
  · unfold free_entries
    rw [List.length_take, hinv.free_len]
    have := hinv.free_hi
    have := hinv.free_lo
    omega
  · intro i hi
    obtain ⟨m, hm⟩ : ∃ m, s.master_metadata_pool[i]? = some m := by
      have hlt : i < s.master_metadata_pool.length := by rw [hinv.pool_len]; exact hi
      exact ⟨_, List.getElem?_eq_getElem hlt⟩
    have := hinv.free_iff i m hm
    simp only [status_of, hm, Option.map_some', Option.some.injEq]
    exact this
  · intro pre mid j k j' k' a b hcs hk
    subst hcs
    obtain ⟨hab, hla, hlb⟩ := acquires_differ cfg pre mid j k j' k' a b s hk h
    refine ⟨hab, ?_⟩
    intro heq
    cases ha : s.master_metadata_pool[a]? with
    | none => simp [live, ha] at hla
    | some ma =>
      cases hb : s.master_metadata_pool[b]? with
      | none => simp [live, hb] at hlb
      | some mb' =>
        rw [ha, hb] at heq
        simp only [Option.map_some', Option.some.injEq] at heq
        have h1 := hinv.ident a ma ha
        have h2 := hinv.ident b mb' hb
        rw [h1, h2] at heq
        exact hab (by exact_mod_cast heq)

/-- C30 applied to acquire = 31, acquire = 30, release(30), acquire = 30: the free pool lists
    the 30 free slots 0..29, and the slots 31 and 30 returned by the first and the last
    acquire, between which slot 31 is not released, are different. -/
theorem C30_free_pool_lists_the_free_slots_witness :
    run ⟨false, false⟩ acquire_release
        [.acquire FFT_TASK BASE_TASK (some 31), .acquire FFT_TASK CRITICAL_TASK (some 30),
         .release 30, .acquire VITERBI_TASK BASE_TASK (some 30)]
        (initialize_scheduler startup) =
      some (after [.acquire FFT_TASK BASE_TASK (some 31),
        .acquire FFT_TASK CRITICAL_TASK (some 30), .release 30,
        .acquire VITERBI_TASK BASE_TASK (some 30)]) ∧
    free_entries (after [.acquire FFT_TASK BASE_TASK (some 31),
        .acquire FFT_TASK CRITICAL_TASK (some 30), .release 30,
        .acquire VITERBI_TASK BASE_TASK (some 30)]) =
      List.map (fun (i : Nat) => Int.ofNat i) (List.range 30) ∧
    (free_entries (after [.acquire FFT_TASK BASE_TASK (some 31),
        .acquire FFT_TASK CRITICAL_TASK (some 30), .release 30,
        .acquire VITERBI_TASK BASE_TASK (some 30)])).Nodup ∧
    (31 : Nat) ≠ 30 :=
  ⟨by decide, by decide,
   (C30_free_pool_lists_the_free_slots ⟨false, false⟩
      [.acquire FFT_TASK BASE_TASK (some 31), .acquire FFT_TASK CRITICAL_TASK (some 30),
       .release 30, .acquire VITERBI_TASK BASE_TASK (some 30)]
      (after [.acquire FFT_TASK BASE_TASK (some 31),
        .acquire FFT_TASK CRITICAL_TASK (some 30), .release 30,
        .acquire VITERBI_TASK BASE_TASK (some 30)]) (by decide)).2.1,
   ((C30_free_pool_lists_the_free_slots ⟨false, false⟩
      [.acquire FFT_TASK BASE_TASK (some 31), .acquire FFT_TASK CRITICAL_TASK (some 30),
       .release 30, .acquire VITERBI_TASK BASE_TASK (some 30)]
      (after [.acquire FFT_TASK BASE_TASK (some 31),
        .acquire FFT_TASK CRITICAL_TASK (some 30), .release 30,
        .acquire VITERBI_TASK BASE_TASK (some 30)]) (by decide)).2.2.2.2
      [] [.acquire FFT_TASK CRITICAL_TASK (some 30), .release 30]
      FFT_TASK BASE_TASK VITERBI_TASK BASE_TASK 31 30 rfl (by decide)).1⟩

/-! ### C31 -/

/-- C31: a sequential execution from the initial state whose events are calls of
    `get_task_metadata_block`, `free_task_metadata_block`, `request_execution`, `mark_task_done` and
    `release_accelerator_for_task` that return, and changes of the policy.  If `request_execution`
    dispatches slot `a` to the instance `(k, i)`, and after events `mid`, none of which is
    `mark_task_done` or `release_accelerator_for_task` on slot `a`, dispatches a different slot `b` to
    the instance `(p, j)`, then `(p, j)` differs from `(k, i)`: the busy entry of `(k, i)`
    still holds the block id of `a` when `b` is dispatched, that of `(p, j)` was -1, and
    afterwards they hold the block ids of `a` and `b`; the assignment of `b` also differs
    from the assignment slot `a` has at that time.  In every state of such an execution,
    when the selector returns inside `request_execution` the rest of the function returns as
    well, and if `request_execution` terminates the process the exit code is -15, never the -14
    of the double-claim check. -/
theorem C31_dispatched_instances_differ (cfg : Build) (pre mid : List Event)
    (ra rb a b : Nat) (s0 s1 s2 s3 : Sched)
    (h0 : history cfg pre (initialize_scheduler startup) = some s0)
    (h1 : request_execution cfg ra a s0 = .returns () s1)
    (h2 : history cfg mid s1 = some s2)
    (hmid : holds_accelerator a mid)
    (hab : a ≠ b)
    (h3 : request_execution cfg rb b s2 = .returns () s3) :
    (∃ (k p : Int) (i j : Nat),
      assignment s1 a = some (k, (i : Int)) ∧ assignment s3 b = some (p, (j : Int)) ∧
      (p, (j : Int)) ≠ (k, (i : Int)) ∧
      rd_in_use s2.accelerator_in_use_by k i = some (a : Int) ∧
      rd_in_use s2.accelerator_in_use_by p j = some (-1) ∧
      rd_in_use s3.accelerator_in_use_by k i = some (a : Int) ∧
      rd_in_use s3.accelerator_in_use_by p j = some (b : Int)) ∧
    assignment s3 b ≠ assignment s3 a ∧
    (∀ (es : List Event) (s : Sched), history cfg es (initialize_scheduler startup) = some s →
      ∀ (rand mb : Nat),
        (∀ t, select_target_accelerator cfg rand s.global_scheduler_selection_policy mb
            (queued mb s) = .returns () t →
          ∃ u, dispatch mb t = .returns () u ∧
            request_execution cfg rand mb s = .returns () u) ∧
        (∀ c t, request_execution cfg rand mb s = .exits c t → c = -15)) := by
  have hinv0 := TableInv_history cfg pre _ s0 TableInv_init h0
  obtain ⟨ma, k, i, _, _, _, _, hnew_a, _, hent_a, _⟩ :=
    dispatched_slot cfg ra a s0 s1 hinv0 h1
  have hinv1 := TableInv_request cfg ra a s0 s1 hinv0 h1
  have hown1 : claims_own a s1 := by
    intro m' hm'
    rw [hnew_a] at hm'
    cases hm'
    exact Or.inr hent_a
  have hinv2 := TableInv_history cfg mid s1 s2 hinv1 h2
  have hent2 := entry_history cfg a k i mid s1 s2 hinv1 h2 hmid hent_a
  have hown2 := claims_own_history cfg a mid s1 s2 hinv1 h2 hmid hown1
  obtain ⟨mb0, p, j, _, hfree_b, _, hp3, hnew_b, hother_b, hent_b, hrest_b⟩ :=
    dispatched_slot cfg rb b s2 s3 hinv2 h3
  have hne : (p, (j : Int)) ≠ (k, (i : Int)) := by
    intro heq
    have hp : p = k := congrArg Prod.fst heq
    have hj : (j : Int) = (i : Int) := congrArg Prod.snd heq
    rw [hp, hj, hent2] at hfree_b
    have := Option.some.inj hfree_b
    omega
  have hent3 : rd_in_use s3.accelerator_in_use_by k i = some (a : Int) := by
    rw [hrest_b k i ?_]
    · exact hent2
    · by_contra hcon
      have hcon2 : k = p ∧ (i : Int) = (j : Int) := by tauto
      exact hne (by rw [hcon2.1, hcon2.2])
  refine ⟨⟨k, p, i, j, ?_, ?_, hne, hent2, hfree_b, hent3, hent_b⟩, ?_, ?_⟩
  · simp [assignment, hnew_a]
  · simp [assignment, hnew_b]
  · have hb : assignment s3 b = some (p, (j : Int)) := by simp [assignment, hnew_b]
    rw [hb]
    unfold assignment
    rw [hother_b a hab]
    cases hm2 : s2.master_metadata_pool[a]? with
    | none => simp
    | some m2 =>
      simp only [Option.map_some', ne_eq, Option.some.injEq]
      intro heq
      have hp : p = m2.accelerator_type := congrArg Prod.fst heq
      have hj : (j : Int) = m2.accelerator_id := congrArg Prod.snd heq
      rcases hown2 m2 hm2 with ⟨hl, _⟩ | hr
      · rw [← hp] at hl
        rw [hl] at hp3
        exact absurd hp3 (by decide)
      · rw [← hp, ← hj, hfree_b] at hr
        have := Option.some.inj hr
        omega
  · intro es s hs rand mb
    have hinv := TableInv_history cfg es _ s TableInv_init hs
    exact ⟨fun t hsel => dispatch_after_selector cfg rand mb s t hinv hsel,
      fun c t hex => request_exit_code cfg rand mb s t c hinv hex⟩

/-- C31 applied to the dispatch of slot 31 (to CPU instance 0) and, after a third task has
    been acquired, dispatched to CPU instance 1, completed and released (with one more direct
    call of `release_accelerator_for_task` on it), the dispatch of slot 30: slot 30 gets CPU
    instance 1, and the assignments of the slots 30 and 31 differ. -/
theorem C31_dispatched_instances_differ_witness :
    history ⟨false, false⟩ exclusive_start (initialize_scheduler startup) =
      some (reached exclusive_start (initialize_scheduler startup)) ∧
    request_execution ⟨false, false⟩ 0 31 (reached exclusive_start (initialize_scheduler startup)) =
      .returns () (dispatched cpu_accel_t 0 31
        (reached exclusive_start (initialize_scheduler startup))) ∧
    history ⟨false, false⟩ exclusive_between
        (dispatched cpu_accel_t 0 31 (reached exclusive_start (initialize_scheduler startup))) =
      some (reached exclusive_between
        (dispatched cpu_accel_t 0 31 (reached exclusive_start (initialize_scheduler startup)))) ∧
    assignment (dispatched cpu_accel_t 1 30 (reached exclusive_between
        (dispatched cpu_accel_t 0 31 (reached exclusive_start (initialize_scheduler startup)))))
      31 = some (cpu_accel_t, 0) ∧
    assignment (dispatched cpu_accel_t 1 30 (reached exclusive_between
        (dispatched cpu_accel_t 0 31 (reached exclusive_start (initialize_scheduler startup)))))
      30 = some (cpu_accel_t, 1) ∧
    assignment (dispatched cpu_accel_t 1 30 (reached exclusive_between
        (dispatched cpu_accel_t 0 31 (reached exclusive_start (initialize_scheduler startup)))))
      30 ≠
    assignment (dispatched cpu_accel_t 1 30 (reached exclusive_between
        (dispatched cpu_accel_t 0 31 (reached exclusive_start (initialize_scheduler startup)))))
      31 :=
  ⟨by decide, by decide, by decide, by decide, by decide,
   (C31_dispatched_instances_differ ⟨false, false⟩ exclusive_start exclusive_between 0 0 31 30
      (reached exclusive_start (initialize_scheduler startup))
      (dispatched cpu_accel_t 0 31 (reached exclusive_start (initialize_scheduler startup)))
      (reached exclusive_between
        (dispatched cpu_accel_t 0 31 (reached exclusive_start (initialize_scheduler startup))))
      (dispatched cpu_accel_t 1 30 (reached exclusive_between
        (dispatched cpu_accel_t 0 31 (reached exclusive_start (initialize_scheduler startup)))))
      (by decide) (by decide) (by decide) (by decide) (by decide) (by decide)).2.1⟩

end Scheduler
